import Mathlib

/-!
BaseT1 MDIO framer and fast queue (`src/jtag/drivers/baset1_mdio.c`)

A shallow embedding of the MDIO frame codec and of the batched fast queue of the
BaseT1 JTAG adapter driver, followed by theorems about them.

Conventions of the embedding:

* a C byte buffer (`uint8_t *`) is a map from byte index to byte value, `Buf`;
  a store is a functional update and truncates the stored value to 8 bits;
* `uint8_t`/`uint16_t`/`uint32_t` values are natural numbers; where the C code
  wraps (an `offset_t` cursor, a `uint16_t` counter) the wrap is written `% 2^16`;
* a C function that mutates `*ctx` and returns an `int` becomes a function that
  returns the status together with the new context;
* an out-parameter (`uint16_t *val`) is passed in with its old content and returned.
-/

namespace Baset1

/-! ## Constants -/

/-- Number of slots of the fast queue (`baset1_mdio.h`). -/
def FAST_COMMAND_NUM : Nat := 4096

/-- MDIO device type of the JTAG bridge register. -/
def MDIO_JTAG_DEV : Nat := 0x1f

/-- Register number of the JTAG bridge register. -/
def MDIO_JTAG_REG : Nat := 0x10

/-- Bytes of one 32-bit command half. -/
def OP_SIZE : Nat := 4

/-- Bytes of a full preamble. -/
def PREAMBLE_SIZE : Nat := 4

/-- Bytes of a fast preamble. -/
def FAST_PREAMBLE_SIZE : Nat := 1

/-- Bytes of a slow frame: `(PREAMBLE_SIZE + OP_SIZE) * 2`. -/
def MDIO_COMMAND_SIZE : Nat := (PREAMBLE_SIZE + OP_SIZE) * 2

/-- Bytes of a fast frame: `(FAST_PREAMBLE_SIZE + OP_SIZE) * 2`. -/
def MDIO_FAST_COMMAND_SIZE : Nat := (FAST_PREAMBLE_SIZE + OP_SIZE) * 2

/-- Bytes of each fast buffer. -/
def MAX_BUFF_SIZE : Nat := MDIO_FAST_COMMAND_SIZE * FAST_COMMAND_NUM

/-- Modelled from the spec: `helper/log.h` is not among the sources; the success
status, zero. -/
def ERROR_OK : Int := 0

/-- Modelled from the spec: `helper/log.h` is not among the sources; the
buffer-too-small status is a negative number (OpenOCD uses -3). -/
def ERROR_BUF_TOO_SMALL : Int := -3

/-- Modelled from the spec: `helper/log.h` is not among the sources; the general
failure status is a negative number (OpenOCD uses -4). -/
def ERROR_FAIL : Int := -4

/-- The C enumeration `enum mdio_mode`, as its integer value. -/
abbrev mdio_mode := Nat

/-- Enumerator `MDIO_READ`. -/
def MDIO_READ : mdio_mode := 0

/-- Enumerator `MDIO_WRITE`. -/
def MDIO_WRITE : mdio_mode := 1

/-! ## Byte buffers -/

/-- A byte buffer: byte index to byte value. -/
abbrev Buf := Nat → Nat

/-- The assignment `out[i] = v` on a `uint8_t` buffer. -/
def store (out : Buf) (i v : Nat) : Buf :=
  fun j => if j = i then v % 256 else out j

/-- The increment `offset++` of an `offset_t` (`uint16_t`) cursor. -/
def offset_inc (offset : Nat) : Nat := (offset + 1) % 65536

/-- The four bytes from `offset` on, read as one big-endian 32-bit word. -/
def be32 (b : Buf) (offset : Nat) : Nat :=
  b offset * 2 ^ 24 + b (offset + 1) * 2 ^ 16 + b (offset + 2) * 2 ^ 8 + b (offset + 3)

/-- The two bytes from `offset` on, read as one big-endian 16-bit value. -/
def be16 (b : Buf) (offset : Nat) : Nat :=
  b offset * 2 ^ 8 + b (offset + 1)

/-- The bit fields of a 32-bit Clause-45 word, most significant first: ST (bits
31:30), OP (29:28), PHY address (27:23), device type (22:18), TA (17:16) and
the 16 data bits (15:0). -/
def clause45_fields (w : Nat) : Nat × Nat × Nat × Nat × Nat × Nat :=
  (w / 2 ^ 30 % 4, w / 2 ^ 28 % 4, w / 2 ^ 23 % 32, w / 2 ^ 18 % 32, w / 2 ^ 16 % 4, w % 2 ^ 16)

/-! ## Frame codec -/

/-- The operation descriptor `struct mdio_ops`. -/
structure mdio_ops where
  phy : Nat
  dev : Nat
  reg : Nat
  val : Nat
  mode : mdio_mode

/-- Full preamble: four bytes of `0xff`. -/
def _mdio_preamble (out : Buf) (offset : Nat) : Buf × Nat :=
  let out := store out offset 0xff
  let offset := offset_inc offset
  let out := store out offset 0xff
  let offset := offset_inc offset
  let out := store out offset 0xff
  let offset := offset_inc offset
  let out := store out offset 0xff
  let offset := offset_inc offset
  (out, offset)

/-- Fast preamble: one byte of `0xff`. -/
def _mdio_preamble_fast (out : Buf) (offset : Nat) : Buf × Nat :=
  let out := store out offset 0xff
  let offset := offset_inc offset
  (out, offset)

/-- Decode a 16-bit value: `(input[offset] << 8) | input[offset + 1]`, returned
as `uint16_t`. -/
def _mdio_bytes_to_u16 (input : Buf) (offset : Nat) : Nat :=
  ((input offset <<< 8) ||| input (offset + 1)) % 65536

/-- Emit a 32-bit value big-endian (`COPY_32BITS`). -/
def _mdio_bytes_to_bytes (out : Buf) (offset val : Nat) : Buf × Nat :=
  let out := store out offset ((val >>> (8 * 3)) &&& 0xff)
  let offset := offset_inc offset
  let out := store out offset ((val >>> (8 * 2)) &&& 0xff)
  let offset := offset_inc offset
  let out := store out offset ((val >>> (8 * 1)) &&& 0xff)
  let offset := offset_inc offset
  let out := store out offset ((val >>> (8 * 0)) &&& 0xff)
  let offset := offset_inc offset
  (out, offset)

/-- Address half of a Clause-45 frame. -/
def _mdio_command_address (out : Buf) (offset phy dev reg : Nat) : Buf × Nat :=
  let cmd := ((((phy &&& 0x1f) <<< 7) ||| ((dev &&& 0x1f) <<< 2)) ||| 0x2) % 65536
  let opcode := ((cmd <<< 16) ||| reg) % 4294967296
  _mdio_bytes_to_bytes out offset opcode

/-- Value half of a Clause-45 frame. -/
def _mdio_command_value (out : Buf) (offset phy dev : Nat) (mode : mdio_mode)
    (val : Nat) : Buf × Nat :=
  let cmd := if mode = MDIO_WRITE then 0x1000 else 0x3000
  let cmd := (cmd ||| ((((phy &&& 0x1f) <<< 7) ||| ((dev &&& 0x1f) <<< 2)) ||| 0x2)) % 65536
  let opcode := ((cmd <<< 16) ||| val) % 4294967296
  _mdio_bytes_to_bytes out offset opcode

/-! ## The MDIO context -/

/-- The driver context `struct mdio_ctx`. The MPSSE handle is `none` for `NULL`.
The last field is no member of the struct: `overrun` tells whether a store
through `fread_queue` has landed on `is_running`, `mpsse_ctx` or the memory
after the context; from then on the other fields do not describe the program. -/
structure mdio_ctx where
  phy_id : Nat
  target_cpu : Nat
  ftdi_vid : Nat
  ftdi_pid : Nat
  finput : Buf
  foutput : Buf
  findex : Nat
  ftotal : Nat
  fread_cnt : Nat
  fread_queue : Nat → Nat
  sinput : Buf
  soutput : Buf
  is_running : Bool
  mpsse_ctx : Option Nat
  overrun : Bool := false

/-! ## Slow path -/

/-- Build a whole slow frame: preamble, address half, preamble, value half. -/
def _prepare_mdio_slow (output : Buf) (offset : Nat) (ops : mdio_ops) : Buf × Nat :=
  let e := _mdio_preamble output offset
  let e := _mdio_command_address e.1 e.2 ops.phy ops.dev ops.reg
  let e := _mdio_preamble e.1 e.2
  _mdio_command_value e.1 e.2 ops.phy ops.dev ops.mode ops.val

/-- Rewrite the two command halves of a slow frame, stepping over the preambles. -/
def _setup_mdio_slow (output : Buf) (offset : Nat) (ops : mdio_ops) : Buf :=
  let offset := (offset + PREAMBLE_SIZE) % 65536
  let e := _mdio_command_address output offset ops.phy ops.dev ops.reg
  let offset := (e.2 + PREAMBLE_SIZE) % 65536
  (_mdio_command_value e.1 offset ops.phy ops.dev ops.mode ops.val).1

/-- Function `mdio_slow_setup`. -/
def mdio_slow_setup (ctx : mdio_ctx) (ops : mdio_ops) : Int × mdio_ctx :=
  (ERROR_OK, { ctx with soutput := _setup_mdio_slow ctx.soutput 0 ops })

/-- Function `mdio_slow_readback`: the status and the value stored through `val`. -/
def mdio_slow_readback (ctx : mdio_ctx) : Int × Nat :=
  (ERROR_OK, _mdio_bytes_to_u16 ctx.sinput (MDIO_COMMAND_SIZE - 2))

/-! ## Fast path -/

/-- Build a whole fast frame: one preamble byte, address half, one preamble
byte, value half. -/
def _prepare_mdio_fast (output : Buf) (offset : Nat) (ops : mdio_ops) : Buf × Nat :=
  let e := _mdio_preamble_fast output offset
  let e := _mdio_command_address e.1 e.2 ops.phy ops.dev ops.reg
  let e := _mdio_preamble_fast e.1 e.2
  _mdio_command_value e.1 e.2 ops.phy ops.dev ops.mode ops.val

/-- Patch the value half of the fast frame at `offset`: the OP nibble and the
16-bit value. `~0xf0` is the `int` mask `0xffffff0f`. -/
def _setup_mdio_fast (output : Buf) (offset : Nat) (ops : mdio_ops) : Buf :=
  let val := 0xffff
  let offset := (offset + FAST_PREAMBLE_SIZE + OP_SIZE + FAST_PREAMBLE_SIZE) % 65536
  let output := store output (offset + 0) (output (offset + 0) &&& 0xffffff0f)
  let r : Buf × Nat :=
    if ops.mode = MDIO_WRITE then
      (store output (offset + 0) (output (offset + 0) ||| 0x10), ops.val)
    else
      (store output (offset + 0) (output (offset + 0) ||| 0x30), val)
  let output := r.1
  let val := r.2
  let output := store output (offset + 2) ((val >>> 8) &&& 0xff)
  store output (offset + 3) (val &&& 0xff)

/-- The store `ctx->fread_queue[i] = index` of `mdio_fast_add`, which has no
bound check. The array `uint16_t fread_queue[FAST_COMMAND_NUM]` is followed in
`struct mdio_ctx` by the 16 bytes of `sinput`, the 16 bytes of `soutput`, then
`is_running` and `mpsse_ctx`. For `i < FAST_COMMAND_NUM` the store is to the
array. The entries `FAST_COMMAND_NUM + j` with `j < 8` are the bytes `2j`,
`2j + 1` of `sinput`, those with `8 ≤ j < 16` the bytes `2(j - 8)`,
`2(j - 8) + 1` of `soutput`, low byte first. From `FAST_COMMAND_NUM + 16` on
the store lands on `is_running`, `mpsse_ctx` and the memory after the context:
`overrun` is set. -/
def fread_queue_store (ctx : mdio_ctx) (i index : Nat) : mdio_ctx :=
  if i < FAST_COMMAND_NUM then
    { ctx with fread_queue := fun j => if j = i then index else ctx.fread_queue j }
  else if i < FAST_COMMAND_NUM + MDIO_COMMAND_SIZE / 2 then
    { ctx with
      sinput :=
        store (store ctx.sinput (2 * (i - FAST_COMMAND_NUM)) (index &&& 0xff))
          (2 * (i - FAST_COMMAND_NUM) + 1) ((index >>> 8) &&& 0xff) }
  else if i < FAST_COMMAND_NUM + MDIO_COMMAND_SIZE then
    { ctx with
      soutput :=
        store
          (store ctx.soutput (2 * (i - FAST_COMMAND_NUM - MDIO_COMMAND_SIZE / 2))
            (index &&& 0xff))
          (2 * (i - FAST_COMMAND_NUM - MDIO_COMMAND_SIZE / 2) + 1) ((index >>> 8) &&& 0xff) }
  else
    { ctx with overrun := true }

/-- Function `mdio_fast_add`: the status (slot index or error) and the new context. -/
def mdio_fast_add (ctx : mdio_ctx) (mode : mdio_mode) (val : Nat) : Int × mdio_ctx :=
  if ctx.findex ≥ FAST_COMMAND_NUM then
    (ERROR_BUF_TOO_SMALL, ctx)
  else
    let ops : mdio_ops := { phy := 0, dev := 0, reg := 0, val := val, mode := mode }
    let index := ctx.findex
    let offset := (index * MDIO_FAST_COMMAND_SIZE) % 65536
    let ctx := { ctx with foutput := _setup_mdio_fast ctx.foutput offset ops }
    let ctx :=
      if mode ≠ MDIO_WRITE then
        { fread_queue_store ctx ctx.fread_cnt index with
          fread_cnt := (ctx.fread_cnt + 1) % 65536 }
      else ctx
    ((index : Int), { ctx with findex := (index + 1) % 65536 })

/-- Modelled from the spec: `mpsse.h` is not among the sources; the clocking
flags of OpenOCD's MPSSE layer. -/
def MSB_FIRST : Nat := 0x00

/-- Modelled from the spec: `mpsse.h` is not among the sources. -/
def POS_EDGE_OUT : Nat := 0x00

/-- Modelled from the spec: `mpsse.h` is not among the sources. -/
def NEG_EDGE_IN : Nat := 0x04

/-- Clocking mode of every MDIO transfer. -/
def MDIO_MODE : Nat := (MSB_FIRST ||| POS_EDGE_OUT) ||| NEG_EDGE_IN

/-- The arguments of one `mpsse_clock_data` call: offsets into the output and
input buffers, the number of bits, and the mode. -/
structure clock_data_args where
  out_offset : Nat
  in_offset : Nat
  length : Nat
  mode : Nat
deriving DecidableEq

/-- The `mpsse_clock_data` call made by `mdio_fast_flush` (on `foutput` and
`finput`). -/
def mdio_fast_flush_clock_data (ctx : mdio_ctx) : clock_data_args :=
  { out_offset := 0, in_offset := 0,
    length := ctx.findex * MDIO_FAST_COMMAND_SIZE * 8, mode := MDIO_MODE }

/-- The `mpsse_clock_data` call made by `mdio_slow_flush` (on `soutput` and
`sinput`). -/
def mdio_slow_flush_clock_data (_ctx : mdio_ctx) : clock_data_args :=
  { out_offset := 0, in_offset := 0, length := MDIO_COMMAND_SIZE * 8, mode := MDIO_MODE }

/-- Modelled from the spec: the MPSSE transport is not among the sources. The
bytes it captures land in the input buffer over the clocked window (`length`
bits from `in_offset`); bytes outside the window are untouched. -/
def mpsse_capture (input captured : Buf) (a : clock_data_args) : Buf :=
  fun j => if a.in_offset ≤ j ∧ j * 8 < a.in_offset * 8 + a.length then captured j % 256
           else input j

/-- Function `mdio_slow_flush`; `res` is the status of `mpsse_flush` and
`captured` the bytes the transport read. -/
def mdio_slow_flush (ctx : mdio_ctx) (res : Int) (captured : Buf) : Int × mdio_ctx :=
  (res, { ctx with sinput := mpsse_capture ctx.sinput captured (mdio_slow_flush_clock_data ctx) })

/-- Function `mdio_fast_flush`; `res` is the status of `mpsse_flush` and
`captured` the bytes the transport read. -/
def mdio_fast_flush (ctx : mdio_ctx) (res : Int) (captured : Buf) : Int × mdio_ctx :=
  let ctx :=
    { ctx with finput := mpsse_capture ctx.finput captured (mdio_fast_flush_clock_data ctx) }
  if res ≠ ERROR_OK then
    (res, ctx)
  else
    (ERROR_OK, { ctx with ftotal := ctx.findex, findex := 0 })

/-- Function `mdio_fast_clean`. -/
def mdio_fast_clean (ctx : mdio_ctx) : Int × mdio_ctx :=
  (ERROR_OK, { ctx with ftotal := 0, fread_cnt := 0 })

/-- Function `mdio_fast_fetch`; `val` is the old content of the out-parameter,
the result carries its new content. -/
def mdio_fast_fetch (ctx : mdio_ctx) (index val : Nat) : Int × Nat :=
  if index ≥ ctx.ftotal then
    (ERROR_BUF_TOO_SMALL, val)
  else
    let read_idx := (index + 1) % 65536
    let offset := (read_idx * MDIO_FAST_COMMAND_SIZE) % 65536
    (1, _mdio_bytes_to_u16 ctx.finput (((offset : Int) - 2) % 65536).toNat)

/-- Function `mdio_fast_total`. -/
def mdio_fast_total (ctx : mdio_ctx) : Nat := ctx.ftotal

/-- Function `mdio_fast_readback_num`. -/
def mdio_fast_readback_num (ctx : mdio_ctx) : Nat := ctx.fread_cnt

/-- Function `mdio_fast_find_index`; `index` is the old content of the
out-parameter. -/
def mdio_fast_find_index (ctx : mdio_ctx) (read_index index : Nat) : Int × Nat :=
  if read_index ≥ ctx.fread_cnt then
    (ERROR_BUF_TOO_SMALL, index)
  else
    (ERROR_OK, ctx.fread_queue read_index)

/-- Function `mdio_fast_readback` (`baset1_mdio.h`); `index0` is the
indeterminate initial content of the local `index`. -/
def mdio_fast_readback (ctx : mdio_ctx) (read_index val index0 : Nat) : Int × Nat :=
  let r := mdio_fast_find_index ctx read_index index0
  if r.1 ≠ ERROR_OK then
    (ERROR_FAIL, val)
  else
    mdio_fast_fetch ctx r.2 val

/-! ## Construction and opening -/

/-- Modelled from the spec: `jtag/jtag.h` is not among the sources; the status
of a failed adapter initialisation is a negative number (OpenOCD uses -100). -/
def ERROR_JTAG_INIT_FAILED : Int := -100

/-- Function `init_mpsse`; `opened` is what `mpsse_open` returned (`none` for
`NULL`). The configuration calls act on the transport only. -/
def init_mpsse (ctx : mdio_ctx) (opened : Option Nat) : Int × mdio_ctx :=
  match opened with
  | none => (ERROR_JTAG_INIT_FAILED, ctx)
  | some h => (ERROR_OK, { ctx with mpsse_ctx := some h })

/-- The loop of `init_mdio_queue`: `n` more iterations of
`foffset = _prepare_mdio_fast(foutput, foffset, &ops)`. -/
def init_mdio_queue_loop (ops : mdio_ops) : Nat → Buf × Nat → Buf × Nat
  | 0, s => s
  | n + 1, s => init_mdio_queue_loop ops n (_prepare_mdio_fast s.1 s.2 ops)

/-- Function `init_mdio_queue`: reset `findex`, build the slow frame and all
`FAST_COMMAND_NUM` fast frames as reads of the JTAG bridge register. -/
def init_mdio_queue (ctx : mdio_ctx) : mdio_ctx :=
  let ctx := { ctx with findex := 0 }
  let ops : mdio_ops :=
    { phy := ctx.phy_id, dev := MDIO_JTAG_DEV, reg := MDIO_JTAG_REG, mode := MDIO_READ, val := 0 }
  let ctx := { ctx with soutput := (_prepare_mdio_slow ctx.soutput 0 ops).1 }
  { ctx with foutput := (init_mdio_queue_loop ops FAST_COMMAND_NUM (ctx.foutput, 0)).1 }

/-- Function `mdio_init`: a zeroed context (`calloc`) with the given identifiers;
`none` when the allocation fails. The parameters are `uint16_t`, `uint16_t`,
`uint8_t`, `uint8_t`. -/
def mdio_init (calloc_ok : Bool) (vid pid phy_id target : Nat) : Option mdio_ctx :=
  if calloc_ok then
    some
      { phy_id := phy_id % 256, target_cpu := target % 256,
        ftdi_vid := vid % 65536, ftdi_pid := pid % 65536,
        finput := fun _ => 0, foutput := fun _ => 0,
        findex := 0, ftotal := 0, fread_cnt := 0, fread_queue := fun _ => 0,
        sinput := fun _ => 0, soutput := fun _ => 0,
        is_running := false, mpsse_ctx := none }
  else none

/-- Function `mdio_open`; `opened` is what `mpsse_open` would return. -/
def mdio_open (ctx : mdio_ctx) (opened : Option Nat) : Int × mdio_ctx :=
  if ctx.is_running then
    (ERROR_OK, ctx)
  else
    let ctx := (init_mpsse ctx opened).2
    let ctx := init_mdio_queue ctx
    (ERROR_OK, { ctx with is_running := true })

/-- Function `mdio_close`. -/
def mdio_close (ctx : mdio_ctx) : mdio_ctx :=
  { ctx with is_running := false }

/-! ## Sequences of fast-queue calls -/

/-- One call of the fast-queue interface, with what the transport answers to a
flush. -/
inductive fast_call where
  | add (mode : mdio_mode) (val : Nat)
  | flush (res : Int) (captured : Buf)
  | clean

/-- The context after one call. -/
def fast_call.apply (ctx : mdio_ctx) : fast_call → mdio_ctx
  | .add mode val => (mdio_fast_add ctx mode val).2
  | .flush res captured => (mdio_fast_flush ctx res captured).2
  | .clean => (mdio_fast_clean ctx).2

/-- The context after a sequence of calls, first call first. -/
def run_calls (ctx : mdio_ctx) (calls : List fast_call) : mdio_ctx :=
  calls.foldl fast_call.apply ctx

/-! ## Definitions used to state the theorems -/

/-- The local `opcode` of `_mdio_command_address`. -/
def address_opcode (phy dev reg : Nat) : Nat :=
  ((((((phy &&& 0x1f) <<< 7) ||| ((dev &&& 0x1f) <<< 2)) ||| 0x2) % 65536) <<< 16 ||| reg)
    % 4294967296

/-- The local `opcode` of `_mdio_command_value`. -/
def value_opcode (phy dev : Nat) (mode : mdio_mode) (val : Nat) : Nat :=
  ((((if mode = MDIO_WRITE then 0x1000 else 0x3000) |||
      ((((phy &&& 0x1f) <<< 7) ||| ((dev &&& 0x1f) <<< 2)) ||| 0x2)) % 65536) <<< 16 ||| val)
    % 4294967296

/-- Byte `j` of the fast frame of `ops`: what `_prepare_mdio_fast` writes at
`offset + j`. -/
def fast_frame_byte (ops : mdio_ops) (j : Nat) : Nat :=
  (_prepare_mdio_fast (fun _ => 0) 0 ops).1 j

/-- The ten bytes of a fast frame, in terms of the two 32-bit words. -/
def fast_frame_bytes (a v : Nat) (j : Nat) : Nat :=
  match j with
  | 0 => 0xff
  | 1 => a / 2 ^ 24 % 256
  | 2 => a / 2 ^ 16 % 256
  | 3 => a / 2 ^ 8 % 256
  | 4 => a % 256
  | 5 => 0xff
  | 6 => v / 2 ^ 24 % 256
  | 7 => v / 2 ^ 16 % 256
  | 8 => v / 2 ^ 8 % 256
  | 9 => v % 256
  | _ => 0

/-- The local `ops` of `init_mdio_queue`: a read of the JTAG bridge register of
PHY `phy`. -/
def init_ops (phy : Nat) : mdio_ops :=
  { phy := phy, dev := MDIO_JTAG_DEV, reg := MDIO_JTAG_REG, mode := MDIO_READ, val := 0 }

/-- A context as `mdio_init` returns it for the default PHY id `0x1a`, target MCU. -/
def sample_ctx : mdio_ctx :=
  { phy_id := 0x1a, target_cpu := 0, ftdi_vid := 0x0403, ftdi_pid := 0x6010,
    finput := fun _ => 0, foutput := fun _ => 0,
    findex := 0, ftotal := 0, fread_cnt := 0, fread_queue := fun _ => 0,
    sinput := fun _ => 0, soutput := fun _ => 0,
    is_running := false, mpsse_ctx := none }

/-- The part of every slot of `foutput` that `mdio_fast_add` relies on: the two
preamble bytes, the address half and the second byte of the value half are
those of the frame of `init_ops`, and the first byte of the value half carries
the PHY bits under an OP nibble `1` or `3`. -/
def slots_prepared (ctx : mdio_ctx) : Prop :=
  ∀ k, k < FAST_COMMAND_NUM →
    (∀ j, j < 10 → j ≠ 6 → j ≠ 8 → j ≠ 9 →
      ctx.foutput (10 * k + j) = fast_frame_byte (init_ops ctx.phy_id) j) ∧
    (ctx.foutput (10 * k + 6) = 0x10 + ctx.phy_id % 32 / 2 ∨
      ctx.foutput (10 * k + 6) = 0x30 + ctx.phy_id % 32 / 2)

/-- The sample context with three slots queued. -/
def three_queued_ctx : mdio_ctx := { sample_ctx with findex := 3 }

/-- The sample context with a full queue. -/
def full_queue_ctx : mdio_ctx := { sample_ctx with findex := 4096 }

/-- The sample context after a flush of one slot, the input buffer holding its
own byte index at every byte. -/
def one_fetched_ctx : mdio_ctx := { sample_ctx with ftotal := 1, finput := fun j => j % 256 }

/-- Whether no call of the sequence, run from `ctx`, is a successful flush of a
non-empty batch: every flush in it either reports an error or finds `findex = 0`. -/
def no_batch_flushed (ctx : mdio_ctx) : List fast_call → Bool
  | [] => true
  | call :: rest =>
    (match call with
      | .flush res _ => decide (res ≠ ERROR_OK) || decide (ctx.findex = 0)
      | _ => true)
    && no_batch_flushed (fast_call.apply ctx call) rest

/-- A run of `mdio_fast_add` calls, first call first: the statuses returned, in
order, and the context after the last call. -/
def fast_add_list (ctx : mdio_ctx) : List (mdio_mode × Nat) → List Int × mdio_ctx
  | [] => ([], ctx)
  | (mode, val) :: rest =>
    let r := mdio_fast_add ctx mode val
    let rr := fast_add_list r.2 rest
    (r.1 :: rr.1, rr.2)

/-- The statuses returned by the adds that are not writes, in submission order. -/
def read_results (rets : List Int) (ops : List (mdio_mode × Nat)) : List Int :=
  ((rets.zip ops).filter (fun p => decide (p.2.1 ≠ MDIO_WRITE))).map Prod.fst

/-- The number of adds that are not writes. -/
def read_count (ops : List (mdio_mode × Nat)) : Nat :=
  (ops.filter (fun o => decide (o.1 ≠ MDIO_WRITE))).length

/-! ## The convenience calls of `baset1_mdio.h` -/

/-- Modelled from the spec: the MPSSE transport is not among the sources. A
stand-in for it gives, for the arguments of `mpsse_clock_data` and the output
buffer, the status of `mpsse_flush` and the bytes captured. -/
abbrev mpsse_transport := clock_data_args → Buf → Int × Buf

/-- The stand-in that echoes the programmed pattern: what is clocked out comes
back as what is clocked in, and the flush succeeds. -/
def mpsse_echo : mpsse_transport := fun _ out => (ERROR_OK, out)

/-- Function `mdio_read` (`baset1_mdio.h`): slow setup of a read, slow flush,
slow read-back; the value read and the new context. -/
def mdio_read (ctx : mdio_ctx) (phy dev reg : Nat) (t : mpsse_transport) : Nat × mdio_ctx :=
  let ops : mdio_ops := { phy := phy, dev := dev, reg := reg, val := 0xffff, mode := MDIO_READ }
  let ctx := (mdio_slow_setup ctx ops).2
  let r := t (mdio_slow_flush_clock_data ctx) ctx.soutput
  let ctx := (mdio_slow_flush ctx r.1 r.2).2
  ((mdio_slow_readback ctx).2, ctx)

/-- Function `mdio_write` (`baset1_mdio.h`): slow setup of a write, slow flush. -/
def mdio_write (ctx : mdio_ctx) (phy dev reg val : Nat) (t : mpsse_transport) : mdio_ctx :=
  let ops : mdio_ops := { phy := phy, dev := dev, reg := reg, val := val, mode := MDIO_WRITE }
  let ctx := (mdio_slow_setup ctx ops).2
  let r := t (mdio_slow_flush_clock_data ctx) ctx.soutput
  (mdio_slow_flush ctx r.1 r.2).2

/-! ## Sequences of slow and fast calls -/

/-- One call of the MDIO interface: a slow setup, a slow flush, or a
fast-queue call. -/
inductive mdio_call where
  | slow_setup (ops : mdio_ops)
  | slow_flush (res : Int) (captured : Buf)
  | fast (call : fast_call)

/-- The context after one call. -/
def mdio_call.apply (ctx : mdio_ctx) : mdio_call → mdio_ctx
  | .slow_setup ops => (mdio_slow_setup ctx ops).2
  | .slow_flush res captured => (mdio_slow_flush ctx res captured).2
  | .fast call => fast_call.apply ctx call

/-- The context after a sequence of calls, first call first. -/
def run_mdio_calls (ctx : mdio_ctx) (calls : List mdio_call) : mdio_ctx :=
  calls.foldl mdio_call.apply ctx

/-- The protocol of the header (`You should call clean() before add()`), on a
sequence of fast-queue calls: no add comes after a successful flush without a
clean in between. The flag tells whether a flush has succeeded since the last
clean. -/
def clean_before_add : Bool → List fast_call → Bool
  | _, [] => true
  | flushed, .add _ _ :: rest => !flushed && clean_before_add false rest
  | flushed, .flush res _ :: rest => clean_before_add (flushed || decide (res = ERROR_OK)) rest
  | _, .clean :: rest => clean_before_add false rest

/-- The fast-queue calls among a sequence of slow and fast calls, in order. -/
def fast_calls : List mdio_call → List fast_call
  | [] => []
  | .fast call :: rest => call :: fast_calls rest
  | _ :: rest => fast_calls rest

/-- A full batch: `FAST_COMMAND_NUM` reads added, then a successful flush. -/
def full_batch : List fast_call :=
  List.replicate FAST_COMMAND_NUM (fast_call.add MDIO_READ 0xffff)
    ++ [fast_call.flush ERROR_OK (fun _ => 0)]

/-- The sample context after it is opened, a full batch is flushed and, with no
clean in between, a write is added: `findex = 1` and `fread_cnt = 4096`. -/
def stale_counter_ctx : mdio_ctx :=
  run_calls (mdio_open sample_ctx none).2 (full_batch ++ [fast_call.add MDIO_WRITE 0x000a])

/-- A full batch followed, with no clean in between, by nine reads. -/
def overrun_calls : List fast_call :=
  full_batch ++ List.replicate 9 (fast_call.add MDIO_READ 0xffff)

/-- The operation descriptor of `mdio_read(ctx, 0x1a, 0x1d, 0x0020)`. -/
def read_cfg_ops : mdio_ops :=
  { phy := 0x1a, dev := 0x1d, reg := 0x0020, val := 0xffff, mode := MDIO_READ }

/-- The entries `fread_queue[0 .. fread_cnt)` are strictly increasing. -/
def queue_increasing (ctx : mdio_ctx) : Prop :=
  ∀ i j, i < j → j < ctx.fread_cnt → ctx.fread_queue i < ctx.fread_queue j

/-- What holds of the read-back queue along a run that keeps the protocol;
`flushed` tells whether a flush has succeeded since the last clean. -/
def queue_ordered (ctx : mdio_ctx) (flushed : Bool) : Prop :=
  queue_increasing ctx ∧ ctx.findex ≤ FAST_COMMAND_NUM ∧
  (∀ j, j < ctx.fread_cnt → ctx.fread_queue j < FAST_COMMAND_NUM) ∧
  (flushed = false →
    ctx.fread_cnt ≤ ctx.findex ∧ ∀ j, j < ctx.fread_cnt → ctx.fread_queue j < ctx.findex)

/-- Byte `j` (0 first) of a 32-bit word written big-endian. -/
def be_byte (w j : Nat) : Nat :=
  match j with
  | 0 => w / 2 ^ 24 % 256
  | 1 => w / 2 ^ 16 % 256
  | 2 => w / 2 ^ 8 % 256
  | _ => w % 256

/-- The preamble bytes of the slow output buffer are in place. -/
def slow_preambles (ctx : mdio_ctx) : Prop :=
  (∀ i, i < 4 → ctx.soutput i = 0xff) ∧ (∀ i, 8 ≤ i → i < 12 → ctx.soutput i = 0xff)

/-! ## The fast JTAG bit driver (`baset1_fast.c`) -/

/-- Target selector of the PMU: the base of its five signal bits. -/
def TARGET_PMU : Nat := 8

/-- Target selector of the MCU. -/
def TARGET_MCU : Nat := 0

/-- Mask of the TRST bit: `1 << (target + 4)`. -/
def JTAG_RST (target : Nat) : Nat := 1 <<< (target + 4)

/-- Mask of the TCK bit: `1 << (target + 3)`. -/
def JTAG_TCK (target : Nat) : Nat := 1 <<< (target + 3)

/-- Mask of the TMS bit: `1 << (target + 2)`. -/
def JTAG_TMS (target : Nat) : Nat := 1 <<< (target + 2)

/-- Mask of the TDI bit: `1 << (target + 1)`. -/
def JTAG_TDI (target : Nat) : Nat := 1 <<< (target + 1)

/-- Mask of the TDO bit: `1 << (target + 0)`. -/
def JTAG_TDO (target : Nat) : Nat := 1 <<< (target + 0)

/-- The driver state `struct baset1_ops`; `mdio_ctx` is the context the pointer
of that name refers to once `init_mdio` has set it. -/
structure baset1_ops where
  vid : Nat
  pid : Nat
  target : Nat
  phy_id : Nat
  mdio_ctx : mdio_ctx
  jtag_reg : Nat

/-- The statement `jtag_reg |= m` on the `uint16_t` shadow. -/
def reg_set (jtag_reg m : Nat) : Nat := (jtag_reg ||| m) % 65536

/-- The statement `jtag_reg &= ~m` on the `uint16_t` shadow; `~m` is the
complement of the 32-bit `int` mask. -/
def reg_clear (jtag_reg m : Nat) : Nat := (jtag_reg &&& (0xffffffff ^^^ m)) % 65536

/-- Function `baset1_reset` of the fast driver; a non-zero `srst` only logs a
warning. -/
def baset1_reset (ops : baset1_ops) (trst _srst : Int) : Int × baset1_ops :=
  let target := ops.target
  let jtag_reg := ops.jtag_reg
  let jtag_reg :=
    if trst ≠ 0 then reg_set jtag_reg (JTAG_RST target) else reg_clear jtag_reg (JTAG_RST target)
  let r := mdio_fast_add ops.mdio_ctx MDIO_WRITE jtag_reg
  let ops := { ops with mdio_ctx := r.2, jtag_reg := jtag_reg }
  if r.1 ≥ 0 then (ERROR_OK, ops) else (ERROR_FAIL, ops)

/-- Function `baset1_write` of the fast driver. -/
def baset1_write (ops : baset1_ops) (tck tms tdi : Int) : Int × baset1_ops :=
  let target := ops.target
  let jtag_reg := ops.jtag_reg
  let jtag_reg :=
    if tdi ≠ 0 then reg_set jtag_reg (JTAG_TDI target) else reg_clear jtag_reg (JTAG_TDI target)
  let jtag_reg :=
    if tck ≠ 0 then reg_set jtag_reg (JTAG_TCK target) else reg_clear jtag_reg (JTAG_TCK target)
  let jtag_reg :=
    if tms ≠ 0 then reg_set jtag_reg (JTAG_TMS target) else reg_clear jtag_reg (JTAG_TMS target)
  let r := mdio_fast_add ops.mdio_ctx MDIO_WRITE jtag_reg
  let ops := { ops with mdio_ctx := r.2, jtag_reg := jtag_reg }
  if r.1 ≥ 0 then (ERROR_OK, ops) else (ERROR_FAIL, ops)

/-- Function `baset1_read` of the fast driver: queue a read, all ones as value. -/
def baset1_read (ops : baset1_ops) : Int × baset1_ops :=
  let r := mdio_fast_add ops.mdio_ctx MDIO_READ 0xffff
  (r.1, { ops with mdio_ctx := r.2 })

/-- Function `baset1_fast_clean`. -/
def baset1_fast_clean (ops : baset1_ops) : baset1_ops :=
  { ops with mdio_ctx := (mdio_fast_clean ops.mdio_ctx).2 }

/-- Function `baset1_fast_flush`; `res` and `captured` are the transport's
answer. -/
def baset1_fast_flush (ops : baset1_ops) (res : Int) (captured : Buf) : Int × baset1_ops :=
  let r := mdio_fast_flush ops.mdio_ctx res captured
  (r.1, { ops with mdio_ctx := r.2 })

/-- The values of `bb_value_t`. -/
inductive bb_value_t where
  | BB_LOW
  | BB_HIGH
  | BB_ERROR
deriving DecidableEq

/-- Function `get_mdio_tdi`: the level of the selected target's TDO bit in the
value fetched for a slot. -/
def get_mdio_tdi (ops : baset1_ops) (mdio_idx : Nat) : bb_value_t :=
  let target := ops.target
  let r := mdio_fast_fetch ops.mdio_ctx mdio_idx 0
  if r.1 < 0 then bb_value_t.BB_ERROR
  else if r.2 &&& JTAG_TDO target ≠ 0 then bb_value_t.BB_HIGH else bb_value_t.BB_LOW

/-- The C truth value of an `int` argument, as a bit. -/
def int_bit (x : Int) : Nat := if x ≠ 0 then 1 else 0

/-- The initial state of the fast driver (`baset1_ops` as initialised in the
source: target PMU, PHY id 0x1a, shadow 0) around a given context. -/
def baset1_ops_init (ctx : mdio_ctx) : baset1_ops :=
  { vid := 0, pid := 0, target := TARGET_PMU, phy_id := 0x1a, mdio_ctx := ctx, jtag_reg := 0 }

/-- The local `jtag_reg` of `baset1_write` after its three updates. -/
def write_shadow (target jtag_reg : Nat) (tck tms tdi : Int) : Nat :=
  let jtag_reg :=
    if tdi ≠ 0 then reg_set jtag_reg (JTAG_TDI target) else reg_clear jtag_reg (JTAG_TDI target)
  let jtag_reg :=
    if tck ≠ 0 then reg_set jtag_reg (JTAG_TCK target) else reg_clear jtag_reg (JTAG_TCK target)
  if tms ≠ 0 then reg_set jtag_reg (JTAG_TMS target) else reg_clear jtag_reg (JTAG_TMS target)

/-- The local `jtag_reg` of `baset1_reset` after its update. -/
def reset_shadow (target jtag_reg : Nat) (trst : Int) : Nat :=
  if trst ≠ 0 then reg_set jtag_reg (JTAG_RST target) else reg_clear jtag_reg (JTAG_RST target)

/-- The fast driver selected for the MCU, shadow 0, on the sample context
opened for the default PHY id `0x1a`. -/
def mcu_ops : baset1_ops :=
  { vid := 0, pid := 0, target := TARGET_MCU, phy_id := 0x1a,
    mdio_ctx := (mdio_open sample_ctx none).2, jtag_reg := 0 }

/-- The fast driver in its initial state (target PMU, shadow 0) on a context
whose queue is full. -/
def full_queue_ops : baset1_ops := baset1_ops_init full_queue_ctx

/-! ## The bit-bang variant (`baset1.c`)

Its frame codec (`_mdio_bytes_to_bytes`, `_mdio_command_address`,
`_mdio_command_value`) is the same text as in `baset1_mdio.c`, and so are its
signal masks; the definitions above stand for both. -/

namespace Bitbang

/-- Bytes of a full preamble. -/
def MDIO_PREAMBLE_SIZE : Nat := 4

/-- Bytes of a command half. -/
def MDIO_COMMAND_SIZE : Nat := 4

/-- Bytes of preamble and address half. -/
def MDIO_ADDR_SIZE : Nat := MDIO_PREAMBLE_SIZE + MDIO_COMMAND_SIZE

/-- Bytes of preamble and value half. -/
def MDIO_VALUE_SIZE : Nat := MDIO_PREAMBLE_SIZE + MDIO_COMMAND_SIZE

/-- Bytes of a slow frame, and of the two buffers. -/
def MDIO_BUFF_SIZE : Nat := MDIO_ADDR_SIZE + MDIO_VALUE_SIZE

/-- Bytes of a fast frame. -/
def MDIO_BUFF_SIZE_FAST : Nat := (1 + MDIO_COMMAND_SIZE) * 2

/-- The context `struct mdio_ctx` of `baset1.c`. -/
structure mdio_ctx where
  init_output : Nat
  init_direction : Nat
  target_cpu : Nat
  freq : Int
  phy_id : Nat
  ftdi_vid : List Nat
  ftdi_pid : List Nat
  input : Buf
  output : Buf
  jtag_reg : Nat
  is_running : Bool
  mpsse_ctx : Option Nat

/-- The globals of `baset1.c`: the context `_mdio_ctx` and the flag
`fast_mode_en`. -/
structure state where
  ctx : mdio_ctx
  fast_mode_en : Bool

/-- Emit one byte (`COPY_8BITS`). -/
def _mdio_byte_to_byte (out : Buf) (offset val : Nat) : Buf × Nat :=
  let out := store out offset ((val >>> (8 * 0)) &&& 0xff)
  let offset := offset_inc offset
  (out, offset)

/-- Full preamble: `COPY_32BITS(out, offset, 0xffffffff)`. -/
def _mdio_preamble (out : Buf) (offset : Nat) : Buf × Nat :=
  _mdio_bytes_to_bytes out offset 0xffffffff

/-- Fast preamble: `COPY_8BITS(out, offset, 0xff)`. -/
def _mdio_preamble_fast (out : Buf) (offset : Nat) : Buf × Nat :=
  _mdio_byte_to_byte out offset 0xff

/-- Function `_mdio_communicate`: build one frame in `output`, clock it through
the transport `t`, and decode the last 16 bits of `input`. The two assertions
on the final cursor hold by construction. -/
def _mdio_communicate (s : state) (mode phy dev reg val : Nat) (t : mpsse_transport) :
    Nat × state :=
  let output := s.ctx.output
  let input := s.ctx.input
  let e : Buf × Nat :=
    if s.fast_mode_en then _mdio_preamble_fast output 0 else _mdio_preamble output 0
  let e := _mdio_command_address e.1 e.2 phy dev reg
  let e : Buf × Nat :=
    if s.fast_mode_en then _mdio_preamble_fast e.1 e.2 else _mdio_preamble e.1 e.2
  let e := _mdio_command_value e.1 e.2 phy dev mode val
  let output := e.1
  let offset := e.2
  let a : clock_data_args :=
    { out_offset := 0, in_offset := 0, length := offset * 8, mode := MDIO_MODE }
  let input := mpsse_capture input (t a output).2 a
  let res := ((input (offset - 2) <<< 8) ||| input (offset - 1)) % 65536
  (res, { s with ctx := { s.ctx with output := output, input := input } })

/-- Function `mdio_read` of `baset1.c`; `phy` and `dev` are `uint8_t`. -/
def mdio_read (s : state) (phy dev reg : Nat) (t : mpsse_transport) : Nat × state :=
  _mdio_communicate s MDIO_READ (phy % 256) (dev % 256) reg 0xffff t

/-- Function `mdio_write` of `baset1.c`; `phy` and `dev` are `uint8_t`. -/
def mdio_write (s : state) (phy dev reg val : Nat) (t : mpsse_transport) : state :=
  (_mdio_communicate s MDIO_WRITE (phy % 256) (dev % 256) reg val t).2

/-- Function `baset1_write` of the bit-bang variant. -/
def baset1_write (s : state) (tck tms tdi : Int) (t : mpsse_transport) : Int × state :=
  let phy_id := s.ctx.phy_id
  let target := s.ctx.target_cpu
  let jtag_reg := s.ctx.jtag_reg
  let jtag_reg :=
    if tdi ≠ 0 then reg_set jtag_reg (JTAG_TDI target) else reg_clear jtag_reg (JTAG_TDI target)
  let jtag_reg :=
    if tck ≠ 0 then reg_set jtag_reg (JTAG_TCK target) else reg_clear jtag_reg (JTAG_TCK target)
  let jtag_reg :=
    if tms ≠ 0 then reg_set jtag_reg (JTAG_TMS target) else reg_clear jtag_reg (JTAG_TMS target)
  let s := mdio_write s phy_id MDIO_JTAG_DEV MDIO_JTAG_REG jtag_reg t
  (ERROR_OK, { s with ctx := { s.ctx with jtag_reg := jtag_reg } })

/-- Function `baset1_reset` of the bit-bang variant; a non-zero `srst` only
logs a warning. -/
def baset1_reset (s : state) (trst _srst : Int) (t : mpsse_transport) : Int × state :=
  let phy_id := s.ctx.phy_id
  let target := s.ctx.target_cpu
  let jtag_reg := s.ctx.jtag_reg
  let jtag_reg :=
    if trst ≠ 0 then reg_set jtag_reg (JTAG_RST target) else reg_clear jtag_reg (JTAG_RST target)
  let s := mdio_write s phy_id MDIO_JTAG_DEV MDIO_JTAG_REG jtag_reg t
  (ERROR_OK, { s with ctx := { s.ctx with jtag_reg := jtag_reg } })

/-- Function `baset1_read` of the bit-bang variant. -/
def baset1_read (s : state) (t : mpsse_transport) : bb_value_t × state :=
  let phy_id := s.ctx.phy_id
  let target := s.ctx.target_cpu
  let r := mdio_read s phy_id MDIO_JTAG_DEV MDIO_JTAG_REG t
  (if r.1 &&& JTAG_TDO target ≠ 0 then bb_value_t.BB_HIGH else bb_value_t.BB_LOW, r.2)

/-- The globals as the source initialises them (target PMU, PHY id 0x1a,
shadow 0), with zeroed buffers. -/
def state_init : state :=
  { ctx :=
      { init_output := 0x0003, init_direction := 0xfffd, target_cpu := TARGET_PMU, freq := 0,
        phy_id := 0x1a, ftdi_vid := [], ftdi_pid := [],
        input := fun _ => 0, output := fun _ => 0, jtag_reg := 0,
        is_running := false, mpsse_ctx := none },
    fast_mode_en := false }

end Bitbang

/-- One call of the fast driver's queue interface: a bit-driver write, reset
or read, a flush (with the transport's answer), or a clean. -/
inductive driver_call where
  | write (tck tms tdi : Int)
  | reset (trst srst : Int)
  | read
  | flush (res : Int) (captured : Buf)
  | clean

/-- The driver state after one call. -/
def driver_call.apply (ops : baset1_ops) : driver_call → baset1_ops
  | .write tck tms tdi => (baset1_write ops tck tms tdi).2
  | .reset trst srst => (baset1_reset ops trst srst).2
  | .read => (baset1_read ops).2
  | .flush res captured => (baset1_fast_flush ops res captured).2
  | .clean => baset1_fast_clean ops

/-- The driver state after a sequence of calls, first call first. -/
def run_driver (ops : baset1_ops) (calls : List driver_call) : baset1_ops :=
  calls.foldl driver_call.apply ops

/-- What one call put into the queue as a WRITE, read off the queue itself:
when `findex` has advanced by one and the slot it passed carries OP nibble 1,
the 16 data bits of that slot. -/
def accepted_write (before after : mdio_ctx) : Option Nat :=
  if after.findex = before.findex + 1 ∧
      after.foutput (before.findex * MDIO_FAST_COMMAND_SIZE + 6) / 16 = 1 then
    some (be16 after.foutput (before.findex * MDIO_FAST_COMMAND_SIZE + 8))
  else none

/-- The value carried by the most recent WRITE accepted into the queue along a
sequence of calls run from `ops`; `last` is that value before the sequence
(`none` when no write has been accepted). -/
def last_write (ops : baset1_ops) (last : Option Nat) : List driver_call → Option Nat
  | [] => last
  | call :: rest =>
    last_write (driver_call.apply ops call)
      (match accepted_write ops.mdio_ctx (driver_call.apply ops call).mdio_ctx with
        | some v => some v
        | none => last)
      rest

/-- Whether every write and reset of the sequence, run from `ops`, finds room
in the queue. -/
def writes_accepted (ops : baset1_ops) : List driver_call → Bool
  | [] => true
  | call :: rest =>
    (match call with
      | .write _ _ _ => decide (ops.mdio_ctx.findex < FAST_COMMAND_NUM)
      | .reset _ _ => decide (ops.mdio_ctx.findex < FAST_COMMAND_NUM)
      | _ => true)
    && writes_accepted (driver_call.apply ops call) rest

/-- Whether the most recent write or reset of the sequence, run from `ops`,
found room in the queue; `ok` is the answer before the sequence (`true` when
there has been no write or reset yet). -/
def last_request_accepted (ops : baset1_ops) (ok : Bool) : List driver_call → Bool
  | [] => ok
  | call :: rest =>
    last_request_accepted (driver_call.apply ops call)
      (match call with
        | .write _ _ _ => decide (ops.mdio_ctx.findex < FAST_COMMAND_NUM)
        | .reset _ _ => decide (ops.mdio_ctx.findex < FAST_COMMAND_NUM)
        | _ => ok)
      rest

/-- The fast driver in its initial state on the opened sample context. -/
def opened_ops : baset1_ops := baset1_ops_init (mdio_open sample_ctx none).2

/-! ## The JTAG executor (`baset1_fast.c`) -/

/-- Modelled from the spec: `jtag/interface.h` is not among the sources; the 16
states of the IEEE 1149.1 TAP state machine, under the framework's names. -/
inductive tap_state_t where
  | TAP_DREXIT2
  | TAP_DREXIT1
  | TAP_DRSHIFT
  | TAP_DRPAUSE
  | TAP_IRSELECT
  | TAP_DRUPDATE
  | TAP_DRCAPTURE
  | TAP_DRSELECT
  | TAP_IREXIT2
  | TAP_IREXIT1
  | TAP_IRSHIFT
  | TAP_IRPAUSE
  | TAP_IDLE
  | TAP_IRUPDATE
  | TAP_IRCAPTURE
  | TAP_RESET
deriving DecidableEq

/-- Modelled from the spec: the TAP utilities of the debugger framework are not
among the sources; the driver uses them through these four functions. -/
structure tap_framework where
  tap_get_tms_path : tap_state_t → tap_state_t → Nat
  tap_get_tms_path_len : tap_state_t → tap_state_t → Int
  tap_state_transition : tap_state_t → Bool → tap_state_t
  tap_is_state_stable : tap_state_t → Bool

/-- The state the executor works on: the driver state and the framework's TAP
tracker (`tap_get_state`, `tap_get_end_state`). -/
structure exec_state where
  ops : baset1_ops
  tap_state : tap_state_t
  tap_end_state : tap_state_t

/-- Function `baset1_end_state`; `none` when the assertion
`tap_is_state_stable(state)` fails. -/
def baset1_end_state (fw : tap_framework) (s : exec_state) (state : tap_state_t) :
    Option exec_state :=
  if fw.tap_is_state_stable state then some { s with tap_end_state := state } else none

/-- The loop of `baset1_state_move`: `n` more iterations from index `i`, each a
falling and a rising write with `tms = (tms_scan >> i) & 1`; the status, the
last `tms` and the driver state. -/
def state_move_loop (tms_scan : Nat) : Nat → Nat → Int → baset1_ops → Int × Int × baset1_ops
  | 0, _, tms, ops => (ERROR_OK, tms, ops)
  | n + 1, i, _, ops =>
    let tms : Int := (((tms_scan >>> i) &&& 1 : Nat) : Int)
    let r := baset1_write ops 0 tms 0
    if r.1 ≠ ERROR_OK then (ERROR_FAIL, tms, r.2)
    else
      let r := baset1_write r.2 1 tms 0
      if r.1 ≠ ERROR_OK then (ERROR_FAIL, tms, r.2)
      else state_move_loop tms_scan n (i + 1) tms r.2

/-- Function `baset1_state_move`; `CLOCK_IDLE()` is 0. -/
def baset1_state_move (fw : tap_framework) (s : exec_state) (skip : Nat) : Int × exec_state :=
  let start := s.tap_state
  let end_state := s.tap_end_state
  let tms_scan := fw.tap_get_tms_path start end_state % 256
  let tms_count := fw.tap_get_tms_path_len start end_state
  let l := state_move_loop tms_scan (tms_count - (skip : Int)).toNat skip 0 s.ops
  if l.1 ≠ ERROR_OK then (ERROR_FAIL, { s with ops := l.2.2 })
  else
    let r := baset1_write l.2.2 0 l.2.1 0
    if r.1 ≠ ERROR_OK then (ERROR_FAIL, { s with ops := r.2 })
    else (ERROR_OK, { s with ops := r.2, tap_state := end_state })

/-- Function `baset1_move_to`. -/
def baset1_move_to (fw : tap_framework) (s : exec_state) (state : tap_state_t) :
    Option (Int × exec_state) :=
  let saved_end := s.tap_end_state
  match baset1_end_state fw s state with
  | none => none
  | some s1 =>
    let r := baset1_state_move fw s1 0
    match baset1_end_state fw r.2 saved_end with
    | none => none
    | some s2 => some (r.1, s2)

/-- A scan field (`struct scan_field`): the number of bits and the two value
pointers, `none` for a null pointer. -/
structure scan_field where
  num_bits : Int
  out_value : Option Buf
  in_value : Option Buf

/-- A scan command (`struct scan_command`); `num_fields` is the length of
`fields`. -/
structure scan_command where
  ir_scan : Bool
  fields : List scan_field
  end_state : tap_state_t

/-- Modelled from the spec: `jtag/commands.h` is not among the sources; a field
with an input only. -/
def SCAN_IN : Nat := 1

/-- Modelled from the spec: `jtag/commands.h` is not among the sources; a field
with an output only. -/
def SCAN_OUT : Nat := 2

/-- Modelled from the spec: `jtag/commands.h` is not among the sources; a field
with both. -/
def SCAN_IO : Nat := 3

/-- One entry of the capture queue `scan_buffer.queue`. -/
structure sb_queue where
  field_idx : Nat
  byte_cnt : Nat
  bit_cnt : Nat
  mdio_idx : Nat
deriving DecidableEq

/-- The nested function `field_type`. -/
def field_type (field : scan_field) : Nat :=
  let type := 0
  let type := if field.in_value.isSome then type ||| SCAN_IN else type
  let type := if field.out_value.isSome then type ||| SCAN_OUT else type
  type

/-- The nested function `queue_add`: record the site of a bit to read back,
at the end of the capture queue. The list stands for the entries
`queue[0 .. read_count)` of `scan_buffer`, an array of `FAST_COMMAND_NUM`
entries that the source fills without a bound check: a scan that reads back
more than `FAST_COMMAND_NUM` bits stores past that array, which the list does
not show. -/
def queue_add (queue : List sb_queue) (fidx bytec bitc mdio_idx : Nat) : List sb_queue :=
  queue ++ [sb_queue.mk fidx bytec bitc mdio_idx]

/-- The bit loop of `baset1_execute_scan` for one field: `n` more iterations
from bit `bcnt`. The driver state and the capture queue are threaded through;
`none` when `field->out_value[bytec]` reads through a null pointer. The
statuses of the writes are not looked at; the status of the read becomes the
`uint16_t` slot index of the capture entry. -/
def scan_bit_loop (tap_need_move : Bool) (num_fields : Nat) (fidx : Nat) (field : scan_field)
    (type : Nat) : Nat → Nat → baset1_ops × List sb_queue → Option (baset1_ops × List sb_queue)
  | 0, _, st => some st
  | n + 1, bcnt, st =>
    let tms : Int :=
      if tap_need_move ∧ (fidx : Int) = (num_fields : Int) - 1 ∧ (bcnt : Int) = field.num_bits - 1
      then 1 else 0
    let bytec := bcnt / 8
    let bitc := 1 <<< (bcnt &&& 0x7)
    match field.out_value with
    | none => none
    | some out_value =>
      let tdi : Int := if type ≠ SCAN_IN ∧ out_value bytec &&& bitc ≠ 0 then 1 else 0
      let ops := (baset1_write st.1 0 tms tdi).2
      let st : baset1_ops × List sb_queue :=
        if type ≠ SCAN_OUT then
          let r := baset1_read ops
          (r.2, queue_add st.2 fidx bytec bitc (r.1 % 65536).toNat)
        else (ops, st.2)
      let ops := (baset1_write st.1 1 tms tdi).2
      scan_bit_loop tap_need_move num_fields fidx field type n (bcnt + 1) (ops, st.2)

/-- The field loop of `baset1_execute_scan`: the remaining fields, the first of
them with index `fidx`. A field with neither value is skipped. -/
def scan_field_loop (tap_need_move : Bool) (num_fields : Nat) :
    List scan_field → Nat → baset1_ops × List sb_queue → Option (baset1_ops × List sb_queue)
  | [], _, st => some st
  | field :: rest, fidx, st =>
    let type := field_type field
    if type = 0 then scan_field_loop tap_need_move num_fields rest (fidx + 1) st
    else
      match scan_bit_loop tap_need_move num_fields fidx field type field.num_bits.toNat 0 st with
      | none => none
      | some st => scan_field_loop tap_need_move num_fields rest (fidx + 1) st

/-- The statements `in_value[bytec] &= ~bitc` (level low) and
`in_value[bytec] |= bitc` (level high) on a `uint8_t` buffer. -/
def in_value_put (in_value : Buf) (bytec bitc : Nat) (high : Bool) : Buf :=
  if high then store in_value bytec (in_value bytec ||| bitc)
  else store in_value bytec (in_value bytec &&& (0xffffffff ^^^ bitc))

/-- The nested function `queue_apply`: scatter the fetched TDO levels into the
input values, entry by entry; it stops with `ERROR_FAIL` at the first entry
whose fetch fails. `none` when an entry names no field or a field whose
`in_value` is null. -/
def queue_apply (ops : baset1_ops) :
    List sb_queue → List scan_field → Option (Int × List scan_field)
  | [], fields => some (ERROR_OK, fields)
  | q :: rest, fields =>
    match fields.get? q.field_idx with
    | none => none
    | some field =>
      match get_mdio_tdi ops q.mdio_idx with
      | bb_value_t.BB_ERROR => some (ERROR_FAIL, fields)
      | level =>
        match field.in_value with
        | none => none
        | some in_value =>
          queue_apply ops rest
            (fields.set q.field_idx
              { field with
                in_value := some (in_value_put in_value q.byte_cnt q.bit_cnt
                  (decide (level = bb_value_t.BB_HIGH))) })

/-- Function `baset1_execute_scan`; `res` and `captured` are the transport's
answer to the flush. The result is the status, the new state and the fields
with their input values; `none` when the run does not come to an end (a failed
assertion, a read through a null pointer). -/
def baset1_execute_scan (fw : tap_framework) (s : exec_state) (cmd : scan_command)
    (res : Int) (captured : Buf) : Option (Int × exec_state × List scan_field) :=
  let shift := if cmd.ir_scan then tap_state_t.TAP_IRSHIFT else tap_state_t.TAP_DRSHIFT
  let moved : Option exec_state :=
    if s.tap_state ≠ shift then (baset1_move_to fw s shift).map Prod.snd else some s
  match moved with
  | none => none
  | some s =>
    match baset1_end_state fw s cmd.end_state with
    | none => none
    | some s =>
      let tap_need_move : Bool := decide (s.tap_state ≠ s.tap_end_state)
      match scan_field_loop tap_need_move cmd.fields.length cmd.fields 0 (s.ops, []) with
      | none => none
      | some st =>
        let s := { s with ops := st.1 }
        let m : Int × exec_state := if tap_need_move then baset1_state_move fw s 1 else (ERROR_OK, s)
        if m.1 ≠ ERROR_OK then some (ERROR_FAIL, m.2, cmd.fields)
        else
          let f := baset1_fast_flush m.2.ops res captured
          let s := { m.2 with ops := f.2 }
          if f.1 ≠ ERROR_OK then some (ERROR_FAIL, s, cmd.fields)
          else
            match queue_apply s.ops st.2 cmd.fields with
            | none => none
            | some a => some (a.1, s, a.2)

/-- A stand-in for the framework in which every state is stable and no TMS
path has any bit; enough where no state move is made. -/
def still_framework : tap_framework :=
  { tap_get_tms_path := fun _ _ => 0,
    tap_get_tms_path_len := fun _ _ => 0,
    tap_state_transition := fun s _ => s,
    tap_is_state_stable := fun _ => true }

/-- The opened sample driver with the TAP tracker in DRSHIFT. -/
def drshift_state : exec_state :=
  { ops := opened_ops, tap_state := tap_state_t.TAP_DRSHIFT,
    tap_end_state := tap_state_t.TAP_DRSHIFT }

/-- A DR scan of one 8-bit field with an input value and no output value
(`SCAN_IN`), ending in DRSHIFT. -/
def scan_in_cmd : scan_command :=
  { ir_scan := false,
    fields := [scan_field.mk 8 none (some (fun _ => 0))],
    end_state := tap_state_t.TAP_DRSHIFT }

/-- A DR scan of one 8-bit field with both values (`SCAN_IO`), the output
value being the byte `0xa5`, ending in DRSHIFT. -/
def scan_io_cmd : scan_command :=
  { ir_scan := false,
    fields := [scan_field.mk 8 (some (fun _ => 0xa5)) (some (fun _ => 0))],
    end_state := tap_state_t.TAP_DRSHIFT }

/-! ## The command executors (`baset1_fast.c`) -/

/-- Modelled from the spec: `jtag/jtag.h` is not among the sources; the bit of
the reset configuration that says SRST pulls TRST. -/
def RESET_SRST_PULLS_TRST : Nat := 0x4

/-- Function `baset1_execute_reset`; `reset_config` is the value of
`jtag_get_reset_config()`, `res` and `captured` are the transport's answer to
the flush. The status of `baset1_reset` is not looked at. -/
def baset1_execute_reset (reset_config : Nat) (s : exec_state) (trst srst : Int)
    (res : Int) (captured : Buf) : Int × exec_state :=
  let s : exec_state :=
    if trst = 1 ∨ (srst ≠ 0 ∧ reset_config &&& RESET_SRST_PULLS_TRST ≠ 0) then
      { s with tap_state := tap_state_t.TAP_RESET }
    else s
  let ops := (baset1_reset s.ops trst srst).2
  let f := baset1_fast_flush ops res captured
  (f.1, { s with ops := f.2 })

/-- The cycle loop of `baset1_execute_runtest`: `n` more iterations, each a
falling and a rising write with TMS 0. -/
def runtest_loop : Nat → baset1_ops → Int × baset1_ops
  | 0, ops => (ERROR_OK, ops)
  | n + 1, ops =>
    let r := baset1_write ops 0 0 0
    if r.1 ≠ ERROR_OK then (ERROR_FAIL, r.2)
    else
      let r := baset1_write r.2 1 0 0
      if r.1 ≠ ERROR_OK then (ERROR_FAIL, r.2)
      else runtest_loop n r.2

/-- Function `baset1_execute_runtest`; `none` when an assertion of
`baset1_end_state` fails. -/
def baset1_execute_runtest (fw : tap_framework) (s : exec_state) (num_cycles : Int)
    (end_state : tap_state_t) (res : Int) (captured : Buf) : Option (Int × exec_state) :=
  match baset1_end_state fw s end_state with
  | none => none
  | some s =>
    let saved_end_state := s.tap_end_state
    let moved : Option (Int × exec_state) :=
      if s.tap_state ≠ tap_state_t.TAP_IDLE then
        (baset1_end_state fw s tap_state_t.TAP_IDLE).map (fun s => baset1_state_move fw s 0)
      else some (ERROR_OK, s)
    match moved with
    | none => none
    | some m =>
      if m.1 ≠ ERROR_OK then some (ERROR_FAIL, m.2)
      else
        let s := m.2
        let l := runtest_loop num_cycles.toNat s.ops
        if l.1 ≠ ERROR_OK then some (ERROR_FAIL, { s with ops := l.2 })
        else
          let r := baset1_write l.2 0 0 0
          if r.1 ≠ ERROR_OK then some (ERROR_FAIL, { s with ops := r.2 })
          else
            match baset1_end_state fw { s with ops := r.2 } saved_end_state with
            | none => none
            | some s =>
              let m : Int × exec_state :=
                if s.tap_state ≠ s.tap_end_state then baset1_state_move fw s 0
                else (ERROR_OK, s)
              if m.1 ≠ ERROR_OK then some (ERROR_FAIL, m.2)
              else
                let f := baset1_fast_flush m.2.ops res captured
                some (f.1, { m.2 with ops := f.2 })

/-- Function `baset1_execute_statemove`. -/
def baset1_execute_statemove (fw : tap_framework) (s : exec_state) (end_state : tap_state_t)
    (res : Int) (captured : Buf) : Option (Int × exec_state) :=
  match baset1_end_state fw s end_state with
  | none => none
  | some s =>
    let m := baset1_state_move fw s 0
    if m.1 ≠ ERROR_OK then some (ERROR_FAIL, m.2)
    else
      let f := baset1_fast_flush m.2.ops res captured
      some (f.1, { m.2 with ops := f.2 })

/-- The loop of `baset1_execute_pathmove` over the remaining states of the
path: the status, the last `tms` and the state; `none` when a state of the
path is no successor of the current state (`exit(-1)`). -/
def pathmove_loop (fw : tap_framework) :
    List tap_state_t → Int → exec_state → Option (Int × Int × exec_state)
  | [], tms, s => some (ERROR_OK, tms, s)
  | next :: rest, _, s =>
    let chosen : Option Int :=
      if fw.tap_state_transition s.tap_state false = next then some 0
      else if fw.tap_state_transition s.tap_state true = next then some 1
      else none
    match chosen with
    | none => none
    | some tms =>
      let r := baset1_write s.ops 0 tms 0
      if r.1 ≠ ERROR_OK then some (ERROR_FAIL, tms, { s with ops := r.2 })
      else
        let r := baset1_write r.2 1 tms 0
        if r.1 ≠ ERROR_OK then some (ERROR_FAIL, tms, { s with ops := r.2 })
        else pathmove_loop fw rest tms { s with ops := r.2, tap_state := next }

/-- Function `baset1_execute_pathmove`; `path` holds the `num_states` states of
the command. -/
def baset1_execute_pathmove (fw : tap_framework) (s : exec_state) (path : List tap_state_t)
    (res : Int) (captured : Buf) : Option (Int × exec_state) :=
  match pathmove_loop fw path 0 s with
  | none => none
  | some l =>
    if l.1 ≠ ERROR_OK then some (ERROR_FAIL, l.2.2)
    else
      let s := l.2.2
      let r := baset1_write s.ops 0 l.2.1 0
      if r.1 ≠ ERROR_OK then some (ERROR_FAIL, { s with ops := r.2 })
      else
        let s := { s with ops := r.2, tap_end_state := s.tap_state }
        let f := baset1_fast_flush s.ops res captured
        some (f.1, { s with ops := f.2 })

/-- Function `baset1_execute_sleep`: the wait leaves the driver alone. -/
def baset1_execute_sleep (s : exec_state) (_us : Nat) : Int × exec_state :=
  (ERROR_OK, s)

/-- The loop of `baset1_execute_stableclocks`: `n` more iterations, each a
rising and a falling write. -/
def stableclocks_loop (tms : Int) : Nat → baset1_ops → Int × baset1_ops
  | 0, ops => (ERROR_OK, ops)
  | n + 1, ops =>
    let r := baset1_write ops 1 tms 0
    if r.1 ≠ ERROR_OK then (ERROR_FAIL, r.2)
    else
      let r := baset1_write r.2 0 tms 0
      if r.1 ≠ ERROR_OK then (ERROR_FAIL, r.2)
      else stableclocks_loop tms n r.2

/-- Function `baset1_execute_stableclocks`; it does not flush. -/
def baset1_execute_stableclocks (s : exec_state) (num_cycles : Int) : Int × exec_state :=
  let tms : Int := if s.tap_state = tap_state_t.TAP_RESET then 1 else 0
  let l := stableclocks_loop tms num_cycles.toNat s.ops
  (l.1, { s with ops := l.2 })

/-- The loop of `baset1_execute_tms`: `n` more iterations from bit `i`; the
status, the last `tms` and the driver state. -/
def tms_loop (bits : Buf) : Nat → Nat → Int → baset1_ops → Int × Int × baset1_ops
  | 0, _, tms, ops => (ERROR_OK, tms, ops)
  | n + 1, i, _, ops =>
    let tms : Int := (((bits (i / 8) >>> (i % 8)) &&& 1 : Nat) : Int)
    let r := baset1_write ops 0 tms 0
    if r.1 ≠ ERROR_OK then (ERROR_FAIL, tms, r.2)
    else
      let r := baset1_write r.2 1 tms 0
      if r.1 ≠ ERROR_OK then (ERROR_FAIL, tms, r.2)
      else tms_loop bits n (i + 1) tms r.2

/-- Function `baset1_execute_tms`; it does not flush. -/
def baset1_execute_tms (s : exec_state) (num_bits : Nat) (bits : Buf) : Int × exec_state :=
  let l := tms_loop bits num_bits 0 0 s.ops
  if l.1 ≠ ERROR_OK then (ERROR_FAIL, { s with ops := l.2.2 })
  else
    let r := baset1_write l.2.2 0 l.2.1 0
    if r.1 ≠ ERROR_OK then (ERROR_FAIL, { s with ops := r.2 })
    else (ERROR_OK, { s with ops := r.2 })

/-- A queued command (`struct jtag_command`) by its type, with the arguments the
executor reads; `statemove` is the type `JTAG_TLR_RESET`, `other` any type the
dispatch does not know. -/
inductive jtag_command where
  | reset (trst srst : Int)
  | runtest (num_cycles : Int) (end_state : tap_state_t)
  | statemove (end_state : tap_state_t)
  | pathmove (path : List tap_state_t)
  | scan (cmd : scan_command)
  | sleep (us : Nat)
  | stableclocks (num_cycles : Int)
  | tms (num_bits : Nat) (bits : Buf)
  | other (type : Int)

/-- Function `baset1_execute_command`; `res` and `captured` are the transport's
answer to the flush the command makes, if it makes one. The result is the
status, the new state and the command (a scan with its input values filled
in); `none` when the run does not come to an end. -/
def baset1_execute_command (fw : tap_framework) (reset_config : Nat) (s : exec_state)
    (cmd : jtag_command) (res : Int) (captured : Buf) :
    Option (Int × exec_state × jtag_command) :=
  let s : exec_state := { s with ops := baset1_fast_clean s.ops }
  match cmd with
  | .reset trst srst =>
    let r := baset1_execute_reset reset_config s trst srst res captured
    some (r.1, r.2, cmd)
  | .runtest num_cycles end_state =>
    (baset1_execute_runtest fw s num_cycles end_state res captured).map
      (fun r => (r.1, r.2, cmd))
  | .statemove end_state =>
    (baset1_execute_statemove fw s end_state res captured).map (fun r => (r.1, r.2, cmd))
  | .pathmove path =>
    (baset1_execute_pathmove fw s path res captured).map (fun r => (r.1, r.2, cmd))
  | .scan c =>
    (baset1_execute_scan fw s c res captured).map
      (fun r => (r.1, r.2.1, jtag_command.scan { c with fields := r.2.2 }))
  | .sleep us =>
    let r := baset1_execute_sleep s us
    some (r.1, r.2, cmd)
  | .stableclocks num_cycles =>
    let r := baset1_execute_stableclocks s num_cycles
    some (r.1, r.2, cmd)
  | .tms num_bits bits =>
    let r := baset1_execute_tms s num_bits bits
    some (r.1, r.2, cmd)
  | .other _ => some (ERROR_FAIL, s, cmd)

/-- The loop of `baset1_execute_queue` over the remaining commands, each with
the transport's answer to its flush; `retval` is the status so far. -/
def execute_queue_loop (fw : tap_framework) (reset_config : Nat) :
    List (jtag_command × Int × Buf) → Int → exec_state →
      Option (Int × exec_state × List jtag_command)
  | [], retval, s => some (retval, s, [])
  | c :: rest, _, s =>
    match baset1_execute_command fw reset_config s c.1 c.2.1 c.2.2 with
    | none => none
    | some r =>
      (execute_queue_loop fw reset_config rest r.1 r.2.1).map
        (fun q => (q.1, q.2.1, r.2.2 :: q.2.2))

/-- Function `baset1_execute_queue` on the command queue `cmds`. -/
def baset1_execute_queue (fw : tap_framework) (reset_config : Nat) (s : exec_state)
    (cmds : List (jtag_command × Int × Buf)) : Option (Int × exec_state × List jtag_command) :=
  execute_queue_loop fw reset_config cmds ERROR_OK s

/-! ## Initialisation of the two variants -/

/-- Function `mdio_reduce_preamble` of the fast driver. -/
def mdio_reduce_preamble (ops : baset1_ops) (t : mpsse_transport) : baset1_ops :=
  let mdio_ctx := ops.mdio_ctx
  let phy := ops.phy_id % 256
  let r := mdio_read mdio_ctx phy 0x1d 0x0020 t
  let mdio_cfg := r.1
  let mdio_cfg := (mdio_cfg &&& (0xffffffff ^^^ 0x3f)) % 65536
  let mdio_cfg := (mdio_cfg ||| 0x4) % 65536
  { ops with mdio_ctx := mdio_write r.2 phy 0x1d 0x0020 mdio_cfg t }

/-- The global `baset1_ops` of `baset1_fast.c` as C has it: the pointer
`mdio_ctx` is null (`none`) until `init_mdio` has set it. -/
structure baset1_ops_raw where
  vid : Nat
  pid : Nat
  target : Nat
  phy_id : Nat
  mdio_ctx : Option mdio_ctx
  jtag_reg : Nat

/-- Function `init_mdio`; `calloc_ok` says whether the allocation in
`mdio_init` succeeds, `opened` is the answer of `mpsse_open`, and `t` stands
for the transport. The status of `mdio_open` is not looked at. -/
def init_mdio (ops : baset1_ops_raw) (calloc_ok : Bool) (opened : Option Nat)
    (t : mpsse_transport) : Int × baset1_ops_raw :=
  match ops.mdio_ctx with
  | some _ => (ERROR_OK, ops)
  | none =>
    match mdio_init calloc_ok ops.vid ops.pid ops.phy_id ops.target with
    | none => (ERROR_FAIL, ops)
    | some ctx =>
      let ctx := (mdio_open ctx opened).2
      let set : baset1_ops :=
        { vid := ops.vid, pid := ops.pid, target := ops.target, phy_id := ops.phy_id,
          mdio_ctx := ctx, jtag_reg := ops.jtag_reg }
      let set := mdio_reduce_preamble set t
      (ERROR_OK, { ops with mdio_ctx := some set.mdio_ctx })

/-- Function `baset1_init` of the fast driver, the adapter's init callback; the
status of `init_mdio` is not looked at. -/
def baset1_init (ops : baset1_ops_raw) (calloc_ok : Bool) (opened : Option Nat)
    (t : mpsse_transport) : Int × baset1_ops_raw :=
  (ERROR_OK, (init_mdio ops calloc_ok opened t).2)

/-- The global `baset1_ops` as the source initialises it. -/
def baset1_ops_start : baset1_ops_raw :=
  { vid := 0, pid := 0, target := TARGET_PMU, phy_id := 0x1a, mdio_ctx := none, jtag_reg := 0 }

namespace Bitbang

/-- The number of vendor and product ids the context has room for, without the
terminating pair. -/
def MAX_USB_IDS : Nat := 8

/-- The loop of `mdio_init` over the id pairs, `n` more pairs from index `i`;
`mpsse_open i` is the answer of `mpsse_open` for pair `i`, `handle` the value
of the local `mpsse_ctx`. -/
def mdio_init_loop (ctx : mdio_ctx) (mpsse_open : Nat → Option Nat) :
    Nat → Nat → Option Nat → Option Nat
  | 0, _, handle => handle
  | n + 1, i, handle =>
    if ctx.ftdi_vid.getD i 0 ≠ 0 ∨ ctx.ftdi_pid.getD i 0 ≠ 0 then
      match mpsse_open i with
      | some m => some m
      | none => mdio_init_loop ctx mpsse_open n (i + 1) none
    else handle

/-- Function `mdio_init` of `baset1.c`. -/
def mdio_init (s : state) (mpsse_open : Nat → Option Nat) : Int × state :=
  if s.ctx.is_running then (ERROR_OK, s)
  else
    match mdio_init_loop s.ctx mpsse_open (MAX_USB_IDS + 1) 0 s.ctx.mpsse_ctx with
    | none => (ERROR_JTAG_INIT_FAILED, s)
    | some m => (ERROR_OK, { s with ctx := { s.ctx with mpsse_ctx := some m, is_running := true } })

/-- Function `mdio_init_fast_mode` of `baset1.c`; `phy` is a `uint16_t`. -/
def mdio_init_fast_mode (s : state) (phy : Nat) (t : mpsse_transport) : state :=
  let r := mdio_read s phy 0x1d 0x0020 t
  let mdio_cfg := r.1
  let mdio_cfg := (mdio_cfg &&& (0xffffffff ^^^ 0x3f)) % 65536
  let mdio_cfg := (mdio_cfg ||| 0x4) % 65536
  let s := mdio_write r.2 phy 0x1d 0x0020 mdio_cfg t
  { s with fast_mode_en := true }

/-- Function `baset1_init` of `baset1.c`, the adapter's init callback; the
status of `mdio_init` is not looked at. -/
def baset1_init (s : state) (mpsse_open : Nat → Option Nat) (t : mpsse_transport) :
    Int × state :=
  let s := (mdio_init s mpsse_open).2
  let s := mdio_init_fast_mode s s.ctx.phy_id t
  (ERROR_OK, s)

end Bitbang

/-! ## The bit-driver calls a command makes -/

/-- Whether a call is a bit-driver write. -/
def driver_call.is_write : driver_call → Bool
  | .write _ _ _ => true
  | _ => false

/-- Whether a call is a bit-driver read. -/
def driver_call.is_read : driver_call → Bool
  | .read => true
  | _ => false

/-- Whether a call is a write with TCK high: the rising edge of a clock pair. -/
def driver_call.is_rising : driver_call → Bool
  | .write tck _ _ => decide (tck ≠ 0)
  | _ => false

/-- Whether a call is a write with TCK low. -/
def driver_call.is_falling : driver_call → Bool
  | .write tck _ _ => decide (tck = 0)
  | _ => false

/-- The calls of the cycle loop of RUNTEST: `n` times a falling and a rising
write with TMS 0 and TDI 0. -/
def runtest_cycles : Nat → List driver_call
  | 0 => []
  | n + 1 => driver_call.write 0 0 0 :: driver_call.write 1 0 0 :: runtest_cycles n

/-- The calls of the cycles of RUNTEST with the clock-idle write that ends
them. -/
def runtest_calls (n : Nat) : List driver_call :=
  runtest_cycles n ++ [driver_call.write 0 0 0]

/-- The calls of the loop of `baset1_state_move`: for `n` bits of `tms_scan`
from bit `i`, a falling and a rising write carrying that bit as TMS. -/
def state_move_pairs (tms_scan : Nat) : Nat → Nat → List driver_call
  | 0, _ => []
  | n + 1, i =>
    driver_call.write 0 (((tms_scan >>> i) &&& 1 : Nat) : Int) 0 ::
      driver_call.write 1 (((tms_scan >>> i) &&& 1 : Nat) : Int) 0 ::
      state_move_pairs tms_scan n (i + 1)

/-- The value of `tms` after the loop of `baset1_state_move`: the last bit
walked, or the initial value when the loop does not run. -/
def state_move_last (tms_scan : Nat) : Nat → Nat → Int → Int
  | 0, _, tms => tms
  | n + 1, i, _ => state_move_last tms_scan n (i + 1) (((tms_scan >>> i) &&& 1 : Nat) : Int)

/-- The calls of `baset1_state_move(skip)` from `start` to `end_state`: the TMS
walk the framework gives, then the clock-idle write. -/
def state_move_calls (fw : tap_framework) (start end_state : tap_state_t) (skip : Nat) :
    List driver_call :=
  state_move_pairs (fw.tap_get_tms_path start end_state % 256)
      (fw.tap_get_tms_path_len start end_state - (skip : Int)).toNat skip ++
    [driver_call.write 0
      (state_move_last (fw.tap_get_tms_path start end_state % 256)
        (fw.tap_get_tms_path_len start end_state - (skip : Int)).toNat skip 0) 0]

/-- The calls of RUNTEST(`n`, `end_state`) from TAP state `start`: a walk to
IDLE unless already there, the cycles, a walk to `end_state` unless it is
IDLE. -/
def runtest_trace (fw : tap_framework) (start : tap_state_t) (n : Nat)
    (end_state : tap_state_t) : List driver_call :=
  (if start ≠ tap_state_t.TAP_IDLE then state_move_calls fw start tap_state_t.TAP_IDLE 0
    else []) ++
  runtest_calls n ++
  (if tap_state_t.TAP_IDLE ≠ end_state then state_move_calls fw tap_state_t.TAP_IDLE end_state 0
    else [])

/-- The calls of the bit loop of a scan for one field with output value
`out_value`: for `n` bits from bit `bcnt`, a falling write, a read unless the
field is output only, and a rising write, with the TMS and TDI of the bit. -/
def scan_bit_calls (tap_need_move : Bool) (num_fields fidx : Nat) (num_bits : Int)
    (out_value : Buf) (type : Nat) : Nat → Nat → List driver_call
  | 0, _ => []
  | n + 1, bcnt =>
    let tms : Int :=
      if tap_need_move ∧ (fidx : Int) = (num_fields : Int) - 1 ∧ (bcnt : Int) = num_bits - 1
      then 1 else 0
    let tdi : Int :=
      if type ≠ SCAN_IN ∧ out_value (bcnt / 8) &&& (1 <<< (bcnt &&& 0x7)) ≠ 0 then 1 else 0
    driver_call.write 0 tms tdi ::
      ((if type ≠ SCAN_OUT then [driver_call.read] else []) ++
        driver_call.write 1 tms tdi ::
          scan_bit_calls tap_need_move num_fields fidx num_bits out_value type n (bcnt + 1))

/-- The calls of the field loop of a scan over the remaining fields, the first
of them with index `fidx`: the bit calls of each field that has an output
value. -/
def scan_field_calls (tap_need_move : Bool) (num_fields : Nat) :
    List scan_field → Nat → List driver_call
  | [], _ => []
  | field :: rest, fidx =>
    (match field.out_value with
      | some out_value =>
        scan_bit_calls tap_need_move num_fields fidx field.num_bits out_value (field_type field)
          field.num_bits.toNat 0
      | none => []) ++
    scan_field_calls tap_need_move num_fields rest (fidx + 1)

/-- The number of bits of the fields that have a value (an input or an output
value), a negative `num_bits` counting as 0. -/
def valued_bits (fields : List scan_field) : Nat :=
  ((fields.filter (fun f => decide (field_type f ≠ 0))).map (fun f => f.num_bits.toNat)).sum

/-- The number of bits of the fields that have an input value. -/
def input_bits (fields : List scan_field) : Nat :=
  ((fields.filter (fun f => f.in_value.isSome)).map (fun f => f.num_bits.toNat)).sum

/-- A DR scan of one 4-bit field with neither an input nor an output value,
ending in DRSHIFT. -/
def scan_none_cmd : scan_command :=
  { ir_scan := false,
    fields := [scan_field.mk 4 none none],
    end_state := tap_state_t.TAP_DRSHIFT }

/-- A scan of three 4-bit fields: output only, neither value, both values. -/
def mixed_fields : List scan_field :=
  [scan_field.mk 4 (some (fun _ => 0x5)) none, scan_field.mk 4 none none,
    scan_field.mk 4 (some (fun _ => 0xa)) (some (fun _ => 0))]

/-- The sample driver with a full queue and the TAP tracker in DRSHIFT. -/
def full_queue_drshift : exec_state :=
  { ops := full_queue_ops, tap_state := tap_state_t.TAP_DRSHIFT,
    tap_end_state := tap_state_t.TAP_DRSHIFT }

/-- The opened sample driver with the TAP tracker in IRSHIFT. -/
def irshift_state : exec_state :=
  { ops := opened_ops, tap_state := tap_state_t.TAP_IRSHIFT,
    tap_end_state := tap_state_t.TAP_IRSHIFT }

/-- The IR scan of two 4-bit fields of the claim: the first output only, the
second with both values; it ends in IRSHIFT. -/
def two_field_ir_scan : scan_command :=
  { ir_scan := true,
    fields := [scan_field.mk 4 (some (fun _ => 0x5)) none,
      scan_field.mk 4 (some (fun _ => 0xa)) (some (fun _ => 0))],
    end_state := tap_state_t.TAP_IRSHIFT }

/-- The opened sample driver with the TAP tracker in IDLE. -/
def idle_state : exec_state :=
  { ops := opened_ops, tap_state := tap_state_t.TAP_IDLE,
    tap_end_state := tap_state_t.TAP_IDLE }

/-- The sample driver with a full queue and the TAP tracker in IDLE. -/
def full_queue_state : exec_state :=
  { ops := full_queue_ops, tap_state := tap_state_t.TAP_IDLE,
    tap_end_state := tap_state_t.TAP_IDLE }

/-- Modelled from the spec: the framework's `tap_state_transition` is not among
the sources; the successor of a state of the IEEE 1149.1 TAP state machine for
a TMS level. -/
def ieee_transition : tap_state_t → Bool → tap_state_t
  | .TAP_RESET, true => .TAP_RESET
  | .TAP_RESET, false => .TAP_IDLE
  | .TAP_IDLE, true => .TAP_DRSELECT
  | .TAP_IDLE, false => .TAP_IDLE
  | .TAP_DRSELECT, true => .TAP_IRSELECT
  | .TAP_DRSELECT, false => .TAP_DRCAPTURE
  | .TAP_DRCAPTURE, true => .TAP_DREXIT1
  | .TAP_DRCAPTURE, false => .TAP_DRSHIFT
  | .TAP_DRSHIFT, true => .TAP_DREXIT1
  | .TAP_DRSHIFT, false => .TAP_DRSHIFT
  | .TAP_DREXIT1, true => .TAP_DRUPDATE
  | .TAP_DREXIT1, false => .TAP_DRPAUSE
  | .TAP_DRPAUSE, true => .TAP_DREXIT2
  | .TAP_DRPAUSE, false => .TAP_DRPAUSE
  | .TAP_DREXIT2, true => .TAP_DRUPDATE
  | .TAP_DREXIT2, false => .TAP_DRSHIFT
  | .TAP_DRUPDATE, true => .TAP_DRSELECT
  | .TAP_DRUPDATE, false => .TAP_IDLE
  | .TAP_IRSELECT, true => .TAP_RESET
  | .TAP_IRSELECT, false => .TAP_IRCAPTURE
  | .TAP_IRCAPTURE, true => .TAP_IREXIT1
  | .TAP_IRCAPTURE, false => .TAP_IRSHIFT
  | .TAP_IRSHIFT, true => .TAP_IREXIT1
  | .TAP_IRSHIFT, false => .TAP_IRSHIFT
  | .TAP_IREXIT1, true => .TAP_IRUPDATE
  | .TAP_IREXIT1, false => .TAP_IRPAUSE
  | .TAP_IRPAUSE, true => .TAP_IREXIT2
  | .TAP_IRPAUSE, false => .TAP_IRPAUSE
  | .TAP_IREXIT2, true => .TAP_IRUPDATE
  | .TAP_IREXIT2, false => .TAP_IRSHIFT
  | .TAP_IRUPDATE, true => .TAP_DRSELECT
  | .TAP_IRUPDATE, false => .TAP_IDLE

/-- A stand-in for the framework with the IEEE 1149.1 transition function; the
TMS paths, which PATHMOVE does not use, are empty. -/
def ieee_framework : tap_framework :=
  { still_framework with tap_state_transition := ieee_transition }

/-- The opened sample driver with the TAP tracker in DREXIT1. -/
def drexit1_state : exec_state :=
  { ops := opened_ops, tap_state := tap_state_t.TAP_DREXIT1,
    tap_end_state := tap_state_t.TAP_DREXIT1 }

/-- Whether the executor of a command ends with `baset1_fast_flush`: RESET,
RUNTEST, STATEMOVE, PATHMOVE and SCAN do; SLEEP, STABLECLOCKS and TMS do not. -/
def jtag_command.flushes : jtag_command → Bool
  | .reset _ _ => true
  | .runtest _ _ => true
  | .statemove _ => true
  | .pathmove _ => true
  | .scan _ => true
  | _ => false

/-- A result of an executor that, when it is `ERROR_OK`, comes with an empty
queue (`findex = 0`). -/
def ok_flushed (r : Option (Int × exec_state)) : Prop :=
  ∀ s1, r = some (ERROR_OK, s1) → s1.ops.mdio_ctx.findex = 0

/-- The local `mdio_cfg` of `mdio_reduce_preamble` and of `mdio_init_fast_mode`
after its two updates `mdio_cfg &= ~0x3f; mdio_cfg |= 0x4;` (a `uint16_t`; the
complement is that of the 32-bit `int` mask). -/
def reduced_cfg (mdio_cfg : Nat) : Nat :=
  let mdio_cfg := (mdio_cfg &&& (0xffffffff ^^^ 0x3f)) % 65536
  (mdio_cfg ||| 0x4) % 65536

/-- Bit `i` of a TMS path, as the `int` the state move passes on:
`(path >> i) & 1`. -/
def tms_bit (path i : Nat) : Int := (((path >>> i) &&& 1 : Nat) : Int)

/-- The TMS values of the rising writes (TCK high) of a sequence of calls, in
order. -/
def rising_tms : List driver_call → List Int
  | [] => []
  | .write tck tms _ :: rest => if tck ≠ 0 then tms :: rising_tms rest else rising_tms rest
  | _ :: rest => rising_tms rest

/-- The opened sample driver with the TAP tracker in DRSHIFT and the end state
IDLE. -/
def drshift_to_idle : exec_state :=
  { ops := opened_ops, tap_state := tap_state_t.TAP_DRSHIFT,
    tap_end_state := tap_state_t.TAP_IDLE }

/-- A stand-in for the framework that gives, for every pair of states, the
3-bit TMS path 1, 1, 0 (`0x3`), the path from a shift state to IDLE of the
7-bit table. -/
def exit_framework : tap_framework :=
  { still_framework with
    tap_get_tms_path := fun _ _ => 0x3,
    tap_get_tms_path_len := fun _ _ => 3 }

/-- A scan of two fields: 4 bits with an output value, then 1 bit with neither
value (as the framework builds for a TAP in bypass). -/
def bypass_last_fields : List scan_field :=
  [scan_field.mk 4 (some (fun _ => 0x5)) none, scan_field.mk 1 none none]

/-- The DR scan of `bypass_last_fields`, ending in IDLE. -/
def bypass_scan_cmd : scan_command :=
  { ir_scan := false, fields := bypass_last_fields, end_state := tap_state_t.TAP_IDLE }

/-- The state of a TAP that follows IEEE 1149.1, after the given TMS values on
successive rising edges of TCK. -/
def tap_walk (start : tap_state_t) (tms : List Int) : tap_state_t :=
  tms.foldl (fun st b => ieee_transition st (decide (b ≠ 0))) start

/-- A scan of one 2-bit field with both values, the output value being the
bits 0, 1. -/
def io_two_bits : List scan_field :=
  [scan_field.mk 2 (some (fun _ => 0x2)) (some (fun _ => 0))]

/-- A scan of one 2-bit field with an input value and no output value
(`SCAN_IN`). -/
def in_two_bits : List scan_field :=
  [scan_field.mk 2 none (some (fun _ => 0))]

/-- Whether, after a sequence of fast-queue calls, a flush has succeeded since
the last clean (or add); `flushed` is the answer before the sequence. -/
def flushed_after : Bool → List fast_call → Bool
  | flushed, [] => flushed
  | _, .add _ _ :: rest => flushed_after false rest
  | flushed, .flush res _ :: rest => flushed_after (flushed || decide (res = ERROR_OK)) rest
  | _, .clean :: rest => flushed_after false rest

/-- The bounds on the counters of the fast queue; `flushed` tells whether a
flush has succeeded since the last clean. -/
def queue_bounded (ctx : mdio_ctx) (flushed : Bool) : Prop :=
  ctx.findex ≤ FAST_COMMAND_NUM ∧ ctx.fread_cnt ≤ FAST_COMMAND_NUM ∧
  ctx.ftotal ≤ FAST_COMMAND_NUM ∧ (flushed = false → ctx.fread_cnt ≤ ctx.findex)

/-! ## The request parser of the MDIO server (`mdio_server.c`)

A message is the content of the buffer it was read into, a list of bytes;
reading at an index outside the buffer has no defined result (`none`). -/

/-- The loop of `find_next_char`: `n` more iterations from `offset`. -/
def find_next_char_loop (aim : Nat) (msg : List Nat) (size : Nat) : Nat → Nat → Option Nat
  | 0, _ => some size
  | n + 1, offset =>
    if offset < size then
      match msg[offset]? with
      | none => none
      | some c =>
        if c = aim then some (offset + 1)
        else if c = 0 then some size
        else find_next_char_loop aim msg size n (offset + 1)
    else some size

/-- Function `find_next_char`: the index after the next `aim` at or after
`offset`, or `size` when a NUL or the end of the message comes first. -/
def find_next_char (aim : Nat) (msg : List Nat) (size offset : Nat) : Option Nat :=
  find_next_char_loop aim msg size (size - offset) offset

/-- Modelled from the spec: `isspace` is a function of the C library, not among
the sources; the white-space characters of the C locale. -/
def isspace (c : Nat) : Bool := decide (c = 32 ∨ (9 ≤ c ∧ c ≤ 13))

/-- Modelled from the spec: part of the C library function `strtoul`; the value
of a hexadecimal digit (`0-9`, `a-f`, `A-F`), `none` for any other character. -/
def hex_digit (c : Nat) : Option Nat :=
  if 48 ≤ c ∧ c ≤ 57 then some (c - 48)
  else if 97 ≤ c ∧ c ≤ 102 then some (c - 87)
  else if 65 ≤ c ∧ c ≤ 70 then some (c - 55)
  else none

/-- Modelled from the spec: the largest `unsigned long`, 64 bits wide. -/
def ULONG_MAX : Nat := 2 ^ 64 - 1

/-- Modelled from the spec: part of the C library function `strtoul`; the
digits, accumulated until the first character that is no hexadecimal digit. -/
def strtoul_digits : List Nat → Nat → Option Nat
  | [], _ => none
  | c :: rest, acc =>
    match hex_digit c with
    | some d => strtoul_digits rest (acc * 16 + d)
    | none => some acc

/-- Modelled from the spec: part of the C library function `strtoul`; the
optional prefix `0x` or `0X` of base 16, then the digits. -/
def strtoul_body (s : List Nat) : Option Nat :=
  match s with
  | 48 :: x :: d :: rest =>
    if (x = 120 ∨ x = 88) ∧ (hex_digit d).isSome then strtoul_digits (d :: rest) 0
    else strtoul_digits s 0
  | _ => strtoul_digits s 0

/-- Modelled from the spec: part of the C library function `strtoul`; the
optional sign. A value that does not fit in `unsigned long` gives `ULONG_MAX`
whatever the sign; a value that fits is negated in `unsigned long` after a
minus sign. -/
def strtoul_signed (s : List Nat) : Option Nat :=
  match s with
  | 45 :: rest =>
    (strtoul_body rest).map (fun v => if v > ULONG_MAX then ULONG_MAX else (2 ^ 64 - v) % 2 ^ 64)
  | 43 :: rest => (strtoul_body rest).map (fun v => min v ULONG_MAX)
  | _ => (strtoul_body s).map (fun v => min v ULONG_MAX)

/-- Modelled from the spec: `strtoul` is a function of the C library, not among
the sources; `strtoul(s, NULL, 16)` on the characters from `s` on: leading
white space, an optional sign, an optional `0x`, hexadecimal digits. `none`
when the characters end before the number does. -/
def strtoul : List Nat → Option Nat
  | [] => none
  | c :: rest => if isspace c then strtoul rest else strtoul_signed (c :: rest)

/-- The out-parameters of `parse_args`. -/
structure mdio_request where
  mode : mdio_mode
  phy : Nat
  dev : Nat
  reg : Nat
  val : Nat

/-- The `do ... while (true)` loop of `parse_args`: `n` more iterations with
`idx` values stored in `arr` and the next value at `offset`; the final `idx`
and `arr`. -/
def parse_args_loop (msg : List Nat) (size expect : Nat) :
    Nat → Nat → Nat → (Nat → Nat) → Option (Nat × (Nat → Nat))
  | 0, idx, _, arr => some (idx, arr)
  | n + 1, idx, offset, arr =>
    match strtoul (msg.drop offset) with
    | none => none
    | some v =>
      let arr : Nat → Nat := fun j => if j = idx then v % 65536 else arr j
      let idx := idx + 1
      if idx ≥ expect then some (idx, arr)
      else
        match find_next_char 44 msg size offset with
        | none => none
        | some offset =>
          if offset ≥ size then some (idx, arr)
          else parse_args_loop msg size expect n idx offset arr

/-- Function `parse_args` on the message `msg` of `size` bytes; `out` holds the
old contents of the out-parameters. The loop stops after at most `expect`
values. -/
def parse_args (msg : List Nat) (size : Nat) (out : mdio_request) :
    Option (Int × mdio_request) :=
  match msg[0]? with
  | none => none
  | some c =>
    let sel : Option (mdio_mode × Nat) :=
      if c = 114 ∨ c = 82 then some (MDIO_READ, 3)
      else if c = 119 ∨ c = 87 then some (MDIO_WRITE, 4)
      else none
    match sel with
    | none => some (ERROR_FAIL, out)
    | some (mode, expect) =>
      let out := { out with mode := mode }
      match find_next_char 58 msg size 0 with
      | none => none
      | some offset =>
        match parse_args_loop msg size expect expect 0 offset (fun _ => 0) with
        | none => none
        | some (idx, arr) =>
          if idx < expect then some (ERROR_FAIL, out)
          else
            some (ERROR_OK,
              { out with phy := arr 0 % 256, dev := arr 1 % 256, reg := arr 2, val := arr 3 })

/-! ## Definitions used to state the parser theorem -/

/-- A text made of hexadecimal digits only. -/
def is_hex (ds : List Nat) : Prop := ∀ c ∈ ds, (hex_digit c).isSome = true

/-- The number a text of hexadecimal digits denotes, continuing from `acc`. -/
def hex_value_from (acc : Nat) (ds : List Nat) : Nat :=
  ds.foldl (fun a c => a * 16 + (hex_digit c).getD 0) acc

/-- The number a text of hexadecimal digits denotes. -/
def hex_value (ds : List Nat) : Nat := hex_value_from 0 ds

/-- The texts of a list of values, separated by commas. -/
def comma_join : List (List Nat) → List Nat
  | [] => []
  | [v] => v
  | v :: w :: rest => v ++ 44 :: comma_join (w :: rest)

/-- The lower-case hexadecimal digit of a number below 16. -/
def hex_char (d : Nat) : Nat := if d < 10 then 48 + d else 87 + d

/-- The four-digit lower-case hexadecimal text of a 16-bit number (`%04x`). -/
def hex4 (n : Nat) : List Nat :=
  [hex_char (n / 4096 % 16), hex_char (n / 256 % 16), hex_char (n / 16 % 16), hex_char (n % 16)]

/-- The out-parameters before a call, all zero. -/
def no_request : mdio_request := { mode := 0, phy := 0, dev := 0, reg := 0, val := 0 }

/-- The `uint16_t` that `parse_args` stores for a text of hexadecimal digits:
the value `strtoul` returns, truncated to 16 bits. -/
def field_value (ds : List Nat) : Nat := min (hex_value ds) ULONG_MAX % 65536

/-! ## Arithmetic of the bit operations -/

theorem and_1f_eq_mod (x : Nat) : x &&& 0x1f = x % 32 :=
  Nat.and_pow_two_sub_one_eq_mod x 5

theorem and_ff_eq_mod (x : Nat) : x &&& 0xff = x % 256 :=
  Nat.and_pow_two_sub_one_eq_mod x 8

theorem shiftLeft_or_eq_add (a b n : Nat) (h : b < 2 ^ n) :
    (a <<< n) ||| b = a * 2 ^ n + b := by
  rw [Nat.shiftLeft_eq, Nat.mul_comm, ← Nat.mul_add_lt_is_or h]

theorem or_0x1000 (c : Nat) (h : c < 4096) : 0x1000 ||| c = 4096 + c := by
  have := Nat.mul_add_lt_is_or (i := 12) (b := c) h 1
  simpa using this.symm

theorem or_0x3000 (c : Nat) (h : c < 4096) : 0x3000 ||| c = 12288 + c := by
  have := Nat.mul_add_lt_is_or (i := 12) (b := c) h 3
  simpa using this.symm

set_option maxRecDepth 100000 in
theorem phy_dev_bits_small :
    ∀ p < 32, ∀ d < 32, ((p <<< 7) ||| (d <<< 2)) ||| 2 = p * 128 + d * 4 + 2 := by
  decide

/-- The PHY/device/turnaround bits of the control word, as a sum. -/
theorem phy_dev_bits (phy dev : Nat) :
    (((phy &&& 0x1f) <<< 7) ||| ((dev &&& 0x1f) <<< 2)) ||| 0x2
      = (phy % 32) * 128 + (dev % 32) * 4 + 2 := by
  rw [and_1f_eq_mod, and_1f_eq_mod]
  exact phy_dev_bits_small _ (Nat.mod_lt _ (by norm_num)) _ (Nat.mod_lt _ (by norm_num))

/-- The 32-bit word of an address half, as a sum. -/
theorem address_opcode_eq (phy dev reg : Nat) (hreg : reg < 65536) :
    ((((((phy &&& 0x1f) <<< 7) ||| ((dev &&& 0x1f) <<< 2)) ||| 0x2) % 65536) <<< 16 ||| reg)
        % 4294967296
      = ((phy % 32) * 128 + (dev % 32) * 4 + 2) * 65536 + reg := by
  rw [phy_dev_bits, shiftLeft_or_eq_add _ _ 16 (by simpa using hreg)]
  have hp := Nat.mod_lt phy (show 32 > 0 by norm_num)
  have hd := Nat.mod_lt dev (show 32 > 0 by norm_num)
  omega

/-- The 32-bit word of a value half, as a sum. -/
theorem value_opcode_eq (phy dev val : Nat) (mode : mdio_mode) (hval : val < 65536) :
    ((((if mode = MDIO_WRITE then 0x1000 else 0x3000) |||
          ((((phy &&& 0x1f) <<< 7) ||| ((dev &&& 0x1f) <<< 2)) ||| 0x2)) % 65536) <<< 16 ||| val)
        % 4294967296
      = ((if mode = MDIO_WRITE then 4096 else 12288)
          + (phy % 32) * 128 + (dev % 32) * 4 + 2) * 65536 + val := by
  have hp := Nat.mod_lt phy (show 32 > 0 by norm_num)
  have hd := Nat.mod_lt dev (show 32 > 0 by norm_num)
  rw [phy_dev_bits, shiftLeft_or_eq_add _ _ 16 (by simpa using hval)]
  split
  · rw [or_0x1000 _ (by omega)]; omega
  · rw [or_0x3000 _ (by omega)]; omega

/-! ## The stores of the codec -/

theorem store_same (out : Buf) (i v : Nat) : store out i v i = v % 256 := by
  simp [store]

theorem store_other (out : Buf) (i v j : Nat) (h : j ≠ i) : store out i v j = out j := by
  simp [store, h]

/-- What `_mdio_bytes_to_bytes` leaves in the buffer and returns, when the
cursor does not wrap. -/
theorem bytes_to_bytes_spec (out : Buf) (offset w : Nat) (h : offset + 4 < 65536) :
    (_mdio_bytes_to_bytes out offset w).2 = offset + 4 ∧
    (_mdio_bytes_to_bytes out offset w).1 offset = w / 2 ^ 24 % 256 ∧
    (_mdio_bytes_to_bytes out offset w).1 (offset + 1) = w / 2 ^ 16 % 256 ∧
    (_mdio_bytes_to_bytes out offset w).1 (offset + 2) = w / 2 ^ 8 % 256 ∧
    (_mdio_bytes_to_bytes out offset w).1 (offset + 3) = w % 256 ∧
    ∀ j, (j < offset ∨ offset + 4 ≤ j) → (_mdio_bytes_to_bytes out offset w).1 j = out j := by
  have e1 : (offset + 1) % 65536 = offset + 1 := Nat.mod_eq_of_lt (by omega)
  have e2 : (offset + 1 + 1) % 65536 = offset + 2 := Nat.mod_eq_of_lt (by omega)
  have e3 : (offset + 2 + 1) % 65536 = offset + 3 := Nat.mod_eq_of_lt (by omega)
  have e4 : (offset + 3 + 1) % 65536 = offset + 4 := Nat.mod_eq_of_lt (by omega)
  simp only [_mdio_bytes_to_bytes, offset_inc, e1, e2, e3, e4, store, and_ff_eq_mod,
    Nat.shiftRight_eq_div_pow]
  refine ⟨trivial, ?_, ?_, ?_, ?_, ?_⟩
  · simp
  · simp
  · simp
  · simp
  · intro j hj
    have h0 : j ≠ offset := by omega
    have h1 : j ≠ offset + 1 := by omega
    have h2 : j ≠ offset + 2 := by omega
    have h3 : j ≠ offset + 3 := by omega
    simp [h0, h1, h2, h3]

/-- A 32-bit word is the big-endian reading of its four bytes. -/
theorem be32_of_bytes (b : Buf) (offset w : Nat) (hw : w < 4294967296)
    (h0 : b offset = w / 2 ^ 24 % 256) (h1 : b (offset + 1) = w / 2 ^ 16 % 256)
    (h2 : b (offset + 2) = w / 2 ^ 8 % 256) (h3 : b (offset + 3) = w % 256) :
    be32 b offset = w := by
  simp only [be32, h0, h1, h2, h3]
  omega

/-! ## C1: the frame codec -/

theorem command_address_spec (out : Buf) (offset phy dev reg : Nat)
    (hreg : reg < 65536) (hoff : offset + 4 < 65536) :
    be32 (_mdio_command_address out offset phy dev reg).1 offset
      = ((phy % 32) * 128 + (dev % 32) * 4 + 2) * 65536 + reg ∧
    (_mdio_command_address out offset phy dev reg).2 = offset + 4 ∧
    ∀ j, (j < offset ∨ offset + 4 ≤ j) →
      (_mdio_command_address out offset phy dev reg).1 j = out j := by
  have hp := Nat.mod_lt phy (show 32 > 0 by norm_num)
  have hd := Nat.mod_lt dev (show 32 > 0 by norm_num)
  unfold _mdio_command_address
  simp only []
  rw [address_opcode_eq phy dev reg hreg]
  obtain ⟨h2, b0, b1, b2, b3, hrest⟩ :=
    bytes_to_bytes_spec out offset (((phy % 32) * 128 + (dev % 32) * 4 + 2) * 65536 + reg) hoff
  exact ⟨be32_of_bytes _ _ _ (by omega) b0 b1 b2 b3, h2, hrest⟩

theorem command_value_spec (out : Buf) (offset phy dev val : Nat) (mode : mdio_mode)
    (hval : val < 65536) (hoff : offset + 4 < 65536) :
    be32 (_mdio_command_value out offset phy dev mode val).1 offset
      = ((if mode = MDIO_WRITE then 4096 else 12288)
          + (phy % 32) * 128 + (dev % 32) * 4 + 2) * 65536 + val ∧
    (_mdio_command_value out offset phy dev mode val).2 = offset + 4 ∧
    ∀ j, (j < offset ∨ offset + 4 ≤ j) →
      (_mdio_command_value out offset phy dev mode val).1 j = out j := by
  have hp := Nat.mod_lt phy (show 32 > 0 by norm_num)
  have hd := Nat.mod_lt dev (show 32 > 0 by norm_num)
  unfold _mdio_command_value
  simp only []
  rw [value_opcode_eq phy dev val mode hval]
  obtain ⟨h2, b0, b1, b2, b3, hrest⟩ :=
    bytes_to_bytes_spec out offset (((if mode = MDIO_WRITE then 4096 else 12288)
          + (phy % 32) * 128 + (dev % 32) * 4 + 2) * 65536 + val) hoff
  refine ⟨be32_of_bytes _ _ _ ?_ b0 b1 b2 b3, h2, hrest⟩
  split <;> omega

/-- The control word `op | ((phy&0x1f)<<7) | ((dev&0x1f)<<2) | 0x2`, as a sum. -/
theorem control_word_eq (op phy dev : Nat) (hop : op = 0 ∨ op = 0x1000 ∨ op = 0x3000) :
    ((op ||| ((phy &&& 0x1f) <<< 7)) ||| ((dev &&& 0x1f) <<< 2)) ||| 0x2
      = op + (phy % 32) * 128 + (dev % 32) * 4 + 2 := by
  have hp := Nat.mod_lt phy (show 32 > 0 by norm_num)
  have hd := Nat.mod_lt dev (show 32 > 0 by norm_num)
  rw [Nat.or_assoc, Nat.or_assoc, ← Nat.or_assoc ((phy &&& 0x1f) <<< 7), phy_dev_bits]
  rcases hop with h | h | h
  · subst h; simp
  · subst h; rw [or_0x1000 _ (by omega)]; omega
  · subst h; rw [or_0x3000 _ (by omega)]; omega

/-- C1. The four bytes that `_mdio_command_address` and `_mdio_command_value`
write at the cursor are, read big-endian, the Clause-45 word `(cmd << 16) | x`
with `cmd = op | ((phy & 0x1f) << 7) | ((dev & 0x1f) << 2) | 0x2`: ST = 00,
OP = 00 for the address half, 01 for a WRITE value half and 11 for any other
value half, then `phy & 0x1f`, `dev & 0x1f`, TA = 10 and the 16 data bits. The
returned cursor is the input cursor plus 4, and no other byte is written. -/
theorem mdio_command_word (out : Buf) (offset phy dev x : Nat) (mode : mdio_mode)
    (hx : x < 65536) (hoff : offset + 4 < 65536) :
    (be32 (_mdio_command_address out offset phy dev x).1 offset
        = (((((0 ||| ((phy &&& 0x1f) <<< 7)) ||| ((dev &&& 0x1f) <<< 2)) ||| 0x2) <<< 16) ||| x) ∧
      be32 (_mdio_command_value out offset phy dev mode x).1 offset
        = ((((((if mode = MDIO_WRITE then 0x1000 else 0x3000) ||| ((phy &&& 0x1f) <<< 7))
              ||| ((dev &&& 0x1f) <<< 2)) ||| 0x2) <<< 16) ||| x)) ∧
    (clause45_fields (be32 (_mdio_command_address out offset phy dev x).1 offset)
        = (0, 0, phy &&& 0x1f, dev &&& 0x1f, 2, x) ∧
      clause45_fields (be32 (_mdio_command_value out offset phy dev mode x).1 offset)
        = (0, if mode = MDIO_WRITE then 1 else 3, phy &&& 0x1f, dev &&& 0x1f, 2, x)) ∧
    ((_mdio_command_address out offset phy dev x).2 = offset + 4 ∧
      (_mdio_command_value out offset phy dev mode x).2 = offset + 4) ∧
    ∀ j, (j < offset ∨ offset + 4 ≤ j) →
      (_mdio_command_address out offset phy dev x).1 j = out j ∧
      (_mdio_command_value out offset phy dev mode x).1 j = out j := by
  have hp := Nat.mod_lt phy (show 32 > 0 by norm_num)
  have hd := Nat.mod_lt dev (show 32 > 0 by norm_num)
  obtain ⟨wa, ca, ra⟩ := command_address_spec out offset phy dev x hx hoff
  obtain ⟨wv, cv, rv⟩ := command_value_spec out offset phy dev x mode hx hoff
  have hx16 : x < 2 ^ 16 := by simpa using hx
  refine ⟨⟨?_, ?_⟩, ⟨?_, ?_⟩, ⟨ca, cv⟩, fun j hj => ⟨ra j hj, rv j hj⟩⟩
  · rw [wa, control_word_eq 0 phy dev (Or.inl rfl), shiftLeft_or_eq_add _ _ 16 hx16]
    omega
  · rw [wv, control_word_eq _ phy dev (by split <;> simp), shiftLeft_or_eq_add _ _ 16 hx16]
    split <;> omega
  · rw [wa, and_1f_eq_mod, and_1f_eq_mod]
    simp only [clause45_fields, Prod.mk.injEq]
    omega
  · rw [wv, and_1f_eq_mod, and_1f_eq_mod]
    simp only [clause45_fields, Prod.mk.injEq]
    split <;> omega

/-- C1 at the value half of a read of PHY 0x1a, device 0x1d, written at cursor 12. -/
theorem mdio_command_word_witness :
    be32 (_mdio_command_value (fun _ => 0) 12 0x1a 0x1d MDIO_READ 0xffff).1 12
      = ((((((if MDIO_READ = MDIO_WRITE then 0x1000 else 0x3000) ||| ((0x1a &&& 0x1f) <<< 7))
              ||| ((0x1d &&& 0x1f) <<< 2)) ||| 0x2) <<< 16) ||| 0xffff) :=
  (mdio_command_word (fun _ => 0) 12 0x1a 0x1d 0xffff MDIO_READ (by decide) (by decide)).1.2

/-! ## The fast frame, byte by byte -/

theorem command_address_eq (out : Buf) (offset phy dev reg : Nat) :
    _mdio_command_address out offset phy dev reg
      = _mdio_bytes_to_bytes out offset (address_opcode phy dev reg) := rfl

theorem command_value_eq (out : Buf) (offset phy dev val : Nat) (mode : mdio_mode) :
    _mdio_command_value out offset phy dev mode val
      = _mdio_bytes_to_bytes out offset (value_opcode phy dev mode val) := rfl

/-- What `_prepare_mdio_fast` leaves in the buffer and returns, when the cursor
does not wrap. -/
theorem prepare_fast_spec (out : Buf) (offset : Nat) (ops : mdio_ops)
    (h : offset + 10 < 65536) :
    (_prepare_mdio_fast out offset ops).2 = offset + 10 ∧
    (∀ j, j < 10 → (_prepare_mdio_fast out offset ops).1 (offset + j)
      = fast_frame_bytes (address_opcode ops.phy ops.dev ops.reg)
          (value_opcode ops.phy ops.dev ops.mode ops.val) j) ∧
    ∀ i, (i < offset ∨ offset + 10 ≤ i) → (_prepare_mdio_fast out offset ops).1 i = out i := by
  have e1 : (offset + 1) % 65536 = offset + 1 := Nat.mod_eq_of_lt (by omega)
  have e6 : (offset + 5 + 1) % 65536 = offset + 6 := Nat.mod_eq_of_lt (by omega)
  unfold _prepare_mdio_fast
  simp only [_mdio_preamble_fast, offset_inc, e1, command_address_eq, command_value_eq]
  obtain ⟨a2, a0, a1, a2', a3, arest⟩ :=
    bytes_to_bytes_spec (store out offset 0xff) (offset + 1)
      (address_opcode ops.phy ops.dev ops.reg) (by omega)
  rw [a2]
  have e5 : offset + 1 + 4 = offset + 5 := by omega
  rw [e5, e6]
  obtain ⟨v2, v0, v1, v2', v3, vrest⟩ :=
    bytes_to_bytes_spec
      (store (_mdio_bytes_to_bytes (store out offset 0xff) (offset + 1)
        (address_opcode ops.phy ops.dev ops.reg)).1 (offset + 5) 0xff) (offset + 6)
      (value_opcode ops.phy ops.dev ops.mode ops.val) (by omega)
  refine ⟨by rw [v2], ?_, ?_⟩
  · intro j hj
    have key : ∀ i, i < offset + 6 →
        (_mdio_bytes_to_bytes
          (store (_mdio_bytes_to_bytes (store out offset 0xff) (offset + 1)
            (address_opcode ops.phy ops.dev ops.reg)).1 (offset + 5) 0xff) (offset + 6)
          (value_opcode ops.phy ops.dev ops.mode ops.val)).1 i
        = (store (_mdio_bytes_to_bytes (store out offset 0xff) (offset + 1)
            (address_opcode ops.phy ops.dev ops.reg)).1 (offset + 5) 0xff) i :=
      fun i hi => vrest i (Or.inl hi)
    have hj' : j = 0 ∨ j = 1 ∨ j = 2 ∨ j = 3 ∨ j = 4 ∨ j = 5 ∨ j = 6 ∨ j = 7 ∨ j = 8 ∨ j = 9 := by
      omega
    rcases hj' with h | h | h | h | h | h | h | h | h | h <;> subst h
    · rw [key _ (by omega), store_other _ _ _ _ (by omega), arest _ (Or.inl (by omega))]
      simp [store_same, fast_frame_bytes]
    · rw [key _ (by omega), store_other _ _ _ _ (by omega), a0]; rfl
    · rw [key _ (by omega), store_other _ _ _ _ (by omega),
        show offset + 2 = offset + 1 + 1 by omega, a1]; rfl
    · rw [key _ (by omega), store_other _ _ _ _ (by omega),
        show offset + 3 = offset + 1 + 2 by omega, a2']; rfl
    · rw [key _ (by omega), store_other _ _ _ _ (by omega),
        show offset + 4 = offset + 1 + 3 by omega, a3]; rfl
    · rw [key _ (by omega), store_same]; rfl
    · rw [v0]; rfl
    · rw [show offset + 7 = offset + 6 + 1 by omega, v1]; rfl
    · rw [show offset + 8 = offset + 6 + 2 by omega, v2']; rfl
    · rw [show offset + 9 = offset + 6 + 3 by omega, v3]; rfl
  · intro i hi
    rw [vrest i (by omega), store_other _ _ _ _ (by omega), arest i (by omega),
      store_other _ _ _ _ (by omega)]

/-- The bytes of a fast frame do not depend on the buffer or on the cursor. -/
theorem fast_frame_byte_eq (ops : mdio_ops) (j : Nat) (hj : j < 10) :
    fast_frame_byte ops j
      = fast_frame_bytes (address_opcode ops.phy ops.dev ops.reg)
          (value_opcode ops.phy ops.dev ops.mode ops.val) j := by
  have h := (prepare_fast_spec (fun _ => 0) 0 ops (by norm_num)).2.1 j hj
  simpa [fast_frame_byte] using h

/-- The loop of `init_mdio_queue` writes `n` consecutive frames and nothing else. -/
theorem init_mdio_queue_loop_spec (ops : mdio_ops) (n : Nat) :
    ∀ (out : Buf) (offset : Nat), offset + 10 * n < 65536 →
      (init_mdio_queue_loop ops n (out, offset)).2 = offset + 10 * n ∧
      (∀ k j, k < n → j < 10 →
        (init_mdio_queue_loop ops n (out, offset)).1 (offset + 10 * k + j)
          = fast_frame_byte ops j) ∧
      ∀ i, (i < offset ∨ offset + 10 * n ≤ i) →
        (init_mdio_queue_loop ops n (out, offset)).1 i = out i := by
  induction n with
  | zero =>
    intro out offset _
    simp [init_mdio_queue_loop]
  | succ n ih =>
    intro out offset h
    obtain ⟨p2, pin, pout⟩ := prepare_fast_spec out offset ops (by omega)
    have step : init_mdio_queue_loop ops (n + 1) (out, offset)
        = init_mdio_queue_loop ops n
            ((_prepare_mdio_fast out offset ops).1, offset + 10) := by
      rw [← p2]; rfl
    obtain ⟨i2, iin, iout⟩ := ih (_prepare_mdio_fast out offset ops).1 (offset + 10) (by omega)
    rw [step]
    refine ⟨by rw [i2]; omega, ?_, ?_⟩
    · intro k j hk hj
      cases k with
      | zero =>
        rw [iout _ (Or.inl (by omega))]
        simpa [fast_frame_byte_eq ops j hj] using pin j hj
      | succ k =>
        have := iin k j (by omega) hj
        rw [show offset + 10 * (k + 1) + j = offset + 10 + 10 * k + j by omega]
        exact this
    · intro i hi
      rw [iout i (by omega), pout i (by omega)]

/-! ## C3: the queue after `mdio_open` -/

theorem mdio_open_foutput (ctx : mdio_ctx) (opened : Option Nat)
    (hrun : ctx.is_running = false) :
    (mdio_open ctx opened).2.foutput
      = (init_mdio_queue_loop (init_ops ctx.phy_id) FAST_COMMAND_NUM (ctx.foutput, 0)).1 ∧
    (mdio_open ctx opened).2.findex = 0 ∧
    (mdio_open ctx opened).2.phy_id = ctx.phy_id := by
  cases opened <;> simp [mdio_open, hrun, init_mpsse, init_mdio_queue, init_ops]

/-- Every slot of a freshly opened queue holds the frame of `init_ops`. -/
theorem mdio_open_slot_bytes (ctx : mdio_ctx) (opened : Option Nat)
    (hrun : ctx.is_running = false) (k j : Nat) (hk : k < FAST_COMMAND_NUM) (hj : j < 10) :
    (mdio_open ctx opened).2.foutput (k * MDIO_FAST_COMMAND_SIZE + j)
      = fast_frame_byte (init_ops ctx.phy_id) j := by
  rw [(mdio_open_foutput ctx opened hrun).1]
  have h := (init_mdio_queue_loop_spec (init_ops ctx.phy_id) FAST_COMMAND_NUM (ctx.foutput) 0
    (by norm_num [FAST_COMMAND_NUM])).2.1 k j hk hj
  have e : k * MDIO_FAST_COMMAND_SIZE + j = 0 + 10 * k + j := by
    simp [MDIO_FAST_COMMAND_SIZE, FAST_PREAMBLE_SIZE, OP_SIZE]; omega
  rw [e]; exact h

/-- The explicit bytes of the frame of `init_ops`. -/
theorem init_frame_words (phy : Nat) :
    address_opcode phy MDIO_JTAG_DEV MDIO_JTAG_REG = ((phy % 32) * 128 + 126) * 65536 + 16 ∧
    value_opcode phy MDIO_JTAG_DEV MDIO_READ 0 = (12288 + (phy % 32) * 128 + 126) * 65536 := by
  constructor
  · have := address_opcode_eq phy MDIO_JTAG_DEV MDIO_JTAG_REG (by norm_num [MDIO_JTAG_REG])
    simpa [address_opcode, MDIO_JTAG_DEV, MDIO_JTAG_REG] using this
  · have := value_opcode_eq phy MDIO_JTAG_DEV 0 MDIO_READ (by norm_num)
    simpa [value_opcode, MDIO_JTAG_DEV, MDIO_READ, MDIO_WRITE, Nat.add_assoc] using this

/-- C3. After `mdio_open` on a context created by `mdio_init` with PHY id `p`,
every one of the 4096 slots of `foutput` (slot `k` starting at byte
`k * MDIO_FAST_COMMAND_SIZE`) is a complete fast frame, byte for byte the one
`_prepare_mdio_fast` encodes: a `0xff` preamble byte, the address half for
`(p, dev 0x1f, reg 0x10)`, a `0xff` preamble byte, and a value half that is a
read (OP = 11) for `(p, dev 0x1f)`; and `findex` is 0. -/
theorem mdio_open_slots (vid pid p target : Nat) (opened : Option Nat) (ctx : mdio_ctx)
    (k : Nat) (hinit : mdio_init true vid pid p target = some ctx)
    (hk : k < FAST_COMMAND_NUM) :
    (∀ j, j < MDIO_FAST_COMMAND_SIZE →
      (mdio_open ctx opened).2.foutput (k * MDIO_FAST_COMMAND_SIZE + j)
        = (_prepare_mdio_fast (fun _ => 0) 0
            { phy := p % 256, dev := 0x1f, reg := 0x10, mode := MDIO_READ, val := 0 }).1 j) ∧
    (mdio_open ctx opened).2.foutput (k * MDIO_FAST_COMMAND_SIZE) = 0xff ∧
    clause45_fields (be32 (mdio_open ctx opened).2.foutput (k * MDIO_FAST_COMMAND_SIZE + 1))
      = (0, 0, p &&& 0x1f, 0x1f, 2, 0x10) ∧
    (mdio_open ctx opened).2.foutput (k * MDIO_FAST_COMMAND_SIZE + 5) = 0xff ∧
    clause45_fields (be32 (mdio_open ctx opened).2.foutput (k * MDIO_FAST_COMMAND_SIZE + 6))
      = (0, 3, p &&& 0x1f, 0x1f, 2, 0) ∧
    (mdio_open ctx opened).2.findex = 0 := by
  have hctx : ctx.is_running = false ∧ ctx.phy_id = p % 256 := by
    simp only [mdio_init, if_true, Option.some.injEq] at hinit
    subst hinit
    exact ⟨rfl, rfl⟩
  obtain ⟨hrun, hphy⟩ := hctx
  have hb : ∀ j, j < 10 →
      (mdio_open ctx opened).2.foutput (k * MDIO_FAST_COMMAND_SIZE + j)
        = fast_frame_bytes (((p % 32) * 128 + 126) * 65536 + 16)
            ((12288 + (p % 32) * 128 + 126) * 65536) j := by
    intro j hj
    rw [mdio_open_slot_bytes ctx opened hrun k j hk hj, fast_frame_byte_eq _ j hj, hphy]
    have hw := init_frame_words (p % 256)
    have e : p % 256 % 32 = p % 32 := by omega
    rw [e] at hw
    simp only [init_ops]
    rw [hw.1, hw.2]
  have hp := Nat.mod_lt p (show 32 > 0 by norm_num)
  refine ⟨?_, ?_, ?_, ?_, ?_, (mdio_open_foutput ctx opened hrun).2.1⟩
  · intro j hj
    have hj' : j < 10 := by simpa [MDIO_FAST_COMMAND_SIZE, FAST_PREAMBLE_SIZE, OP_SIZE] using hj
    rw [mdio_open_slot_bytes ctx opened hrun k j hk hj', hphy]
    rfl
  · simpa [fast_frame_bytes] using hb 0 (by norm_num)
  · have h1 := hb 1 (by norm_num)
    have h2 := hb 2 (by norm_num)
    have h3 := hb 3 (by norm_num)
    have h4 := hb 4 (by norm_num)
    simp only [fast_frame_bytes] at h1 h2 h3 h4
    rw [be32_of_bytes _ _ (((p % 32) * 128 + 126) * 65536 + 16) (by omega) h1
      (by rw [Nat.add_assoc]; exact h2) (by rw [Nat.add_assoc]; exact h3)
      (by rw [Nat.add_assoc]; exact h4), and_1f_eq_mod]
    simp only [clause45_fields, Prod.mk.injEq]
    omega
  · simpa [fast_frame_bytes] using hb 5 (by norm_num)
  · have h1 := hb 6 (by norm_num)
    have h2 := hb 7 (by norm_num)
    have h3 := hb 8 (by norm_num)
    have h4 := hb 9 (by norm_num)
    simp only [fast_frame_bytes] at h1 h2 h3 h4
    rw [be32_of_bytes _ _ ((12288 + (p % 32) * 128 + 126) * 65536) (by omega) h1
      (by rw [Nat.add_assoc]; exact h2) (by rw [Nat.add_assoc]; exact h3)
      (by rw [Nat.add_assoc]; exact h4), and_1f_eq_mod]
    simp only [clause45_fields, Prod.mk.injEq]
    omega

/-- C3 at the last slot of the queue opened for the default PHY id `0x1a`. -/
theorem mdio_open_slots_witness :
    (mdio_open sample_ctx none).2.foutput (4095 * MDIO_FAST_COMMAND_SIZE + 5) = 0xff :=
  (mdio_open_slots 0x0403 0x6010 0x1a 0 none sample_ctx 4095 rfl (by decide)).2.2.2.1

/-! ## The store into the read-back queue -/

theorem fread_queue_store_foutput (ctx : mdio_ctx) (i index : Nat) :
    (fread_queue_store ctx i index).foutput = ctx.foutput := by
  unfold fread_queue_store; split_ifs <;> rfl

theorem fread_queue_store_finput (ctx : mdio_ctx) (i index : Nat) :
    (fread_queue_store ctx i index).finput = ctx.finput := by
  unfold fread_queue_store; split_ifs <;> rfl

theorem fread_queue_store_phy_id (ctx : mdio_ctx) (i index : Nat) :
    (fread_queue_store ctx i index).phy_id = ctx.phy_id := by
  unfold fread_queue_store; split_ifs <;> rfl

theorem fread_queue_store_findex (ctx : mdio_ctx) (i index : Nat) :
    (fread_queue_store ctx i index).findex = ctx.findex := by
  unfold fread_queue_store; split_ifs <;> rfl

theorem fread_queue_store_ftotal (ctx : mdio_ctx) (i index : Nat) :
    (fread_queue_store ctx i index).ftotal = ctx.ftotal := by
  unfold fread_queue_store; split_ifs <;> rfl

theorem fread_queue_store_fread_cnt (ctx : mdio_ctx) (i index : Nat) :
    (fread_queue_store ctx i index).fread_cnt = ctx.fread_cnt := by
  unfold fread_queue_store; split_ifs <;> rfl

/-- A store below `FAST_COMMAND_NUM` is a store to the array and to nothing
else. -/
theorem fread_queue_store_inside (ctx : mdio_ctx) (i index : Nat)
    (h : i < FAST_COMMAND_NUM) :
    fread_queue_store ctx i index
      = { ctx with fread_queue := fun j => if j = i then index else ctx.fread_queue j } := by
  unfold fread_queue_store
  rw [if_pos h]

/-- A store at `FAST_COMMAND_NUM` or beyond leaves the array as it is. -/
theorem fread_queue_store_outside (ctx : mdio_ctx) (i index : Nat)
    (h : FAST_COMMAND_NUM ≤ i) :
    (fread_queue_store ctx i index).fread_queue = ctx.fread_queue := by
  unfold fread_queue_store
  rw [if_neg (by omega)]
  split_ifs <;> rfl

/-- A store at one of the eight entries after the array lands in `sinput`. -/
theorem fread_queue_store_sinput (ctx : mdio_ctx) (i index : Nat)
    (h1 : FAST_COMMAND_NUM ≤ i) (h2 : i < FAST_COMMAND_NUM + 8) :
    fread_queue_store ctx i index
      = { ctx with
          sinput :=
            store (store ctx.sinput (2 * (i - FAST_COMMAND_NUM)) (index &&& 0xff))
              (2 * (i - FAST_COMMAND_NUM) + 1) ((index >>> 8) &&& 0xff) } := by
  unfold fread_queue_store
  rw [if_neg (by omega), if_pos (by simp only [MDIO_COMMAND_SIZE, PREAMBLE_SIZE, OP_SIZE]; omega)]

/-- A store at one of the next eight entries lands in `soutput`. -/
theorem fread_queue_store_soutput (ctx : mdio_ctx) (i index : Nat)
    (h1 : FAST_COMMAND_NUM + 8 ≤ i) (h2 : i < FAST_COMMAND_NUM + 16) :
    fread_queue_store ctx i index
      = { ctx with
          soutput :=
            store (store ctx.soutput (2 * (i - FAST_COMMAND_NUM - 8)) (index &&& 0xff))
              (2 * (i - FAST_COMMAND_NUM - 8) + 1) ((index >>> 8) &&& 0xff) } := by
  unfold fread_queue_store
  rw [if_neg (by omega),
    if_neg (by simp only [MDIO_COMMAND_SIZE, PREAMBLE_SIZE, OP_SIZE]; omega),
    if_pos (by simp only [MDIO_COMMAND_SIZE, PREAMBLE_SIZE, OP_SIZE]; omega)]
  rfl

/-- An accepted write, as a whole. -/
theorem mdio_fast_add_write (ctx : mdio_ctx) (val : Nat) (hk : ctx.findex < FAST_COMMAND_NUM) :
    mdio_fast_add ctx MDIO_WRITE val
      = ((ctx.findex : Int),
          { ctx with
            foutput := _setup_mdio_fast ctx.foutput (10 * ctx.findex)
              { phy := 0, dev := 0, reg := 0, val := val, mode := MDIO_WRITE }
            findex := ctx.findex + 1 }) := by
  have hk' : ¬ ctx.findex ≥ FAST_COMMAND_NUM := by omega
  have e : ctx.findex * MDIO_FAST_COMMAND_SIZE % 65536 = 10 * ctx.findex := by
    simp only [MDIO_FAST_COMMAND_SIZE, FAST_PREAMBLE_SIZE, OP_SIZE]
    simp only [FAST_COMMAND_NUM] at hk
    omega
  have e1 : (ctx.findex + 1) % 65536 = ctx.findex + 1 := by
    simp only [FAST_COMMAND_NUM] at hk; omega
  unfold mdio_fast_add
  simp only [hk', if_false, e, e1, ne_eq, not_true_eq_false]

/-- An accepted add that is not a write, as a whole, wherever its store
lands. -/
theorem mdio_fast_add_not_write (ctx : mdio_ctx) (mode : mdio_mode) (val : Nat)
    (hk : ctx.findex < FAST_COMMAND_NUM) (hm : mode ≠ MDIO_WRITE) :
    mdio_fast_add ctx mode val
      = ((ctx.findex : Int),
          { fread_queue_store
              { ctx with
                foutput := _setup_mdio_fast ctx.foutput (10 * ctx.findex)
                  { phy := 0, dev := 0, reg := 0, val := val, mode := mode } }
              ctx.fread_cnt ctx.findex with
            fread_cnt := (ctx.fread_cnt + 1) % 65536
            findex := ctx.findex + 1 }) := by
  have hk' : ¬ ctx.findex ≥ FAST_COMMAND_NUM := by omega
  have e : ctx.findex * MDIO_FAST_COMMAND_SIZE % 65536 = 10 * ctx.findex := by
    simp only [MDIO_FAST_COMMAND_SIZE, FAST_PREAMBLE_SIZE, OP_SIZE]
    simp only [FAST_COMMAND_NUM] at hk
    omega
  have e1 : (ctx.findex + 1) % 65536 = ctx.findex + 1 := by
    simp only [FAST_COMMAND_NUM] at hk; omega
  unfold mdio_fast_add
  simp only [hk', if_false, e, e1, ne_eq, hm, not_false_eq_true, if_true]

/-- An accepted add that is not a write, with the read-back counter inside the
array, as a whole. -/
theorem mdio_fast_add_read (ctx : mdio_ctx) (mode : mdio_mode) (val : Nat)
    (hm : mode ≠ MDIO_WRITE) (hk : ctx.findex < FAST_COMMAND_NUM)
    (hcnt : ctx.fread_cnt < FAST_COMMAND_NUM) :
    mdio_fast_add ctx mode val
      = ((ctx.findex : Int),
          { ctx with
            foutput := _setup_mdio_fast ctx.foutput (10 * ctx.findex)
              { phy := 0, dev := 0, reg := 0, val := val, mode := mode }
            fread_queue := fun j => if j = ctx.fread_cnt then ctx.findex else ctx.fread_queue j
            fread_cnt := (ctx.fread_cnt + 1) % 65536
            findex := ctx.findex + 1 }) := by
  rw [mdio_fast_add_not_write ctx mode val hk hm, fread_queue_store_inside _ _ _ hcnt]

/-- What no `mdio_fast_add` touches. -/
theorem mdio_fast_add_kept (ctx : mdio_ctx) (mode : mdio_mode) (val : Nat) :
    (mdio_fast_add ctx mode val).2.ftotal = ctx.ftotal ∧
    (mdio_fast_add ctx mode val).2.phy_id = ctx.phy_id ∧
    (mdio_fast_add ctx mode val).2.finput = ctx.finput := by
  by_cases hk : ctx.findex < FAST_COMMAND_NUM
  · by_cases hm : mode = MDIO_WRITE
    · subst hm
      rw [mdio_fast_add_write ctx val hk]
      exact ⟨rfl, rfl, rfl⟩
    · rw [mdio_fast_add_not_write ctx mode val hk hm]
      exact ⟨fread_queue_store_ftotal _ _ _, fread_queue_store_phy_id _ _ _,
        fread_queue_store_finput _ _ _⟩
  · have hk' : ctx.findex ≥ FAST_COMMAND_NUM := by omega
    simp only [mdio_fast_add, hk', if_true]
    exact ⟨trivial, trivial, trivial⟩

/-! ## C2: patching the value half is re-encoding the frame -/

theorem address_opcode_sum (phy dev reg : Nat) (hreg : reg < 65536) :
    address_opcode phy dev reg = ((phy % 32) * 128 + (dev % 32) * 4 + 2) * 65536 + reg :=
  address_opcode_eq phy dev reg hreg

theorem value_opcode_sum (phy dev val : Nat) (mode : mdio_mode) (hval : val < 65536) :
    value_opcode phy dev mode val
      = ((if mode = MDIO_WRITE then 4096 else 12288)
          + (phy % 32) * 128 + (dev % 32) * 4 + 2) * 65536 + val :=
  value_opcode_eq phy dev val mode hval

/-- What `_setup_mdio_fast` leaves in the buffer, when the cursor does not wrap. -/
theorem setup_fast_spec (out : Buf) (offset : Nat) (ops : mdio_ops)
    (h : offset + 10 < 65536) :
    _setup_mdio_fast out offset ops (offset + 6)
      = (((out (offset + 6) &&& 0xffffff0f) % 256)
          ||| (if ops.mode = MDIO_WRITE then 0x10 else 0x30)) % 256 ∧
    _setup_mdio_fast out offset ops (offset + 8)
      = (if ops.mode = MDIO_WRITE then ops.val else 0xffff) / 256 % 256 ∧
    _setup_mdio_fast out offset ops (offset + 9)
      = (if ops.mode = MDIO_WRITE then ops.val else 0xffff) % 256 ∧
    ∀ i, i ≠ offset + 6 → i ≠ offset + 8 → i ≠ offset + 9 →
      _setup_mdio_fast out offset ops i = out i := by
  have e : (offset + FAST_PREAMBLE_SIZE + OP_SIZE + FAST_PREAMBLE_SIZE) % 65536 = offset + 6 := by
    simp only [FAST_PREAMBLE_SIZE, OP_SIZE]
    exact Nat.mod_eq_of_lt (by omega)
  have n1 : offset + 6 + 2 = offset + 8 := by omega
  have n2 : offset + 6 + 3 = offset + 9 := by omega
  have d1 : offset + 8 ≠ offset + 9 := by omega
  have d2 : offset + 6 ≠ offset + 9 := by omega
  have d3 : offset + 6 ≠ offset + 8 := by omega
  unfold _setup_mdio_fast
  simp only [e, Nat.add_zero, and_ff_eq_mod, Nat.shiftRight_eq_div_pow, n1, n2]
  by_cases hm : ops.mode = MDIO_WRITE
  · simp only [hm, if_true, store, d1, d2, d3, d1.symm, d2.symm, d3.symm, if_false, Nat.mod_mod]
    refine ⟨trivial, trivial, trivial, ?_⟩
    intro i h6 h8 h9
    simp only [h6, h8, h9, if_false]
  · simp only [hm, if_true, store, d1, d2, d3, d1.symm, d2.symm, d3.symm, if_false, Nat.mod_mod]
    refine ⟨trivial, trivial, trivial, ?_⟩
    intro i h6 h8 h9
    simp only [h6, h8, h9, if_false]

theorem op_nibble_patch :
    ∀ h, h < 16 →
      ((((0x10 + h) &&& 0xffffff0f) % 256) ||| 0x10) % 256 = 0x10 + h ∧
      ((((0x30 + h) &&& 0xffffff0f) % 256) ||| 0x10) % 256 = 0x10 + h ∧
      ((((0x10 + h) &&& 0xffffff0f) % 256) ||| 0x30) % 256 = 0x30 + h ∧
      ((((0x30 + h) &&& 0xffffff0f) % 256) ||| 0x30) % 256 = 0x30 + h := by
  decide

/-- The byte `mdio_fast_add` leaves at the head of the value half. -/
theorem op_byte_patch (b h : Nat) (mode : mdio_mode) (hh : h < 16)
    (hb : b = 0x10 + h ∨ b = 0x30 + h) :
    (((b &&& 0xffffff0f) % 256) ||| (if mode = MDIO_WRITE then 0x10 else 0x30)) % 256
      = (if mode = MDIO_WRITE then 0x10 else 0x30) + h := by
  obtain ⟨p1, p2, p3, p4⟩ := op_nibble_patch h hh
  rcases hb with hb | hb <;> subst hb <;> split <;> assumption

theorem mdio_fast_add_foutput (ctx : mdio_ctx) (mode : mdio_mode) (val : Nat)
    (hk : ctx.findex < FAST_COMMAND_NUM) :
    (mdio_fast_add ctx mode val).2.foutput
      = _setup_mdio_fast ctx.foutput (10 * ctx.findex)
          { phy := 0, dev := 0, reg := 0, val := val, mode := mode } ∧
    (mdio_fast_add ctx mode val).2.phy_id = ctx.phy_id := by
  by_cases hm : mode = MDIO_WRITE
  · subst hm
    rw [mdio_fast_add_write ctx val hk]
    exact ⟨rfl, rfl⟩
  · rw [mdio_fast_add_not_write ctx mode val hk hm]
    exact ⟨fread_queue_store_foutput _ _ _, fread_queue_store_phy_id _ _ _⟩

theorem slots_prepared_open (ctx : mdio_ctx) (opened : Option Nat)
    (hrun : ctx.is_running = false) : slots_prepared (mdio_open ctx opened).2 := by
  intro k hk
  have hphy := (mdio_open_foutput ctx opened hrun).2.2
  have hb : ∀ j, j < 10 → (mdio_open ctx opened).2.foutput (10 * k + j)
      = fast_frame_byte (init_ops ctx.phy_id) j := by
    intro j hj
    have := mdio_open_slot_bytes ctx opened hrun k j hk hj
    have e : k * MDIO_FAST_COMMAND_SIZE + j = 10 * k + j := by
      simp [MDIO_FAST_COMMAND_SIZE, FAST_PREAMBLE_SIZE, OP_SIZE]; omega
    rw [e] at this; exact this
  rw [hphy]
  refine ⟨fun j hj _ _ _ => hb j hj, Or.inr ?_⟩
  rw [hb 6 (by norm_num), fast_frame_byte_eq _ 6 (by norm_num)]
  simp only [init_ops, fast_frame_bytes, (init_frame_words ctx.phy_id).2]
  have hp := Nat.mod_lt ctx.phy_id (show 32 > 0 by norm_num)
  omega

theorem slots_prepared_add (ctx : mdio_ctx) (mode : mdio_mode) (val : Nat)
    (hinv : slots_prepared ctx) : slots_prepared (mdio_fast_add ctx mode val).2 := by
  by_cases hk : ctx.findex < FAST_COMMAND_NUM
  · obtain ⟨hf, hp⟩ := mdio_fast_add_foutput ctx mode val hk
    have hk1 : 10 * ctx.findex + 10 < 65536 := by
      simp only [FAST_COMMAND_NUM] at hk; omega
    obtain ⟨s6, _, _, srest⟩ := setup_fast_spec ctx.foutput (10 * ctx.findex)
      { phy := 0, dev := 0, reg := 0, val := val, mode := mode } hk1
    have hh : ctx.phy_id % 32 / 2 < 16 := by omega
    intro k hkk
    obtain ⟨ia, ib⟩ := hinv k hkk
    rw [hf, hp]
    constructor
    · intro j hj h6 h8 h9
      rw [srest _ (by omega) (by omega) (by omega)]
      exact ia j hj h6 h8 h9
    · by_cases hkeq : k = ctx.findex
      · subst hkeq
        rw [s6, op_byte_patch _ _ mode hh ib]
        split
        · exact Or.inl rfl
        · exact Or.inr rfl
      · rw [srest _ (by omega) (by omega) (by omega)]
        exact ib
  · have hk' : ctx.findex ≥ FAST_COMMAND_NUM := by omega
    simp only [mdio_fast_add, hk', if_true]
    exact hinv

theorem slots_prepared_apply (ctx : mdio_ctx) (call : fast_call)
    (hinv : slots_prepared ctx) : slots_prepared (fast_call.apply ctx call) := by
  cases call with
  | add mode val => exact slots_prepared_add ctx mode val hinv
  | flush res captured =>
    have : (mdio_fast_flush ctx res captured).2.foutput = ctx.foutput ∧
        (mdio_fast_flush ctx res captured).2.phy_id = ctx.phy_id := by
      unfold mdio_fast_flush
      split <;> exact ⟨rfl, rfl⟩
    intro k hk
    simp only [fast_call.apply, this.1, this.2]
    exact hinv k hk
  | clean => exact hinv

theorem slots_prepared_run (calls : List fast_call) :
    ∀ ctx, slots_prepared ctx → slots_prepared (run_calls ctx calls) := by
  induction calls with
  | nil => intro ctx h; exact h
  | cons call rest ih =>
    intro ctx h
    exact ih _ (slots_prepared_apply ctx call h)

/-- The slot that `mdio_fast_add` patches, byte by byte. -/
theorem mdio_fast_add_slot_bytes (c : mdio_ctx) (mode : mdio_mode) (val : Nat)
    (hinv : slots_prepared c) (hk : c.findex < FAST_COMMAND_NUM) (hval : val < 65536)
    (j : Nat) (hj : j < 10) :
    (mdio_fast_add c mode val).2.foutput (10 * c.findex + j)
      = fast_frame_bytes (address_opcode c.phy_id MDIO_JTAG_DEV MDIO_JTAG_REG)
          (value_opcode c.phy_id MDIO_JTAG_DEV mode (if mode = MDIO_WRITE then val else 0xffff))
          j := by
  obtain ⟨hf, _⟩ := mdio_fast_add_foutput c mode val hk
  have hk1 : 10 * c.findex + 10 < 65536 := by
    simp only [FAST_COMMAND_NUM] at hk; omega
  obtain ⟨s6, s8, s9, srest⟩ := setup_fast_spec c.foutput (10 * c.findex)
    { phy := 0, dev := 0, reg := 0, val := val, mode := mode } hk1
  obtain ⟨ia, ib⟩ := hinv c.findex hk
  have hh : c.phy_id % 32 / 2 < 16 := by omega
  have hv : (if mode = MDIO_WRITE then val else 0xffff) < 65536 := by split <;> omega
  have hV := value_opcode_sum c.phy_id MDIO_JTAG_DEV _ mode hv
  have hV0 := (init_frame_words c.phy_id).2
  have hp := Nat.mod_lt c.phy_id (show 32 > 0 by norm_num)
  simp only [MDIO_JTAG_DEV] at hV hV0
  rw [hf]
  have old : ∀ j, j < 10 → j ≠ 6 → j ≠ 8 → j ≠ 9 →
      _setup_mdio_fast c.foutput (10 * c.findex)
          { phy := 0, dev := 0, reg := 0, val := val, mode := mode } (10 * c.findex + j)
        = fast_frame_bytes (address_opcode c.phy_id MDIO_JTAG_DEV MDIO_JTAG_REG)
            (value_opcode c.phy_id MDIO_JTAG_DEV MDIO_READ 0) j := by
    intro j hj h6 h8 h9
    rw [srest _ (by omega) (by omega) (by omega), ia j hj h6 h8 h9, fast_frame_byte_eq _ j hj]
    rfl
  have hj' : j = 0 ∨ j = 1 ∨ j = 2 ∨ j = 3 ∨ j = 4 ∨ j = 5 ∨ j = 6 ∨ j = 7 ∨ j = 8 ∨ j = 9 := by
    omega
  rcases hj' with h | h | h | h | h | h | h | h | h | h <;> subst h
  · rw [old _ hj (by norm_num) (by norm_num) (by norm_num)]; simp only [fast_frame_bytes]
  · rw [old _ hj (by norm_num) (by norm_num) (by norm_num)]; simp only [fast_frame_bytes]
  · rw [old _ hj (by norm_num) (by norm_num) (by norm_num)]; simp only [fast_frame_bytes]
  · rw [old _ hj (by norm_num) (by norm_num) (by norm_num)]; simp only [fast_frame_bytes]
  · rw [old _ hj (by norm_num) (by norm_num) (by norm_num)]; simp only [fast_frame_bytes]
  · rw [old _ hj (by norm_num) (by norm_num) (by norm_num)]; simp only [fast_frame_bytes]
  · rw [s6, op_byte_patch _ _ mode hh ib]
    simp only [fast_frame_bytes, MDIO_JTAG_DEV, hV]
    split <;> omega
  · rw [old _ hj (by norm_num) (by norm_num) (by norm_num)]
    simp only [fast_frame_bytes, MDIO_JTAG_DEV, hV, hV0]
    split <;> omega
  · rw [s8]
    simp only [fast_frame_bytes, MDIO_JTAG_DEV, hV]
    split <;> omega
  · rw [s9]
    simp only [fast_frame_bytes, MDIO_JTAG_DEV, hV]
    split <;> omega

/-- C2. On an opened context, after any sequence of `mdio_fast_add`,
`mdio_fast_flush` and `mdio_fast_clean` calls, a successful
`mdio_fast_add(mode, val)` into slot `k = findex < 4096` leaves the 10 bytes of
slot `k` equal to the complete fast frame that `_prepare_mdio_fast` encodes for
`(phy_id, dev 0x1f, reg 0x10, mode, v)`, with `v = val` for WRITE and `0xffff`
otherwise: the patched buffer is the buffer obtained by re-encoding the whole
frame in place, and every byte of `foutput` outside bytes `10k+6 .. 10k+9` is
unchanged. -/
theorem mdio_fast_add_reencodes (ctx0 c : mdio_ctx) (opened : Option Nat)
    (calls : List fast_call) (mode : mdio_mode) (val : Nat)
    (hrun : ctx0.is_running = false)
    (hc : c = run_calls (mdio_open ctx0 opened).2 calls)
    (hk : c.findex < FAST_COMMAND_NUM) (hval : val < 65536) :
    (mdio_fast_add c mode val).1 = (c.findex : Int) ∧
    (∀ j, j < MDIO_FAST_COMMAND_SIZE →
      (mdio_fast_add c mode val).2.foutput (c.findex * MDIO_FAST_COMMAND_SIZE + j)
        = (_prepare_mdio_fast (fun _ => 0) 0
            { phy := c.phy_id, dev := MDIO_JTAG_DEV, reg := MDIO_JTAG_REG,
              val := if mode = MDIO_WRITE then val else 0xffff, mode := mode }).1 j) ∧
    (mdio_fast_add c mode val).2.foutput
      = (_prepare_mdio_fast c.foutput (c.findex * MDIO_FAST_COMMAND_SIZE)
          { phy := c.phy_id, dev := MDIO_JTAG_DEV, reg := MDIO_JTAG_REG,
            val := if mode = MDIO_WRITE then val else 0xffff, mode := mode }).1 ∧
    ∀ i, (i < c.findex * MDIO_FAST_COMMAND_SIZE + 6 ∨ c.findex * MDIO_FAST_COMMAND_SIZE + 9 < i) →
      (mdio_fast_add c mode val).2.foutput i = c.foutput i := by
  have hinv : slots_prepared c := by
    rw [hc]
    exact slots_prepared_run calls _ (slots_prepared_open ctx0 opened hrun)
  have hsz : MDIO_FAST_COMMAND_SIZE = 10 := rfl
  have hmul : c.findex * MDIO_FAST_COMMAND_SIZE = 10 * c.findex := by rw [hsz]; omega
  have hk1 : 10 * c.findex + 10 < 65536 := by
    simp only [FAST_COMMAND_NUM] at hk; omega
  -- the frame the full encoder produces for these arguments
  obtain ⟨_, pin, pout⟩ := prepare_fast_spec c.foutput (10 * c.findex)
    { phy := c.phy_id, dev := MDIO_JTAG_DEV, reg := MDIO_JTAG_REG,
      val := if mode = MDIO_WRITE then val else 0xffff, mode := mode } hk1
  obtain ⟨hf, _⟩ := mdio_fast_add_foutput c mode val hk
  obtain ⟨_, _, _, srest⟩ := setup_fast_spec c.foutput (10 * c.findex)
    { phy := 0, dev := 0, reg := 0, val := val, mode := mode } hk1
  rw [hmul, hsz]
  refine ⟨?_, ?_, ?_, ?_⟩
  · have hk' : ¬ c.findex ≥ FAST_COMMAND_NUM := by omega
    unfold mdio_fast_add
    simp only [hk', if_false]
  · intro j hj
    rw [mdio_fast_add_slot_bytes c mode val hinv hk hval j hj]
    have := fast_frame_byte_eq
      { phy := c.phy_id, dev := MDIO_JTAG_DEV, reg := MDIO_JTAG_REG,
        val := if mode = MDIO_WRITE then val else 0xffff, mode := mode } j hj
    simp only [fast_frame_byte] at this
    rw [this]
  · funext i
    by_cases hi : 10 * c.findex ≤ i ∧ i < 10 * c.findex + 10
    · obtain ⟨j, rfl⟩ : ∃ j, i = 10 * c.findex + j := ⟨i - 10 * c.findex, by omega⟩
      have hj : j < 10 := by omega
      rw [mdio_fast_add_slot_bytes c mode val hinv hk hval j hj, pin j hj]
    · rw [pout i (by omega), hf, srest i (by omega) (by omega) (by omega)]
  · intro i hi
    rw [hf, srest i (by omega) (by omega) (by omega)]

/-- C2 on the freshly opened sample context: the first add of a write of
`0x000a` fills slot 0 through the patch of its last four bytes. -/
theorem mdio_fast_add_reencodes_witness :
    (mdio_fast_add (run_calls (mdio_open sample_ctx none).2 []) MDIO_WRITE 0x000a).1
      = ((run_calls (mdio_open sample_ctx none).2 []).findex : Int) :=
  (mdio_fast_add_reencodes sample_ctx (run_calls (mdio_open sample_ctx none).2 []) none []
    MDIO_WRITE 0x000a rfl rfl (by decide) (by decide)).1

/-! ## Steps of the fast queue -/

/-- The counters after one successful `mdio_fast_add`. -/
theorem mdio_fast_add_counts (ctx : mdio_ctx) (mode : mdio_mode) (val : Nat)
    (hk : ctx.findex < FAST_COMMAND_NUM) :
    (mdio_fast_add ctx mode val).1 = (ctx.findex : Int) ∧
    (mdio_fast_add ctx mode val).2.findex = ctx.findex + 1 ∧
    (mdio_fast_add ctx mode val).2.ftotal = ctx.ftotal ∧
    (mode ≠ MDIO_WRITE → ctx.fread_cnt < 65535 →
      (mdio_fast_add ctx mode val).2.fread_cnt = ctx.fread_cnt + 1) ∧
    (mode = MDIO_WRITE →
      (mdio_fast_add ctx mode val).2.fread_cnt = ctx.fread_cnt) := by
  by_cases hm : mode = MDIO_WRITE
  · subst hm
    rw [mdio_fast_add_write ctx val hk]
    exact ⟨rfl, rfl, rfl, fun h => absurd rfl h, fun _ => rfl⟩
  · rw [mdio_fast_add_not_write ctx mode val hk hm]
    exact ⟨rfl, rfl, fread_queue_store_ftotal _ _ _,
      fun _ hcnt => Nat.mod_eq_of_lt (by omega), fun h => absurd h hm⟩

/-- One successful `mdio_fast_add` with the read-back counter inside the
array, field by field. -/
theorem mdio_fast_add_step (ctx : mdio_ctx) (mode : mdio_mode) (val : Nat)
    (hk : ctx.findex < FAST_COMMAND_NUM) (hcnt : ctx.fread_cnt < FAST_COMMAND_NUM) :
    (mdio_fast_add ctx mode val).1 = (ctx.findex : Int) ∧
    (mdio_fast_add ctx mode val).2.findex = ctx.findex + 1 ∧
    (mdio_fast_add ctx mode val).2.ftotal = ctx.ftotal ∧
    (mode ≠ MDIO_WRITE →
      (mdio_fast_add ctx mode val).2.fread_queue ctx.fread_cnt = ctx.findex ∧
      (∀ j, j ≠ ctx.fread_cnt →
        (mdio_fast_add ctx mode val).2.fread_queue j = ctx.fread_queue j) ∧
      (mdio_fast_add ctx mode val).2.fread_cnt = ctx.fread_cnt + 1) ∧
    (mode = MDIO_WRITE →
      (mdio_fast_add ctx mode val).2.fread_cnt = ctx.fread_cnt ∧
      (mdio_fast_add ctx mode val).2.fread_queue = ctx.fread_queue) := by
  have e2 : (ctx.fread_cnt + 1) % 65536 = ctx.fread_cnt + 1 := by
    simp only [FAST_COMMAND_NUM] at hcnt; omega
  by_cases hm : mode = MDIO_WRITE
  · subst hm
    rw [mdio_fast_add_write ctx val hk]
    exact ⟨rfl, rfl, rfl, fun h => absurd rfl h, fun _ => ⟨rfl, rfl⟩⟩
  · rw [mdio_fast_add_read ctx mode val hm hk hcnt]
    refine ⟨rfl, rfl, rfl, fun _ => ⟨?_, ?_, e2⟩, fun h => absurd h hm⟩
    · simp only [if_true]
    · intro j hj
      simp only [hj, if_false]

/-- A run of `n` reads added while the queue and the read-back array have room
for them: the counters grow by `n`, and nothing outside the array and the
fast output buffer is touched. -/
theorem run_reads_inside (val : Nat) (n : Nat) :
    ∀ ctx : mdio_ctx, ctx.findex + n ≤ FAST_COMMAND_NUM →
      ctx.fread_cnt + n ≤ FAST_COMMAND_NUM →
      (run_calls ctx (List.replicate n (fast_call.add MDIO_READ val))).findex
        = ctx.findex + n ∧
      (run_calls ctx (List.replicate n (fast_call.add MDIO_READ val))).fread_cnt
        = ctx.fread_cnt + n ∧
      (run_calls ctx (List.replicate n (fast_call.add MDIO_READ val))).sinput = ctx.sinput ∧
      (run_calls ctx (List.replicate n (fast_call.add MDIO_READ val))).soutput
        = ctx.soutput ∧
      (run_calls ctx (List.replicate n (fast_call.add MDIO_READ val))).overrun
        = ctx.overrun ∧
      (∀ j, ctx.fread_cnt + n ≤ j →
        (run_calls ctx (List.replicate n (fast_call.add MDIO_READ val))).fread_queue j
          = ctx.fread_queue j) := by
  induction n with
  | zero =>
    intro ctx _ _
    exact ⟨rfl, rfl, rfl, rfl, rfl, fun _ _ => rfl⟩
  | succ n ih =>
    intro ctx hf hc
    have hk : ctx.findex < FAST_COMMAND_NUM := by omega
    have hcnt : ctx.fread_cnt < FAST_COMMAND_NUM := by omega
    have e2 : (ctx.fread_cnt + 1) % 65536 = ctx.fread_cnt + 1 := by
      simp only [FAST_COMMAND_NUM] at hcnt; omega
    have hstep := mdio_fast_add_read ctx MDIO_READ val (by decide) hk hcnt
    have hrun : run_calls ctx (List.replicate (n + 1) (fast_call.add MDIO_READ val))
        = run_calls (mdio_fast_add ctx MDIO_READ val).2
            (List.replicate n (fast_call.add MDIO_READ val)) := rfl
    rw [hrun]
    obtain ⟨i1, i2, i3, i4, i5, i6⟩ := ih (mdio_fast_add ctx MDIO_READ val).2
      (by rw [hstep]; show ctx.findex + 1 + n ≤ FAST_COMMAND_NUM; omega)
      (by rw [hstep]; show (ctx.fread_cnt + 1) % 65536 + n ≤ FAST_COMMAND_NUM; omega)
    refine ⟨?_, ?_, ?_, ?_, ?_, ?_⟩
    · rw [i1, hstep]
      show ctx.findex + 1 + n = _
      omega
    · rw [i2, hstep]
      show (ctx.fread_cnt + 1) % 65536 + n = _
      omega
    · rw [i3, hstep]
    · rw [i4, hstep]
    · rw [i5, hstep]
    · intro j hj
      rw [i6 j (by rw [hstep]; show (ctx.fread_cnt + 1) % 65536 + n ≤ j; omega), hstep]
      show (if j = ctx.fread_cnt then ctx.findex else ctx.fread_queue j) = _
      rw [if_neg (by omega)]

/-- A run of `n` reads added with the read-back counter on the eight entries
after the array: the counters grow by `n`, the stores land in `sinput`, and
`soutput` is not touched. -/
theorem run_reads_sinput (val : Nat) (n : Nat) :
    ∀ ctx : mdio_ctx, ctx.findex + n ≤ FAST_COMMAND_NUM →
      FAST_COMMAND_NUM ≤ ctx.fread_cnt → ctx.fread_cnt + n ≤ FAST_COMMAND_NUM + 8 →
      (run_calls ctx (List.replicate n (fast_call.add MDIO_READ val))).findex
        = ctx.findex + n ∧
      (run_calls ctx (List.replicate n (fast_call.add MDIO_READ val))).fread_cnt
        = ctx.fread_cnt + n ∧
      (run_calls ctx (List.replicate n (fast_call.add MDIO_READ val))).soutput
        = ctx.soutput := by
  induction n with
  | zero =>
    intro ctx _ _ _
    exact ⟨rfl, rfl, rfl⟩
  | succ n ih =>
    intro ctx hf h1 h2
    have hk : ctx.findex < FAST_COMMAND_NUM := by omega
    have e2 : (ctx.fread_cnt + 1) % 65536 = ctx.fread_cnt + 1 := by
      simp only [FAST_COMMAND_NUM] at h2; omega
    have hstep := mdio_fast_add_not_write ctx MDIO_READ val hk (by decide)
    rw [fread_queue_store_sinput _ _ _ h1 (by omega), e2] at hstep
    have hrun : run_calls ctx (List.replicate (n + 1) (fast_call.add MDIO_READ val))
        = run_calls (mdio_fast_add ctx MDIO_READ val).2
            (List.replicate n (fast_call.add MDIO_READ val)) := rfl
    rw [hrun]
    obtain ⟨i1, i2, i3⟩ := ih (mdio_fast_add ctx MDIO_READ val).2
      (by rw [hstep]; show ctx.findex + 1 + n ≤ FAST_COMMAND_NUM; omega)
      (by rw [hstep]; show FAST_COMMAND_NUM ≤ ctx.fread_cnt + 1; omega)
      (by rw [hstep]; show ctx.fread_cnt + 1 + n ≤ FAST_COMMAND_NUM + 8; omega)
    refine ⟨?_, ?_, ?_⟩
    · rw [i1, hstep]
      show ctx.findex + 1 + n = _
      omega
    · rw [i2, hstep]
      show ctx.fread_cnt + 1 + n = _
      omega
    · rw [i3, hstep]

/-- One `mdio_fast_flush` whose transport reports success, field by field. -/
theorem mdio_fast_flush_ok (ctx : mdio_ctx) (captured : Buf) :
    (mdio_fast_flush ctx ERROR_OK captured).2.ftotal = ctx.findex ∧
    (mdio_fast_flush ctx ERROR_OK captured).2.fread_cnt = ctx.fread_cnt ∧
    (mdio_fast_flush ctx ERROR_OK captured).2.fread_queue = ctx.fread_queue := by
  simp [mdio_fast_flush]


/-! ## C4, C5: `mdio_fast_add` -/

/-- One accepted write, field by field. -/
theorem mdio_fast_add_write_fields (ctx : mdio_ctx) (val : Nat)
    (hk : ctx.findex < FAST_COMMAND_NUM) :
    (mdio_fast_add ctx MDIO_WRITE val).2.findex = ctx.findex + 1 ∧
    (mdio_fast_add ctx MDIO_WRITE val).2.fread_cnt = ctx.fread_cnt ∧
    (mdio_fast_add ctx MDIO_WRITE val).2.fread_queue = ctx.fread_queue ∧
    (mdio_fast_add ctx MDIO_WRITE val).2.sinput = ctx.sinput ∧
    (mdio_fast_add ctx MDIO_WRITE val).2.soutput = ctx.soutput := by
  rw [mdio_fast_add_write ctx val hk]
  exact ⟨rfl, rfl, rfl, rfl, rfl⟩

/-- C4 (as the code has it). For every context with `findex < N` (N = 4096)
and, when `mode` is not WRITE, `fread_cnt < N` (the read-back counter inside
the array `fread_queue[N]`), `mdio_fast_add(mode, val)` returns the old
`findex`, increases `findex` by exactly 1, and, if `mode` is not WRITE, stores
the old `findex` at `fread_queue[fread_cnt]` (leaving the other entries alone)
and increases `fread_cnt` by 1; if `mode` is WRITE, `fread_cnt` and
`fread_queue` are unchanged. `ftotal` and `finput` are unchanged in both cases,
and so are the slow buffers that follow the array. -/
theorem mdio_fast_add_effect (ctx : mdio_ctx) (mode : mdio_mode) (val : Nat)
    (hk : ctx.findex < FAST_COMMAND_NUM)
    (hcnt : mode ≠ MDIO_WRITE → ctx.fread_cnt < FAST_COMMAND_NUM) :
    (mdio_fast_add ctx mode val).1 = (ctx.findex : Int) ∧
    0 ≤ (mdio_fast_add ctx mode val).1 ∧
    (mdio_fast_add ctx mode val).2.findex = ctx.findex + 1 ∧
    (mode ≠ MDIO_WRITE →
      (mdio_fast_add ctx mode val).2.fread_queue ctx.fread_cnt = ctx.findex ∧
      (∀ j, j ≠ ctx.fread_cnt →
        (mdio_fast_add ctx mode val).2.fread_queue j = ctx.fread_queue j) ∧
      (mdio_fast_add ctx mode val).2.fread_cnt = ctx.fread_cnt + 1) ∧
    (mode = MDIO_WRITE →
      (mdio_fast_add ctx mode val).2.fread_cnt = ctx.fread_cnt ∧
      (mdio_fast_add ctx mode val).2.fread_queue = ctx.fread_queue) ∧
    (mdio_fast_add ctx mode val).2.ftotal = ctx.ftotal ∧
    (mdio_fast_add ctx mode val).2.finput = ctx.finput ∧
    (mdio_fast_add ctx mode val).2.sinput = ctx.sinput ∧
    (mdio_fast_add ctx mode val).2.soutput = ctx.soutput := by
  by_cases hm : mode = MDIO_WRITE
  · subst hm
    rw [mdio_fast_add_write ctx val hk]
    exact ⟨rfl, Int.ofNat_nonneg _, rfl, fun h => absurd rfl h, fun _ => ⟨rfl, rfl⟩, rfl, rfl,
      rfl, rfl⟩
  · have hc := hcnt hm
    have e2 : (ctx.fread_cnt + 1) % 65536 = ctx.fread_cnt + 1 := by
      simp only [FAST_COMMAND_NUM] at hc; omega
    rw [mdio_fast_add_read ctx mode val hm hk hc]
    refine ⟨rfl, Int.ofNat_nonneg _, rfl, fun _ => ⟨?_, ?_, e2⟩, fun h => absurd h hm, rfl, rfl,
      rfl, rfl⟩
    · simp only [if_true]
    · intro j hj
      simp only [hj, if_false]

/-- C4 on the freshly created sample context, adding a read. -/
theorem mdio_fast_add_effect_witness :
    (mdio_fast_add sample_ctx MDIO_READ 0xffff).2.findex = sample_ctx.findex + 1 :=
  (mdio_fast_add_effect sample_ctx MDIO_READ 0xffff (by decide) (fun _ => by decide)).2.2.1

theorem run_calls_append (ctx : mdio_ctx) (a b : List fast_call) :
    run_calls ctx (a ++ b) = run_calls (run_calls ctx a) b := by
  simp only [run_calls, List.foldl_append]

theorem run_calls_single (ctx : mdio_ctx) (call : fast_call) :
    run_calls ctx [call] = fast_call.apply ctx call := rfl

theorem fast_call_apply_add (ctx : mdio_ctx) (mode : mdio_mode) (val : Nat) :
    fast_call.apply ctx (fast_call.add mode val) = (mdio_fast_add ctx mode val).2 := rfl

theorem fast_call_apply_flush (ctx : mdio_ctx) (res : Int) (captured : Buf) :
    fast_call.apply ctx (fast_call.flush res captured) = (mdio_fast_flush ctx res captured).2 :=
  rfl

/-- A batch of `n` reads that fits in the queue and in the read-back array,
flushed with success: the queue is empty again and the read-back counter has
grown by `n`. -/
theorem run_read_batch (n : Nat) (ctx : mdio_ctx) (captured : Buf)
    (hf : ctx.findex + n ≤ FAST_COMMAND_NUM) (hc : ctx.fread_cnt + n ≤ FAST_COMMAND_NUM) :
    (run_calls ctx (List.replicate n (fast_call.add MDIO_READ 0xffff)
      ++ [fast_call.flush ERROR_OK captured])).findex = 0 ∧
    (run_calls ctx (List.replicate n (fast_call.add MDIO_READ 0xffff)
      ++ [fast_call.flush ERROR_OK captured])).fread_cnt = ctx.fread_cnt + n ∧
    (run_calls ctx (List.replicate n (fast_call.add MDIO_READ 0xffff)
      ++ [fast_call.flush ERROR_OK captured])).sinput = ctx.sinput ∧
    (run_calls ctx (List.replicate n (fast_call.add MDIO_READ 0xffff)
      ++ [fast_call.flush ERROR_OK captured])).soutput = ctx.soutput ∧
    (∀ j, ctx.fread_cnt + n ≤ j →
      (run_calls ctx (List.replicate n (fast_call.add MDIO_READ 0xffff)
        ++ [fast_call.flush ERROR_OK captured])).fread_queue j = ctx.fread_queue j) := by
  obtain ⟨_, r2, r3, r4, _, r6⟩ := run_reads_inside 0xffff n ctx hf hc
  have ef : ∀ c : mdio_ctx, (mdio_fast_flush c ERROR_OK captured).2
      = { c with
          finput := mpsse_capture c.finput captured (mdio_fast_flush_clock_data c)
          ftotal := c.findex
          findex := 0 } := by
    intro c
    simp [mdio_fast_flush]
  rw [run_calls_append, run_calls_single, fast_call_apply_flush, ef]
  exact ⟨rfl, r2, r3, r4, r6⟩

/-- A full batch run from a context with an empty queue and an empty read-back
queue: the queue is empty again and the read-back counter stands at the end of
its array. -/
theorem run_full_batch (ctx : mdio_ctx) (h0 : ctx.findex = 0) (h1 : ctx.fread_cnt = 0) :
    (run_calls ctx full_batch).findex = 0 ∧
    (run_calls ctx full_batch).fread_cnt = FAST_COMMAND_NUM ∧
    (run_calls ctx full_batch).sinput = ctx.sinput ∧
    (run_calls ctx full_batch).soutput = ctx.soutput ∧
    (∀ j, FAST_COMMAND_NUM ≤ j → (run_calls ctx full_batch).fread_queue j = ctx.fread_queue j) := by
  obtain ⟨r1, r2, r3, r4, r6⟩ := run_read_batch FAST_COMMAND_NUM ctx (fun _ => 0)
    (by rw [h0]; omega) (by rw [h1]; omega)
  rw [h1, Nat.zero_add] at r2 r6
  rw [full_batch]
  exact ⟨r1, r2, r3, r4, r6⟩

/-- An accepted read added with the read-back counter on one of the eight
entries after the array: nothing is stored in the array, the two bytes land in
`sinput`. -/
theorem mdio_fast_add_past_array (ctx : mdio_ctx) (val : Nat)
    (hk : ctx.findex < FAST_COMMAND_NUM) (h1 : FAST_COMMAND_NUM ≤ ctx.fread_cnt)
    (h2 : ctx.fread_cnt < FAST_COMMAND_NUM + 8) :
    (mdio_fast_add ctx MDIO_READ val).2.fread_queue = ctx.fread_queue ∧
    (mdio_fast_add ctx MDIO_READ val).2.sinput
      = store (store ctx.sinput (2 * (ctx.fread_cnt - FAST_COMMAND_NUM)) (ctx.findex &&& 0xff))
          (2 * (ctx.fread_cnt - FAST_COMMAND_NUM) + 1) ((ctx.findex >>> 8) &&& 0xff) ∧
    (mdio_fast_add ctx MDIO_READ val).2.soutput = ctx.soutput ∧
    (mdio_fast_add ctx MDIO_READ val).2.findex = ctx.findex + 1 ∧
    (mdio_fast_add ctx MDIO_READ val).2.fread_cnt = ctx.fread_cnt + 1 := by
  have e2 : (ctx.fread_cnt + 1) % 65536 = ctx.fread_cnt + 1 := by
    simp only [FAST_COMMAND_NUM] at h2; omega
  rw [mdio_fast_add_not_write ctx MDIO_READ val hk (by decide),
    fread_queue_store_sinput _ _ _ h1 h2]
  exact ⟨rfl, rfl, rfl, rfl, e2⟩

/-- The context `stale_counter_ctx`, field by field. -/
theorem stale_counter_ctx_fields :
    stale_counter_ctx.findex = 1 ∧ stale_counter_ctx.fread_cnt = FAST_COMMAND_NUM ∧
    stale_counter_ctx.sinput = sample_ctx.sinput ∧
    (∀ j, FAST_COMMAND_NUM ≤ j → stale_counter_ctx.fread_queue j = 0) := by
  obtain ⟨b1, b2, b3, _, b5⟩ := run_full_batch (mdio_open sample_ctx none).2 rfl rfl
  have hk : (run_calls (mdio_open sample_ctx none).2 full_batch).findex < FAST_COMMAND_NUM := by
    rw [b1]; decide
  obtain ⟨w1, w2, w3, w4, _⟩ := mdio_fast_add_write_fields
    (run_calls (mdio_open sample_ctx none).2 full_batch) 0x000a hk
  rw [stale_counter_ctx, run_calls_append, run_calls_single, fast_call_apply_add]
  refine ⟨by rw [w1, b1], by rw [w2, b2], by rw [w4, b3]; rfl, ?_⟩
  intro j hj
  rw [w3, b5 j hj]
  rfl

/-- C4 as stated fails when the read-back counter has reached the end of its
array: after a full batch of 4096 reads is flushed and, with no clean, a write
is added, `findex = 1 < N` and `fread_cnt = 4096`. Adding a read then stores
nothing in `fread_queue` (the entry `fread_queue[4096]` of the claim is not the
old `findex`): the store lands on the two bytes after the array, `sinput[0]`
and `sinput[1]`, and changes `sinput[0]` from 0 to 1. -/
theorem mdio_fast_add_past_queue :
    stale_counter_ctx.findex < FAST_COMMAND_NUM ∧ MDIO_READ ≠ MDIO_WRITE ∧
    stale_counter_ctx.findex = 1 ∧ stale_counter_ctx.fread_cnt = 4096 ∧
    (mdio_fast_add stale_counter_ctx MDIO_READ 0xffff).2.fread_queue
      = stale_counter_ctx.fread_queue ∧
    (mdio_fast_add stale_counter_ctx MDIO_READ 0xffff).2.fread_queue
        stale_counter_ctx.fread_cnt
      ≠ stale_counter_ctx.findex ∧
    stale_counter_ctx.sinput 0 = 0 ∧
    (mdio_fast_add stale_counter_ctx MDIO_READ 0xffff).2.sinput 0 = 1 := by
  obtain ⟨f1, f2, f3, f4⟩ := stale_counter_ctx_fields
  have hk : stale_counter_ctx.findex < FAST_COMMAND_NUM := by rw [f1]; decide
  obtain ⟨a1, a2, _, _, _⟩ := mdio_fast_add_past_array stale_counter_ctx 0xffff hk
    (by rw [f2]) (by rw [f2]; omega)
  refine ⟨hk, by decide, f1, f2, a1, ?_, ?_, ?_⟩
  · rw [a1, f4 _ (by rw [f2]), f1]
    decide
  · rw [f3]
    rfl
  · rw [a2, f1, f2, Nat.sub_self, store_other _ _ _ _ (by decide), store_same]
    decide

/-- C5. When `findex` has reached `N = 4096`, `mdio_fast_add` returns the
negative buffer-too-small error for every mode and value, and the context
(`foutput`, `findex`, `ftotal`, `fread_cnt`, `fread_queue` and all else) is
exactly as before the call. -/
theorem mdio_fast_add_full (ctx : mdio_ctx) (mode : mdio_mode) (val : Nat)
    (hfull : ctx.findex ≥ FAST_COMMAND_NUM) :
    mdio_fast_add ctx mode val = (ERROR_BUF_TOO_SMALL, ctx) ∧
    (mdio_fast_add ctx mode val).1 < 0 := by
  have h : mdio_fast_add ctx mode val = (ERROR_BUF_TOO_SMALL, ctx) := by
    unfold mdio_fast_add
    simp only [hfull, if_true]
  rw [h]
  exact ⟨rfl, by simp [ERROR_BUF_TOO_SMALL]⟩

/-- C5 on the sample context with all 4096 slots taken. -/
theorem mdio_fast_add_full_witness :
    mdio_fast_add full_queue_ctx MDIO_WRITE 0x000a = (ERROR_BUF_TOO_SMALL, full_queue_ctx) ∧
    (mdio_fast_add full_queue_ctx MDIO_WRITE 0x000a).1 < 0 :=
  mdio_fast_add_full full_queue_ctx MDIO_WRITE 0x000a (by decide)

/-! ## C6, C7: `mdio_fast_flush` -/

/-- C6 (as the code has it). After an `mdio_fast_flush` whose `mpsse_flush`
reports success, `ftotal` equals the value `findex` had before the call and
`findex` equals 0, and the call returns `ERROR_OK`; `fread_cnt`, `fread_queue`
and `foutput` are unchanged by the flush. -/
theorem mdio_fast_flush_success (ctx : mdio_ctx) (res : Int) (captured : Buf)
    (hres : res = ERROR_OK) :
    (mdio_fast_flush ctx res captured).1 = ERROR_OK ∧
    (mdio_fast_flush ctx res captured).2.ftotal = ctx.findex ∧
    (mdio_fast_flush ctx res captured).2.findex = 0 ∧
    (mdio_fast_flush ctx res captured).2.fread_cnt = ctx.fread_cnt ∧
    (mdio_fast_flush ctx res captured).2.fread_queue = ctx.fread_queue ∧
    (mdio_fast_flush ctx res captured).2.foutput = ctx.foutput := by
  subst hres
  simp [mdio_fast_flush]

/-- C6 on the sample context with three slots queued. -/
theorem mdio_fast_flush_success_witness :
    (mdio_fast_flush three_queued_ctx ERROR_OK (fun _ => 0)).1 = ERROR_OK ∧
    (mdio_fast_flush three_queued_ctx ERROR_OK (fun _ => 0)).2.ftotal = three_queued_ctx.findex ∧
    (mdio_fast_flush three_queued_ctx ERROR_OK (fun _ => 0)).2.findex = 0 ∧
    (mdio_fast_flush three_queued_ctx ERROR_OK (fun _ => 0)).2.fread_cnt
      = three_queued_ctx.fread_cnt ∧
    (mdio_fast_flush three_queued_ctx ERROR_OK (fun _ => 0)).2.fread_queue
      = three_queued_ctx.fread_queue ∧
    (mdio_fast_flush three_queued_ctx ERROR_OK (fun _ => 0)).2.foutput
      = three_queued_ctx.foutput :=
  mdio_fast_flush_success three_queued_ctx ERROR_OK (fun _ => 0) rfl

/-- C6 as stated fails when `mpsse_flush` reports an error: with three slots
queued, the flush returns that error, `ftotal` stays 0 instead of becoming 3
and `findex` stays 3 instead of becoming 0. -/
theorem mdio_fast_flush_failure_keeps_queue :
    (mdio_fast_flush three_queued_ctx ERROR_FAIL (fun _ => 0)).1 = ERROR_FAIL ∧
    (mdio_fast_flush three_queued_ctx ERROR_FAIL (fun _ => 0)).2.ftotal
      ≠ three_queued_ctx.findex ∧
    (mdio_fast_flush three_queued_ctx ERROR_FAIL (fun _ => 0)).2.findex ≠ 0 := by
  decide

/-- C7 (as the code has it). For every `findex`, `mdio_fast_flush` asks the
MPSSE shift engine to clock exactly `findex * 80` bits, one 80-bit fast frame
(`MDIO_FAST_COMMAND_SIZE` = 10 bytes) per queued slot, starting at offset 0 of
`foutput` and `finput`. -/
theorem mdio_fast_flush_bits (ctx : mdio_ctx) :
    (mdio_fast_flush_clock_data ctx).length = ctx.findex * 80 ∧
    MDIO_FAST_COMMAND_SIZE * 8 = 80 ∧
    (mdio_fast_flush_clock_data ctx).out_offset = 0 ∧
    (mdio_fast_flush_clock_data ctx).in_offset = 0 := by
  refine ⟨?_, rfl, rfl, rfl⟩
  simp only [mdio_fast_flush_clock_data, MDIO_FAST_COMMAND_SIZE, FAST_PREAMBLE_SIZE, OP_SIZE]
  omega

/-- C7 as stated fails: with three slots queued the flush clocks 240 bits, not
`3 * 40 = 120`. -/
theorem flush_clocks_80_not_40 :
    (mdio_fast_flush_clock_data three_queued_ctx).length = 240 ∧
    (mdio_fast_flush_clock_data three_queued_ctx).length ≠ three_queued_ctx.findex * 40 := by
  decide

/-! ## C8, C9: `mdio_fast_fetch` -/

theorem mdio_fast_fetch_out_of_range (ctx : mdio_ctx) (index val : Nat)
    (h : index ≥ ctx.ftotal) : mdio_fast_fetch ctx index val = (ERROR_BUF_TOO_SMALL, val) := by
  unfold mdio_fast_fetch
  simp only [h, if_true]

theorem mdio_fast_fetch_in_range (ctx : mdio_ctx) (index val : Nat)
    (h : index < ctx.ftotal) : (mdio_fast_fetch ctx index val).1 = 1 := by
  have h' : ¬ index ≥ ctx.ftotal := by omega
  unfold mdio_fast_fetch
  simp only [h', if_false]

theorem ftotal_apply (ctx : mdio_ctx) (call : fast_call) (h0 : ctx.ftotal = 0)
    (hq : no_batch_flushed ctx [call] = true) : (fast_call.apply ctx call).ftotal = 0 := by
  cases call with
  | add mode val =>
    show (mdio_fast_add ctx mode val).2.ftotal = 0
    rw [(mdio_fast_add_kept ctx mode val).1]
    exact h0
  | flush res captured =>
    simp only [no_batch_flushed, Bool.and_true, Bool.or_eq_true, decide_eq_true_eq] at hq
    simp only [fast_call.apply, mdio_fast_flush]
    split
    · exact h0
    · rcases hq with hq | hq
      · contradiction
      · exact hq
  | clean => rfl

theorem ftotal_run (calls : List fast_call) :
    ∀ ctx, ctx.ftotal = 0 → no_batch_flushed ctx calls = true →
      (run_calls ctx calls).ftotal = 0 := by
  induction calls with
  | nil => intro ctx h0 _; exact h0
  | cons call rest ih =>
    intro ctx h0 hq
    have hq' := hq
    simp only [no_batch_flushed, Bool.and_eq_true] at hq'
    have h1 : no_batch_flushed ctx [call] = true := by
      simp only [no_batch_flushed, Bool.and_true]
      exact hq'.1
    exact ih _ (ftotal_apply ctx call h0 h1) hq'.2

/-- C8. `mdio_fast_fetch(index)` returns the negative buffer-too-small error,
leaving the output value as it was, exactly when `index ≥ ftotal`, and
otherwise returns a non-negative status. In particular, after
`mdio_fast_clean` every fetch fails, through any further calls, until a flush
succeeds on a non-empty batch; such a flush makes the fetch of slot 0 succeed. -/
theorem mdio_fast_fetch_range (ctx : mdio_ctx) (index val : Nat) (calls : List fast_call)
    (captured : Buf) (hq : no_batch_flushed (mdio_fast_clean ctx).2 calls = true) :
    ((mdio_fast_fetch ctx index val).1 = ERROR_BUF_TOO_SMALL ↔ index ≥ ctx.ftotal) ∧
    (index ≥ ctx.ftotal → mdio_fast_fetch ctx index val = (ERROR_BUF_TOO_SMALL, val)) ∧
    (index < ctx.ftotal → 0 ≤ (mdio_fast_fetch ctx index val).1) ∧
    ERROR_BUF_TOO_SMALL < 0 ∧
    mdio_fast_fetch (mdio_fast_clean ctx).2 index val = (ERROR_BUF_TOO_SMALL, val) ∧
    mdio_fast_fetch (run_calls (mdio_fast_clean ctx).2 calls) index val
      = (ERROR_BUF_TOO_SMALL, val) ∧
    (0 < (run_calls (mdio_fast_clean ctx).2 calls).findex →
      0 ≤ (mdio_fast_fetch
        (mdio_fast_flush (run_calls (mdio_fast_clean ctx).2 calls) ERROR_OK captured).2
        0 val).1) := by
  refine ⟨⟨?_, ?_⟩, mdio_fast_fetch_out_of_range ctx index val, ?_, by decide, ?_, ?_, ?_⟩
  · intro h
    by_contra hlt
    have := mdio_fast_fetch_in_range ctx index val (by omega)
    rw [this] at h
    exact absurd h (by decide)
  · intro h
    rw [mdio_fast_fetch_out_of_range ctx index val h]
  · intro h
    rw [mdio_fast_fetch_in_range ctx index val h]
    decide
  · exact mdio_fast_fetch_out_of_range _ index val (Nat.zero_le _)
  · apply mdio_fast_fetch_out_of_range
    rw [ftotal_run calls _ rfl hq]
    exact Nat.zero_le _
  · intro hpos
    rw [mdio_fast_fetch_in_range]
    · decide
    · rw [(mdio_fast_flush_ok _ captured).1]
      exact hpos

/-- C8 on the sample context: after a clean, a write is queued and its flush
fails; the fetch of slot 0 still reports buffer-too-small. -/
theorem mdio_fast_fetch_range_witness :
    mdio_fast_fetch
        (run_calls (mdio_fast_clean one_fetched_ctx).2
          [fast_call.add MDIO_WRITE 0x000a, fast_call.flush ERROR_FAIL (fun _ => 0)]) 0 7
      = (ERROR_BUF_TOO_SMALL, 7) :=
  (mdio_fast_fetch_range one_fetched_ctx 0 7
    [fast_call.add MDIO_WRITE 0x000a, fast_call.flush ERROR_FAIL (fun _ => 0)]
    (fun _ => 0) (by decide)).2.2.2.2.2.1

/-- The 16-bit decoder reads two bytes big-endian. -/
theorem bytes_to_u16_eq_be16 (input : Buf) (offset : Nat)
    (h0 : input offset < 256) (h1 : input (offset + 1) < 256) :
    _mdio_bytes_to_u16 input offset = be16 input offset := by
  unfold _mdio_bytes_to_u16 be16
  rw [shiftLeft_or_eq_add _ _ 8 (by simpa using h1)]
  omega

/-- C9 (as the code has it). On a context with `ftotal ≤ N` (as every flush
leaves it) and for every slot index `i < ftotal`, `mdio_fast_fetch(i)` succeeds
and returns the big-endian 16-bit value held in `finput` at byte offset
`(i+1)*10 - 2`, that is, in the last 2 bytes of the requested 10-byte slot `i`
itself, immediately before slot `i+1`; the context is not changed, so fetches
in any order return these same windows. -/
theorem mdio_fast_fetch_value (ctx : mdio_ctx) (i val : Nat)
    (hi : i < ctx.ftotal) (htotal : ctx.ftotal ≤ FAST_COMMAND_NUM)
    (hbytes : ∀ j, ctx.finput j < 256) :
    mdio_fast_fetch ctx i val = (1, be16 ctx.finput ((i + 1) * 10 - 2)) ∧
    (i + 1) * 10 - 2 = i * MDIO_FAST_COMMAND_SIZE + (MDIO_FAST_COMMAND_SIZE - 2) ∧
    (i + 1) * 10 - 2 + 2 = (i + 1) * MDIO_FAST_COMMAND_SIZE := by
  have h' : ¬ i ≥ ctx.ftotal := by omega
  have hN : i < 4096 := by simp only [FAST_COMMAND_NUM] at htotal; omega
  have e1 : (i + 1) % 65536 = i + 1 := by omega
  have e2 : (i + 1) * MDIO_FAST_COMMAND_SIZE % 65536 = (i + 1) * 10 := by
    simp only [MDIO_FAST_COMMAND_SIZE, FAST_PREAMBLE_SIZE, OP_SIZE]; omega
  have e3 : ((((i + 1) * 10 : Nat) : Int) - 2) % 65536 = (((i + 1) * 10 - 2 : Nat) : Int) := by
    omega
  refine ⟨?_, ?_, ?_⟩
  · unfold mdio_fast_fetch
    simp only [h', if_false, e1, e2, e3, Int.toNat_ofNat]
    rw [bytes_to_u16_eq_be16 _ _ (hbytes _) (hbytes _)]
  · simp only [MDIO_FAST_COMMAND_SIZE, FAST_PREAMBLE_SIZE, OP_SIZE]; omega
  · simp only [MDIO_FAST_COMMAND_SIZE, FAST_PREAMBLE_SIZE, OP_SIZE]; omega

/-- C9 on a context whose input buffer holds its own byte index at every byte:
the fetch of slot 0 returns bytes 8 and 9. -/
theorem mdio_fast_fetch_value_witness :
    mdio_fast_fetch one_fetched_ctx 0 0 = (1, be16 one_fetched_ctx.finput ((0 + 1) * 10 - 2)) :=
  (mdio_fast_fetch_value one_fetched_ctx 0 0 (by decide) (by decide)
    (fun j => Nat.mod_lt j (by decide))).1

/-- C9 as stated fails: with the input buffer holding its own byte index at
every byte, the fetch of slot 0 returns `0x0809` (bytes 8 and 9, the tail of
slot 0), which is neither the value at offset `(0+1)*5 - 2 = 3` nor the value
in the last two bytes of slot 1 (offset 18). -/
theorem mdio_fast_fetch_not_offset_5 :
    0 < one_fetched_ctx.ftotal ∧
    (mdio_fast_fetch one_fetched_ctx 0 0).2 = 0x0809 ∧
    (mdio_fast_fetch one_fetched_ctx 0 0).2 ≠ be16 one_fetched_ctx.finput ((0 + 1) * 5 - 2) ∧
    (mdio_fast_fetch one_fetched_ctx 0 0).2
      ≠ be16 one_fetched_ctx.finput ((0 + 1) * MDIO_FAST_COMMAND_SIZE + MDIO_FAST_COMMAND_SIZE - 2) := by
  decide

/-! ## C10: read-back order -/

/-- A run of adds that fits in the queue: every add succeeds with the next slot
index, and the read-back queue grows by the slots of the adds that are not
writes, in order. -/
theorem fast_add_list_spec (ops : List (mdio_mode × Nat)) :
    ∀ ctx : mdio_ctx, ctx.findex + ops.length ≤ FAST_COMMAND_NUM →
      ctx.fread_cnt + ops.length ≤ FAST_COMMAND_NUM →
      (fast_add_list ctx ops).2.findex = ctx.findex + ops.length ∧
      (fast_add_list ctx ops).2.fread_cnt = ctx.fread_cnt + read_count ops ∧
      (fast_add_list ctx ops).2.ftotal = ctx.ftotal ∧
      (fast_add_list ctx ops).1
        = (List.range ops.length).map (fun i => ((ctx.findex + i : Nat) : Int)) ∧
      (∀ j, j < ctx.fread_cnt →
        (fast_add_list ctx ops).2.fread_queue j = ctx.fread_queue j) ∧
      (List.range (read_count ops)).map
          (fun t => (((fast_add_list ctx ops).2.fread_queue (ctx.fread_cnt + t) : Nat) : Int))
        = read_results (fast_add_list ctx ops).1 ops ∧
      (∀ t, t < read_count ops →
        (fast_add_list ctx ops).2.fread_queue (ctx.fread_cnt + t) < ctx.findex + ops.length) := by
  induction ops with
  | nil =>
    intro ctx _ _
    simp [fast_add_list, read_count, read_results]
  | cons op rest ih =>
    intro ctx hk hc
    obtain ⟨mode, val⟩ := op
    simp only [List.length_cons] at hk hc
    obtain ⟨a1, a3, a6, a4, a5⟩ :=
      mdio_fast_add_step ctx mode val (by omega) (by omega)
    obtain ⟨i1, i2, i3, i4, i5, i6, i7⟩ := ih (mdio_fast_add ctx mode val).2
      (by rw [a3]; omega)
      (by
        by_cases hm : mode = MDIO_WRITE
        · rw [(a5 hm).1]; omega
        · rw [(a4 hm).2.2]; omega)
    have unfold_list : fast_add_list ctx ((mode, val) :: rest)
        = ((mdio_fast_add ctx mode val).1 :: (fast_add_list (mdio_fast_add ctx mode val).2 rest).1,
            (fast_add_list (mdio_fast_add ctx mode val).2 rest).2) := rfl
    rw [unfold_list]
    simp only [List.length_cons]
    have hrets : (mdio_fast_add ctx mode val).1
          :: (fast_add_list (mdio_fast_add ctx mode val).2 rest).1
        = (List.range (rest.length + 1)).map (fun i => ((ctx.findex + i : Nat) : Int)) := by
      rw [i4, a1, a3, List.range_succ_eq_map, List.map_cons, List.map_map]
      simp only [Nat.add_zero, List.cons.injEq, true_and]
      apply List.map_congr_left
      intro i _
      simp only [Function.comp, Nat.succ_eq_add_one]
      congr 1
      omega
    by_cases hm : mode = MDIO_WRITE
    · obtain ⟨w1, w2⟩ := a5 hm
      have hcount : read_count ((mode, val) :: rest) = read_count rest := by
        simp [read_count, hm]
      have hres : read_results
          ((mdio_fast_add ctx mode val).1 :: (fast_add_list (mdio_fast_add ctx mode val).2 rest).1)
          ((mode, val) :: rest)
          = read_results (fast_add_list (mdio_fast_add ctx mode val).2 rest).1 rest := by
        simp [read_results, hm]
      rw [w1] at i2 i5 i6 i7
      rw [w2] at i5
      rw [hcount, hres]
      refine ⟨by rw [i1, a3]; omega, i2, by rw [i3, a6], hrets, i5, i6, ?_⟩
      intro t ht
      have := i7 t ht
      rw [a3] at this
      omega
    · obtain ⟨r1, r2, r3⟩ := a4 hm
      have hcount : read_count ((mode, val) :: rest) = read_count rest + 1 := by
        simp [read_count, hm]
      have hres : read_results
          ((mdio_fast_add ctx mode val).1 :: (fast_add_list (mdio_fast_add ctx mode val).2 rest).1)
          ((mode, val) :: rest)
          = (mdio_fast_add ctx mode val).1
            :: read_results (fast_add_list (mdio_fast_add ctx mode val).2 rest).1 rest := by
        simp [read_results, hm]
      rw [r3] at i2 i5 i6 i7
      have hhead : (fast_add_list (mdio_fast_add ctx mode val).2 rest).2.fread_queue ctx.fread_cnt
          = ctx.findex := by
        rw [i5 ctx.fread_cnt (by omega), r1]
      rw [hcount, hres]
      refine ⟨by rw [i1, a3]; omega, by rw [i2]; omega, by rw [i3, a6], hrets, ?_, ?_, ?_⟩
      · intro j hj
        rw [i5 j (by omega), r2 j (by omega)]
      · rw [List.range_succ_eq_map, List.map_cons, List.map_map, Nat.add_zero, hhead, a1, ← i6]
        simp only [List.cons.injEq, true_and]
        apply List.map_congr_left
        intro t _
        simp only [Function.comp, Nat.succ_eq_add_one]
        congr 2
        omega
      · intro t ht
        cases t with
        | zero => rw [Nat.add_zero, hhead]; omega
        | succ t =>
          have := i7 t (by omega)
          rw [a3] at this
          rw [show ctx.fread_cnt + (t + 1) = ctx.fread_cnt + 1 + t by omega]
          omega

/-- C10. For a batch built as `mdio_fast_clean`, then `k` adds with any modes
and values starting from any `findex = f0` with `f0 + k ≤ N`, then a successful
`mdio_fast_flush`: every add succeeds, returning slots `f0, f0+1, ...`;
`fread_cnt` equals the number of adds that are not writes; `fread_queue[j]` is
the slot index the `j`-th such add returned; for every `j < fread_cnt`,
`mdio_fast_readback(j)` succeeds and yields what `mdio_fast_fetch` yields on
that slot index; and for `j ≥ fread_cnt` it fails, leaving the value alone. -/
theorem fast_batch_readback (ctx : mdio_ctx) (ops : List (mdio_mode × Nat))
    (captured : Buf) (hfit : ctx.findex + ops.length ≤ FAST_COMMAND_NUM) :
    (fast_add_list (mdio_fast_clean ctx).2 ops).1
      = (List.range ops.length).map (fun i => ((ctx.findex + i : Nat) : Int)) ∧
    (mdio_fast_flush (fast_add_list (mdio_fast_clean ctx).2 ops).2 ERROR_OK captured).2.fread_cnt
      = read_count ops ∧
    (List.range (read_count ops)).map
        (fun j => (((mdio_fast_flush (fast_add_list (mdio_fast_clean ctx).2 ops).2
          ERROR_OK captured).2.fread_queue j : Nat) : Int))
      = read_results (fast_add_list (mdio_fast_clean ctx).2 ops).1 ops ∧
    (∀ j val index0, j < read_count ops →
      mdio_fast_readback
          (mdio_fast_flush (fast_add_list (mdio_fast_clean ctx).2 ops).2 ERROR_OK captured).2
          j val index0
        = mdio_fast_fetch
            (mdio_fast_flush (fast_add_list (mdio_fast_clean ctx).2 ops).2 ERROR_OK captured).2
            ((mdio_fast_flush (fast_add_list (mdio_fast_clean ctx).2 ops).2
              ERROR_OK captured).2.fread_queue j) val ∧
      (mdio_fast_readback
          (mdio_fast_flush (fast_add_list (mdio_fast_clean ctx).2 ops).2 ERROR_OK captured).2
          j val index0).1 = 1) ∧
    (∀ j val index0, j ≥ read_count ops →
      mdio_fast_readback
          (mdio_fast_flush (fast_add_list (mdio_fast_clean ctx).2 ops).2 ERROR_OK captured).2
          j val index0
        = (ERROR_FAIL, val)) ∧
    ERROR_FAIL < 0 := by
  have hlen : ops.length ≤ 4096 := by simp only [FAST_COMMAND_NUM] at hfit; omega
  obtain ⟨s1, s2, _, s4, _, s6, s7⟩ := fast_add_list_spec ops (mdio_fast_clean ctx).2
    (by simpa [mdio_fast_clean] using hfit)
    (by simp only [mdio_fast_clean, FAST_COMMAND_NUM]; omega)
  obtain ⟨f2, f4, f5⟩ :=
    mdio_fast_flush_ok (fast_add_list (mdio_fast_clean ctx).2 ops).2 captured
  have c0 : (mdio_fast_clean ctx).2.fread_cnt = 0 := rfl
  have cf : (mdio_fast_clean ctx).2.findex = ctx.findex := rfl
  rw [c0, Nat.zero_add] at s2
  simp only [c0, Nat.zero_add] at s6 s7
  rw [cf] at s1 s4 s7
  have hcnt : (mdio_fast_flush (fast_add_list (mdio_fast_clean ctx).2 ops).2
      ERROR_OK captured).2.fread_cnt = read_count ops := by rw [f4, s2]
  refine ⟨s4, hcnt, by rw [f5]; exact s6, ?_, ?_, by decide⟩
  · intro j val index0 hj
    have hfind : mdio_fast_find_index
        (mdio_fast_flush (fast_add_list (mdio_fast_clean ctx).2 ops).2 ERROR_OK captured).2
        j index0
        = (ERROR_OK, (mdio_fast_flush (fast_add_list (mdio_fast_clean ctx).2 ops).2
            ERROR_OK captured).2.fread_queue j) := by
      have : ¬ j ≥ (mdio_fast_flush (fast_add_list (mdio_fast_clean ctx).2 ops).2
          ERROR_OK captured).2.fread_cnt := by rw [hcnt]; omega
      unfold mdio_fast_find_index
      simp only [this, if_false]
    have hrb : mdio_fast_readback
          (mdio_fast_flush (fast_add_list (mdio_fast_clean ctx).2 ops).2 ERROR_OK captured).2
          j val index0
        = mdio_fast_fetch
            (mdio_fast_flush (fast_add_list (mdio_fast_clean ctx).2 ops).2 ERROR_OK captured).2
            ((mdio_fast_flush (fast_add_list (mdio_fast_clean ctx).2 ops).2
              ERROR_OK captured).2.fread_queue j) val := by
      unfold mdio_fast_readback
      simp only [hfind, ne_eq, not_true_eq_false, if_false]
    refine ⟨hrb, ?_⟩
    rw [hrb]
    apply mdio_fast_fetch_in_range
    rw [f2, s1, f5]
    exact s7 j hj
  · intro j val index0 hj
    have hfind : mdio_fast_find_index
        (mdio_fast_flush (fast_add_list (mdio_fast_clean ctx).2 ops).2 ERROR_OK captured).2
        j index0 = (ERROR_BUF_TOO_SMALL, index0) := by
      have : j ≥ (mdio_fast_flush (fast_add_list (mdio_fast_clean ctx).2 ops).2
          ERROR_OK captured).2.fread_cnt := by rw [hcnt]; omega
      unfold mdio_fast_find_index
      simp only [this, if_true]
    unfold mdio_fast_readback
    simp only [hfind]
    have : ERROR_BUF_TOO_SMALL ≠ ERROR_OK := by decide
    simp only [this, ne_eq, not_false_eq_true, if_true]

/-- C10 on the sample context left with three slots queued: a write, a read, a
write and a read are added and flushed; the two reads went to slots 4 and 6. -/
theorem fast_batch_readback_witness :
    (List.range (read_count [(MDIO_WRITE, 8), (MDIO_READ, 0xffff), (MDIO_WRITE, 0),
        (MDIO_READ, 0xffff)])).map
        (fun j => (((mdio_fast_flush (fast_add_list (mdio_fast_clean three_queued_ctx).2
            [(MDIO_WRITE, 8), (MDIO_READ, 0xffff), (MDIO_WRITE, 0), (MDIO_READ, 0xffff)]).2
          ERROR_OK (fun _ => 0)).2.fread_queue j : Nat) : Int))
      = read_results (fast_add_list (mdio_fast_clean three_queued_ctx).2
          [(MDIO_WRITE, 8), (MDIO_READ, 0xffff), (MDIO_WRITE, 0), (MDIO_READ, 0xffff)]).1
          [(MDIO_WRITE, 8), (MDIO_READ, 0xffff), (MDIO_WRITE, 0), (MDIO_READ, 0xffff)] :=
  (fast_batch_readback three_queued_ctx
    [(MDIO_WRITE, 8), (MDIO_READ, 0xffff), (MDIO_WRITE, 0), (MDIO_READ, 0xffff)]
    (fun _ => 0) (by decide)).2.2.1

/-! ## C11: the read-back queue is increasing -/

/-- A flush whose transport reports an error leaves the queue indices alone. -/
theorem mdio_fast_flush_failed (ctx : mdio_ctx) (res : Int) (captured : Buf)
    (hres : res ≠ ERROR_OK) :
    (mdio_fast_flush ctx res captured).2.findex = ctx.findex ∧
    (mdio_fast_flush ctx res captured).2.ftotal = ctx.ftotal ∧
    (mdio_fast_flush ctx res captured).2.fread_cnt = ctx.fread_cnt ∧
    (mdio_fast_flush ctx res captured).2.fread_queue = ctx.fread_queue := by
  simp [mdio_fast_flush, hres]

theorem queue_ordered_add (ctx : mdio_ctx) (mode : mdio_mode) (val : Nat)
    (h : queue_ordered ctx false) : queue_ordered (mdio_fast_add ctx mode val).2 false := by
  obtain ⟨hinc, hN, hslot, hopen⟩ := h
  obtain ⟨hcnt, hlt⟩ := hopen rfl
  by_cases hk : ctx.findex < FAST_COMMAND_NUM
  · have hk4 : ctx.findex < 4096 := by simpa [FAST_COMMAND_NUM] using hk
    obtain ⟨_, a2, _, a4, a5⟩ := mdio_fast_add_step ctx mode val hk (by omega)
    by_cases hm : mode = MDIO_WRITE
    · obtain ⟨w1, w2⟩ := a5 hm
      refine ⟨?_, by rw [a2]; omega, ?_, fun _ => ⟨by rw [w1, a2]; omega, ?_⟩⟩
      · intro i j hij hj
        rw [w1] at hj; rw [w2]
        exact hinc i j hij hj
      · intro j hj
        rw [w1] at hj; rw [w2]
        exact hslot j hj
      · intro j hj
        rw [w1] at hj; rw [w2, a2]
        have := hlt j hj
        omega
    · obtain ⟨r1, r2, r3⟩ := a4 hm
      have hval : ∀ j, j < ctx.fread_cnt + 1 →
          (mdio_fast_add ctx mode val).2.fread_queue j < ctx.findex + 1 := by
        intro j hj
        by_cases hjc : j = ctx.fread_cnt
        · rw [hjc, r1]; omega
        · rw [r2 j hjc]
          have := hlt j (by omega)
          omega
      refine ⟨?_, by rw [a2]; omega, ?_, fun _ => ⟨by rw [r3, a2]; omega, ?_⟩⟩
      · intro i j hij hj
        rw [r3] at hj
        by_cases hjc : j = ctx.fread_cnt
        · rw [hjc, r1, r2 i (by omega)]
          exact hlt i (by omega)
        · rw [r2 j hjc, r2 i (by omega)]
          exact hinc i j hij (by omega)
      · intro j hj
        rw [r3] at hj
        have := hval j hj
        omega
      · intro j hj
        rw [r3] at hj; rw [a2]
        exact hval j hj
  · have hk' : ctx.findex ≥ FAST_COMMAND_NUM := by omega
    simp only [mdio_fast_add, hk', if_true]
    exact ⟨hinc, hN, hslot, fun _ => ⟨hcnt, hlt⟩⟩

theorem queue_ordered_flush (ctx : mdio_ctx) (res : Int) (captured : Buf) (flushed : Bool)
    (h : queue_ordered ctx flushed) :
    queue_ordered (mdio_fast_flush ctx res captured).2 (flushed || decide (res = ERROR_OK)) := by
  obtain ⟨hinc, hN, hslot, hopen⟩ := h
  by_cases hres : res = ERROR_OK
  · subst hres
    obtain ⟨_, f2, f3⟩ := mdio_fast_flush_ok ctx captured
    have f0 : (mdio_fast_flush ctx ERROR_OK captured).2.findex = 0 := by
      simp [mdio_fast_flush]
    refine ⟨?_, by rw [f0]; omega, ?_, ?_⟩
    · intro i j hij hj
      rw [f2] at hj; rw [f3]
      exact hinc i j hij hj
    · intro j hj
      rw [f2] at hj; rw [f3]
      exact hslot j hj
    · intro hf
      simp at hf
  · obtain ⟨g1, _, g3, g4⟩ := mdio_fast_flush_failed ctx res captured hres
    have hb : (flushed || decide (res = ERROR_OK)) = flushed := by simp [hres]
    rw [hb]
    refine ⟨?_, by rw [g1]; exact hN, ?_, ?_⟩
    · intro i j hij hj
      rw [g3] at hj; rw [g4]
      exact hinc i j hij hj
    · intro j hj
      rw [g3] at hj; rw [g4]
      exact hslot j hj
    · intro hf
      obtain ⟨hcnt, hlt⟩ := hopen hf
      rw [g1, g3, g4]
      exact ⟨hcnt, hlt⟩

theorem queue_ordered_clean (ctx : mdio_ctx) (flushed : Bool)
    (h : queue_ordered ctx flushed) : queue_ordered (mdio_fast_clean ctx).2 false := by
  obtain ⟨_, hN, _, _⟩ := h
  refine ⟨?_, hN, ?_, fun _ => ⟨Nat.zero_le _, ?_⟩⟩
  · intro i j _ hj
    exact absurd hj (Nat.not_lt_zero _)
  · intro j hj
    exact absurd hj (Nat.not_lt_zero _)
  · intro j hj
    exact absurd hj (Nat.not_lt_zero _)

theorem queue_ordered_run (calls : List fast_call) :
    ∀ (ctx : mdio_ctx) (flushed : Bool), queue_ordered ctx flushed →
      clean_before_add flushed calls = true →
      queue_increasing (run_calls ctx calls) ∧
      ∀ j, j < (run_calls ctx calls).fread_cnt →
        (run_calls ctx calls).fread_queue j < FAST_COMMAND_NUM := by
  induction calls with
  | nil =>
    intro ctx flushed h _
    exact ⟨h.1, h.2.2.1⟩
  | cons call rest ih =>
    intro ctx flushed h hp
    cases call with
    | add mode val =>
      simp only [clean_before_add, Bool.and_eq_true, Bool.not_eq_true'] at hp
      obtain ⟨hf, hrest⟩ := hp
      subst hf
      exact ih _ false (queue_ordered_add ctx mode val h) hrest
    | flush res captured =>
      simp only [clean_before_add] at hp
      exact ih _ _ (queue_ordered_flush ctx res captured flushed h) hp
    | clean =>
      simp only [clean_before_add] at hp
      exact ih _ false (queue_ordered_clean ctx flushed h) hp

/-- C11 (as the code has it). In every context state reached from `mdio_init`
and `mdio_open` through a sequence of `mdio_fast_add`, `mdio_fast_flush` and
`mdio_fast_clean` calls in which no add follows a successful flush without a
clean in between, the entries `fread_queue[0 .. fread_cnt)` are strictly
increasing slot indices (each below `N`). -/
theorem fread_queue_increasing (vid pid p target : Nat) (opened : Option Nat)
    (ctx : mdio_ctx) (calls : List fast_call)
    (hinit : mdio_init true vid pid p target = some ctx)
    (hproto : clean_before_add false calls = true) :
    (∀ i j, i < j → j < (run_calls (mdio_open ctx opened).2 calls).fread_cnt →
      (run_calls (mdio_open ctx opened).2 calls).fread_queue i
        < (run_calls (mdio_open ctx opened).2 calls).fread_queue j) ∧
    ∀ j, j < (run_calls (mdio_open ctx opened).2 calls).fread_cnt →
      (run_calls (mdio_open ctx opened).2 calls).fread_queue j < FAST_COMMAND_NUM := by
  have hctx : ctx.is_running = false ∧ ctx.fread_cnt = 0 := by
    simp only [mdio_init, if_true, Option.some.injEq] at hinit
    subst hinit
    exact ⟨rfl, rfl⟩
  obtain ⟨hrun, hcnt⟩ := hctx
  have hf := (mdio_open_foutput ctx opened hrun).2.1
  have hc : (mdio_open ctx opened).2.fread_cnt = 0 := by
    cases opened <;> simp [mdio_open, hrun, init_mpsse, init_mdio_queue, hcnt]
  have h0 : queue_ordered (mdio_open ctx opened).2 false := by
    refine ⟨?_, by rw [hf]; omega, ?_, fun _ => ⟨by rw [hc]; omega, ?_⟩⟩
    · intro i j _ hj
      rw [hc] at hj
      exact absurd hj (Nat.not_lt_zero _)
    · intro j hj
      rw [hc] at hj
      exact absurd hj (Nat.not_lt_zero _)
    · intro j hj
      rw [hc] at hj
      exact absurd hj (Nat.not_lt_zero _)
  exact queue_ordered_run calls _ false h0 hproto

/-- C11 on the opened sample context: after a clean, a read, a write and a
read are added; the two entries of the read-back queue are in increasing order. -/
theorem fread_queue_increasing_witness :
    (run_calls (mdio_open sample_ctx none).2
        [fast_call.clean, fast_call.add MDIO_READ 0xffff, fast_call.add MDIO_WRITE 8,
          fast_call.add MDIO_READ 0xffff]).fread_queue 0
      < (run_calls (mdio_open sample_ctx none).2
        [fast_call.clean, fast_call.add MDIO_READ 0xffff, fast_call.add MDIO_WRITE 8,
          fast_call.add MDIO_READ 0xffff]).fread_queue 1 :=
  (fread_queue_increasing 0x0403 0x6010 0x1a 0 none sample_ctx
    [fast_call.clean, fast_call.add MDIO_READ 0xffff, fast_call.add MDIO_WRITE 8,
      fast_call.add MDIO_READ 0xffff] rfl (by decide)).1 0 1 (by decide) (by decide)

/-- C11 as stated fails: from the opened sample context, a read is added and
flushed, and a second read is added without a clean in between; both entries
of the read-back queue are slot 0. -/
theorem fread_queue_repeats_without_clean :
    (run_calls (mdio_open sample_ctx none).2
      [fast_call.add MDIO_READ 0xffff, fast_call.flush ERROR_OK (fun _ => 0),
        fast_call.add MDIO_READ 0xffff]).fread_cnt = 2 ∧
    ¬ ((run_calls (mdio_open sample_ctx none).2
      [fast_call.add MDIO_READ 0xffff, fast_call.flush ERROR_OK (fun _ => 0),
        fast_call.add MDIO_READ 0xffff]).fread_queue 0
      < (run_calls (mdio_open sample_ctx none).2
      [fast_call.add MDIO_READ 0xffff, fast_call.flush ERROR_OK (fun _ => 0),
        fast_call.add MDIO_READ 0xffff]).fread_queue 1) := by
  decide

/-! ## The bounds of the fast-queue counters -/

theorem queue_bounded_add (ctx : mdio_ctx) (mode : mdio_mode) (val : Nat)
    (h : queue_bounded ctx false) : queue_bounded (mdio_fast_add ctx mode val).2 false := by
  obtain ⟨h1, h2, h3, h4⟩ := h
  have h4 := h4 rfl
  by_cases hk : ctx.findex < FAST_COMMAND_NUM
  · have hk4 : ctx.findex < 4096 := by simpa [FAST_COMMAND_NUM] using hk
    obtain ⟨_, a2, a3, a4, a5⟩ := mdio_fast_add_step ctx mode val hk (by omega)
    by_cases hm : mode = MDIO_WRITE
    · obtain ⟨b1, _⟩ := a5 hm
      refine ⟨by rw [a2]; omega, by rw [b1]; exact h2, by rw [a3]; exact h3, fun _ => ?_⟩
      rw [a2, b1]; omega
    · obtain ⟨_, _, b1⟩ := a4 hm
      refine ⟨by rw [a2]; omega, by rw [b1]; omega, by rw [a3]; exact h3, fun _ => ?_⟩
      rw [a2, b1]; omega
  · have hk' : ctx.findex ≥ FAST_COMMAND_NUM := by omega
    simp only [mdio_fast_add, hk', if_true]
    exact ⟨h1, h2, h3, fun _ => h4⟩

theorem queue_bounded_flush (ctx : mdio_ctx) (res : Int) (captured : Buf) (flushed : Bool)
    (h : queue_bounded ctx flushed) :
    queue_bounded (mdio_fast_flush ctx res captured).2 (flushed || decide (res = ERROR_OK)) := by
  obtain ⟨h1, h2, h3, h4⟩ := h
  by_cases hres : res = ERROR_OK
  · subst hres
    refine ⟨?_, ?_, ?_, ?_⟩
    · simp [mdio_fast_flush]
    · simpa [mdio_fast_flush] using h2
    · simpa [mdio_fast_flush] using h1
    · intro hf
      simp at hf
  · obtain ⟨a1, a2, a3, _⟩ := mdio_fast_flush_failed ctx res captured hres
    refine ⟨by rw [a1]; exact h1, by rw [a3]; exact h2, by rw [a2]; exact h3, ?_⟩
    intro hf
    simp only [hres, decide_False, Bool.or_false] at hf
    rw [a1, a3]
    exact h4 hf

theorem queue_bounded_clean (ctx : mdio_ctx) (flushed : Bool) (h : queue_bounded ctx flushed) :
    queue_bounded (mdio_fast_clean ctx).2 false := by
  obtain ⟨h1, _, _, _⟩ := h
  refine ⟨?_, ?_, ?_, ?_⟩
  · simpa [mdio_fast_clean] using h1
  · simp [mdio_fast_clean]
  · simp [mdio_fast_clean]
  · intro _
    simp [mdio_fast_clean]

theorem queue_bounded_run (calls : List fast_call) :
    ∀ (ctx : mdio_ctx) (flushed : Bool), queue_bounded ctx flushed →
      clean_before_add flushed calls = true →
      queue_bounded (run_calls ctx calls) (flushed_after flushed calls) := by
  induction calls with
  | nil => intro ctx flushed h _; exact h
  | cons call rest ih =>
    intro ctx flushed h hp
    cases call with
    | add mode val =>
      simp only [clean_before_add, Bool.and_eq_true, Bool.not_eq_true'] at hp
      obtain ⟨hf, hrest⟩ := hp
      subst hf
      exact ih _ false (queue_bounded_add ctx mode val h) hrest
    | flush res captured =>
      simp only [clean_before_add] at hp
      exact ih _ _ (queue_bounded_flush ctx res captured flushed h) hp
    | clean =>
      simp only [clean_before_add] at hp
      exact ih _ false (queue_bounded_clean ctx flushed h) hp

theorem queue_bounded_open (vid pid p target : Nat) (opened : Option Nat) (ctx : mdio_ctx)
    (hinit : mdio_init true vid pid p target = some ctx) :
    queue_bounded (mdio_open ctx opened).2 false := by
  simp only [mdio_init, if_true, Option.some.injEq] at hinit
  subst hinit
  refine ⟨?_, ?_, ?_, ?_⟩
  · simp [mdio_open, init_mpsse, init_mdio_queue]
  · cases opened <;> simp [mdio_open, init_mpsse, init_mdio_queue]
  · cases opened <;> simp [mdio_open, init_mpsse, init_mdio_queue]
  · intro _
    cases opened <;> simp [mdio_open, init_mpsse, init_mdio_queue]

/-! ## C12, C13: the slow output buffer -/

/-- The four bytes `_mdio_bytes_to_bytes` writes, by position. -/
theorem bytes_to_bytes_at (out : Buf) (offset w j : Nat) (h : offset + 4 < 65536)
    (hj : j < 4) : (_mdio_bytes_to_bytes out offset w).1 (offset + j) = be_byte w j := by
  obtain ⟨_, b0, b1, b2, b3, _⟩ := bytes_to_bytes_spec out offset w h
  have hj' : j = 0 ∨ j = 1 ∨ j = 2 ∨ j = 3 := by omega
  rcases hj' with h | h | h | h <;> subst h
  · exact b0
  · exact b1
  · exact b2
  · exact b3

/-- What `_mdio_preamble` leaves in the buffer and returns, when the cursor
does not wrap. -/
theorem preamble_spec (out : Buf) (offset : Nat) (h : offset + 4 < 65536) :
    (_mdio_preamble out offset).2 = offset + 4 ∧
    (∀ j, j < 4 → (_mdio_preamble out offset).1 (offset + j) = 0xff) ∧
    ∀ i, (i < offset ∨ offset + 4 ≤ i) → (_mdio_preamble out offset).1 i = out i := by
  have e1 : (offset + 1) % 65536 = offset + 1 := Nat.mod_eq_of_lt (by omega)
  have e2 : (offset + 1 + 1) % 65536 = offset + 2 := Nat.mod_eq_of_lt (by omega)
  have e3 : (offset + 2 + 1) % 65536 = offset + 3 := Nat.mod_eq_of_lt (by omega)
  have e4 : (offset + 3 + 1) % 65536 = offset + 4 := Nat.mod_eq_of_lt (by omega)
  simp only [_mdio_preamble, offset_inc, e1, e2, e3, e4, store]
  refine ⟨trivial, ?_, ?_⟩
  · intro j hj
    have hj' : j = 0 ∨ j = 1 ∨ j = 2 ∨ j = 3 := by omega
    rcases hj' with h | h | h | h <;> subst h <;> simp
  · intro i hi
    have h0 : i ≠ offset := by omega
    have h1 : i ≠ offset + 1 := by omega
    have h2 : i ≠ offset + 2 := by omega
    have h3 : i ≠ offset + 3 := by omega
    simp [h0, h1, h2, h3]

/-- What `_setup_mdio_slow` leaves in the slow buffer: the two command halves
at bytes 4..7 and 12..15, everything else as before. -/
theorem setup_slow_spec (out : Buf) (ops : mdio_ops) :
    (∀ j, j < 4 → _setup_mdio_slow out 0 ops (4 + j)
      = be_byte (address_opcode ops.phy ops.dev ops.reg) j) ∧
    (∀ j, j < 4 → _setup_mdio_slow out 0 ops (12 + j)
      = be_byte (value_opcode ops.phy ops.dev ops.mode ops.val) j) ∧
    ∀ i, (i < 4 ∨ (8 ≤ i ∧ i < 12) ∨ 16 ≤ i) → _setup_mdio_slow out 0 ops i = out i := by
  obtain ⟨a2, _, _, _, _, arest⟩ :=
    bytes_to_bytes_spec out 4 (address_opcode ops.phy ops.dev ops.reg) (by norm_num)
  obtain ⟨_, _, _, _, _, vrest⟩ :=
    bytes_to_bytes_spec (_mdio_bytes_to_bytes out 4 (address_opcode ops.phy ops.dev ops.reg)).1
      12 (value_opcode ops.phy ops.dev ops.mode ops.val) (by norm_num)
  have e : _setup_mdio_slow out 0 ops
      = (_mdio_bytes_to_bytes
          (_mdio_bytes_to_bytes out 4 (address_opcode ops.phy ops.dev ops.reg)).1 12
          (value_opcode ops.phy ops.dev ops.mode ops.val)).1 := by
    unfold _setup_mdio_slow
    simp only [command_address_eq, command_value_eq, PREAMBLE_SIZE, a2]
  rw [e]
  refine ⟨?_, ?_, ?_⟩
  · intro j hj
    rw [vrest _ (Or.inl (by omega))]
    exact bytes_to_bytes_at out 4 _ j (by norm_num) hj
  · intro j hj
    exact bytes_to_bytes_at _ 12 _ j (by norm_num) hj
  · intro i hi
    rw [vrest i (by omega), arest i (by omega)]

theorem slow_preambles_open (ctx : mdio_ctx) (opened : Option Nat)
    (hrun : ctx.is_running = false) : slow_preambles (mdio_open ctx opened).2 := by
  have hs : (mdio_open ctx opened).2.soutput
      = (_prepare_mdio_slow ctx.soutput 0 (init_ops ctx.phy_id)).1 := by
    cases opened <;> simp [mdio_open, hrun, init_mpsse, init_mdio_queue, init_ops]
  obtain ⟨p2, pin, _⟩ := preamble_spec ctx.soutput 0 (by norm_num)
  obtain ⟨a2, _, _, _, _, arest⟩ := bytes_to_bytes_spec (_mdio_preamble ctx.soutput 0).1 4
    (address_opcode (init_ops ctx.phy_id).phy (init_ops ctx.phy_id).dev (init_ops ctx.phy_id).reg)
    (by norm_num)
  obtain ⟨_, qin, _⟩ := preamble_spec
    (_mdio_bytes_to_bytes (_mdio_preamble ctx.soutput 0).1 4
      (address_opcode (init_ops ctx.phy_id).phy (init_ops ctx.phy_id).dev
        (init_ops ctx.phy_id).reg)).1 8 (by norm_num)
  obtain ⟨_, _, _, _, _, vrest⟩ := bytes_to_bytes_spec
    (_mdio_preamble (_mdio_bytes_to_bytes (_mdio_preamble ctx.soutput 0).1 4
      (address_opcode (init_ops ctx.phy_id).phy (init_ops ctx.phy_id).dev
        (init_ops ctx.phy_id).reg)).1 8).1 12
    (value_opcode (init_ops ctx.phy_id).phy (init_ops ctx.phy_id).dev
      (init_ops ctx.phy_id).mode (init_ops ctx.phy_id).val) (by norm_num)
  have e : (_prepare_mdio_slow ctx.soutput 0 (init_ops ctx.phy_id)).1
      = (_mdio_bytes_to_bytes
          (_mdio_preamble (_mdio_bytes_to_bytes (_mdio_preamble ctx.soutput 0).1 4
            (address_opcode (init_ops ctx.phy_id).phy (init_ops ctx.phy_id).dev
              (init_ops ctx.phy_id).reg)).1 8).1 12
          (value_opcode (init_ops ctx.phy_id).phy (init_ops ctx.phy_id).dev
            (init_ops ctx.phy_id).mode (init_ops ctx.phy_id).val)).1 := by
    unfold _prepare_mdio_slow
    have p2' : (_mdio_preamble ctx.soutput 0).2 = 4 := by simpa using p2
    have q2 := (preamble_spec
      (_mdio_bytes_to_bytes (_mdio_preamble ctx.soutput 0).1 4
        (address_opcode (init_ops ctx.phy_id).phy (init_ops ctx.phy_id).dev
          (init_ops ctx.phy_id).reg)).1 8 (by norm_num)).1
    simp only [command_address_eq, command_value_eq, p2', a2, q2]
  rw [slow_preambles, hs, e]
  constructor
  · intro i hi
    rw [vrest i (Or.inl (by omega)), (preamble_spec _ 8 (by norm_num)).2.2 i (Or.inl (by omega)),
      arest i (Or.inl (by omega))]
    have := pin i hi
    simpa using this
  · intro i h8 h12
    rw [vrest i (Or.inl (by omega))]
    have := qin (i - 8) (by omega)
    rw [show 8 + (i - 8) = i by omega] at this
    exact this

theorem slots_prepared_mdio_apply (ctx : mdio_ctx) (call : mdio_call)
    (h : slots_prepared ctx) : slots_prepared (mdio_call.apply ctx call) := by
  cases call with
  | slow_setup ops => exact h
  | slow_flush res captured => exact h
  | fast call => exact slots_prepared_apply ctx call h

/-- A slow setup leaves the preamble bytes of the slow output buffer in place. -/
theorem slow_preambles_setup (ctx : mdio_ctx) (ops : mdio_ops) (h : slow_preambles ctx) :
    slow_preambles (mdio_slow_setup ctx ops).2 := by
  obtain ⟨_, _, srest⟩ := setup_slow_spec ctx.soutput ops
  constructor
  · intro i hi
    simp only [mdio_slow_setup]
    rw [srest i (Or.inl hi)]
    exact h.1 i hi
  · intro i h8 h12
    simp only [mdio_slow_setup]
    rw [srest i (Or.inr (Or.inl ⟨h8, h12⟩))]
    exact h.2 i h8 h12

/-- A fast-queue call that keeps the protocol leaves the slow output buffer
alone: the store of an add lands inside the read-back array. -/
theorem fast_call_soutput (ctx : mdio_ctx) (call : fast_call) (flushed : Bool)
    (hq : queue_bounded ctx flushed) (hp : clean_before_add flushed [call] = true) :
    (fast_call.apply ctx call).soutput = ctx.soutput ∧
    (fast_call.apply ctx call).overrun = ctx.overrun := by
  cases call with
  | add mode val =>
    simp only [clean_before_add, Bool.and_true, Bool.not_eq_true'] at hp
    subst hp
    obtain ⟨_, _, _, h4⟩ := hq
    have h4 := h4 rfl
    show (mdio_fast_add ctx mode val).2.soutput = ctx.soutput ∧
      (mdio_fast_add ctx mode val).2.overrun = ctx.overrun
    by_cases hk : ctx.findex < FAST_COMMAND_NUM
    · by_cases hm : mode = MDIO_WRITE
      · subst hm
        rw [mdio_fast_add_write ctx val hk]
        exact ⟨rfl, rfl⟩
      · rw [mdio_fast_add_read ctx mode val hm hk (by omega)]
        exact ⟨rfl, rfl⟩
    · have hk' : ctx.findex ≥ FAST_COMMAND_NUM := by omega
      simp only [mdio_fast_add, hk', if_true]
      exact ⟨trivial, trivial⟩
  | flush res captured =>
    simp only [fast_call.apply, mdio_fast_flush]
    split <;> exact ⟨rfl, rfl⟩
  | clean => exact ⟨rfl, rfl⟩

theorem clean_before_add_cons (flushed : Bool) (call : fast_call) (rest : List fast_call)
    (hp : clean_before_add flushed (call :: rest) = true) :
    clean_before_add flushed [call] = true ∧
    clean_before_add (flushed_after flushed [call]) rest = true := by
  cases call with
  | add mode val =>
    simp only [clean_before_add, Bool.and_eq_true, Bool.not_eq_true'] at hp
    simp only [clean_before_add, flushed_after, Bool.and_true, Bool.not_eq_true']
    exact hp
  | flush res captured =>
    simp only [clean_before_add] at hp
    simp only [clean_before_add, flushed_after]
    exact ⟨trivial, hp⟩
  | clean =>
    simp only [clean_before_add] at hp
    simp only [clean_before_add, flushed_after]
    exact ⟨trivial, hp⟩

/-- Along slow and fast calls that keep the protocol, the preamble bytes of the
slow output buffer and the prepared parts of the fast slots stay in place, and
no store leaves the read-back array. -/
theorem preambles_run (calls : List mdio_call) :
    ∀ (ctx : mdio_ctx) (flushed : Bool), slow_preambles ctx → slots_prepared ctx →
      queue_bounded ctx flushed → clean_before_add flushed (fast_calls calls) = true →
      slow_preambles (run_mdio_calls ctx calls) ∧ slots_prepared (run_mdio_calls ctx calls) ∧
      (run_mdio_calls ctx calls).overrun = ctx.overrun := by
  induction calls with
  | nil => intro ctx _ h1 h2 _ _; exact ⟨h1, h2, rfl⟩
  | cons call rest ih =>
    intro ctx flushed h1 h2 hq hp
    have hrun : run_mdio_calls ctx (call :: rest)
        = run_mdio_calls (mdio_call.apply ctx call) rest := rfl
    rw [hrun]
    cases call with
    | slow_setup ops =>
      exact ih _ flushed (slow_preambles_setup ctx ops h1)
        (slots_prepared_mdio_apply ctx _ h2) hq hp
    | slow_flush res captured =>
      exact ih _ flushed h1 (slots_prepared_mdio_apply ctx _ h2) hq hp
    | fast call =>
      obtain ⟨hp1, hp2⟩ := clean_before_add_cons flushed call (fast_calls rest) hp
      obtain ⟨hs, ho⟩ := fast_call_soutput ctx call flushed hq hp1
      have h1' : slow_preambles (mdio_call.apply ctx (mdio_call.fast call)) := by
        simp only [slow_preambles, mdio_call.apply, hs]
        exact h1
      have hq' : queue_bounded (fast_call.apply ctx call) (flushed_after flushed [call]) :=
        queue_bounded_run [call] ctx flushed hq hp1
      obtain ⟨i1, i2, i3⟩ := ih _ _ h1' (slots_prepared_mdio_apply ctx _ h2) hq' hp2
      exact ⟨i1, i2, i3.trans ho⟩

/-- The preamble bytes of a prepared fast buffer. -/
theorem slots_prepared_preambles (ctx : mdio_ctx) (h : slots_prepared ctx) (k : Nat)
    (hk : k < FAST_COMMAND_NUM) :
    ctx.foutput (10 * k) = 0xff ∧ ctx.foutput (10 * k + 5) = 0xff := by
  obtain ⟨hb, _⟩ := h k hk
  have h0 := hb 0 (by norm_num) (by norm_num) (by norm_num) (by norm_num)
  have h5 := hb 5 (by norm_num) (by norm_num) (by norm_num) (by norm_num)
  rw [fast_frame_byte_eq _ 0 (by norm_num)] at h0
  rw [fast_frame_byte_eq _ 5 (by norm_num)] at h5
  simp only [fast_frame_bytes, Nat.add_zero] at h0 h5
  exact ⟨h0, h5⟩

/-- C12 (as the code has it). In every state reached after `mdio_open`, on a
context made by `mdio_init`, through any sequence of `mdio_slow_setup` (with
any operation descriptor), slow flushes, `mdio_fast_add`, `mdio_fast_flush` and
`mdio_fast_clean` in which no add follows a successful flush without a clean
in between, bytes 0..3 and 8..11 of the slow output buffer are `0xff`, and the
byte of the fast output buffer at every offset `k*5` within the buffer is
`0xff`: these offsets are the two preamble bytes `10k` and `10k+5` of each
slot. No store of these calls leaves the read-back array. -/
theorem preambles_kept (vid pid p target : Nat) (ctx0 : mdio_ctx) (opened : Option Nat)
    (calls : List mdio_call)
    (hinit : mdio_init true vid pid p target = some ctx0)
    (hproto : clean_before_add false (fast_calls calls) = true) :
    (∀ i, i < 4 → (run_mdio_calls (mdio_open ctx0 opened).2 calls).soutput i = 0xff) ∧
    (∀ i, 8 ≤ i → i < 12 →
      (run_mdio_calls (mdio_open ctx0 opened).2 calls).soutput i = 0xff) ∧
    (∀ k, k * 5 < MAX_BUFF_SIZE →
      (run_mdio_calls (mdio_open ctx0 opened).2 calls).foutput (k * 5) = 0xff) ∧
    (∀ k, k < FAST_COMMAND_NUM →
      (run_mdio_calls (mdio_open ctx0 opened).2 calls).foutput (k * MDIO_FAST_COMMAND_SIZE)
        = 0xff ∧
      (run_mdio_calls (mdio_open ctx0 opened).2 calls).foutput
        (k * MDIO_FAST_COMMAND_SIZE + 5) = 0xff) ∧
    (run_mdio_calls (mdio_open ctx0 opened).2 calls).overrun = false := by
  have hrun : ctx0.is_running = false := by
    simp only [mdio_init, if_true, Option.some.injEq] at hinit
    subst hinit
    rfl
  have hover : (mdio_open ctx0 opened).2.overrun = false := by
    simp only [mdio_init, if_true, Option.some.injEq] at hinit
    subst hinit
    cases opened <;> rfl
  obtain ⟨hs, hf, ho⟩ := preambles_run calls _ false (slow_preambles_open ctx0 opened hrun)
    (slots_prepared_open ctx0 opened hrun) (queue_bounded_open vid pid p target opened ctx0 hinit)
    hproto
  refine ⟨hs.1, hs.2, ?_, ?_, ho.trans hover⟩
  · intro k hk
    have hk' : k * 5 < 40960 := by
      simpa [MAX_BUFF_SIZE, MDIO_FAST_COMMAND_SIZE, FAST_PREAMBLE_SIZE, OP_SIZE,
        FAST_COMMAND_NUM] using hk
    obtain ⟨p0, p5⟩ := slots_prepared_preambles _ hf (k / 2)
      (by simp only [FAST_COMMAND_NUM]; omega)
    rcases Nat.mod_two_eq_zero_or_one k with h | h
    · rw [show k * 5 = 10 * (k / 2) by omega]; exact p0
    · rw [show k * 5 = 10 * (k / 2) + 5 by omega]; exact p5
  · intro k hk
    obtain ⟨p0, p5⟩ := slots_prepared_preambles _ hf k hk
    have e : k * MDIO_FAST_COMMAND_SIZE = 10 * k := by
      simp only [MDIO_FAST_COMMAND_SIZE, FAST_PREAMBLE_SIZE, OP_SIZE]; omega
    rw [e]
    exact ⟨p0, p5⟩

/-- C12 on the opened sample context, after a slow setup and an add: the last
multiple of 5 in the fast buffer holds a preamble byte. -/
theorem preambles_kept_witness :
    (run_mdio_calls (mdio_open sample_ctx none).2
      [mdio_call.slow_setup read_cfg_ops, mdio_call.fast (fast_call.add MDIO_WRITE 8)]).foutput
        (8191 * 5) = 0xff :=
  (preambles_kept 0x0403 0x6010 0x1a 0 sample_ctx none
    [mdio_call.slow_setup read_cfg_ops, mdio_call.fast (fast_call.add MDIO_WRITE 8)]
    rfl rfl).2.2.1 8191 (by decide)

theorem run_mdio_calls_fast (calls : List fast_call) :
    ∀ ctx : mdio_ctx, run_mdio_calls ctx (calls.map mdio_call.fast) = run_calls ctx calls := by
  induction calls with
  | nil => intro ctx; rfl
  | cons call rest ih =>
    intro ctx
    exact ih (fast_call.apply ctx call)

/-- An accepted read added with the read-back counter on one of the entries 8
to 15 after the array: the two bytes land in `soutput`. -/
theorem mdio_fast_add_past_sinput (ctx : mdio_ctx) (val : Nat)
    (hk : ctx.findex < FAST_COMMAND_NUM) (h1 : FAST_COMMAND_NUM + 8 ≤ ctx.fread_cnt)
    (h2 : ctx.fread_cnt < FAST_COMMAND_NUM + 16) :
    (mdio_fast_add ctx MDIO_READ val).2.soutput
      = store
          (store ctx.soutput (2 * (ctx.fread_cnt - FAST_COMMAND_NUM - 8)) (ctx.findex &&& 0xff))
          (2 * (ctx.fread_cnt - FAST_COMMAND_NUM - 8) + 1) ((ctx.findex >>> 8) &&& 0xff) := by
  rw [mdio_fast_add_not_write ctx MDIO_READ val hk (by decide),
    fread_queue_store_soutput _ _ _ h1 h2]

/-- C12 as stated fails: on the opened sample context a full batch of 4096
reads is added and flushed and, with no clean in between, nine more reads are
added. The read-back counter then runs from 4096 to 4104: the first eight
stores land in `sinput`, and the ninth, of slot index 8, lands on bytes 0 and 1
of the slow output buffer, which then hold `08 00` and not `FF FF`. -/
theorem soutput_overwritten :
    (run_mdio_calls (mdio_open sample_ctx none).2
      (overrun_calls.map mdio_call.fast)).soutput 0 = 8 ∧
    (run_mdio_calls (mdio_open sample_ctx none).2
      (overrun_calls.map mdio_call.fast)).soutput 1 = 0 ∧
    (run_mdio_calls (mdio_open sample_ctx none).2
      (overrun_calls.map mdio_call.fast)).soutput 0 ≠ 0xff := by
  obtain ⟨b1, b2, _, _, _⟩ := run_full_batch (mdio_open sample_ctx none).2 rfl rfl
  obtain ⟨r1, r2, _⟩ := run_reads_sinput 0xffff 8
    (run_calls (mdio_open sample_ctx none).2 full_batch)
    (by rw [b1]; decide) (by rw [b2]) (by rw [b2])
  have e : run_mdio_calls (mdio_open sample_ctx none).2 (overrun_calls.map mdio_call.fast)
      = (mdio_fast_add
          (run_calls (run_calls (mdio_open sample_ctx none).2 full_batch)
            (List.replicate 8 (fast_call.add MDIO_READ 0xffff)))
          MDIO_READ 0xffff).2 := by
    rw [run_mdio_calls_fast, overrun_calls,
      show List.replicate 9 (fast_call.add MDIO_READ 0xffff)
        = List.replicate 8 (fast_call.add MDIO_READ 0xffff) ++ [fast_call.add MDIO_READ 0xffff]
        from rfl,
      run_calls_append, run_calls_append, run_calls_single, fast_call_apply_add]
  have hs := mdio_fast_add_past_sinput
    (run_calls (run_calls (mdio_open sample_ctx none).2 full_batch)
      (List.replicate 8 (fast_call.add MDIO_READ 0xffff)))
    0xffff (by rw [r1, b1]; decide) (by rw [r2, b2]) (by rw [r2, b2]; omega)
  rw [r1, r2, b1, b2] at hs
  rw [e, hs]
  have e0 : 2 * (FAST_COMMAND_NUM + 8 - FAST_COMMAND_NUM - 8) = 0 := by omega
  rw [e0]
  refine ⟨?_, ?_, ?_⟩
  · rw [store_other _ _ _ _ (by decide), store_same]
    decide
  · rw [store_same]
    decide
  · rw [store_other _ _ _ _ (by decide), store_same]
    decide

theorem mdio_read_soutput (ctx : mdio_ctx) (phy dev reg : Nat) (t : mpsse_transport) :
    (mdio_read ctx phy dev reg t).2.soutput
      = _setup_mdio_slow ctx.soutput 0
          { phy := phy, dev := dev, reg := reg, val := 0xffff, mode := MDIO_READ } := by
  simp [mdio_read, mdio_slow_setup, mdio_slow_flush]

/-- The slow output buffer after the setup of the read of PHY 0x1a, device
0x1d, register 0x0020, on a buffer whose preambles are in place. -/
theorem read_cfg_bytes (out : Buf) (h03 : ∀ i, i < 4 → out i = 0xff)
    (h811 : ∀ i, 8 ≤ i → i < 12 → out i = 0xff) :
    (List.range 16).map (_setup_mdio_slow out 0 read_cfg_ops)
      = [0xff, 0xff, 0xff, 0xff, 0x0d, 0x76, 0x00, 0x20,
          0xff, 0xff, 0xff, 0xff, 0x3d, 0x76, 0xff, 0xff] := by
  obtain ⟨sa, sv, srest⟩ := setup_slow_spec out read_cfg_ops
  have ha : address_opcode read_cfg_ops.phy read_cfg_ops.dev read_cfg_ops.reg = 0x0d760020 := by
    decide
  have hv : value_opcode read_cfg_ops.phy read_cfg_ops.dev read_cfg_ops.mode read_cfg_ops.val
      = 0x3d76ffff := by decide
  rw [ha] at sa
  rw [hv] at sv
  have hr : List.range 16 = [0, 1, 2, 3, 4, 5, 6, 7, 8, 9, 10, 11, 12, 13, 14, 15] := by decide
  rw [hr]
  simp only [List.map]
  rw [srest 0 (by omega), srest 1 (by omega), srest 2 (by omega), srest 3 (by omega),
    srest 8 (by omega), srest 9 (by omega), srest 10 (by omega), srest 11 (by omega),
    h03 0 (by omega), h03 1 (by omega), h03 2 (by omega), h03 3 (by omega),
    h811 8 (by omega) (by omega), h811 9 (by omega) (by omega), h811 10 (by omega) (by omega),
    h811 11 (by omega) (by omega),
    sa 0 (by omega), sa 1 (by omega), sa 2 (by omega), sa 3 (by omega),
    sv 0 (by omega), sv 1 (by omega), sv 2 (by omega), sv 3 (by omega)]
  rfl

/-- C13 (as the code has it). On an opened context, in any state reached
through slow and fast calls that keep the protocol of the fast queue (no add
after a successful flush without a clean in between), a slow read of PHY 0x1a,
device 0x1d, register 0x0020 (`mdio_read`, that is `mdio_slow_setup` with mode
READ and value 0xffff) leaves the 16-byte slow output buffer equal to
`FF FF FF FF 0D 76 00 20 FF FF FF FF 3D 76 FF FF`. -/
theorem mdio_read_cfg_soutput (vid pid p target : Nat) (ctx0 : mdio_ctx) (opened : Option Nat)
    (calls : List mdio_call) (t : mpsse_transport)
    (hinit : mdio_init true vid pid p target = some ctx0)
    (hproto : clean_before_add false (fast_calls calls) = true) :
    (List.range 16).map
        (mdio_read (run_mdio_calls (mdio_open ctx0 opened).2 calls) 0x1a 0x1d 0x0020 t).2.soutput
      = [0xff, 0xff, 0xff, 0xff, 0x0d, 0x76, 0x00, 0x20,
          0xff, 0xff, 0xff, 0xff, 0x3d, 0x76, 0xff, 0xff] ∧
    (List.range 16).map
        (mdio_slow_setup (run_mdio_calls (mdio_open ctx0 opened).2 calls) read_cfg_ops).2.soutput
      = [0xff, 0xff, 0xff, 0xff, 0x0d, 0x76, 0x00, 0x20,
          0xff, 0xff, 0xff, 0xff, 0x3d, 0x76, 0xff, 0xff] := by
  have hrun : ctx0.is_running = false := by
    simp only [mdio_init, if_true, Option.some.injEq] at hinit
    subst hinit
    rfl
  obtain ⟨hs, _⟩ := preambles_run calls _ false (slow_preambles_open ctx0 opened hrun)
    (slots_prepared_open ctx0 opened hrun) (queue_bounded_open vid pid p target opened ctx0 hinit)
    hproto
  constructor
  · rw [mdio_read_soutput]
    exact read_cfg_bytes _ hs.1 hs.2
  · exact read_cfg_bytes _ hs.1 hs.2

/-- C13 on the freshly opened sample context, with the echoing transport. -/
theorem mdio_read_cfg_soutput_witness :
    (List.range 16).map
        (mdio_read (run_mdio_calls (mdio_open sample_ctx none).2 []) 0x1a 0x1d 0x0020
          mpsse_echo).2.soutput
      = [0xff, 0xff, 0xff, 0xff, 0x0d, 0x76, 0x00, 0x20,
          0xff, 0xff, 0xff, 0xff, 0x3d, 0x76, 0xff, 0xff] :=
  (mdio_read_cfg_soutput 0x0403 0x6010 0x1a 0 sample_ctx none [] mpsse_echo rfl rfl).1

/-- C13 as stated fails: on the opened sample context the read leaves `0x76`,
not `0x08`, in bytes 5 and 13 of the slow output buffer. -/
theorem mdio_read_cfg_not_08 :
    (mdio_read (mdio_open sample_ctx none).2 0x1a 0x1d 0x0020 mpsse_echo).2.soutput 5 = 0x76 ∧
    (mdio_read (mdio_open sample_ctx none).2 0x1a 0x1d 0x0020 mpsse_echo).2.soutput 13 = 0x76 ∧
    (List.range 16).map
        (mdio_read (mdio_open sample_ctx none).2 0x1a 0x1d 0x0020 mpsse_echo).2.soutput
      ≠ [0xff, 0xff, 0xff, 0xff, 0x0d, 0x08, 0x00, 0x20,
          0xff, 0xff, 0xff, 0xff, 0x3d, 0x08, 0xff, 0xff] := by
  decide

/-! ## C14: decoding undoes encoding -/

/-- The last two bytes of a written value half decode to the value. -/
theorem decode_value_half (out : Buf) (offset phy dev val : Nat) (mode : mdio_mode)
    (hval : val < 65536) (hoff : offset + 4 < 65536) :
    _mdio_bytes_to_u16 (_mdio_command_value out offset phy dev mode val).1 (offset + 2) = val := by
  obtain ⟨_, _, _, b2, b3, _⟩ :=
    bytes_to_bytes_spec out offset (value_opcode phy dev mode val) hoff
  have hV := value_opcode_sum phy dev val mode hval
  rw [command_value_eq]
  have e2 : (_mdio_bytes_to_bytes out offset (value_opcode phy dev mode val)).1 (offset + 2)
      = val / 256 := by
    rw [b2, hV]; split <;> omega
  have e3 : (_mdio_bytes_to_bytes out offset (value_opcode phy dev mode val)).1 (offset + 2 + 1)
      = val % 256 := by
    rw [show offset + 2 + 1 = offset + 3 by omega, b3, hV]; split <;> omega
  unfold _mdio_bytes_to_u16
  rw [e2, e3, shiftLeft_or_eq_add _ _ 8 (by simpa using Nat.mod_lt val (show 256 > 0 by norm_num))]
  omega

/-- C14. Decoding undoes encoding of the value field: for every phy, dev, mode
and 16-bit `V`, `_mdio_bytes_to_u16` at frame end - 2, applied to the buffer in
which `_mdio_command_value` has just written the value half for `V`, returns
`V`. Hence, with a transport stand-in that echoes the programmed pattern,
`mdio_write(phy, dev, reg, V)` followed by `mdio_slow_readback` returns `V`,
with status OK. -/
theorem decode_undoes_encode (ctx : mdio_ctx) (out : Buf) (offset phy dev reg V : Nat)
    (mode : mdio_mode) (hV : V < 65536) (hoff : offset + 4 < 65536) :
    _mdio_bytes_to_u16 (_mdio_command_value out offset phy dev mode V).1
        ((_mdio_command_value out offset phy dev mode V).2 - 2) = V ∧
    mdio_slow_readback (mdio_write ctx phy dev reg V mpsse_echo) = (ERROR_OK, V) := by
  constructor
  · rw [(command_value_spec out offset phy dev V mode hV hoff).2.1,
      show offset + 4 - 2 = offset + 2 by omega]
    exact decode_value_half out offset phy dev V mode hV hoff
  · have hs : (mdio_write ctx phy dev reg V mpsse_echo).sinput
        = mpsse_capture ctx.sinput
            (_setup_mdio_slow ctx.soutput 0
              { phy := phy, dev := dev, reg := reg, val := V, mode := MDIO_WRITE })
            (mdio_slow_flush_clock_data ctx) := by
      simp [mdio_write, mdio_slow_setup, mdio_slow_flush, mpsse_echo,
        mdio_slow_flush_clock_data]
    obtain ⟨_, sv, _⟩ := setup_slow_spec ctx.soutput
      { phy := phy, dev := dev, reg := reg, val := V, mode := MDIO_WRITE }
    have hW := value_opcode_sum phy dev V MDIO_WRITE hV
    have s14 := sv 2 (by norm_num)
    have s15 := sv 3 (by norm_num)
    simp only [be_byte, hW] at s14 s15
    have c14 : (mdio_write ctx phy dev reg V mpsse_echo).sinput 14 = V / 256 := by
      rw [hs]
      simp only [mpsse_capture, mdio_slow_flush_clock_data, MDIO_COMMAND_SIZE, PREAMBLE_SIZE,
        OP_SIZE]
      rw [if_pos (by omega), s14]
      simp only [if_true]
      omega
    have c15 : (mdio_write ctx phy dev reg V mpsse_echo).sinput 15 = V % 256 := by
      rw [hs]
      simp only [mpsse_capture, mdio_slow_flush_clock_data, MDIO_COMMAND_SIZE, PREAMBLE_SIZE,
        OP_SIZE]
      rw [if_pos (by omega), s15]
      simp only [if_true]
      omega
    simp only [mdio_slow_readback, MDIO_COMMAND_SIZE, PREAMBLE_SIZE, OP_SIZE, _mdio_bytes_to_u16]
    rw [show (4 + 4) * 2 - 2 = 14 by norm_num, c14, c15,
      shiftLeft_or_eq_add _ _ 8 (by simpa using Nat.mod_lt V (show 256 > 0 by norm_num))]
    congr 1
    omega

/-- C14 on the sample context: writing `0x1234` to PHY 0x1a, device 0x1f,
register 0x10 through the echoing stand-in reads back `0x1234`. -/
theorem decode_undoes_encode_witness :
    mdio_slow_readback (mdio_write sample_ctx 0x1a 0x1f 0x10 0x1234 mpsse_echo)
      = (ERROR_OK, 0x1234) :=
  (decode_undoes_encode sample_ctx (fun _ => 0) 0 0x1a 0x1f 0x10 0x1234 MDIO_WRITE
    (by decide) (by decide)).2

/-! ## Bits of the shadow register -/

theorem testBit_ge_16 (r i : Nat) (hr : r < 65536) (hi : 16 ≤ i) : r.testBit i = false := by
  apply Nat.testBit_lt_two_pow
  calc r < 2 ^ 16 := by simpa using hr
    _ ≤ 2 ^ i := Nat.pow_le_pow_right (by norm_num) hi

/-- Bits of the shadow after `jtag_reg |= 1 << k`. -/
theorem testBit_reg_set (r k i : Nat) (hr : r < 65536) (hk : k < 16) :
    (reg_set r (1 <<< k)).testBit i = (r.testBit i || decide (i = k)) := by
  unfold reg_set
  rw [show (65536 : Nat) = 2 ^ 16 by norm_num, Nat.testBit_mod_two_pow, Nat.testBit_or,
    Nat.one_shiftLeft, Nat.testBit_two_pow]
  by_cases h16 : i < 16
  · by_cases hik : i = k
    · subst hik; simp [h16]
    · have : ¬ k = i := fun h => hik h.symm
      simp [h16, hik, this]
  · have hik : ¬ i = k := by omega
    have : ¬ k = i := by omega
    simp [h16, hik, this, testBit_ge_16 r i hr (by omega)]

/-- Bits of the shadow after `jtag_reg &= ~(1 << k)`. -/
theorem testBit_reg_clear (r k i : Nat) (hr : r < 65536) (hk : k < 32) :
    (reg_clear r (1 <<< k)).testBit i = (r.testBit i && !decide (i = k)) := by
  unfold reg_clear
  rw [show (65536 : Nat) = 2 ^ 16 by norm_num, Nat.testBit_mod_two_pow, Nat.testBit_and,
    Nat.testBit_xor, Nat.one_shiftLeft, Nat.testBit_two_pow,
    show (0xffffffff : Nat) = 2 ^ 32 - 1 by norm_num, Nat.testBit_two_pow_sub_one]
  by_cases h16 : i < 16
  · have h32 : i < 32 := by omega
    by_cases hik : i = k
    · subst hik; simp [h16, h32]
    · have : ¬ k = i := fun h => hik h.symm
      simp [h16, h32, hik, this]
  · simp [h16, testBit_ge_16 r i hr (by omega)]

theorem reg_set_lt (r m : Nat) : reg_set r m < 65536 := Nat.mod_lt _ (by norm_num)

theorem reg_clear_lt (r m : Nat) : reg_clear r m < 65536 := Nat.mod_lt _ (by norm_num)

theorem ite_pair_snd {α β : Type} (c : Prop) [Decidable c] (a b : α) (x : β) :
    (if c then (a, x) else (b, x)).2 = x := by
  split <;> rfl

theorem ite_pair_fst {α β : Type} (c : Prop) [Decidable c] (a b : α) (x : β) :
    (if c then (a, x) else (b, x)).1 = if c then a else b := by
  split <;> rfl

theorem baset1_write_eq (ops : baset1_ops) (tck tms tdi : Int) :
    (baset1_write ops tck tms tdi).2
      = { ops with
          mdio_ctx := (mdio_fast_add ops.mdio_ctx MDIO_WRITE
            (write_shadow ops.target ops.jtag_reg tck tms tdi)).2
          jtag_reg := write_shadow ops.target ops.jtag_reg tck tms tdi } ∧
    (baset1_write ops tck tms tdi).1
      = (if (mdio_fast_add ops.mdio_ctx MDIO_WRITE
          (write_shadow ops.target ops.jtag_reg tck tms tdi)).1 ≥ 0
        then ERROR_OK else ERROR_FAIL) := by
  simp only [baset1_write, write_shadow]
  exact ⟨ite_pair_snd _ _ _ _, ite_pair_fst _ _ _ _⟩

theorem baset1_reset_eq (ops : baset1_ops) (trst srst : Int) :
    (baset1_reset ops trst srst).2
      = { ops with
          mdio_ctx := (mdio_fast_add ops.mdio_ctx MDIO_WRITE
            (reset_shadow ops.target ops.jtag_reg trst)).2
          jtag_reg := reset_shadow ops.target ops.jtag_reg trst } ∧
    (baset1_reset ops trst srst).1
      = (if (mdio_fast_add ops.mdio_ctx MDIO_WRITE
          (reset_shadow ops.target ops.jtag_reg trst)).1 ≥ 0
        then ERROR_OK else ERROR_FAIL) := by
  simp only [baset1_reset, reset_shadow]
  exact ⟨ite_pair_snd _ _ _ _, ite_pair_fst _ _ _ _⟩

/-- One conditional update of the shadow, bit by bit. -/
theorem testBit_reg_update (b : Prop) [Decidable b] (x k j : Nat) (hx : x < 65536)
    (hk : k < 16) :
    (if b then reg_set x (1 <<< k) else reg_clear x (1 <<< k)).testBit j
      = if j = k then decide b else x.testBit j := by
  by_cases hb : b
  · rw [if_pos hb, testBit_reg_set x k j hx hk]
    by_cases hjk : j = k <;> simp [hjk, hb]
  · rw [if_neg hb, testBit_reg_clear x k j hx (by omega)]
    by_cases hjk : j = k <;> simp [hjk, hb]

theorem reg_update_lt (b : Prop) [Decidable b] (x m : Nat) :
    (if b then reg_set x m else reg_clear x m) < 65536 := by
  split
  · exact reg_set_lt _ _
  · exact reg_clear_lt _ _

/-- Bits of the shadow that `baset1_write` computes. -/
theorem testBit_write_shadow (T r i : Nat) (tck tms tdi : Int) (hr : r < 65536)
    (hT : T + 3 < 16) :
    (write_shadow T r tck tms tdi).testBit i
      = if i = T + 1 then decide (tdi ≠ 0)
        else if i = T + 2 then decide (tms ≠ 0)
        else if i = T + 3 then decide (tck ≠ 0)
        else r.testBit i := by
  simp only [write_shadow, JTAG_TDI, JTAG_TCK, JTAG_TMS]
  rw [testBit_reg_update _ _ _ _ (reg_update_lt _ _ _) (by omega),
    testBit_reg_update _ _ _ _ (reg_update_lt _ _ _) (by omega),
    testBit_reg_update _ _ _ _ hr (by omega)]
  by_cases h1 : i = T + 1
  · have h2 : i ≠ T + 2 := by omega
    have h3 : i ≠ T + 3 := by omega
    simp [h1, h2, h3]
  · by_cases h2 : i = T + 2
    · simp [h2]
    · simp [h1, h2]

/-- Bits of the shadow that `baset1_reset` computes. -/
theorem testBit_reset_shadow (T r i : Nat) (trst : Int) (hr : r < 65536) (hT : T + 4 < 16) :
    (reset_shadow T r trst).testBit i
      = if i = T + 4 then decide (trst ≠ 0) else r.testBit i := by
  simp only [reset_shadow, JTAG_RST]
  exact testBit_reg_update _ _ _ _ hr hT

theorem write_shadow_lt (T r : Nat) (tck tms tdi : Int) :
    write_shadow T r tck tms tdi < 65536 := by
  simp only [write_shadow]
  exact reg_update_lt _ _ _

theorem reset_shadow_lt (T r : Nat) (trst : Int) : reset_shadow T r trst < 65536 := by
  simp only [reset_shadow]
  exact reg_update_lt _ _ _

/-- The value the claim names: the old shadow with bits `T+1 .. T+3` cleared,
then the three argument bits. -/
theorem write_shadow_value (T r : Nat) (tck tms tdi : Int) (hr : r < 65536)
    (hT : T + 3 < 16) :
    write_shadow T r tck tms tdi
      = (((r &&& (0xffff ^^^ (7 <<< (T + 1)))) ||| (int_bit tdi <<< (T + 1)))
          ||| (int_bit tms <<< (T + 2))) ||| (int_bit tck <<< (T + 3)) := by
  apply Nat.eq_of_testBit_eq
  intro i
  rw [testBit_write_shadow T r i tck tms tdi hr hT]
  simp only [Nat.testBit_or, Nat.testBit_and, Nat.testBit_xor, Nat.testBit_shiftLeft,
    show (0xffff : Nat) = 2 ^ 16 - 1 by norm_num, show (7 : Nat) = 2 ^ 3 - 1 by norm_num,
    Nat.testBit_two_pow_sub_one]
  have hb : ∀ (x : Int) (j : Nat), (int_bit x).testBit j = (decide (x ≠ 0) && decide (j = 0)) := by
    intro x j
    unfold int_bit
    by_cases hx : x ≠ 0
    · rw [if_pos hx]
      have := @Nat.testBit_two_pow 0 j
      simp only [Nat.pow_zero] at this
      rw [this]
      by_cases hj : j = 0
      · simp [hj, hx]
      · have : ¬ 0 = j := fun h => hj h.symm
        simp [hj, hx, this]
    · rw [if_neg hx]
      simp [hx]
  rw [hb, hb, hb]
  by_cases h16 : i < 16
  · by_cases h1 : i = T + 1
    · subst h1
      by_cases hd : tdi ≠ 0 <;> simp [hd, h16]
    · by_cases h2 : i = T + 2
      · subst h2
        by_cases hd : tms ≠ 0 <;> simp [hd, h16]
      · by_cases h3 : i = T + 3
        · subst h3
          by_cases hd : tck ≠ 0 <;> simp [hd, h16]
        · have e1 : ¬ (i - (T + 1) = 0 ∧ T + 1 ≤ i) := by omega
          have e2 : ¬ (i - (T + 2) = 0 ∧ T + 2 ≤ i) := by omega
          have e3 : ¬ (i - (T + 3) = 0 ∧ T + 3 ≤ i) := by omega
          by_cases hge : T + 1 ≤ i
          · have hlt : ¬ i - (T + 1) < 3 := by omega
            have g1 : i - (T + 1) ≠ 0 := by omega
            have g2 : i - (T + 2) ≠ 0 := by omega
            have g3 : i - (T + 3) ≠ 0 := by omega
            simp [h1, h2, h3, h16, hge, hlt, g1, g2, g3]
          · have n1 : ¬ T + 2 ≤ i := by omega
            have n2 : ¬ T + 3 ≤ i := by omega
            simp [h1, h2, h3, h16, hge, n1, n2]
  · have h1 : i ≠ T + 1 := by omega
    have h2 : i ≠ T + 2 := by omega
    have h3 : i ≠ T + 3 := by omega
    have g1 : i - (T + 1) ≠ 0 := by omega
    have g2 : i - (T + 2) ≠ 0 := by omega
    have g3 : i - (T + 3) ≠ 0 := by omega
    simp [h1, h2, h3, h16, testBit_ge_16 r i hr (by omega), g1, g2, g3]

/-! ## C15: the bit driver's write -/

/-- The low nibble survives the mask `~0xf0`. -/
theorem and_not_f0 (x : Nat) : (x &&& 0xffffff0f) % 256 = x % 16 := by
  apply Nat.eq_of_testBit_eq
  intro i
  rw [show (256 : Nat) = 2 ^ 8 by norm_num, show (16 : Nat) = 2 ^ 4 by norm_num,
    Nat.testBit_mod_two_pow, Nat.testBit_mod_two_pow, Nat.testBit_and,
    show (0xffffff0f : Nat) = (2 ^ 32 - 1) ^^^ ((2 ^ 4 - 1) <<< 4) by decide,
    Nat.testBit_xor, Nat.testBit_shiftLeft, Nat.testBit_two_pow_sub_one,
    Nat.testBit_two_pow_sub_one]
  by_cases h4 : i < 4
  · have h8 : i < 8 := by omega
    have h32 : i < 32 := by omega
    have hge : ¬ 4 ≤ i := by omega
    simp [h4, h8, h32, hge]
  · by_cases h8 : i < 8
    · have h32 : i < 32 := by omega
      have hge : 4 ≤ i := by omega
      have hlt : i - 4 < 4 := by omega
      simp [h4, h8, h32, hge, hlt]
    · simp [h4, h8]

/-- The OP nibble the patch leaves at the head of the value half. -/
theorem op_nibble_after_patch (x : Nat) (mode : mdio_mode) :
    (((x &&& 0xffffff0f) % 256) ||| (if mode = MDIO_WRITE then 0x10 else 0x30)) % 256 / 16
      = if mode = MDIO_WRITE then 1 else 3 := by
  rw [and_not_f0]
  have hx : x % 16 < 2 ^ 4 := Nat.mod_lt _ (by norm_num)
  have e1 : (x % 16) ||| 0x10 = 16 + x % 16 := by
    have := Nat.mul_add_lt_is_or hx 1
    rw [Nat.or_comm]
    simpa using this.symm
  have e3 : (x % 16) ||| 0x30 = 48 + x % 16 := by
    have := Nat.mul_add_lt_is_or hx 3
    rw [Nat.or_comm]
    simpa using this.symm
  split
  · rw [e1]; omega
  · rw [e3]; omega

/-- The slot an accepted add fills: its OP nibble and its 16 data bits. -/
theorem mdio_fast_add_slot_tail (ctx : mdio_ctx) (mode : mdio_mode) (val : Nat)
    (hk : ctx.findex < FAST_COMMAND_NUM) (hval : val < 65536) :
    (mdio_fast_add ctx mode val).2.foutput (10 * ctx.findex + 6) / 16
      = (if mode = MDIO_WRITE then 1 else 3) ∧
    be16 (mdio_fast_add ctx mode val).2.foutput (10 * ctx.findex + 8)
      = (if mode = MDIO_WRITE then val else 0xffff) ∧
    ∀ i, (i < 10 * ctx.findex + 6 ∨ 10 * ctx.findex + 9 < i) →
      (mdio_fast_add ctx mode val).2.foutput i = ctx.foutput i := by
  obtain ⟨hf, _⟩ := mdio_fast_add_foutput ctx mode val hk
  have hk1 : 10 * ctx.findex + 10 < 65536 := by
    simp only [FAST_COMMAND_NUM] at hk; omega
  obtain ⟨s6, s8, s9, srest⟩ := setup_fast_spec ctx.foutput (10 * ctx.findex)
    { phy := 0, dev := 0, reg := 0, val := val, mode := mode } hk1
  rw [hf]
  refine ⟨?_, ?_, ?_⟩
  · rw [s6]
    exact op_nibble_after_patch _ mode
  · unfold be16
    rw [s8, show 10 * ctx.findex + 8 + 1 = 10 * ctx.findex + 9 by omega, s9]
    simp only []
    split <;> omega
  · intro i hi
    exact srest i (by omega) (by omega) (by omega)

/-- C15. For target base `T` in {0 (MCU), 8 (PMU)}, every 16-bit shadow value
`r` and all integers `tck`, `tms`, `tdi`, the bit driver's `write` sets the
shadow to `(r with bits T+1, T+2, T+3 cleared) | (tdi≠0)<<(T+1) |
(tms≠0)<<(T+2) | (tck≠0)<<(T+3)`, and, when the queue is not full, enqueues
exactly one WRITE slot carrying that value (`findex` grows by 1, the slot has
OP nibble 1 and the value as its 16 data bits, no other slot changes, no
read-back entry is added) and returns OK. -/
theorem baset1_write_effect (ops : baset1_ops) (tck tms tdi : Int)
    (hT : ops.target = TARGET_MCU ∨ ops.target = TARGET_PMU) (hr : ops.jtag_reg < 65536) :
    (baset1_write ops tck tms tdi).2.jtag_reg
      = (((ops.jtag_reg &&& (0xffff ^^^ (7 <<< (ops.target + 1))))
            ||| (int_bit tdi <<< (ops.target + 1)))
          ||| (int_bit tms <<< (ops.target + 2))) ||| (int_bit tck <<< (ops.target + 3)) ∧
    (ops.mdio_ctx.findex < FAST_COMMAND_NUM →
      (baset1_write ops tck tms tdi).1 = ERROR_OK ∧
      (baset1_write ops tck tms tdi).2.mdio_ctx
        = (mdio_fast_add ops.mdio_ctx MDIO_WRITE (baset1_write ops tck tms tdi).2.jtag_reg).2 ∧
      (baset1_write ops tck tms tdi).2.mdio_ctx.findex = ops.mdio_ctx.findex + 1 ∧
      (baset1_write ops tck tms tdi).2.mdio_ctx.fread_cnt = ops.mdio_ctx.fread_cnt ∧
      (baset1_write ops tck tms tdi).2.mdio_ctx.foutput
          (ops.mdio_ctx.findex * MDIO_FAST_COMMAND_SIZE + 6) / 16 = 1 ∧
      be16 (baset1_write ops tck tms tdi).2.mdio_ctx.foutput
          (ops.mdio_ctx.findex * MDIO_FAST_COMMAND_SIZE + 8)
        = (baset1_write ops tck tms tdi).2.jtag_reg ∧
      ∀ i, (i < ops.mdio_ctx.findex * MDIO_FAST_COMMAND_SIZE + 6 ∨
          ops.mdio_ctx.findex * MDIO_FAST_COMMAND_SIZE + 9 < i) →
        (baset1_write ops tck tms tdi).2.mdio_ctx.foutput i = ops.mdio_ctx.foutput i) := by
  have hT3 : ops.target + 3 < 16 := by
    rcases hT with h | h <;> rw [h] <;> decide
  obtain ⟨e2, e1⟩ := baset1_write_eq ops tck tms tdi
  have hreg : (baset1_write ops tck tms tdi).2.jtag_reg
      = write_shadow ops.target ops.jtag_reg tck tms tdi := by rw [e2]
  have hctx : (baset1_write ops tck tms tdi).2.mdio_ctx
      = (mdio_fast_add ops.mdio_ctx MDIO_WRITE
          (write_shadow ops.target ops.jtag_reg tck tms tdi)).2 := by rw [e2]
  refine ⟨?_, ?_⟩
  · rw [hreg]
    exact write_shadow_value ops.target ops.jtag_reg tck tms tdi hr hT3
  · intro hk
    have hmul : ops.mdio_ctx.findex * MDIO_FAST_COMMAND_SIZE = 10 * ops.mdio_ctx.findex := by
      simp only [MDIO_FAST_COMMAND_SIZE, FAST_PREAMBLE_SIZE, OP_SIZE]; omega
    have hadd := mdio_fast_add_write ops.mdio_ctx
      (write_shadow ops.target ops.jtag_reg tck tms tdi) hk
    obtain ⟨t1, t2, t3⟩ := mdio_fast_add_slot_tail ops.mdio_ctx MDIO_WRITE
      (write_shadow ops.target ops.jtag_reg tck tms tdi) hk (write_shadow_lt _ _ _ _ _)
    simp only [if_true] at t1 t2
    rw [hmul, hreg, hctx]
    refine ⟨?_, rfl, ?_, ?_, t1, t2, t3⟩
    · rw [e1, hadd]
      simp
    · rw [hadd]
    · rw [hadd]

/-- C15 at the claim's own example: target MCU, shadow 0, `write(1, 0, 1)`
gives shadow `0x000A`. -/
theorem baset1_write_effect_witness :
    (baset1_write mcu_ops 1 0 1).2.jtag_reg = 0x000A :=
  (baset1_write_effect mcu_ops 1 0 1 (Or.inl rfl) (by decide)).1

/-! ## C16: the bits a write or a reset leaves alone -/

theorem bitbang_write_jtag_reg (s : Bitbang.state) (tck tms tdi : Int) (t : mpsse_transport) :
    (Bitbang.baset1_write s tck tms tdi t).2.ctx.jtag_reg
      = write_shadow s.ctx.target_cpu s.ctx.jtag_reg tck tms tdi := by
  simp only [Bitbang.baset1_write, write_shadow, Bitbang.mdio_write, Bitbang._mdio_communicate]

theorem bitbang_reset_jtag_reg (s : Bitbang.state) (trst srst : Int) (t : mpsse_transport) :
    (Bitbang.baset1_reset s trst srst t).2.ctx.jtag_reg
      = reset_shadow s.ctx.target_cpu s.ctx.jtag_reg trst := by
  simp only [Bitbang.baset1_reset, reset_shadow, Bitbang.mdio_write, Bitbang._mdio_communicate]

/-- C16. For every target `T` in {MCU, PMU}, every 16-bit starting shadow and
every argument combination, the bit driver's `write(tck, tms, tdi)` and its
`reset(trst, srst)` leave every bit of `jtag_reg` outside {TDI(T), TCK(T),
TMS(T), TRST(T)} as it was, among them the other target's five signal bits and
the selected target's TDO bit; in the fast variant and in the bit-bang variant. -/
theorem shadow_other_bits_kept (ops : baset1_ops) (s : Bitbang.state) (T i : Nat)
    (tck tms tdi trst srst : Int) (t : mpsse_transport)
    (hT : T = TARGET_MCU ∨ T = TARGET_PMU)
    (hfast : ops.target = T) (hbb : s.ctx.target_cpu = T)
    (hr : ops.jtag_reg < 65536) (hrb : s.ctx.jtag_reg < 65536)
    (h1 : i ≠ T + 1) (h2 : i ≠ T + 2) (h3 : i ≠ T + 3) (h4 : i ≠ T + 4) :
    (baset1_write ops tck tms tdi).2.jtag_reg.testBit i = ops.jtag_reg.testBit i ∧
    (baset1_reset ops trst srst).2.jtag_reg.testBit i = ops.jtag_reg.testBit i ∧
    (Bitbang.baset1_write s tck tms tdi t).2.ctx.jtag_reg.testBit i
      = s.ctx.jtag_reg.testBit i ∧
    (Bitbang.baset1_reset s trst srst t).2.ctx.jtag_reg.testBit i
      = s.ctx.jtag_reg.testBit i := by
  have hT4 : T + 4 < 16 := by
    rcases hT with h | h <;> rw [h] <;> decide
  refine ⟨?_, ?_, ?_, ?_⟩
  · rw [(baset1_write_eq ops tck tms tdi).1]
    simp only []
    rw [hfast, testBit_write_shadow T _ i tck tms tdi hr (by omega)]
    simp [h1, h2, h3]
  · rw [(baset1_reset_eq ops trst srst).1]
    simp only []
    rw [hfast, testBit_reset_shadow T _ i trst hr hT4]
    simp [h4]
  · rw [bitbang_write_jtag_reg, hbb, testBit_write_shadow T _ i tck tms tdi hrb (by omega)]
    simp [h1, h2, h3]
  · rw [bitbang_reset_jtag_reg, hbb, testBit_reset_shadow T _ i trst hrb hT4]
    simp [h4]

/-- C16 on the initial states of both variants (target PMU): the PMU's TDO bit,
bit 8, is kept by a write of all ones. -/
theorem shadow_other_bits_kept_witness :
    (baset1_write (baset1_ops_init sample_ctx) 1 1 1).2.jtag_reg.testBit 8
      = (baset1_ops_init sample_ctx).jtag_reg.testBit 8 :=
  (shadow_other_bits_kept (baset1_ops_init sample_ctx) Bitbang.state_init TARGET_PMU 8
    1 1 1 1 1 mpsse_echo (Or.inr rfl) rfl rfl (by decide) (by decide)
    (by decide) (by decide) (by decide) (by decide)).1

/-! ## C17: the bit driver's reset -/

/-- C17 (as the code has it). For target `T` in {MCU, PMU}, every 16-bit shadow
`r` and all integers `trst`, `srst`, the bit driver's `reset(trst, srst)` sets
bit `T+4` (TRST) of the shadow iff `trst ≠ 0` and changes no other bit, and
gives the same shadow, the same queue and the same status for `srst = 0` and
`srst ≠ 0`; when the queue is not full it enqueues exactly one WRITE slot
carrying the new shadow and returns OK. -/
theorem baset1_reset_effect (ops : baset1_ops) (trst srst : Int)
    (hT : ops.target = TARGET_MCU ∨ ops.target = TARGET_PMU) (hr : ops.jtag_reg < 65536) :
    ((baset1_reset ops trst srst).2.jtag_reg.testBit (ops.target + 4) = decide (trst ≠ 0)) ∧
    (∀ i, i ≠ ops.target + 4 →
      (baset1_reset ops trst srst).2.jtag_reg.testBit i = ops.jtag_reg.testBit i) ∧
    baset1_reset ops trst srst = baset1_reset ops trst 0 ∧
    (ops.mdio_ctx.findex < FAST_COMMAND_NUM →
      (baset1_reset ops trst srst).1 = ERROR_OK ∧
      (baset1_reset ops trst srst).2.mdio_ctx
        = (mdio_fast_add ops.mdio_ctx MDIO_WRITE (baset1_reset ops trst srst).2.jtag_reg).2 ∧
      (baset1_reset ops trst srst).2.mdio_ctx.findex = ops.mdio_ctx.findex + 1 ∧
      (baset1_reset ops trst srst).2.mdio_ctx.fread_cnt = ops.mdio_ctx.fread_cnt ∧
      (baset1_reset ops trst srst).2.mdio_ctx.foutput
          (ops.mdio_ctx.findex * MDIO_FAST_COMMAND_SIZE + 6) / 16 = 1 ∧
      be16 (baset1_reset ops trst srst).2.mdio_ctx.foutput
          (ops.mdio_ctx.findex * MDIO_FAST_COMMAND_SIZE + 8)
        = (baset1_reset ops trst srst).2.jtag_reg ∧
      ∀ i, (i < ops.mdio_ctx.findex * MDIO_FAST_COMMAND_SIZE + 6 ∨
          ops.mdio_ctx.findex * MDIO_FAST_COMMAND_SIZE + 9 < i) →
        (baset1_reset ops trst srst).2.mdio_ctx.foutput i = ops.mdio_ctx.foutput i) := by
  have hT4 : ops.target + 4 < 16 := by
    rcases hT with h | h <;> rw [h] <;> decide
  obtain ⟨e2, e1⟩ := baset1_reset_eq ops trst srst
  have hreg : (baset1_reset ops trst srst).2.jtag_reg
      = reset_shadow ops.target ops.jtag_reg trst := by rw [e2]
  have hctx : (baset1_reset ops trst srst).2.mdio_ctx
      = (mdio_fast_add ops.mdio_ctx MDIO_WRITE
          (reset_shadow ops.target ops.jtag_reg trst)).2 := by rw [e2]
  refine ⟨?_, ?_, rfl, ?_⟩
  · rw [hreg, testBit_reset_shadow _ _ _ trst hr hT4]
    simp
  · intro i hi
    rw [hreg, testBit_reset_shadow _ _ _ trst hr hT4]
    simp [hi]
  · intro hk
    have hmul : ops.mdio_ctx.findex * MDIO_FAST_COMMAND_SIZE = 10 * ops.mdio_ctx.findex := by
      simp only [MDIO_FAST_COMMAND_SIZE, FAST_PREAMBLE_SIZE, OP_SIZE]; omega
    have hadd := mdio_fast_add_write ops.mdio_ctx
      (reset_shadow ops.target ops.jtag_reg trst) hk
    obtain ⟨t1, t2, t3⟩ := mdio_fast_add_slot_tail ops.mdio_ctx MDIO_WRITE
      (reset_shadow ops.target ops.jtag_reg trst) hk (reset_shadow_lt _ _ _)
    simp only [if_true] at t1 t2
    rw [hmul, hreg, hctx]
    refine ⟨?_, rfl, ?_, ?_, t1, t2, t3⟩
    · rw [e1, hadd]
      simp
    · rw [hadd]
    · rw [hadd]

/-- C17 at the claim's own example: target PMU, shadow 0, `reset(1, 1)` sets
bit 12, so the shadow is `0x1000`. -/
theorem baset1_reset_effect_witness :
    baset1_reset (baset1_ops_init sample_ctx) 1 1 = baset1_reset (baset1_ops_init sample_ctx) 1 0 ∧
    (baset1_reset (baset1_ops_init sample_ctx) 1 1).2.jtag_reg = 0x1000 :=
  ⟨(baset1_reset_effect (baset1_ops_init sample_ctx) 1 1 (Or.inr rfl) (by decide)).2.2.1,
    by decide⟩

/-- C17 as stated fails when the queue is full: `reset(1, 1)` then enqueues no
slot (the context keeps `findex = 4096` and its buffer) and returns
`ERROR_FAIL`, while the shadow still takes the TRST bit. -/
theorem baset1_reset_full_queue :
    (baset1_reset full_queue_ops 1 1).1 = ERROR_FAIL ∧
    (baset1_reset full_queue_ops 1 1).2.mdio_ctx.findex = full_queue_ops.mdio_ctx.findex ∧
    (baset1_reset full_queue_ops 1 1).2.mdio_ctx.findex ≠ full_queue_ops.mdio_ctx.findex + 1 ∧
    (baset1_reset full_queue_ops 1 1).2.jtag_reg = 0x1000 := by
  decide

/-! ## C19: the bytes a write patches -/

/-- The last four bytes of the slot that a write of `0x000a` patches, on a
prepared queue for PHY `0x1a`. -/
theorem write_000a_tail (c : mdio_ctx) (hinv : slots_prepared c) (hphy : c.phy_id = 0x1a)
    (hk : c.findex < FAST_COMMAND_NUM) :
    (List.range 4).map
        (fun j => (mdio_fast_add c MDIO_WRITE 0x000a).2.foutput (10 * c.findex + 6 + j))
      = [0x1d, 0x7e, 0x00, 0x0a] := by
  have hb := mdio_fast_add_slot_bytes c MDIO_WRITE 0x000a hinv hk (by norm_num)
  have hV : value_opcode 0x1a MDIO_JTAG_DEV MDIO_WRITE 0x000a = 0x1d7e000a := by decide
  have h6 := hb 6 (by norm_num)
  have h7 := hb 7 (by norm_num)
  have h8 := hb 8 (by norm_num)
  have h9 := hb 9 (by norm_num)
  simp only [if_true, hphy, hV, fast_frame_bytes] at h6 h7 h8 h9
  have hr : List.range 4 = [0, 1, 2, 3] := by decide
  rw [hr]
  simp only [List.map, Nat.add_zero]
  rw [h6, show 10 * c.findex + 6 + 1 = 10 * c.findex + 7 by omega, h7,
    show 10 * c.findex + 6 + 2 = 10 * c.findex + 8 by omega, h8,
    show 10 * c.findex + 6 + 3 = 10 * c.findex + 9 by omega, h9]
  rfl

/-- C19 (as the code has it). On an opened context of the fast driver with the
default PHY id `0x1a`, in any state of the queue with a free slot, target = MCU
and `jtag_reg = 0`, `write(tck=1, tms=0, tdi=1)` sets the shadow to `0x000A`
and makes the last 4 bytes of the fast slot it patches equal to `1D 7E 00 0A`:
OP nibble 1 over the PHY, device and turnaround bits of the prepared frame,
then the value. -/
theorem write_patches_slot_tail (ctx0 : mdio_ctx) (opened : Option Nat)
    (calls : List fast_call) (ops : baset1_ops)
    (hrun : ctx0.is_running = false) (hphy : ctx0.phy_id = 0x1a)
    (hctx : ops.mdio_ctx = run_calls (mdio_open ctx0 opened).2 calls)
    (hT : ops.target = TARGET_MCU) (hreg : ops.jtag_reg = 0)
    (hk : ops.mdio_ctx.findex < FAST_COMMAND_NUM) :
    (baset1_write ops 1 0 1).2.jtag_reg = 0x000A ∧
    (List.range 4).map
        (fun j => (baset1_write ops 1 0 1).2.mdio_ctx.foutput
          (ops.mdio_ctx.findex * MDIO_FAST_COMMAND_SIZE + 6 + j))
      = [0x1d, 0x7e, 0x00, 0x0a] := by
  have hinv : slots_prepared ops.mdio_ctx := by
    rw [hctx]
    exact slots_prepared_run calls _ (slots_prepared_open ctx0 opened hrun)
  have hp : ops.mdio_ctx.phy_id = 0x1a := by
    have key : ∀ (l : List fast_call) (c : mdio_ctx), (run_calls c l).phy_id = c.phy_id := by
      intro l
      induction l with
      | nil => intro c; rfl
      | cons call rest ih =>
        intro c
        have hstep : (fast_call.apply c call).phy_id = c.phy_id := by
          cases call with
          | add mode val => exact (mdio_fast_add_kept c mode val).2.1
          | flush res captured =>
            simp only [fast_call.apply, mdio_fast_flush]
            split <;> rfl
          | clean => rfl
        exact (ih _).trans hstep
    rw [hctx, key, (mdio_open_foutput ctx0 opened hrun).2.2, hphy]
  have hs : write_shadow ops.target ops.jtag_reg 1 0 1 = 0x000a := by
    rw [hT, hreg]; decide
  have hmul : ops.mdio_ctx.findex * MDIO_FAST_COMMAND_SIZE = 10 * ops.mdio_ctx.findex := by
    simp only [MDIO_FAST_COMMAND_SIZE, FAST_PREAMBLE_SIZE, OP_SIZE]; omega
  obtain ⟨e2, _⟩ := baset1_write_eq ops 1 0 1
  rw [e2, hs, hmul]
  exact ⟨rfl, write_000a_tail ops.mdio_ctx hinv hp hk⟩

/-- C19 on the freshly opened sample context: the write patches slot 0. -/
theorem write_patches_slot_tail_witness :
    (baset1_write mcu_ops 1 0 1).2.jtag_reg = 0x000A ∧
    (List.range 4).map
        (fun j => (baset1_write mcu_ops 1 0 1).2.mdio_ctx.foutput
          (mcu_ops.mdio_ctx.findex * MDIO_FAST_COMMAND_SIZE + 6 + j))
      = [0x1d, 0x7e, 0x00, 0x0a] :=
  write_patches_slot_tail sample_ctx none [] mcu_ops rfl rfl rfl rfl rfl (by decide)

/-- C19 as stated fails: on the freshly opened sample context (PHY `0x1a`,
target MCU, shadow 0) the write leaves `1D 7E 00 0A` in the last four bytes of
slot 0, not `10 00 00 0A`. -/
theorem write_tail_not_10_00 :
    (List.range 4).map
        (fun j => (baset1_write mcu_ops 1 0 1).2.mdio_ctx.foutput
          (mcu_ops.mdio_ctx.findex * MDIO_FAST_COMMAND_SIZE + 6 + j))
      ≠ [0x10, 0x00, 0x00, 0x0a] := by
  have hinv : slots_prepared mcu_ops.mdio_ctx := slots_prepared_open sample_ctx none rfl
  have hk : mcu_ops.mdio_ctx.findex < FAST_COMMAND_NUM := by decide
  have hp : mcu_ops.mdio_ctx.phy_id = 0x1a := (mdio_open_foutput sample_ctx none rfl).2.2
  have hs : write_shadow mcu_ops.target mcu_ops.jtag_reg 1 0 1 = 0x000a := by decide
  have hmul : mcu_ops.mdio_ctx.findex * MDIO_FAST_COMMAND_SIZE = 10 * mcu_ops.mdio_ctx.findex := by
    decide
  obtain ⟨e2, _⟩ := baset1_write_eq mcu_ops 1 0 1
  rw [e2, hs, hmul, write_000a_tail mcu_ops.mdio_ctx hinv hp hk]
  decide

/-! ## C18: the shadow register and the queue -/

theorem accepted_write_of_write (ctx : mdio_ctx) (val : Nat)
    (hk : ctx.findex < FAST_COMMAND_NUM) (hval : val < 65536) :
    accepted_write ctx (mdio_fast_add ctx MDIO_WRITE val).2 = some val := by
  obtain ⟨t1, t2, _⟩ := mdio_fast_add_slot_tail ctx MDIO_WRITE val hk hval
  have hf : (mdio_fast_add ctx MDIO_WRITE val).2.findex = ctx.findex + 1 := by
    rw [mdio_fast_add_write ctx val hk]
  have hmul : ctx.findex * MDIO_FAST_COMMAND_SIZE = 10 * ctx.findex := by
    simp only [MDIO_FAST_COMMAND_SIZE, FAST_PREAMBLE_SIZE, OP_SIZE]; omega
  simp only [if_true] at t1 t2
  unfold accepted_write
  rw [hmul, if_pos ⟨hf, t1⟩, t2]

theorem accepted_write_of_read (ctx : mdio_ctx) (val : Nat) (hval : val < 65536) :
    accepted_write ctx (mdio_fast_add ctx MDIO_READ val).2 = none := by
  by_cases hk : ctx.findex < FAST_COMMAND_NUM
  · obtain ⟨t1, _, _⟩ := mdio_fast_add_slot_tail ctx MDIO_READ val hk hval
    have hmul : ctx.findex * MDIO_FAST_COMMAND_SIZE = 10 * ctx.findex := by
      simp only [MDIO_FAST_COMMAND_SIZE, FAST_PREAMBLE_SIZE, OP_SIZE]; omega
    have hne : ¬ MDIO_READ = MDIO_WRITE := by decide
    simp only [hne, if_false] at t1
    unfold accepted_write
    rw [hmul, if_neg]
    intro h
    rw [t1] at h
    exact absurd h.2 (by decide)
  · have hk' : ctx.findex ≥ FAST_COMMAND_NUM := by omega
    have : (mdio_fast_add ctx MDIO_READ val).2 = ctx := by
      simp only [mdio_fast_add, hk', if_true]
    rw [this]
    unfold accepted_write
    rw [if_neg]
    intro h
    omega

theorem accepted_write_rejected (ctx : mdio_ctx) (mode : mdio_mode) (val : Nat)
    (hk : ctx.findex ≥ FAST_COMMAND_NUM) :
    (mdio_fast_add ctx mode val).2 = ctx ∧ (mdio_fast_add ctx mode val).1 < 0 ∧
    accepted_write ctx ctx = none := by
  refine ⟨by simp only [mdio_fast_add, hk, if_true], ?_, ?_⟩
  · simp only [mdio_fast_add, hk, if_true]
    decide
  · unfold accepted_write
    rw [if_neg]
    intro h
    omega

theorem accepted_write_flush (ctx : mdio_ctx) (res : Int) (captured : Buf) :
    accepted_write ctx (mdio_fast_flush ctx res captured).2 = none := by
  unfold accepted_write
  rw [if_neg]
  intro h
  have hf := h.1
  simp only [mdio_fast_flush] at hf
  split at hf
  · simp at hf
  · simp at hf

theorem accepted_write_clean (ctx : mdio_ctx) :
    accepted_write ctx (mdio_fast_clean ctx).2 = none := by
  unfold accepted_write
  rw [if_neg]
  intro h
  have hf := h.1
  simp [mdio_fast_clean] at hf

/-- The shadow and the last accepted write, one call on. -/
theorem shadow_step (ops : baset1_ops) (call : driver_call) (last : Option Nat) (ok : Bool)
    (h : ok = true → ops.jtag_reg = last.getD 0) :
    last_request_accepted ops ok [call] = true →
      (driver_call.apply ops call).jtag_reg
        = (last_write ops last [call]).getD 0 := by
  cases call with
  | write tck tms tdi =>
    intro hacc
    simp only [last_request_accepted, decide_eq_true_eq] at hacc
    obtain ⟨e2, _⟩ := baset1_write_eq ops tck tms tdi
    simp only [driver_call.apply, last_write, e2,
      accepted_write_of_write ops.mdio_ctx _ hacc (write_shadow_lt _ _ _ _ _), Option.getD_some]
  | reset trst srst =>
    intro hacc
    simp only [last_request_accepted, decide_eq_true_eq] at hacc
    obtain ⟨e2, _⟩ := baset1_reset_eq ops trst srst
    simp only [driver_call.apply, last_write, e2,
      accepted_write_of_write ops.mdio_ctx _ hacc (reset_shadow_lt _ _ _), Option.getD_some]
  | read =>
    intro hacc
    simp only [last_request_accepted] at hacc
    simp only [driver_call.apply, last_write, baset1_read,
      accepted_write_of_read ops.mdio_ctx 0xffff (by norm_num)]
    exact h hacc
  | flush res captured =>
    intro hacc
    simp only [last_request_accepted] at hacc
    simp only [driver_call.apply, last_write, baset1_fast_flush, accepted_write_flush]
    exact h hacc
  | clean =>
    intro hacc
    simp only [last_request_accepted] at hacc
    simp only [driver_call.apply, last_write, baset1_fast_clean, accepted_write_clean]
    exact h hacc

theorem shadow_run (calls : List driver_call) :
    ∀ (ops : baset1_ops) (last : Option Nat) (ok : Bool),
      (ok = true → ops.jtag_reg = last.getD 0) →
      last_request_accepted ops ok calls = true →
      (run_driver ops calls).jtag_reg = (last_write ops last calls).getD 0 := by
  induction calls with
  | nil =>
    intro ops last ok h hacc
    simp only [last_request_accepted] at hacc
    exact h hacc
  | cons call rest ih =>
    intro ops last ok h hacc
    simp only [last_request_accepted] at hacc
    simp only [run_driver, List.foldl_cons, last_write]
    refine ih _ _ _ ?_ hacc
    intro hok
    have := shadow_step ops call last ok h (by simpa [last_request_accepted] using hok)
    simpa [last_write] using this

/-- C18 (as the code has it). In every state of the fast driver reached from
shadow 0 through any sequence of bit-driver write, reset and read calls and
queue flush and clean calls, if the most recent write or reset (when there is
one) was accepted by `mdio_fast_add`, the shadow register `jtag_reg` equals the
value carried by the most recent WRITE accepted into the queue, or its initial
value 0 if no write was accepted. -/
theorem shadow_mirrors_last_write (ops : baset1_ops) (calls : List driver_call)
    (hreg : ops.jtag_reg = 0) (hacc : last_request_accepted ops true calls = true) :
    (run_driver ops calls).jtag_reg = (last_write ops none calls).getD 0 :=
  shadow_run calls ops none true (fun _ => by simpa using hreg) hacc

/-- C18 on the opened sample driver: a write, a read, a reset and a flush. -/
theorem shadow_mirrors_last_write_witness :
    (run_driver opened_ops
        [driver_call.write 1 0 1, driver_call.read, driver_call.reset 1 0,
          driver_call.flush ERROR_OK (fun _ => 0)]).jtag_reg
      = (last_write opened_ops none
        [driver_call.write 1 0 1, driver_call.read, driver_call.reset 1 0,
          driver_call.flush ERROR_OK (fun _ => 0)]).getD 0 :=
  shadow_mirrors_last_write opened_ops
    [driver_call.write 1 0 1, driver_call.read, driver_call.reset 1 0,
      driver_call.flush ERROR_OK (fun _ => 0)] rfl (by decide)

theorem last_write_append (l1 l2 : List driver_call) :
    ∀ (ops : baset1_ops) (last : Option Nat),
      last_write ops last (l1 ++ l2)
        = last_write (run_driver ops l1) (last_write ops last l1) l2 := by
  induction l1 with
  | nil => intro ops last; rfl
  | cons call rest ih =>
    intro ops last
    simp only [List.cons_append, last_write, run_driver, List.foldl_cons]
    exact ih _ _

/-- A run of reads that fits in the queue: `findex` advances by their number,
the shadow and the last accepted write stay. -/
theorem run_driver_reads (n : Nat) :
    ∀ (ops : baset1_ops) (last : Option Nat),
      ops.mdio_ctx.findex + n ≤ FAST_COMMAND_NUM →
      (run_driver ops (List.replicate n driver_call.read)).mdio_ctx.findex
        = ops.mdio_ctx.findex + n ∧
      (run_driver ops (List.replicate n driver_call.read)).jtag_reg = ops.jtag_reg ∧
      (run_driver ops (List.replicate n driver_call.read)).target = ops.target ∧
      last_write ops last (List.replicate n driver_call.read) = last := by
  induction n with
  | zero =>
    intro ops last _
    exact ⟨rfl, rfl, rfl, rfl⟩
  | succ n ih =>
    intro ops last hfit
    have hk : ops.mdio_ctx.findex < FAST_COMMAND_NUM := by omega
    have hstep : (baset1_read ops).2.mdio_ctx.findex = ops.mdio_ctx.findex + 1 :=
      (mdio_fast_add_counts ops.mdio_ctx MDIO_READ 0xffff hk).2.1
    obtain ⟨i1, i2, i3, i4⟩ := ih (baset1_read ops).2 last (by rw [hstep]; omega)
    simp only [List.replicate_succ, run_driver, List.foldl_cons, last_write, driver_call.apply]
    simp only [run_driver] at i1 i2 i3
    refine ⟨by rw [i1, hstep]; omega, by rw [i2]; rfl, by rw [i3]; rfl, ?_⟩
    have hnone : accepted_write ops.mdio_ctx (baset1_read ops).2.mdio_ctx = none := by
      simp only [baset1_read]
      exact accepted_write_of_read ops.mdio_ctx 0xffff (by norm_num)
    rw [hnone]
    exact i4

/-- A write that finds the queue full after calls that put no WRITE into it:
the shadow changes all the same. -/
theorem rejected_write_changes_shadow (ops : baset1_ops) (calls : List driver_call)
    (hfull : (run_driver ops calls).mdio_ctx.findex ≥ FAST_COMMAND_NUM)
    (hlast : last_write ops none calls = none)
    (hreg : (run_driver ops calls).jtag_reg = 0)
    (htarget : (run_driver ops calls).target = TARGET_PMU) :
    last_write ops none (calls ++ [driver_call.write 1 0 0]) = none ∧
    (run_driver ops (calls ++ [driver_call.write 1 0 0])).jtag_reg = 0x0800 := by
  obtain ⟨a1, _, a3⟩ := accepted_write_rejected (run_driver ops calls).mdio_ctx MDIO_WRITE
    (write_shadow (run_driver ops calls).target (run_driver ops calls).jtag_reg 1 0 0) hfull
  obtain ⟨e2, _⟩ := baset1_write_eq (run_driver ops calls) 1 0 0
  constructor
  · rw [last_write_append, hlast]
    simp only [last_write, driver_call.apply, e2, a1, a3]
  · have happ : run_driver ops (calls ++ [driver_call.write 1 0 0])
        = (baset1_write (run_driver ops calls) 1 0 0).2 := by
      simp only [run_driver, List.foldl_append, List.foldl_cons, List.foldl_nil,
        driver_call.apply]
    rw [happ, e2]
    simp only []
    rw [hreg, htarget]
    decide

/-- C18 as stated fails when a write is rejected: from the opened sample
driver (target PMU, shadow 0), 4096 reads fill the queue and `write(1, 0, 0)`
is then rejected by `mdio_fast_add`; no WRITE was ever accepted into the queue,
yet the shadow is `0x0800`, not its initial value 0. -/
theorem shadow_after_rejected_write :
    last_write opened_ops none
        (List.replicate FAST_COMMAND_NUM driver_call.read ++ [driver_call.write 1 0 0]) = none ∧
    (run_driver opened_ops
        (List.replicate FAST_COMMAND_NUM driver_call.read
          ++ [driver_call.write 1 0 0])).jtag_reg = 0x0800 := by
  have h0 : opened_ops.mdio_ctx.findex = 0 := by decide
  obtain ⟨r1, r2, r3, r4⟩ := run_driver_reads FAST_COMMAND_NUM opened_ops none
    (by rw [h0, Nat.zero_add])
  exact rejected_write_changes_shadow opened_ops _
    (by rw [r1, h0, Nat.zero_add]) r4 (by rw [r2]; rfl) (by rw [r3]; rfl)

/-! ## C20: scans with an input value -/

/-- A field without an output value stops the bit loop at its first bit: the
loop reads `field->out_value[bytec]` whatever the type of the field is. -/
theorem scan_bit_loop_null_out (tap_need_move : Bool) (num_fields fidx : Nat)
    (field : scan_field) (type n bcnt : Nat) (st : baset1_ops × List sb_queue)
    (hout : field.out_value = none) :
    scan_bit_loop tap_need_move num_fields fidx field type (n + 1) bcnt st = none := by
  simp only [scan_bit_loop, hout]

/-- The field loop does not come to an end when one of its fields has an input
value, no output value and at least one bit. -/
theorem scan_field_loop_null_out (tap_need_move : Bool) (num_fields : Nat)
    (fields : List scan_field) :
    ∀ (fidx : Nat) (st : baset1_ops × List sb_queue),
      (∃ field, field ∈ fields ∧ field.in_value.isSome = true ∧ field.out_value = none ∧
        0 < field.num_bits) →
      scan_field_loop tap_need_move num_fields fields fidx st = none := by
  induction fields with
  | nil =>
    intro fidx st h
    obtain ⟨field, hmem, _⟩ := h
    exact absurd hmem (List.not_mem_nil _)
  | cons head rest ih =>
    intro fidx st h
    obtain ⟨field, hmem, hin, hout, hbits⟩ := h
    rcases List.mem_cons.mp hmem with hhead | hrest
    · subst hhead
      have htype : field_type field ≠ 0 := by
        simp [field_type, hin, hout, SCAN_IN]
      obtain ⟨n, hn⟩ : ∃ n, field.num_bits.toNat = n + 1 :=
        ⟨field.num_bits.toNat - 1, by omega⟩
      simp only [scan_field_loop, htype, if_false, hn,
        scan_bit_loop_null_out _ _ _ _ _ _ _ _ hout]
    · have hrec := fun fidx st => ih fidx st ⟨field, hrest, hin, hout, hbits⟩
      simp only [scan_field_loop]
      split
      · exact hrec _ _
      · split
        · rfl
        · exact hrec _ _

/-- C20 at its failing input. A scan that has a field with an input value, no
output value (`SCAN_IN`) and at least one bit does not come to an end: for the
first bit of that field the bit loop evaluates `field->out_value[bytec]`
through the null pointer, since both operands of the `&` in the computation of
`tdi` are evaluated. No input value is filled in. -/
theorem scan_in_field_undefined (fw : tap_framework) (s : exec_state) (cmd : scan_command)
    (res : Int) (captured : Buf) (field : scan_field)
    (hmem : field ∈ cmd.fields) (hin : field.in_value.isSome = true)
    (hout : field.out_value = none) (hbits : 0 < field.num_bits) :
    baset1_execute_scan fw s cmd res captured = none := by
  have hloop := fun tnm fidx st =>
    scan_field_loop_null_out tnm cmd.fields.length cmd.fields fidx st
      ⟨field, hmem, hin, hout, hbits⟩
  unfold baset1_execute_scan
  simp only []
  split
  · rfl
  · split
    · rfl
    · rw [hloop]

/-- C20 at the scan of one 8-bit `SCAN_IN` field, from DRSHIFT to DRSHIFT. -/
theorem scan_in_field_undefined_witness :
    baset1_execute_scan still_framework drshift_state scan_in_cmd ERROR_OK (fun _ => 0xff)
      = none :=
  scan_in_field_undefined still_framework drshift_state scan_in_cmd ERROR_OK (fun _ => 0xff)
    (scan_field.mk 8 none (some (fun _ => 0))) (List.mem_singleton.mpr rfl) rfl rfl (by decide)

set_option maxRecDepth 1000000 in
/-- The same scan with an output value (`SCAN_IO`) comes to an end with status
OK; with a captured stream of all ones the input byte is filled with ones. -/
theorem scan_io_field_runs :
    (baset1_execute_scan still_framework drshift_state scan_io_cmd ERROR_OK (fun _ => 0xff)).map
        (fun r => (r.1, r.2.2.map (fun f => f.in_value.map (fun b => b 0))))
      = some (ERROR_OK, [some 0xff]) := by
  decide

/-! ## Writes that fit in the queue -/

theorem baset1_write_fits (ops : baset1_ops) (tck tms tdi : Int)
    (hk : ops.mdio_ctx.findex < FAST_COMMAND_NUM) :
    (baset1_write ops tck tms tdi).1 = ERROR_OK ∧
    (baset1_write ops tck tms tdi).2.mdio_ctx.findex = ops.mdio_ctx.findex + 1 ∧
    (baset1_write ops tck tms tdi).2.mdio_ctx.fread_cnt = ops.mdio_ctx.fread_cnt ∧
    (baset1_write ops tck tms tdi).2.mdio_ctx.ftotal = ops.mdio_ctx.ftotal := by
  obtain ⟨e2, e1⟩ := baset1_write_eq ops tck tms tdi
  rw [e1, e2, mdio_fast_add_write _ _ hk]
  simp [ERROR_OK]

theorem baset1_write_full (ops : baset1_ops) (tck tms tdi : Int)
    (hk : ops.mdio_ctx.findex ≥ FAST_COMMAND_NUM) :
    (baset1_write ops tck tms tdi).1 = ERROR_FAIL ∧
    (baset1_write ops tck tms tdi).2.mdio_ctx = ops.mdio_ctx := by
  obtain ⟨e2, e1⟩ := baset1_write_eq ops tck tms tdi
  obtain ⟨a1, a2, _⟩ := accepted_write_rejected ops.mdio_ctx MDIO_WRITE
    (write_shadow ops.target ops.jtag_reg tck tms tdi) hk
  rw [e1, e2]
  refine ⟨?_, a1⟩
  rw [if_neg]
  omega

theorem run_driver_append (ops : baset1_ops) (a b : List driver_call) :
    run_driver ops (a ++ b) = run_driver (run_driver ops a) b := by
  simp [run_driver, List.foldl_append]

theorem run_driver_cons (ops : baset1_ops) (c : driver_call) (rest : List driver_call) :
    run_driver ops (c :: rest) = run_driver (driver_call.apply ops c) rest := rfl

theorem run_driver_nil (ops : baset1_ops) : run_driver ops [] = ops := rfl

/-- A sequence of writes that fits in the queue takes one slot per write and
leaves the read-back counter and `ftotal` alone. -/
theorem run_driver_writes (calls : List driver_call) :
    ∀ ops : baset1_ops, (∀ c ∈ calls, c.is_write = true) →
      ops.mdio_ctx.findex + calls.length ≤ FAST_COMMAND_NUM →
      (run_driver ops calls).mdio_ctx.findex = ops.mdio_ctx.findex + calls.length ∧
      (run_driver ops calls).mdio_ctx.fread_cnt = ops.mdio_ctx.fread_cnt ∧
      (run_driver ops calls).mdio_ctx.ftotal = ops.mdio_ctx.ftotal := by
  induction calls with
  | nil => intro ops _ _; simp [run_driver]
  | cons c rest ih =>
    intro ops hw hfit
    rw [run_driver_cons]
    have hc := hw c (List.mem_cons_self _ _)
    cases c with
    | write tck tms tdi =>
      simp only [List.length_cons] at hfit
      obtain ⟨_, b2, b3, b4⟩ := baset1_write_fits ops tck tms tdi (by omega)
      obtain ⟨i1, i2, i3⟩ := ih (driver_call.apply ops (driver_call.write tck tms tdi))
        (fun c hc => hw c (List.mem_cons_of_mem _ hc))
        (by simp only [driver_call.apply]; rw [b2]; omega)
      simp only [driver_call.apply] at i1 i2 i3 ⊢
      rw [i1, i2, i3, b2, b3, b4, List.length_cons]
      exact ⟨by omega, rfl, rfl⟩
    | reset _ _ => simp [driver_call.is_write] at hc
    | read => simp [driver_call.is_write] at hc
    | flush _ _ => simp [driver_call.is_write] at hc
    | clean => simp [driver_call.is_write] at hc

theorem runtest_cycles_length (n : Nat) : (runtest_cycles n).length = 2 * n := by
  induction n with
  | zero => rfl
  | succ n ih => simp only [runtest_cycles, List.length_cons, ih]; omega

theorem runtest_cycles_writes (n : Nat) : ∀ c ∈ runtest_cycles n, c.is_write = true := by
  induction n with
  | zero => intro c hc; simp [runtest_cycles] at hc
  | succ n ih =>
    intro c hc
    simp only [runtest_cycles, List.mem_cons] at hc
    rcases hc with h | h | h
    · subst h; rfl
    · subst h; rfl
    · exact ih c h

theorem state_move_pairs_length (tms_scan n : Nat) :
    ∀ i, (state_move_pairs tms_scan n i).length = 2 * n := by
  induction n with
  | zero => intro i; rfl
  | succ n ih => intro i; simp only [state_move_pairs, List.length_cons, ih]; omega

theorem state_move_pairs_writes (tms_scan n : Nat) :
    ∀ i, ∀ c ∈ state_move_pairs tms_scan n i, c.is_write = true := by
  induction n with
  | zero => intro i c hc; simp [state_move_pairs] at hc
  | succ n ih =>
    intro i c hc
    simp only [state_move_pairs, List.mem_cons] at hc
    rcases hc with h | h | h
    · subst h; rfl
    · subst h; rfl
    · exact ih _ c h

theorem state_move_calls_writes (fw : tap_framework) (a b : tap_state_t) (skip : Nat) :
    ∀ c ∈ state_move_calls fw a b skip, c.is_write = true := by
  intro c hc
  simp only [state_move_calls, List.mem_append, List.mem_singleton] at hc
  rcases hc with h | h
  · exact state_move_pairs_writes _ _ _ c h
  · subst h; rfl

theorem runtest_loop_fits (n : Nat) :
    ∀ ops : baset1_ops, ops.mdio_ctx.findex + 2 * n ≤ FAST_COMMAND_NUM →
      runtest_loop n ops = (ERROR_OK, run_driver ops (runtest_cycles n)) := by
  induction n with
  | zero => intro ops _; simp [runtest_loop, runtest_cycles, run_driver]
  | succ n ih =>
    intro ops hfit
    obtain ⟨a1, a2, _, _⟩ := baset1_write_fits ops 0 0 0 (by omega)
    obtain ⟨b1, b2, _, _⟩ := baset1_write_fits (baset1_write ops 0 0 0).2 1 0 0 (by omega)
    have := ih (baset1_write (baset1_write ops 0 0 0).2 1 0 0).2 (by omega)
    simp only [runtest_loop, a1, b1, ne_eq, not_true_eq_false, if_false, this,
      runtest_cycles, run_driver_cons, driver_call.apply]

theorem state_move_loop_fits (tms_scan n : Nat) :
    ∀ (i : Nat) (tms : Int) (ops : baset1_ops),
      ops.mdio_ctx.findex + 2 * n ≤ FAST_COMMAND_NUM →
      state_move_loop tms_scan n i tms ops
        = (ERROR_OK, state_move_last tms_scan n i tms,
            run_driver ops (state_move_pairs tms_scan n i)) := by
  induction n with
  | zero => intro i tms ops _; simp [state_move_loop, state_move_pairs, state_move_last, run_driver]
  | succ n ih =>
    intro i tms ops hfit
    obtain ⟨a1, a2, _, _⟩ :=
      baset1_write_fits ops 0 (((tms_scan >>> i) &&& 1 : Nat) : Int) 0 (by omega)
    obtain ⟨b1, b2, _, _⟩ :=
      baset1_write_fits (baset1_write ops 0 (((tms_scan >>> i) &&& 1 : Nat) : Int) 0).2 1
        (((tms_scan >>> i) &&& 1 : Nat) : Int) 0 (by omega)
    have := ih (i + 1) (((tms_scan >>> i) &&& 1 : Nat) : Int)
      (baset1_write (baset1_write ops 0 (((tms_scan >>> i) &&& 1 : Nat) : Int) 0).2 1
        (((tms_scan >>> i) &&& 1 : Nat) : Int) 0).2 (by omega)
    simp only [state_move_loop, a1, b1, ne_eq, not_true_eq_false, if_false, this,
      state_move_pairs, state_move_last, run_driver_cons, driver_call.apply]

/-- A state move whose writes fit in the queue succeeds, makes exactly the
calls of `state_move_calls`, and sets the TAP tracker to the end state. -/
theorem baset1_state_move_fits (fw : tap_framework) (s : exec_state) (skip : Nat)
    (hfit : s.ops.mdio_ctx.findex
      + (state_move_calls fw s.tap_state s.tap_end_state skip).length ≤ FAST_COMMAND_NUM) :
    baset1_state_move fw s skip
      = (ERROR_OK,
          { s with
            ops := run_driver s.ops (state_move_calls fw s.tap_state s.tap_end_state skip)
            tap_state := s.tap_end_state }) := by
  simp only [state_move_calls, List.length_append, state_move_pairs_length, List.length_singleton]
    at hfit
  have hl := state_move_loop_fits (fw.tap_get_tms_path s.tap_state s.tap_end_state % 256)
    (fw.tap_get_tms_path_len s.tap_state s.tap_end_state - (skip : Int)).toNat skip 0 s.ops
    (by omega)
  have hw := run_driver_writes
    (state_move_pairs (fw.tap_get_tms_path s.tap_state s.tap_end_state % 256)
      (fw.tap_get_tms_path_len s.tap_state s.tap_end_state - (skip : Int)).toNat skip) s.ops
    (state_move_pairs_writes _ _ _) (by rw [state_move_pairs_length]; omega)
  rw [state_move_pairs_length] at hw
  obtain ⟨c1, _, _, _⟩ := baset1_write_fits
    (run_driver s.ops
      (state_move_pairs (fw.tap_get_tms_path s.tap_state s.tap_end_state % 256)
        (fw.tap_get_tms_path_len s.tap_state s.tap_end_state - (skip : Int)).toNat skip)) 0
    (state_move_last (fw.tap_get_tms_path s.tap_state s.tap_end_state % 256)
      (fw.tap_get_tms_path_len s.tap_state s.tap_end_state - (skip : Int)).toNat skip 0) 0
    (by rw [hw.1]; omega)
  simp only [baset1_state_move, hl, c1, ne_eq, not_true_eq_false, if_false, state_move_calls,
    run_driver_append, run_driver_cons, run_driver_nil, driver_call.apply]

theorem baset1_fast_flush_status (ops : baset1_ops) (res : Int) (captured : Buf) :
    (baset1_fast_flush ops res captured).1 = res := by
  unfold baset1_fast_flush mdio_fast_flush
  by_cases h : res = ERROR_OK
  · simp [h]
  · simp [h]

theorem baset1_fast_flush_done (ops : baset1_ops) (captured : Buf) :
    (baset1_fast_flush ops ERROR_OK captured).1 = ERROR_OK ∧
    (baset1_fast_flush ops ERROR_OK captured).2.mdio_ctx.findex = 0 ∧
    (baset1_fast_flush ops ERROR_OK captured).2.mdio_ctx.ftotal = ops.mdio_ctx.findex ∧
    (baset1_fast_flush ops ERROR_OK captured).2.mdio_ctx.fread_cnt = ops.mdio_ctx.fread_cnt := by
  simp [baset1_fast_flush, mdio_fast_flush]

theorem baset1_fast_flush_kept (ops : baset1_ops) (res : Int) (captured : Buf)
    (hres : res ≠ ERROR_OK) :
    (baset1_fast_flush ops res captured).2.mdio_ctx.findex = ops.mdio_ctx.findex := by
  simp [baset1_fast_flush, mdio_fast_flush, hres]

/-! ## The calls of a scan -/

theorem scan_bit_loop_calls (tap_need_move : Bool) (num_fields fidx : Nat) (field : scan_field)
    (type : Nat) (out_value : Buf) (hout : field.out_value = some out_value) (n : Nat) :
    ∀ (bcnt : Nat) (ops : baset1_ops) (q : List sb_queue),
      (scan_bit_loop tap_need_move num_fields fidx field type n bcnt (ops, q)).map Prod.fst
        = some (run_driver ops
            (scan_bit_calls tap_need_move num_fields fidx field.num_bits out_value type n
              bcnt)) := by
  induction n with
  | zero =>
    intro bcnt ops q
    simp [scan_bit_loop, scan_bit_calls, run_driver]
  | succ n ih =>
    intro bcnt ops q
    rw [scan_bit_loop]
    by_cases ht : type = SCAN_OUT
    · simp only [hout, ne_eq, ht, not_true_eq_false, if_false, scan_bit_calls, List.nil_append,
        run_driver_cons, driver_call.apply]
      rw [← ht]
      exact ih _ _ _
    · simp only [hout, ne_eq, ht, not_false_eq_true, if_true, scan_bit_calls,
        List.singleton_append, run_driver_cons, driver_call.apply]
      exact ih _ _ _

theorem scan_bit_loop_queue (tap_need_move : Bool) (num_fields fidx : Nat) (field : scan_field)
    (type : Nat) (out_value : Buf) (hout : field.out_value = some out_value) (n : Nat) :
    ∀ (bcnt : Nat) (ops : baset1_ops) (q : List sb_queue),
      (scan_bit_loop tap_need_move num_fields fidx field type n bcnt (ops, q)).map
          (fun st => st.2.length)
        = some (q.length + (if type ≠ SCAN_OUT then n else 0)) := by
  induction n with
  | zero =>
    intro bcnt ops q
    simp [scan_bit_loop]
  | succ n ih =>
    intro bcnt ops q
    rw [scan_bit_loop]
    by_cases ht : type = SCAN_OUT
    · simp only [hout, ne_eq, ht, not_true_eq_false, if_false]
      rw [← ht, ih]
      simp only [ne_eq, ht, not_true_eq_false, if_false]
    · simp only [hout, ne_eq, ht, not_false_eq_true, if_true]
      rw [ih]
      simp only [ne_eq, ht, not_false_eq_true, if_true, queue_add, List.length_append,
        List.length_singleton, Option.some.injEq]
      omega

theorem scan_bit_calls_count (tap_need_move : Bool) (num_fields fidx : Nat) (num_bits : Int)
    (out_value : Buf) (type : Nat) (n : Nat) :
    ∀ bcnt,
      (scan_bit_calls tap_need_move num_fields fidx num_bits out_value type n bcnt).countP
          driver_call.is_rising = n ∧
      (scan_bit_calls tap_need_move num_fields fidx num_bits out_value type n bcnt).countP
          driver_call.is_falling = n ∧
      (scan_bit_calls tap_need_move num_fields fidx num_bits out_value type n bcnt).countP
          driver_call.is_read = (if type ≠ SCAN_OUT then n else 0) := by
  induction n with
  | zero => intro bcnt; simp [scan_bit_calls]
  | succ n ih =>
    intro bcnt
    obtain ⟨i1, i2, i3⟩ := ih (bcnt + 1)
    by_cases ht : type = SCAN_OUT
    · subst ht
      simp only [ne_eq, not_true_eq_false, if_false] at i3 ⊢
      simp only [scan_bit_calls, ne_eq, not_true_eq_false, if_false, List.nil_append,
        List.countP_cons, driver_call.is_rising, driver_call.is_falling, driver_call.is_read,
        i1, i2, i3]
      norm_num
    · simp only [ne_eq, ht, not_false_eq_true, if_true] at i3 ⊢
      simp only [scan_bit_calls, ne_eq, ht, not_false_eq_true, if_true, List.singleton_append,
        List.countP_cons, driver_call.is_rising, driver_call.is_falling, driver_call.is_read,
        i1, i2, i3]
      norm_num

theorem field_type_out (field : scan_field) (o : Buf) (hout : field.out_value = some o) :
    field_type field ≠ 0 ∧
    (field.in_value.isSome = true → field_type field ≠ SCAN_OUT) ∧
    (field.in_value.isSome = false → field_type field = SCAN_OUT) := by
  unfold field_type
  cases hin : field.in_value with
  | none => simp [hout, SCAN_OUT, SCAN_IN]
  | some i => simp [hout, SCAN_OUT, SCAN_IN]

theorem field_type_none (field : scan_field) (hout : field.out_value = none)
    (hin : field.in_value = none) : field_type field = 0 := by
  simp [field_type, hout, hin]

theorem scan_field_loop_calls (tap_need_move : Bool) (num_fields : Nat)
    (fields : List scan_field) :
    (∀ f ∈ fields, f.in_value.isSome = true → f.out_value.isSome = true) →
    ∀ (fidx : Nat) (ops : baset1_ops) (q : List sb_queue),
      (scan_field_loop tap_need_move num_fields fields fidx (ops, q)).map Prod.fst
        = some (run_driver ops (scan_field_calls tap_need_move num_fields fields fidx)) ∧
      (scan_field_loop tap_need_move num_fields fields fidx (ops, q)).map
          (fun st => st.2.length)
        = some (q.length + input_bits fields) := by
  induction fields with
  | nil =>
    intro _ fidx ops q
    simp [scan_field_loop, scan_field_calls, run_driver, input_bits]
  | cons field rest ih =>
    intro hno fidx ops q
    have ih := ih (fun f hf => hno f (List.mem_cons_of_mem _ hf))
    have hf := hno field (List.mem_cons_self _ _)
    cases hout : field.out_value with
    | none =>
      have hin : field.in_value = none := by
        cases h : field.in_value with
        | none => rfl
        | some i => rw [h, hout] at hf; simp at hf
      have ht := field_type_none field hout hin
      obtain ⟨i1, i2⟩ := ih (fidx + 1) ops q
      rw [scan_field_loop]
      simp only [ht, if_true, scan_field_calls, hout, List.nil_append, i1, i2, input_bits,
        List.filter_cons, hin, Option.isSome_none, Bool.false_eq_true, if_false]
      exact ⟨trivial, trivial⟩
    | some o =>
      obtain ⟨t0, t1, t2⟩ := field_type_out field o hout
      have hc := scan_bit_loop_calls tap_need_move num_fields fidx field (field_type field) o
        hout field.num_bits.toNat 0 ops q
      have hq := scan_bit_loop_queue tap_need_move num_fields fidx field (field_type field) o
        hout field.num_bits.toNat 0 ops q
      rw [scan_field_loop]
      simp only [t0, if_false]
      cases hl : scan_bit_loop tap_need_move num_fields fidx field (field_type field)
          field.num_bits.toNat 0 (ops, q) with
      | none => rw [hl] at hc; simp at hc
      | some st =>
        rw [hl] at hc hq
        simp only [Option.map_some', Option.some.injEq] at hc hq
        obtain ⟨i1, i2⟩ := ih (fidx + 1) st.1 st.2
        simp only [i1, i2, hc, hq, scan_field_calls, hout, run_driver_append, input_bits,
          List.filter_cons]
        refine ⟨trivial, ?_⟩
        cases hin : field.in_value.isSome with
        | true =>
          have := t1 hin
          simp only [ne_eq, this, not_false_eq_true, if_true, List.map_cons, List.sum_cons]
          rw [Nat.add_assoc]
        | false =>
          have := t2 hin
          simp only [ne_eq, this, not_true_eq_false, if_false, Bool.false_eq_true,
            Nat.add_zero]

theorem scan_field_calls_count (tap_need_move : Bool) (num_fields : Nat)
    (fields : List scan_field) :
    (∀ f ∈ fields, f.in_value.isSome = true → f.out_value.isSome = true) →
    ∀ fidx : Nat,
      (scan_field_calls tap_need_move num_fields fields fidx).countP driver_call.is_rising
        = valued_bits fields ∧
      (scan_field_calls tap_need_move num_fields fields fidx).countP driver_call.is_falling
        = valued_bits fields ∧
      (scan_field_calls tap_need_move num_fields fields fidx).countP driver_call.is_read
        = input_bits fields := by
  induction fields with
  | nil =>
    intro _ fidx
    simp [scan_field_calls, valued_bits, input_bits]
  | cons field rest ih =>
    intro hno fidx
    obtain ⟨i1, i2, i3⟩ := ih (fun f hf => hno f (List.mem_cons_of_mem _ hf)) (fidx + 1)
    have hf := hno field (List.mem_cons_self _ _)
    cases hout : field.out_value with
    | none =>
      have hin : field.in_value = none := by
        cases h : field.in_value with
        | none => rfl
        | some i => rw [h, hout] at hf; simp at hf
      have ht := field_type_none field hout hin
      simp only [scan_field_calls, hout, List.nil_append, i1, i2, i3, valued_bits, input_bits,
        List.filter_cons, ht, ne_eq, not_true_eq_false, decide_False, Bool.false_eq_true,
        if_false, hin, Option.isSome_none]
      exact ⟨trivial, trivial, trivial⟩
    | some o =>
      obtain ⟨t0, t1, t2⟩ := field_type_out field o hout
      obtain ⟨c1, c2, c3⟩ := scan_bit_calls_count tap_need_move num_fields fidx field.num_bits o
        (field_type field) field.num_bits.toNat 0
      simp only [scan_field_calls, hout, List.countP_append, i1, i2, i3, c1, c2, c3, valued_bits,
        input_bits, List.filter_cons, ne_eq, t0, not_false_eq_true, decide_True, if_true,
        List.map_cons, List.sum_cons]
      refine ⟨trivial, trivial, ?_⟩
      cases hin : field.in_value.isSome with
      | true =>
        have := t1 hin
        simp only [ne_eq, this, not_false_eq_true, if_true, List.map_cons, List.sum_cons]
      | false =>
        have := t2 hin
        simp only [this, not_true_eq_false, if_false, Bool.false_eq_true, Nat.zero_add]

/-! ## C21: the reads of a scan -/

theorem baset1_read_fits (ops : baset1_ops) (hk : ops.mdio_ctx.findex < FAST_COMMAND_NUM)
    (hcnt : ops.mdio_ctx.fread_cnt < 65535) :
    (baset1_read ops).2.mdio_ctx.findex = ops.mdio_ctx.findex + 1 ∧
    (baset1_read ops).2.mdio_ctx.fread_cnt = ops.mdio_ctx.fread_cnt + 1 := by
  obtain ⟨_, a2, _, a4, _⟩ := mdio_fast_add_counts ops.mdio_ctx MDIO_READ 0xffff hk
  exact ⟨a2, a4 (by decide) hcnt⟩

/-- A sequence of writes and reads that fits in the queue takes one slot per
call and counts its reads in `fread_cnt`. -/
theorem run_driver_bits (calls : List driver_call) :
    ∀ ops : baset1_ops, (∀ c ∈ calls, c.is_write = true ∨ c.is_read = true) →
      ops.mdio_ctx.findex + calls.length ≤ FAST_COMMAND_NUM →
      ops.mdio_ctx.fread_cnt + calls.countP driver_call.is_read ≤ 65535 →
      (run_driver ops calls).mdio_ctx.findex = ops.mdio_ctx.findex + calls.length ∧
      (run_driver ops calls).mdio_ctx.fread_cnt
        = ops.mdio_ctx.fread_cnt + calls.countP driver_call.is_read := by
  induction calls with
  | nil => intro ops _ _ _; simp [run_driver]
  | cons c rest ih =>
    intro ops hw hfit hcnt
    rw [run_driver_cons]
    have hc := hw c (List.mem_cons_self _ _)
    simp only [List.length_cons] at hfit
    cases c with
    | write tck tms tdi =>
      simp only [List.countP_cons, driver_call.is_read, Bool.false_eq_true, if_false,
        Nat.add_zero] at hcnt ⊢
      obtain ⟨_, b2, b3, _⟩ := baset1_write_fits ops tck tms tdi (by omega)
      obtain ⟨i1, i2⟩ := ih (driver_call.apply ops (driver_call.write tck tms tdi))
        (fun c hc => hw c (List.mem_cons_of_mem _ hc))
        (by simp only [driver_call.apply]; rw [b2]; omega)
        (by simp only [driver_call.apply]; rw [b3]; omega)
      simp only [driver_call.apply] at i1 i2 ⊢
      rw [i1, i2, b2, b3, List.length_cons]
      exact ⟨by omega, rfl⟩
    | read =>
      simp only [List.countP_cons, driver_call.is_read, if_true] at hcnt ⊢
      obtain ⟨b2, b3⟩ := baset1_read_fits ops (by omega) (by omega)
      obtain ⟨i1, i2⟩ := ih (driver_call.apply ops driver_call.read)
        (fun c hc => hw c (List.mem_cons_of_mem _ hc))
        (by simp only [driver_call.apply]; rw [b2]; omega)
        (by simp only [driver_call.apply]; rw [b3]; omega)
      simp only [driver_call.apply] at i1 i2 ⊢
      rw [i1, i2, b2, b3, List.length_cons]
      exact ⟨by omega, by omega⟩
    | reset _ _ => simp [driver_call.is_write, driver_call.is_read] at hc
    | flush _ _ => simp [driver_call.is_write, driver_call.is_read] at hc
    | clean => simp [driver_call.is_write, driver_call.is_read] at hc

theorem scan_bit_calls_kind (tap_need_move : Bool) (num_fields fidx : Nat) (num_bits : Int)
    (out_value : Buf) (type : Nat) (n : Nat) :
    ∀ bcnt, ∀ c ∈ scan_bit_calls tap_need_move num_fields fidx num_bits out_value type n bcnt,
      c.is_write = true ∨ c.is_read = true := by
  induction n with
  | zero => intro bcnt c hc; simp [scan_bit_calls] at hc
  | succ n ih =>
    intro bcnt c hc
    simp only [scan_bit_calls, List.mem_cons, List.mem_append] at hc
    rcases hc with h | h | h | h
    · subst h; exact Or.inl rfl
    · split at h
      · simp only [List.mem_singleton] at h
        subst h; exact Or.inr rfl
      · simp at h
    · subst h; exact Or.inl rfl
    · exact ih _ c h

theorem scan_field_calls_kind (tap_need_move : Bool) (num_fields : Nat)
    (fields : List scan_field) :
    ∀ fidx, ∀ c ∈ scan_field_calls tap_need_move num_fields fields fidx,
      c.is_write = true ∨ c.is_read = true := by
  induction fields with
  | nil => intro fidx c hc; simp [scan_field_calls] at hc
  | cons field rest ih =>
    intro fidx c hc
    simp only [scan_field_calls, List.mem_append] at hc
    rcases hc with h | h
    · split at h
      · exact scan_bit_calls_kind _ _ _ _ _ _ _ _ c h
      · simp at h
    · exact ih _ c h

/-- The reads of the field loop: for a scan in which each field with an input
value also has an output value and whose calls fit in the queue, the loop
raises `fread_cnt`, and lengthens the capture queue, by the sum of `num_bits`
over the fields that have an input value. -/
theorem scan_reads_counted (tap_need_move : Bool) (num_fields : Nat) (fields : List scan_field)
    (fidx : Nat) (ops : baset1_ops) (q : List sb_queue)
    (hno : ∀ f ∈ fields, f.in_value.isSome = true → f.out_value.isSome = true)
    (hfit : ops.mdio_ctx.findex
      + (scan_field_calls tap_need_move num_fields fields fidx).length ≤ FAST_COMMAND_NUM)
    (hcnt : ops.mdio_ctx.fread_cnt + input_bits fields ≤ 65535) :
    (scan_field_loop tap_need_move num_fields fields fidx (ops, q)).map
        (fun st => (st.1.mdio_ctx.fread_cnt, st.2.length))
      = some (ops.mdio_ctx.fread_cnt + input_bits fields, q.length + input_bits fields) := by
  obtain ⟨l1, l2⟩ := scan_field_loop_calls tap_need_move num_fields fields hno fidx ops q
  obtain ⟨_, _, c3⟩ := scan_field_calls_count tap_need_move num_fields fields hno fidx
  obtain ⟨_, r2⟩ := run_driver_bits (scan_field_calls tap_need_move num_fields fields fidx) ops
    (scan_field_calls_kind _ _ _ _) hfit (by rw [c3]; exact hcnt)
  cases hl : scan_field_loop tap_need_move num_fields fields fidx (ops, q) with
  | none => rw [hl] at l1; simp at l1
  | some st =>
    rw [hl] at l1 l2
    simp only [Option.map_some', Option.some.injEq] at l1 l2 ⊢
    rw [l1, l2, r2, c3]

set_option maxRecDepth 1000000 in
/-- C21 (what the code does). On the two-field IR scan of the claim (4 bits
output only, 4 bits with both values) the command ends with `fread_cnt = 4`;
on a scan of one 8-bit field with an input value and no output value the
command reads `field->out_value[bytec]` through a null pointer and does not
come to an end, so no `fread_cnt = 8` results. -/
theorem scan_in_read_count :
    (baset1_execute_command still_framework 0 irshift_state
        (jtag_command.scan two_field_ir_scan) ERROR_OK (fun _ => 0)).map
      (fun r => (r.1, r.2.1.ops.mdio_ctx.fread_cnt)) = some (ERROR_OK, 4) ∧
    input_bits scan_in_cmd.fields = 8 ∧
    (baset1_execute_command still_framework 0 drshift_state
        (jtag_command.scan scan_in_cmd) ERROR_OK (fun _ => 0)).isNone = true := by
  refine ⟨by decide, by decide, by decide⟩

/-! ## C22: the clock pairs of a scan -/

/-- C22 (as the code has it). For every scan in which each field with an input
value also has an output value, the field loop makes exactly the calls of
`scan_field_calls`: per bit of each field that has a value, a falling write, a
read if the field has an input value, and a rising write; a field with neither
value is skipped. The number of clock pairs (falling writes, and rising writes)
is the sum of `num_bits` over the fields that have a value. -/
theorem scan_clock_pairs (tap_need_move : Bool) (num_fields : Nat) (fields : List scan_field)
    (fidx : Nat) (ops : baset1_ops) (q : List sb_queue)
    (hno : ∀ f ∈ fields, f.in_value.isSome = true → f.out_value.isSome = true) :
    (scan_field_loop tap_need_move num_fields fields fidx (ops, q)).map Prod.fst
      = some (run_driver ops (scan_field_calls tap_need_move num_fields fields fidx)) ∧
    (scan_field_calls tap_need_move num_fields fields fidx).countP driver_call.is_falling
      = valued_bits fields ∧
    (scan_field_calls tap_need_move num_fields fields fidx).countP driver_call.is_rising
      = valued_bits fields := by
  obtain ⟨c1, c2, _⟩ := scan_field_calls_count tap_need_move num_fields fields hno fidx
  exact ⟨(scan_field_loop_calls tap_need_move num_fields fields hno fidx ops q).1, c2, c1⟩

theorem mixed_fields_in_out :
    ∀ f ∈ mixed_fields, f.in_value.isSome = true → f.out_value.isSome = true := by
  intro f hf
  simp only [mixed_fields, List.mem_cons, List.mem_singleton, List.not_mem_nil, or_false] at hf
  rcases hf with h | h | h <;> subst h <;> simp

/-- C22 on three 4-bit fields, the middle one with neither value: 8 clock
pairs. -/
theorem scan_clock_pairs_witness :
    (scan_field_loop false 3 mixed_fields 0 (opened_ops, [])).map Prod.fst
      = some (run_driver opened_ops (scan_field_calls false 3 mixed_fields 0)) ∧
    (scan_field_calls false 3 mixed_fields 0).countP driver_call.is_falling = 8 ∧
    (scan_field_calls false 3 mixed_fields 0).countP driver_call.is_rising = 8 :=
  scan_clock_pairs false 3 mixed_fields 0 opened_ops [] mixed_fields_in_out

/-- C22 as stated fails: a scan of one 4-bit field with neither an input nor an
output value has 4 bits over all its fields, but the field loop skips the field
and makes no call at all; the scan flushes an empty queue (`ftotal = 0`) and
returns `ERROR_OK`. -/
theorem scan_skips_empty_field :
    (scan_none_cmd.fields.map (fun f => f.num_bits)).sum = 4 ∧
    scan_field_loop false 1 scan_none_cmd.fields 0 (drshift_state.ops, [])
      = some (drshift_state.ops, []) ∧
    (baset1_execute_scan still_framework drshift_state scan_none_cmd ERROR_OK (fun _ => 0)).map
      (fun r => (r.1, r.2.1.ops.mdio_ctx.ftotal)) = some (ERROR_OK, 0) := by
  refine ⟨by decide, rfl, ?_⟩
  decide

/-! ## C23: RUNTEST -/

theorem runtest_calls_length (n : Nat) : (runtest_calls n).length = 2 * n + 1 := by
  simp only [runtest_calls, List.length_append, runtest_cycles_length, List.length_singleton]

theorem runtest_calls_writes (n : Nat) : ∀ c ∈ runtest_calls n, c.is_write = true := by
  intro c hc
  simp only [runtest_calls, List.mem_append, List.mem_singleton] at hc
  rcases hc with h | h
  · exact runtest_cycles_writes n c h
  · subst h; rfl

theorem runtest_trace_writes (fw : tap_framework) (start : tap_state_t) (n : Nat)
    (end_state : tap_state_t) : ∀ c ∈ runtest_trace fw start n end_state, c.is_write = true := by
  intro c hc
  simp only [runtest_trace, List.mem_append] at hc
  rcases hc with (h | h) | h
  · split at h
    · exact state_move_calls_writes _ _ _ _ c h
    · simp at h
  · exact runtest_calls_writes n c h
  · split at h
    · exact state_move_calls_writes _ _ _ _ c h
    · simp at h

/-- The cycles of RUNTEST with their clock-idle write, when they fit. -/
theorem runtest_cycles_fit (n : Nat) (ops : baset1_ops)
    (hfit : ops.mdio_ctx.findex + (2 * n + 1) ≤ FAST_COMMAND_NUM) :
    runtest_loop n ops = (ERROR_OK, run_driver ops (runtest_cycles n)) ∧
    (baset1_write (run_driver ops (runtest_cycles n)) 0 0 0).1 = ERROR_OK ∧
    (baset1_write (run_driver ops (runtest_cycles n)) 0 0 0).2 = run_driver ops (runtest_calls n) ∧
    (run_driver ops (runtest_calls n)).mdio_ctx.findex = ops.mdio_ctx.findex + (2 * n + 1) := by
  have hw := run_driver_writes (runtest_cycles n) ops (runtest_cycles_writes n)
    (by rw [runtest_cycles_length]; omega)
  rw [runtest_cycles_length] at hw
  have hc := run_driver_writes (runtest_calls n) ops (runtest_calls_writes n)
    (by rw [runtest_calls_length]; omega)
  rw [runtest_calls_length] at hc
  refine ⟨runtest_loop_fits n ops (by omega), ?_, ?_, hc.1⟩
  · exact (baset1_write_fits _ 0 0 0 (by rw [hw.1]; omega)).1
  · simp only [runtest_calls, run_driver_append, run_driver_cons, run_driver_nil,
      driver_call.apply]

theorem execute_runtest_eq (fw : tap_framework) (s : exec_state) (n : Nat)
    (end_state : tap_state_t) (res : Int) (captured : Buf)
    (hend : fw.tap_is_state_stable end_state = true)
    (hidle : fw.tap_is_state_stable tap_state_t.TAP_IDLE = true)
    (hfit : s.ops.mdio_ctx.findex + (runtest_trace fw s.tap_state n end_state).length
      ≤ FAST_COMMAND_NUM) :
    baset1_execute_runtest fw s (n : Int) end_state res captured
      = some ((baset1_fast_flush (run_driver s.ops (runtest_trace fw s.tap_state n end_state))
                res captured).1,
          { ops := (baset1_fast_flush
              (run_driver s.ops (runtest_trace fw s.tap_state n end_state)) res captured).2
            tap_state := end_state
            tap_end_state := end_state }) := by
  simp only [runtest_trace, List.length_append, runtest_calls_length] at hfit
  -- the walk to IDLE
  have h1 : ∃ e, (if s.tap_state ≠ tap_state_t.TAP_IDLE then
        (baset1_end_state fw { s with tap_end_state := end_state } tap_state_t.TAP_IDLE).map
          (fun s => baset1_state_move fw s 0)
      else some (ERROR_OK, { s with tap_end_state := end_state }))
      = some (ERROR_OK,
          { ops := run_driver s.ops
              (if s.tap_state ≠ tap_state_t.TAP_IDLE then
                state_move_calls fw s.tap_state tap_state_t.TAP_IDLE 0 else [])
            tap_state := tap_state_t.TAP_IDLE
            tap_end_state := e }) := by
    by_cases hs : s.tap_state = tap_state_t.TAP_IDLE
    · refine ⟨end_state, ?_⟩
      simp only [hs, ne_eq, not_true_eq_false, if_false, run_driver_nil]
    · refine ⟨tap_state_t.TAP_IDLE, ?_⟩
      simp only [ne_eq, hs, not_false_eq_true, if_true] at hfit ⊢
      simp only [baset1_end_state, hidle, if_true, Option.map_some']
      rw [baset1_state_move_fits fw _ 0 (by simp only []; omega)]
  obtain ⟨e, h1⟩ := h1
  simp only [baset1_end_state, hidle, if_true, Option.map_some', ne_eq] at h1
  have hw1 := run_driver_writes
    (if s.tap_state ≠ tap_state_t.TAP_IDLE then
      state_move_calls fw s.tap_state tap_state_t.TAP_IDLE 0 else []) s.ops
    (by
      intro c hc
      split at hc
      · exact state_move_calls_writes _ _ _ _ c hc
      · simp at hc)
    (by omega)
  obtain ⟨c1, c2, c3, c4⟩ := runtest_cycles_fit n
    (run_driver s.ops
      (if s.tap_state ≠ tap_state_t.TAP_IDLE then
        state_move_calls fw s.tap_state tap_state_t.TAP_IDLE 0 else []))
    (by rw [hw1.1]; omega)
  simp only [ne_eq] at c1 c2 c3 c4 hfit hw1
  by_cases he : end_state = tap_state_t.TAP_IDLE
  · subst he
    simp only [baset1_execute_runtest, baset1_end_state, hidle, if_true, Option.map_some',
      ne_eq, h1, Int.toNat_ofNat, c1, c2, c3, not_true_eq_false, if_false, runtest_trace,
      List.append_nil, run_driver_append]
  · have he2 : ¬ tap_state_t.TAP_IDLE = end_state := fun h => he h.symm
    simp only [he2, not_false_eq_true, if_true] at hfit
    simp only [baset1_execute_runtest, baset1_end_state, hend, hidle, if_true, Option.map_some',
      ne_eq, h1, Int.toNat_ofNat, c1, c2, c3, not_true_eq_false, if_false, he2,
      not_false_eq_true]
    rw [baset1_state_move_fits fw _ 0 (by simp only []; rw [c4, hw1.1]; omega)]
    simp only [ne_eq, not_true_eq_false, if_false, runtest_trace, he2, not_false_eq_true, if_true,
      run_driver_append]

/-- C23 (as the code has it). RUNTEST(`n`, `end_state`) whose writes fit in the
queue and whose flush succeeds makes exactly the bit-driver calls of
`runtest_trace`: a TMS walk to IDLE unless the TAP is in IDLE, then `n` times
the writes (0,0,0), (1,0,0) and one trailing (0,0,0), then a walk to
`end_state` unless that is IDLE; all of them are writes, no read is queued; it
then flushes (`findex = 0`, `ftotal` = the old `findex` plus the number of
calls), returns `ERROR_OK`, and leaves the TAP tracker in `end_state`. With the
TAP in IDLE and `end_state` IDLE the calls are the `2n+1` writes alone. -/
theorem runtest_enqueues (fw : tap_framework) (s : exec_state) (n : Nat)
    (end_state : tap_state_t) (captured : Buf)
    (hend : fw.tap_is_state_stable end_state = true)
    (hidle : fw.tap_is_state_stable tap_state_t.TAP_IDLE = true)
    (hfit : s.ops.mdio_ctx.findex + (runtest_trace fw s.tap_state n end_state).length
      ≤ FAST_COMMAND_NUM) :
    baset1_execute_runtest fw s (n : Int) end_state ERROR_OK captured
      = some (ERROR_OK,
          { ops := (baset1_fast_flush
              (run_driver s.ops (runtest_trace fw s.tap_state n end_state))
              ERROR_OK captured).2
            tap_state := end_state
            tap_end_state := end_state }) ∧
    (∀ c ∈ runtest_trace fw s.tap_state n end_state, c.is_write = true) ∧
    (baset1_fast_flush (run_driver s.ops (runtest_trace fw s.tap_state n end_state))
      ERROR_OK captured).2.mdio_ctx.findex = 0 ∧
    (baset1_fast_flush (run_driver s.ops (runtest_trace fw s.tap_state n end_state))
      ERROR_OK captured).2.mdio_ctx.ftotal
      = s.ops.mdio_ctx.findex + (runtest_trace fw s.tap_state n end_state).length ∧
    (baset1_fast_flush (run_driver s.ops (runtest_trace fw s.tap_state n end_state))
      ERROR_OK captured).2.mdio_ctx.fread_cnt = s.ops.mdio_ctx.fread_cnt ∧
    (s.tap_state = tap_state_t.TAP_IDLE → end_state = tap_state_t.TAP_IDLE →
      runtest_trace fw s.tap_state n end_state = runtest_cycles n ++ [driver_call.write 0 0 0] ∧
      (runtest_trace fw s.tap_state n end_state).length = 2 * n + 1) := by
  obtain ⟨f1, f2, f3, f4⟩ := baset1_fast_flush_done
    (run_driver s.ops (runtest_trace fw s.tap_state n end_state)) captured
  obtain ⟨w1, w2, _⟩ := run_driver_writes (runtest_trace fw s.tap_state n end_state) s.ops
    (runtest_trace_writes fw s.tap_state n end_state) hfit
  refine ⟨?_, runtest_trace_writes fw s.tap_state n end_state, f2, ?_, ?_, ?_⟩
  · rw [execute_runtest_eq fw s n end_state ERROR_OK captured hend hidle hfit, f1]
  · rw [f3, w1]
  · rw [f4, w2]
  · intro hs he
    have e : runtest_trace fw s.tap_state n end_state = runtest_calls n := by
      simp [runtest_trace, hs, he]
    rw [e, runtest_calls_length]
    exact ⟨rfl, rfl⟩

/-- C23 on the opened sample driver in IDLE: RUNTEST(2, IDLE). -/
theorem runtest_enqueues_witness :
    baset1_execute_runtest still_framework idle_state 2 tap_state_t.TAP_IDLE ERROR_OK
        (fun _ => 0)
      = some (ERROR_OK,
          { ops := (baset1_fast_flush
              (run_driver idle_state.ops
                (runtest_trace still_framework idle_state.tap_state 2 tap_state_t.TAP_IDLE))
              ERROR_OK (fun _ => 0)).2
            tap_state := tap_state_t.TAP_IDLE
            tap_end_state := tap_state_t.TAP_IDLE }) ∧
    runtest_trace still_framework idle_state.tap_state 2 tap_state_t.TAP_IDLE
      = [driver_call.write 0 0 0, driver_call.write 1 0 0, driver_call.write 0 0 0,
          driver_call.write 1 0 0, driver_call.write 0 0 0] ∧
    (baset1_fast_flush
      (run_driver idle_state.ops
        (runtest_trace still_framework idle_state.tap_state 2 tap_state_t.TAP_IDLE))
      ERROR_OK (fun _ => 0)).2.mdio_ctx.ftotal = 5 :=
  have h := runtest_enqueues still_framework idle_state 2 tap_state_t.TAP_IDLE (fun _ => 0)
    rfl rfl (by decide)
  ⟨h.1, (h.2.2.2.2.2 rfl rfl).1, h.2.2.2.1⟩

/-- C23 as stated fails: RUNTEST(1, IDLE) on the opened sample driver in IDLE,
with room for its three writes, returns the transport's error when the flush
fails, and the three slots stay queued (`findex = 3`). -/
theorem runtest_flush_failure :
    idle_state.tap_state = tap_state_t.TAP_IDLE ∧
    idle_state.ops.mdio_ctx.findex + (2 * 1 + 1) ≤ FAST_COMMAND_NUM ∧
    (baset1_execute_runtest still_framework idle_state 1 tap_state_t.TAP_IDLE ERROR_FAIL
        (fun _ => 0)).map (fun r => (r.1, r.2.ops.mdio_ctx.findex))
      = some (ERROR_FAIL, 3) := by
  refine ⟨rfl, by decide, ?_⟩
  have hfit : idle_state.ops.mdio_ctx.findex
      + (runtest_trace still_framework idle_state.tap_state 1 tap_state_t.TAP_IDLE).length
      ≤ FAST_COMMAND_NUM := by decide
  have h := execute_runtest_eq still_framework idle_state 1 tap_state_t.TAP_IDLE ERROR_FAIL
    (fun _ => 0) rfl rfl hfit
  obtain ⟨w1, _, _⟩ := run_driver_writes
    (runtest_trace still_framework idle_state.tap_state 1 tap_state_t.TAP_IDLE) idle_state.ops
    (runtest_trace_writes _ _ _ _) hfit
  have h0 : idle_state.ops.mdio_ctx.findex = 0 := by decide
  have hl : (runtest_trace still_framework idle_state.tap_state 1 tap_state_t.TAP_IDLE).length
      = 3 := by decide
  rw [show ((1 : Nat) : Int) = 1 from rfl] at h
  rw [h]
  simp only [Option.map_some', baset1_fast_flush_status,
    baset1_fast_flush_kept _ ERROR_FAIL _ (by decide), w1, h0, hl]

/-! ## C24: PATHMOVE -/

/-- One step of the PATHMOVE loop whose two writes fit in the queue. -/
theorem pathmove_loop_step (fw : tap_framework) (next : tap_state_t) (rest : List tap_state_t)
    (tms0 tms : Int) (s : exec_state)
    (hsel : (if fw.tap_state_transition s.tap_state false = next then some (0 : Int)
      else if fw.tap_state_transition s.tap_state true = next then some 1 else none) = some tms)
    (hfit : s.ops.mdio_ctx.findex + 2 ≤ FAST_COMMAND_NUM) :
    pathmove_loop fw (next :: rest) tms0 s
      = pathmove_loop fw rest tms
          { s with
            ops := run_driver s.ops [driver_call.write 0 tms 0, driver_call.write 1 tms 0]
            tap_state := next } ∧
    (run_driver s.ops [driver_call.write 0 tms 0, driver_call.write 1 tms 0]).mdio_ctx.findex
      = s.ops.mdio_ctx.findex + 2 := by
  obtain ⟨a1, a2, _, _⟩ := baset1_write_fits s.ops 0 tms 0 (by omega)
  obtain ⟨b1, b2, _, _⟩ := baset1_write_fits (baset1_write s.ops 0 tms 0).2 1 tms 0 (by omega)
  constructor
  · rw [pathmove_loop]
    simp only [hsel, a1, b1, ne_eq, not_true_eq_false, if_false, run_driver_cons, run_driver_nil,
      driver_call.apply]
  · simp only [run_driver_cons, run_driver_nil, driver_call.apply]
    rw [b2, a2]

/-- A path whose first state is no successor of the current state ends the
process: the loop does not return. -/
theorem pathmove_loop_exits (fw : tap_framework) (next : tap_state_t) (rest : List tap_state_t)
    (tms0 : Int) (s : exec_state)
    (h0 : fw.tap_state_transition s.tap_state false ≠ next)
    (h1 : fw.tap_state_transition s.tap_state true ≠ next) :
    pathmove_loop fw (next :: rest) tms0 s = none := by
  rw [pathmove_loop]
  simp only [h0, h1, if_false]

/-- After a loop that went through, PATHMOVE makes the clock-idle write with
the last TMS, sets the end state to the state reached and flushes. -/
theorem execute_pathmove_of_loop (fw : tap_framework) (s : exec_state) (path : List tap_state_t)
    (res : Int) (captured : Buf) (tms : Int) (s1 : exec_state)
    (hloop : pathmove_loop fw path 0 s = some (ERROR_OK, tms, s1))
    (hfit : s1.ops.mdio_ctx.findex < FAST_COMMAND_NUM) :
    baset1_execute_pathmove fw s path res captured
      = some (res,
          { ops := (baset1_fast_flush (baset1_write s1.ops 0 tms 0).2 res captured).2
            tap_state := s1.tap_state
            tap_end_state := s1.tap_state }) := by
  obtain ⟨c1, _, _, _⟩ := baset1_write_fits s1.ops 0 tms 0 hfit
  unfold baset1_execute_pathmove
  rw [hloop]
  simp only [ne_eq, not_true_eq_false, if_false, c1, baset1_fast_flush_status]

/-- C24 (as the code has it). With the IEEE 1149.1 transition function and the
TAP tracker in DREXIT1, PATHMOVE through [DRPAUSE, DREXIT2, DRSHIFT], when its
seven writes fit in the queue, makes three falling+rising clock pairs with TMS
0, 1, 0 and a trailing clock-idle write, flushes, returns the status of the
flush, and leaves the TAP tracker (state and end state) in DRSHIFT. -/
theorem pathmove_drpause_path (fw : tap_framework) (s : exec_state) (res : Int)
    (captured : Buf) (hfw : fw.tap_state_transition = ieee_transition)
    (hs : s.tap_state = tap_state_t.TAP_DREXIT1)
    (hfit : s.ops.mdio_ctx.findex + 7 ≤ FAST_COMMAND_NUM) :
    baset1_execute_pathmove fw s
        [tap_state_t.TAP_DRPAUSE, tap_state_t.TAP_DREXIT2, tap_state_t.TAP_DRSHIFT] res captured
      = some (res,
          { ops := (baset1_fast_flush
              (run_driver s.ops
                [driver_call.write 0 0 0, driver_call.write 1 0 0,
                  driver_call.write 0 1 0, driver_call.write 1 1 0,
                  driver_call.write 0 0 0, driver_call.write 1 0 0,
                  driver_call.write 0 0 0]) res captured).2
            tap_state := tap_state_t.TAP_DRSHIFT
            tap_end_state := tap_state_t.TAP_DRSHIFT }) := by
  obtain ⟨e1, f1⟩ := pathmove_loop_step fw tap_state_t.TAP_DRPAUSE
    [tap_state_t.TAP_DREXIT2, tap_state_t.TAP_DRSHIFT] 0 0 s
    (by rw [hfw, hs]; rfl) (by omega)
  obtain ⟨e2, f2⟩ := pathmove_loop_step fw tap_state_t.TAP_DREXIT2 [tap_state_t.TAP_DRSHIFT] 0 1
    { s with
      ops := run_driver s.ops [driver_call.write 0 0 0, driver_call.write 1 0 0]
      tap_state := tap_state_t.TAP_DRPAUSE }
    (by rw [hfw]; rfl) (by simp only []; rw [f1]; omega)
  obtain ⟨e3, f3⟩ := pathmove_loop_step fw tap_state_t.TAP_DRSHIFT [] 1 0
    { s with
      ops := run_driver (run_driver s.ops [driver_call.write 0 0 0, driver_call.write 1 0 0])
        [driver_call.write 0 1 0, driver_call.write 1 1 0]
      tap_state := tap_state_t.TAP_DREXIT2 }
    (by rw [hfw]; rfl) (by simp only [] at f2 ⊢; rw [f2, f1]; omega)
  simp only [] at f2 f3
  have hloop : pathmove_loop fw
      [tap_state_t.TAP_DRPAUSE, tap_state_t.TAP_DREXIT2, tap_state_t.TAP_DRSHIFT] 0 s
      = some (ERROR_OK, 0,
          { ops := run_driver
              (run_driver (run_driver s.ops [driver_call.write 0 0 0, driver_call.write 1 0 0])
                [driver_call.write 0 1 0, driver_call.write 1 1 0])
              [driver_call.write 0 0 0, driver_call.write 1 0 0]
            tap_state := tap_state_t.TAP_DRSHIFT
            tap_end_state := s.tap_end_state }) := by
    rw [e1, e2, e3, pathmove_loop]
  rw [execute_pathmove_of_loop fw s _ res captured 0 _ hloop
    (by simp only []; rw [f3, f2, f1]; omega)]
  simp only [run_driver_cons, run_driver_nil, driver_call.apply]

/-- C24 on the opened sample driver in DREXIT1, with a flush that succeeds. -/
theorem pathmove_drpause_path_witness :
    baset1_execute_pathmove ieee_framework drexit1_state
        [tap_state_t.TAP_DRPAUSE, tap_state_t.TAP_DREXIT2, tap_state_t.TAP_DRSHIFT]
        ERROR_OK (fun _ => 0)
      = some (ERROR_OK,
          { ops := (baset1_fast_flush
              (run_driver drexit1_state.ops
                [driver_call.write 0 0 0, driver_call.write 1 0 0,
                  driver_call.write 0 1 0, driver_call.write 1 1 0,
                  driver_call.write 0 0 0, driver_call.write 1 0 0,
                  driver_call.write 0 0 0]) ERROR_OK (fun _ => 0)).2
            tap_state := tap_state_t.TAP_DRSHIFT
            tap_end_state := tap_state_t.TAP_DRSHIFT }) :=
  pathmove_drpause_path ieee_framework drexit1_state ERROR_OK (fun _ => 0) rfl rfl (by decide)

/-- C24 as stated fails: from DRSHIFT neither TMS level leads to DRPAUSE (the
successors of DRSHIFT are DRSHIFT and DREXIT1), so PATHMOVE through
[DRPAUSE, DREXIT2, DRSHIFT] from DRSHIFT ends the process at its first state
and makes no clock pair. -/
theorem pathmove_from_drshift_exits :
    drshift_state.tap_state = tap_state_t.TAP_DRSHIFT ∧
    ieee_transition tap_state_t.TAP_DRSHIFT false = tap_state_t.TAP_DRSHIFT ∧
    ieee_transition tap_state_t.TAP_DRSHIFT true = tap_state_t.TAP_DREXIT1 ∧
    (baset1_execute_pathmove ieee_framework drshift_state
        [tap_state_t.TAP_DRPAUSE, tap_state_t.TAP_DREXIT2, tap_state_t.TAP_DRSHIFT]
        ERROR_OK (fun _ => 0)).isNone = true := by
  refine ⟨rfl, rfl, rfl, ?_⟩
  unfold baset1_execute_pathmove
  rw [pathmove_loop_exits ieee_framework _ _ _ _ (by decide) (by decide)]
  rfl

/-! ## C25: the TAP tracker after a RESET command -/

theorem execute_reset_tap_state (reset_config : Nat) (s : exec_state) (trst srst : Int)
    (res : Int) (captured : Buf) :
    (baset1_execute_reset reset_config s trst srst res captured).2.tap_state
      = if trst = 1 ∨ (srst ≠ 0 ∧ reset_config &&& RESET_SRST_PULLS_TRST ≠ 0) then
          tap_state_t.TAP_RESET
        else s.tap_state := by
  unfold baset1_execute_reset
  by_cases h : trst = 1 ∨ (srst ≠ 0 ∧ reset_config &&& RESET_SRST_PULLS_TRST ≠ 0)
  · simp only [h, if_true]
  · simp only [h, if_false]

/-- C25 (as the code has it). A RESET command with `trst = 1` leaves the TAP
tracker in RESET whatever `srst` and the reset configuration are; with
`trst = 0` and `srst = 1`, from a state other than RESET, the tracker ends in
RESET if and only if the configuration has `srst_pulls_trst` set. -/
theorem reset_tap_tracker (reset_config : Nat) (s : exec_state) (srst : Int)
    (res : Int) (captured : Buf) (hs : s.tap_state ≠ tap_state_t.TAP_RESET) :
    (baset1_execute_reset reset_config s 1 srst res captured).2.tap_state
      = tap_state_t.TAP_RESET ∧
    ((baset1_execute_reset reset_config s 0 1 res captured).2.tap_state = tap_state_t.TAP_RESET
      ↔ reset_config &&& RESET_SRST_PULLS_TRST ≠ 0) := by
  constructor
  · rw [execute_reset_tap_state]
    simp
  · rw [execute_reset_tap_state]
    by_cases h : reset_config &&& RESET_SRST_PULLS_TRST ≠ 0
    · simp [h]
    · simp [h, hs]

/-- C25 on the opened sample driver in IDLE, with and without
`srst_pulls_trst`. -/
theorem reset_tap_tracker_witness :
    (baset1_execute_reset 0 idle_state 1 1 ERROR_OK (fun _ => 0)).2.tap_state
      = tap_state_t.TAP_RESET ∧
    ((baset1_execute_reset 0 idle_state 0 1 ERROR_OK (fun _ => 0)).2.tap_state
        = tap_state_t.TAP_RESET
      ↔ 0 &&& RESET_SRST_PULLS_TRST ≠ 0) :=
  reset_tap_tracker 0 idle_state 1 ERROR_OK (fun _ => 0) (by decide)

/-- C25 as stated fails: with `trst = 1` and `srst = 1`, from IDLE, the tracker
ends in RESET although the configuration does not have `srst_pulls_trst`. -/
theorem reset_without_srst_pulls_trst :
    idle_state.tap_state ≠ tap_state_t.TAP_RESET ∧
    (0 : Nat) &&& RESET_SRST_PULLS_TRST = 0 ∧
    (baset1_execute_reset 0 idle_state 1 1 ERROR_OK (fun _ => 0)).2.tap_state
      = tap_state_t.TAP_RESET := by
  refine ⟨by decide, by decide, ?_⟩
  rw [execute_reset_tap_state]
  simp

/-! ## C26: what `ERROR_OK` says about the flush -/

theorem fail_ne_ok : ERROR_FAIL ≠ ERROR_OK := by decide

theorem baset1_fast_flush_ok_findex (ops : baset1_ops) (res : Int) (captured : Buf)
    (h : (baset1_fast_flush ops res captured).1 = ERROR_OK) :
    (baset1_fast_flush ops res captured).2.mdio_ctx.findex = 0 := by
  rw [baset1_fast_flush_status] at h
  subst h
  exact (baset1_fast_flush_done ops captured).2.1

theorem ok_flushed_none : ok_flushed none := by
  intro s1 h
  exact absurd h (by simp)

theorem ok_flushed_fail (s : exec_state) : ok_flushed (some (ERROR_FAIL, s)) := by
  intro s1 h
  simp only [Option.some.injEq, Prod.mk.injEq, fail_ne_ok, false_and] at h

theorem ok_flushed_flush (ops : baset1_ops) (res : Int) (captured : Buf) (a b : tap_state_t) :
    ok_flushed (some ((baset1_fast_flush ops res captured).1,
      { ops := (baset1_fast_flush ops res captured).2, tap_state := a, tap_end_state := b })) := by
  intro s1 h
  simp only [Option.some.injEq, Prod.mk.injEq] at h
  obtain ⟨h1, h2⟩ := h
  rw [← h2]
  exact baset1_fast_flush_ok_findex _ _ _ h1

theorem execute_reset_ok_flushed (reset_config : Nat) (s : exec_state) (trst srst : Int)
    (res : Int) (captured : Buf) :
    ok_flushed (some (baset1_execute_reset reset_config s trst srst res captured)) := by
  unfold baset1_execute_reset
  exact ok_flushed_flush _ _ _ _ _

theorem execute_runtest_ok_flushed (fw : tap_framework) (s : exec_state) (num_cycles : Int)
    (end_state : tap_state_t) (res : Int) (captured : Buf) :
    ok_flushed (baset1_execute_runtest fw s num_cycles end_state res captured) := by
  unfold baset1_execute_runtest
  simp only []
  repeat' split
  all_goals
    first
    | exact ok_flushed_none
    | exact ok_flushed_fail _
    | exact ok_flushed_flush _ _ _ _ _

theorem execute_statemove_ok_flushed (fw : tap_framework) (s : exec_state)
    (end_state : tap_state_t) (res : Int) (captured : Buf) :
    ok_flushed (baset1_execute_statemove fw s end_state res captured) := by
  unfold baset1_execute_statemove
  simp only []
  repeat' split
  all_goals
    first
    | exact ok_flushed_none
    | exact ok_flushed_fail _
    | exact ok_flushed_flush _ _ _ _ _

theorem execute_pathmove_ok_flushed (fw : tap_framework) (s : exec_state)
    (path : List tap_state_t) (res : Int) (captured : Buf) :
    ok_flushed (baset1_execute_pathmove fw s path res captured) := by
  unfold baset1_execute_pathmove
  simp only []
  repeat' split
  all_goals
    first
    | exact ok_flushed_none
    | exact ok_flushed_fail _
    | exact ok_flushed_flush _ _ _ _ _

theorem ok_flushed_after_flush (ops : baset1_ops) (res : Int) (captured : Buf) (st : Int)
    (a b : tap_state_t) (h : (baset1_fast_flush ops res captured).1 = ERROR_OK) :
    ok_flushed (some (st,
      { ops := (baset1_fast_flush ops res captured).2, tap_state := a, tap_end_state := b })) := by
  intro s1 h1
  simp only [Option.some.injEq, Prod.mk.injEq] at h1
  rw [← h1.2]
  exact baset1_fast_flush_ok_findex _ _ _ h

theorem execute_scan_ok_flushed (fw : tap_framework) (s : exec_state) (cmd : scan_command)
    (res : Int) (captured : Buf) :
    ok_flushed ((baset1_execute_scan fw s cmd res captured).map (fun r => (r.1, r.2.1))) := by
  unfold baset1_execute_scan
  simp only []
  repeat' split
  all_goals
    first
    | exact ok_flushed_none
    | exact ok_flushed_fail _
    | exact ok_flushed_after_flush _ _ _ _ _ _ (not_not.mp (by assumption))

theorem ok_flushed_map (x : Option (Int × exec_state)) (c : jtag_command) (h : ok_flushed x) :
    ok_flushed (x.map
      ((fun r : Int × exec_state × jtag_command => (r.1, r.2.1)) ∘
        fun r : Int × exec_state => (r.1, r.2, c))) := by
  cases x with
  | none => exact ok_flushed_none
  | some r => exact h

/-- A command whose executor ends with the flush returns `ERROR_OK` only with
an empty queue. -/
theorem execute_command_ok_flushed (fw : tap_framework) (reset_config : Nat) (s : exec_state)
    (cmd : jtag_command) (res : Int) (captured : Buf) (hc : cmd.flushes = true) :
    ok_flushed ((baset1_execute_command fw reset_config s cmd res captured).map
      (fun r => (r.1, r.2.1))) := by
  cases cmd with
  | reset trst srst =>
    simp only [baset1_execute_command, Option.map_some']
    exact execute_reset_ok_flushed _ _ _ _ _ _
  | runtest n e =>
    simp only [baset1_execute_command, Option.map_map]
    exact ok_flushed_map _ _ (execute_runtest_ok_flushed _ _ _ _ _ _)
  | statemove e =>
    simp only [baset1_execute_command, Option.map_map]
    exact ok_flushed_map _ _ (execute_statemove_ok_flushed _ _ _ _ _)
  | pathmove p =>
    simp only [baset1_execute_command, Option.map_map]
    exact ok_flushed_map _ _ (execute_pathmove_ok_flushed _ _ _ _ _)
  | scan c =>
    simp only [baset1_execute_command, Option.map_map]
    exact execute_scan_ok_flushed _ _ _ _ _
  | sleep _ => simp [jtag_command.flushes] at hc
  | stableclocks _ => simp [jtag_command.flushes] at hc
  | tms _ _ => simp [jtag_command.flushes] at hc
  | other _ => simp [jtag_command.flushes] at hc

theorem execute_queue_loop_last (fw : tap_framework) (reset_config : Nat)
    (cmds : List (jtag_command × Int × Buf)) :
    ∀ (c : jtag_command × Int × Buf) (retval : Int) (s : exec_state),
      c.1.flushes = true →
      ok_flushed ((execute_queue_loop fw reset_config (cmds ++ [c]) retval s).map
        (fun r => (r.1, r.2.1))) := by
  induction cmds with
  | nil =>
    intro c retval s hc
    have h := execute_command_ok_flushed fw reset_config s c.1 c.2.1 c.2.2 hc
    simp only [List.nil_append, execute_queue_loop]
    cases hr : baset1_execute_command fw reset_config s c.1 c.2.1 c.2.2 with
    | none => exact ok_flushed_none
    | some r =>
      rw [hr] at h
      exact h
  | cons d rest ih =>
    intro c retval s hc
    simp only [List.cons_append, execute_queue_loop]
    cases hr : baset1_execute_command fw reset_config s d.1 d.2.1 d.2.2 with
    | none => exact ok_flushed_none
    | some r =>
      have h := ih c r.1 r.2.1 hc
      simp only [Option.map_map]
      cases hq : execute_queue_loop fw reset_config (rest ++ [c]) r.1 r.2.1 with
      | none => exact ok_flushed_none
      | some q =>
        rw [hq] at h
        exact h

/-- C26 (as the code has it). For every command list whose last command is a
RESET, RUNTEST, STATEMOVE, PATHMOVE or SCAN, and every starting state, when
`baset1_execute_queue` returns `ERROR_OK` the queue has been flushed:
`findex = 0`. (STABLECLOCKS, TMS and SLEEP return without a flush.) -/
theorem ok_means_flushed (fw : tap_framework) (reset_config : Nat) (s : exec_state)
    (cmds : List (jtag_command × Int × Buf)) (c : jtag_command × Int × Buf)
    (hc : c.1.flushes = true)
    (hok : (baset1_execute_queue fw reset_config s (cmds ++ [c])).map Prod.fst
      = some ERROR_OK) :
    (baset1_execute_queue fw reset_config s (cmds ++ [c])).map
      (fun r => r.2.1.ops.mdio_ctx.findex) = some 0 := by
  have h := execute_queue_loop_last fw reset_config cmds c ERROR_OK s hc
  unfold baset1_execute_queue at hok ⊢
  cases hq : execute_queue_loop fw reset_config (cmds ++ [c]) ERROR_OK s with
  | none => rw [hq] at hok; simp at hok
  | some q =>
    rw [hq] at hok h
    simp only [Option.map_some', Option.some.injEq] at hok ⊢
    exact h q.2.1 (by rw [← hok]; rfl)

/-- C26 on the opened sample driver: a TMS command of one bit, then a RESET
whose flush succeeds. -/
theorem ok_means_flushed_witness :
    (baset1_execute_queue still_framework 0 idle_state
        ([(jtag_command.tms 1 (fun _ => 1), ERROR_OK, fun _ => 0)] ++
          [(jtag_command.reset 0 0, ERROR_OK, fun _ => 0)])).map Prod.fst = some ERROR_OK ∧
    (baset1_execute_queue still_framework 0 idle_state
        ([(jtag_command.tms 1 (fun _ => 1), ERROR_OK, fun _ => 0)] ++
          [(jtag_command.reset 0 0, ERROR_OK, fun _ => 0)])).map
      (fun r => r.2.1.ops.mdio_ctx.findex) = some 0 :=
  have hok : (baset1_execute_queue still_framework 0 idle_state
        ([(jtag_command.tms 1 (fun _ => 1), ERROR_OK, fun _ => 0)] ++
          [(jtag_command.reset 0 0, ERROR_OK, fun _ => 0)])).map Prod.fst = some ERROR_OK := by
    simp only [baset1_execute_queue, List.singleton_append, execute_queue_loop,
      baset1_execute_command, baset1_execute_reset, baset1_fast_flush_status, Option.map_some']
  ⟨hok, ok_means_flushed still_framework 0 idle_state
    [(jtag_command.tms 1 (fun _ => 1), ERROR_OK, fun _ => 0)]
    (jtag_command.reset 0 0, ERROR_OK, fun _ => 0) rfl hok⟩

theorem tms_loop_fits (bits : Buf) (n : Nat) :
    ∀ (i : Nat) (tms : Int) (ops : baset1_ops),
      ops.mdio_ctx.findex + 2 * n ≤ FAST_COMMAND_NUM →
      (tms_loop bits n i tms ops).1 = ERROR_OK ∧
      (tms_loop bits n i tms ops).2.2.mdio_ctx.findex = ops.mdio_ctx.findex + 2 * n := by
  induction n with
  | zero => intro i tms ops _; simp [tms_loop]
  | succ n ih =>
    intro i tms ops hfit
    obtain ⟨a1, a2, _, _⟩ :=
      baset1_write_fits ops 0 (((bits (i / 8) >>> (i % 8)) &&& 1 : Nat) : Int) 0 (by omega)
    obtain ⟨b1, b2, _, _⟩ :=
      baset1_write_fits (baset1_write ops 0 (((bits (i / 8) >>> (i % 8)) &&& 1 : Nat) : Int) 0).2
        1 (((bits (i / 8) >>> (i % 8)) &&& 1 : Nat) : Int) 0 (by omega)
    obtain ⟨i1, i2⟩ := ih (i + 1) (((bits (i / 8) >>> (i % 8)) &&& 1 : Nat) : Int)
      (baset1_write (baset1_write ops 0 (((bits (i / 8) >>> (i % 8)) &&& 1 : Nat) : Int) 0).2
        1 (((bits (i / 8) >>> (i % 8)) &&& 1 : Nat) : Int) 0).2 (by omega)
    simp only [tms_loop, a1, b1, ne_eq, not_true_eq_false, if_false]
    exact ⟨i1, by rw [i2, b2, a2]; omega⟩

/-- A TMS command whose writes fit returns `ERROR_OK` with its `2n+1` slots
still queued. -/
theorem execute_tms_fits (s : exec_state) (num_bits : Nat) (bits : Buf)
    (hfit : s.ops.mdio_ctx.findex + (2 * num_bits + 1) ≤ FAST_COMMAND_NUM) :
    (baset1_execute_tms s num_bits bits).1 = ERROR_OK ∧
    (baset1_execute_tms s num_bits bits).2.ops.mdio_ctx.findex
      = s.ops.mdio_ctx.findex + (2 * num_bits + 1) := by
  obtain ⟨l1, l2⟩ := tms_loop_fits bits num_bits 0 0 s.ops (by omega)
  obtain ⟨c1, c2, _, _⟩ := baset1_write_fits (tms_loop bits num_bits 0 0 s.ops).2.2 0
    (tms_loop bits num_bits 0 0 s.ops).2.1 0 (by rw [l2]; omega)
  simp only [baset1_execute_tms, l1, c1, ne_eq, not_true_eq_false, if_false]
  exact ⟨trivial, by rw [c2, l2]; omega⟩

theorem stableclocks_loop_fits (tms : Int) (n : Nat) :
    ∀ ops : baset1_ops, ops.mdio_ctx.findex + 2 * n ≤ FAST_COMMAND_NUM →
      (stableclocks_loop tms n ops).1 = ERROR_OK ∧
      (stableclocks_loop tms n ops).2.mdio_ctx.findex = ops.mdio_ctx.findex + 2 * n := by
  induction n with
  | zero => intro ops _; simp [stableclocks_loop]
  | succ n ih =>
    intro ops hfit
    obtain ⟨a1, a2, _, _⟩ := baset1_write_fits ops 1 tms 0 (by omega)
    obtain ⟨b1, b2, _, _⟩ := baset1_write_fits (baset1_write ops 1 tms 0).2 0 tms 0 (by omega)
    obtain ⟨i1, i2⟩ := ih (baset1_write (baset1_write ops 1 tms 0).2 0 tms 0).2 (by omega)
    simp only [stableclocks_loop, a1, b1, ne_eq, not_true_eq_false, if_false]
    exact ⟨i1, by rw [i2, b2, a2]; omega⟩

theorem clean_findex (ops : baset1_ops) :
    (baset1_fast_clean ops).mdio_ctx.findex = ops.mdio_ctx.findex := by
  simp [baset1_fast_clean, mdio_fast_clean]

/-- C26 as stated fails: on the opened sample driver, a queue holding one TMS
command of one bit, and a queue holding one STABLECLOCKS command of one cycle,
make `baset1_execute_queue` return `ERROR_OK` with the writes still queued
(`findex` 3 and 2): these commands do not flush. -/
theorem tms_ok_not_flushed :
    (baset1_execute_queue still_framework 0 idle_state
        [(jtag_command.tms 1 (fun _ => 1), ERROR_OK, fun _ => 0)]).map
      (fun r => (r.1, r.2.1.ops.mdio_ctx.findex)) = some (ERROR_OK, 3) ∧
    (baset1_execute_queue still_framework 0 idle_state
        [(jtag_command.stableclocks 1, ERROR_OK, fun _ => 0)]).map
      (fun r => (r.1, r.2.1.ops.mdio_ctx.findex)) = some (ERROR_OK, 2) := by
  have h0 : (baset1_fast_clean idle_state.ops).mdio_ctx.findex = 0 := by
    rw [clean_findex]; decide
  constructor
  · obtain ⟨t1, t2⟩ := execute_tms_fits
      { idle_state with ops := baset1_fast_clean idle_state.ops } 1 (fun _ => 1)
      (by simp only []; rw [h0]; decide)
    simp only [] at t2
    rw [h0] at t2
    simp only [baset1_execute_queue, execute_queue_loop, baset1_execute_command, Option.map_some',
      t1, t2]
  · obtain ⟨t1, t2⟩ := stableclocks_loop_fits 0 1 (baset1_fast_clean idle_state.ops)
      (by rw [h0]; decide)
    rw [h0] at t2
    simp only [baset1_execute_queue, execute_queue_loop, baset1_execute_command, Option.map_some',
      baset1_execute_stableclocks]
    rw [show (if idle_state.tap_state = tap_state_t.TAP_RESET then (1 : Int) else 0) = 0 from rfl,
      show (1 : Int).toNat = 1 from rfl, t1, t2]

/-! ## C27: a rejected `mdio_fast_add` inside a command -/

theorem baset1_reset_full (ops : baset1_ops) (trst srst : Int)
    (hk : ops.mdio_ctx.findex ≥ FAST_COMMAND_NUM) :
    (baset1_reset ops trst srst).1 = ERROR_FAIL ∧
    (baset1_reset ops trst srst).2.mdio_ctx = ops.mdio_ctx := by
  obtain ⟨e2, e1⟩ := baset1_reset_eq ops trst srst
  obtain ⟨a1, a2, _⟩ := accepted_write_rejected ops.mdio_ctx MDIO_WRITE
    (reset_shadow ops.target ops.jtag_reg trst) hk
  rw [e1, e2]
  refine ⟨?_, a1⟩
  rw [if_neg]
  omega

/-- C27 (what the code does at the failing inputs). With a full queue every
`mdio_fast_add` is rejected with `ERROR_BUF_TOO_SMALL`, so `baset1_reset` and
every `baset1_write` return `ERROR_FAIL`; yet a RESET command, and a DR scan of
one 8-bit output field issued in DRSHIFT and ending there, return `ERROR_OK`
when their flush succeeds: `baset1_execute_reset` and the bit loop of the scan
do not look at these statuses. -/
theorem rejected_add_reported_ok (fw : tap_framework) (reset_config : Nat) (s : exec_state)
    (trst srst : Int) (out_value captured : Buf)
    (hfull : s.ops.mdio_ctx.findex ≥ FAST_COMMAND_NUM)
    (hs : s.tap_state = tap_state_t.TAP_DRSHIFT)
    (hstable : fw.tap_is_state_stable tap_state_t.TAP_DRSHIFT = true) :
    (∀ (mode : mdio_mode) (val : Nat),
      (mdio_fast_add (baset1_fast_clean s.ops).mdio_ctx mode val).1 = ERROR_BUF_TOO_SMALL) ∧
    (baset1_reset (baset1_fast_clean s.ops) trst srst).1 = ERROR_FAIL ∧
    (baset1_execute_command fw reset_config s (jtag_command.reset trst srst) ERROR_OK
      captured).map Prod.fst = some ERROR_OK ∧
    (∀ tck tms tdi : Int, (baset1_write (baset1_fast_clean s.ops) tck tms tdi).1 = ERROR_FAIL) ∧
    (baset1_execute_command fw reset_config s
      (jtag_command.scan
        { ir_scan := false, fields := [scan_field.mk 8 (some out_value) none],
          end_state := tap_state_t.TAP_DRSHIFT })
      ERROR_OK captured).map Prod.fst = some ERROR_OK := by
  have hc : (baset1_fast_clean s.ops).mdio_ctx.findex ≥ FAST_COMMAND_NUM := by
    rw [clean_findex]; exact hfull
  refine ⟨?_, (baset1_reset_full _ trst srst hc).1, ?_,
    fun tck tms tdi => (baset1_write_full _ tck tms tdi hc).1, ?_⟩
  · intro mode val
    rw [(mdio_fast_add_full _ mode val hc).1]
  · simp only [baset1_execute_command, baset1_execute_reset, baset1_fast_flush_status,
      Option.map_some']
  · have hno : ∀ f ∈ [scan_field.mk 8 (some out_value) none],
        f.in_value.isSome = true → f.out_value.isSome = true := by
      intro f hf
      simp only [List.mem_singleton] at hf
      subst hf
      simp
    obtain ⟨_, l2⟩ := scan_field_loop_calls false 1 [scan_field.mk 8 (some out_value) none] hno 0
      (baset1_fast_clean s.ops) []
    cases hl : scan_field_loop false 1 [scan_field.mk 8 (some out_value) none] 0
        (baset1_fast_clean s.ops, []) with
    | none => rw [hl] at l2; simp at l2
    | some st =>
      rw [hl] at l2
      simp only [Option.map_some', Option.some.injEq, List.length_nil, input_bits,
        List.filter_cons, Option.isSome_none, Bool.false_eq_true, if_false, List.filter_nil,
        List.map_nil, List.sum_nil, Nat.add_zero, List.length_eq_zero] at l2
      simp only [baset1_execute_command, baset1_execute_scan, hs, ne_eq, not_true_eq_false,
        if_false, baset1_end_state, hstable, if_true, decide_False, List.length_singleton, hl,
        Bool.false_eq_true, baset1_fast_flush_status, l2, queue_apply, Option.map_some']

/-- C27 on the sample driver with a full queue, in DRSHIFT: a RESET with
`trst = 1`, and a DR scan of the output byte 0xa5. -/
theorem rejected_add_reported_ok_witness :
    (baset1_reset (baset1_fast_clean full_queue_drshift.ops) 1 0).1 = ERROR_FAIL ∧
    (baset1_execute_command still_framework 0 full_queue_drshift (jtag_command.reset 1 0)
      ERROR_OK (fun _ => 0)).map Prod.fst = some ERROR_OK ∧
    (baset1_execute_command still_framework 0 full_queue_drshift
      (jtag_command.scan
        { ir_scan := false, fields := [scan_field.mk 8 (some (fun _ => 0xa5)) none],
          end_state := tap_state_t.TAP_DRSHIFT })
      ERROR_OK (fun _ => 0)).map Prod.fst = some ERROR_OK :=
  have h := rejected_add_reported_ok still_framework 0 full_queue_drshift 1 0 (fun _ => 0xa5)
    (fun _ => 0) (by decide) rfl rfl
  ⟨h.2.1, h.2.2.1, h.2.2.2.2⟩

/-! ## C28: the status of `baset1_execute_queue` -/

/-- C28 (what the code does at the failing input). On a queue of two commands,
a RESET whose flush fails and then a SLEEP, the RESET command returns
`ERROR_FAIL` and `baset1_execute_queue` nevertheless returns `ERROR_OK`: only
the status of the last command is kept. -/
theorem execute_queue_drops_failure (fw : tap_framework) (reset_config : Nat) (s : exec_state)
    (captured : Buf) :
    (baset1_execute_command fw reset_config s (jtag_command.reset 0 0) ERROR_FAIL captured).map
        Prod.fst = some ERROR_FAIL ∧
    (baset1_execute_queue fw reset_config s
        [(jtag_command.reset 0 0, ERROR_FAIL, captured),
          (jtag_command.sleep 0, ERROR_OK, captured)]).map Prod.fst = some ERROR_OK := by
  constructor
  · simp only [baset1_execute_command, baset1_execute_reset, baset1_fast_flush_status,
      Option.map_some']
  · simp only [baset1_execute_queue, execute_queue_loop, baset1_execute_command,
      baset1_execute_sleep, Option.map_some']

/-! ## C29: opening without a device -/

/-- C29 (what the code does at the failing input). When `mpsse_open` finds no
device (`init_mpsse` returns `ERROR_JTAG_INIT_FAILED`), `mdio_open` on a
context that is not running still returns `ERROR_OK` and sets the running flag,
with no transport handle; the init callback of the fast driver returns
`ERROR_OK`. In the bit-bang variant `mdio_init` returns
`ERROR_JTAG_INIT_FAILED` and leaves the flag false, but its init callback
returns `ERROR_OK` as well. -/
theorem open_without_device (ctx : mdio_ctx) (t : mpsse_transport)
    (hrun : ctx.is_running = false) (hnull : ctx.mpsse_ctx = none) :
    (init_mpsse ctx none).1 = ERROR_JTAG_INIT_FAILED ∧
    (mdio_open ctx none).1 = ERROR_OK ∧
    (mdio_open ctx none).2.is_running = true ∧
    (mdio_open ctx none).2.mpsse_ctx = none ∧
    (baset1_init baset1_ops_start true none t).1 = ERROR_OK ∧
    ((baset1_init baset1_ops_start true none t).2.mdio_ctx.map
      (fun c => (c.is_running, c.mpsse_ctx))) = some (true, none) ∧
    (Bitbang.mdio_init Bitbang.state_init (fun _ => none)).1 = ERROR_JTAG_INIT_FAILED ∧
    (Bitbang.mdio_init Bitbang.state_init (fun _ => none)).2.ctx.is_running = false ∧
    (Bitbang.baset1_init Bitbang.state_init (fun _ => none) t).1 = ERROR_OK := by
  refine ⟨?_, ?_, ?_, ?_, rfl, ?_, ?_, ?_, rfl⟩
  · simp [init_mpsse]
  · simp [mdio_open, hrun]
  · simp [mdio_open, hrun]
  · simp [mdio_open, hrun, init_mpsse, init_mdio_queue, hnull]
  · simp [baset1_init, init_mdio, baset1_ops_start, mdio_init, mdio_open, init_mpsse,
      init_mdio_queue, mdio_reduce_preamble, mdio_read, mdio_write, mdio_slow_setup,
      mdio_slow_flush]
  · simp [Bitbang.mdio_init, Bitbang.state_init, Bitbang.mdio_init_loop]
  · simp [Bitbang.mdio_init, Bitbang.state_init, Bitbang.mdio_init_loop]

/-- C29 on the sample context. -/
theorem open_without_device_witness :
    (init_mpsse sample_ctx none).1 = ERROR_JTAG_INIT_FAILED ∧
    (mdio_open sample_ctx none).1 = ERROR_OK ∧
    (mdio_open sample_ctx none).2.is_running = true ∧
    (mdio_open sample_ctx none).2.mpsse_ctx = none ∧
    (baset1_init baset1_ops_start true none mpsse_echo).1 = ERROR_OK ∧
    ((baset1_init baset1_ops_start true none mpsse_echo).2.mdio_ctx.map
      (fun c => (c.is_running, c.mpsse_ctx))) = some (true, none) ∧
    (Bitbang.mdio_init Bitbang.state_init (fun _ => none)).1 = ERROR_JTAG_INIT_FAILED ∧
    (Bitbang.mdio_init Bitbang.state_init (fun _ => none)).2.ctx.is_running = false ∧
    (Bitbang.baset1_init Bitbang.state_init (fun _ => none) mpsse_echo).1 = ERROR_OK :=
  open_without_device sample_ctx mpsse_echo rfl rfl

/-! ## C30: the fast-mode negotiation -/

theorem and_not_3f (r : Nat) (hr : r < 65536) : r &&& (0xffffffff ^^^ 0x3f) = r / 64 * 64 := by
  have e : (0xffffffff ^^^ 0x3f : Nat) = (2 ^ 26 - 1) <<< 6 := by decide
  rw [e]
  apply Nat.eq_of_testBit_eq
  intro i
  rw [show r / 64 * 64 = (r >>> 6) <<< 6 by
    rw [Nat.shiftLeft_eq, Nat.shiftRight_eq_div_pow]]
  simp only [Nat.testBit_and, Nat.testBit_shiftLeft, Nat.testBit_shiftRight,
    Nat.testBit_two_pow_sub_one]
  by_cases h6 : i ≥ 6
  · by_cases h32 : i - 6 < 26
    · simp [h6, h32, show 6 + (i - 6) = i by omega]
    · have hlt : r < 2 ^ i :=
        lt_of_lt_of_le hr (by
          rw [show (65536 : Nat) = 2 ^ 16 by norm_num]
          exact Nat.pow_le_pow_right (by norm_num) (by omega))
      simp [h6, h32, show 6 + (i - 6) = i by omega, Nat.testBit_lt_two_pow hlt]
  · simp [h6]

theorem and_ffc0 (r : Nat) (hr : r < 65536) : r &&& 0xffc0 = r / 64 * 64 := by
  have e : (0xffc0 : Nat) = (2 ^ 10 - 1) <<< 6 := by decide
  rw [e]
  apply Nat.eq_of_testBit_eq
  intro i
  rw [show r / 64 * 64 = (r >>> 6) <<< 6 by
    rw [Nat.shiftLeft_eq, Nat.shiftRight_eq_div_pow]]
  simp only [Nat.testBit_and, Nat.testBit_shiftLeft, Nat.testBit_shiftRight,
    Nat.testBit_two_pow_sub_one]
  by_cases h6 : i ≥ 6
  · by_cases h32 : i - 6 < 10
    · simp [h6, h32, show 6 + (i - 6) = i by omega]
    · have hlt : r < 2 ^ i :=
        lt_of_lt_of_le hr (by
          rw [show (65536 : Nat) = 2 ^ 16 by norm_num]
          exact Nat.pow_le_pow_right (by norm_num) (by omega))
      simp [h6, h32, show 6 + (i - 6) = i by omega, Nat.testBit_lt_two_pow hlt]
  · simp [h6]

theorem mul_64_or_4 (q : Nat) : q * 64 ||| 0x4 = q * 64 + 4 := by
  have h := Nat.mul_add_lt_is_or (show 4 < 2 ^ 6 by norm_num) q
  rw [show q * 64 = 2 ^ 6 * q by ring]
  exact h.symm

theorem reduced_cfg_eq (r : Nat) (hr : r < 65536) : reduced_cfg r = r / 64 * 64 + 4 := by
  unfold reduced_cfg
  simp only []
  have e1 : r / 64 * 64 % 65536 = r / 64 * 64 := Nat.mod_eq_of_lt (by omega)
  have e2 : (r / 64 * 64 + 4) % 65536 = r / 64 * 64 + 4 := Nat.mod_eq_of_lt (by omega)
  rw [and_not_3f r hr, e1, mul_64_or_4, e2]

theorem mdio_write_soutput (ctx : mdio_ctx) (phy dev reg val : Nat) (t : mpsse_transport) :
    (mdio_write ctx phy dev reg val t).soutput
      = _setup_mdio_slow ctx.soutput 0
          { phy := phy, dev := dev, reg := reg, val := val, mode := MDIO_WRITE } := by
  simp [mdio_write, mdio_slow_setup, mdio_slow_flush]

/-- The two command words of the slow frame after `mdio_write`. -/
theorem mdio_write_frame (ctx : mdio_ctx) (phy dev reg val : Nat) (t : mpsse_transport)
    (hreg : reg < 65536) (hval : val < 65536) :
    be32 (mdio_write ctx phy dev reg val t).soutput 4
      = ((phy % 32) * 128 + (dev % 32) * 4 + 2) * 65536 + reg ∧
    be32 (mdio_write ctx phy dev reg val t).soutput 12
      = (4096 + (phy % 32) * 128 + (dev % 32) * 4 + 2) * 65536 + val := by
  rw [mdio_write_soutput]
  obtain ⟨sa, sv, _⟩ := setup_slow_spec ctx.soutput
    { phy := phy, dev := dev, reg := reg, val := val, mode := MDIO_WRITE }
  have hp := Nat.mod_lt phy (show 32 > 0 by norm_num)
  have hd := Nat.mod_lt dev (show 32 > 0 by norm_num)
  have ha := address_opcode_sum phy dev reg hreg
  have hv := value_opcode_sum phy dev val MDIO_WRITE hval
  simp only [if_true] at hv
  constructor
  · rw [← ha]
    exact be32_of_bytes _ 4 _ (by rw [ha]; omega) (sa 0 (by omega)) (sa 1 (by omega))
      (sa 2 (by omega)) (sa 3 (by omega))
  · rw [← hv]
    exact be32_of_bytes _ 12 _ (by rw [hv]; omega) (sv 0 (by omega)) (sv 1 (by omega))
      (sv 2 (by omega)) (sv 3 (by omega))

/-- A word read big-endian depends on its four bytes only. -/
theorem be32_congr (b c : Buf) (offset : Nat)
    (h : ∀ j, offset ≤ j → j < offset + 4 → b j = c j) : be32 b offset = be32 c offset := by
  simp only [be32, h offset (by omega) (by omega), h (offset + 1) (by omega) (by omega),
    h (offset + 2) (by omega) (by omega), h (offset + 3) (by omega) (by omega)]

/-- The full preamble of the bit-bang variant: four bytes `0xff`. -/
theorem bitbang_preamble_spec (out : Buf) (offset : Nat) (h : offset + 4 < 65536) :
    (Bitbang._mdio_preamble out offset).2 = offset + 4 ∧
    (∀ j, offset ≤ j → j < offset + 4 → (Bitbang._mdio_preamble out offset).1 j = 0xff) ∧
    ∀ j, (j < offset ∨ offset + 4 ≤ j) → (Bitbang._mdio_preamble out offset).1 j = out j := by
  obtain ⟨c, b0, b1, b2, b3, rest⟩ := bytes_to_bytes_spec out offset 0xffffffff h
  refine ⟨c, ?_, rest⟩
  intro j h1 h2
  have hj : j = offset ∨ j = offset + 1 ∨ j = offset + 2 ∨ j = offset + 3 := by omega
  rcases hj with e | e | e | e <;> subst e
  · exact b0
  · exact b1
  · exact b2
  · exact b3

/-- The fast preamble of the bit-bang variant: one byte `0xff`. -/
theorem bitbang_preamble_fast_spec (out : Buf) (offset : Nat) (h : offset + 1 < 65536) :
    (Bitbang._mdio_preamble_fast out offset).2 = offset + 1 ∧
    (Bitbang._mdio_preamble_fast out offset).1 offset = 0xff ∧
    ∀ j, j ≠ offset → (Bitbang._mdio_preamble_fast out offset).1 j = out j := by
  have e1 : (offset + 1) % 65536 = offset + 1 := Nat.mod_eq_of_lt h
  simp only [Bitbang._mdio_preamble_fast, Bitbang._mdio_byte_to_byte, offset_inc, e1, store]
  refine ⟨trivial, by simp, ?_⟩
  intro j hj
  simp [hj]

/-- The frame `_mdio_communicate` of the bit-bang variant builds and hands to
the transport, with full preambles: `FF FF FF FF`, the address word,
`FF FF FF FF`, the value word; 128 bits are clocked, and what the transport
answers to this frame is captured into `input`. -/
theorem bitbang_communicate_slow (s : Bitbang.state) (mode phy dev reg val : Nat)
    (t : mpsse_transport) (hreg : reg < 65536) (hval : val < 65536)
    (hslow : s.fast_mode_en = false) :
    be32 (Bitbang._mdio_communicate s mode phy dev reg val t).2.ctx.output 4
      = ((phy % 32) * 128 + (dev % 32) * 4 + 2) * 65536 + reg ∧
    be32 (Bitbang._mdio_communicate s mode phy dev reg val t).2.ctx.output 12
      = ((if mode = MDIO_WRITE then 4096 else 12288)
          + (phy % 32) * 128 + (dev % 32) * 4 + 2) * 65536 + val ∧
    (∀ j, (j < 4 ∨ (8 ≤ j ∧ j < 12)) →
      (Bitbang._mdio_communicate s mode phy dev reg val t).2.ctx.output j = 0xff) ∧
    (∀ j, 16 ≤ j →
      (Bitbang._mdio_communicate s mode phy dev reg val t).2.ctx.output j = s.ctx.output j) ∧
    (Bitbang._mdio_communicate s mode phy dev reg val t).2.ctx.input
      = mpsse_capture s.ctx.input
          (t { out_offset := 0, in_offset := 0, length := 128, mode := MDIO_MODE }
            (Bitbang._mdio_communicate s mode phy dev reg val t).2.ctx.output).2
          { out_offset := 0, in_offset := 0, length := 128, mode := MDIO_MODE } ∧
    (Bitbang._mdio_communicate s mode phy dev reg val t).2.fast_mode_en = s.fast_mode_en := by
  obtain ⟨p1, p2, p3⟩ := bitbang_preamble_spec s.ctx.output 0 (by norm_num)
  obtain ⟨a1, a2, a3⟩ := command_address_spec (Bitbang._mdio_preamble s.ctx.output 0).1 4
    phy dev reg hreg (by norm_num)
  obtain ⟨q1, q2, q3⟩ := bitbang_preamble_spec
    (_mdio_command_address (Bitbang._mdio_preamble s.ctx.output 0).1 4 phy dev reg).1 8
    (by norm_num)
  obtain ⟨v1, v2, v3⟩ := command_value_spec
    (Bitbang._mdio_preamble
      (_mdio_command_address (Bitbang._mdio_preamble s.ctx.output 0).1 4 phy dev reg).1 8).1 12
    phy dev val mode hval (by norm_num)
  have hout : (Bitbang._mdio_communicate s mode phy dev reg val t).2.ctx.output
      = (_mdio_command_value
          (Bitbang._mdio_preamble
            (_mdio_command_address (Bitbang._mdio_preamble s.ctx.output 0).1 4 phy dev reg).1
            8).1 12 phy dev mode val).1 := by
    simp only [Bitbang._mdio_communicate, hslow, Bool.false_eq_true, if_false, p1, a2, q1,
      Nat.zero_add]
  have hin : (Bitbang._mdio_communicate s mode phy dev reg val t).2.ctx.input
      = mpsse_capture s.ctx.input
          (t { out_offset := 0, in_offset := 0, length := 128, mode := MDIO_MODE }
            (_mdio_command_value
              (Bitbang._mdio_preamble
                (_mdio_command_address (Bitbang._mdio_preamble s.ctx.output 0).1 4 phy dev
                  reg).1 8).1 12 phy dev mode val).1).2
          { out_offset := 0, in_offset := 0, length := 128, mode := MDIO_MODE } := by
    simp only [Bitbang._mdio_communicate, hslow, Bool.false_eq_true, if_false, p1, a2, q1, v2,
      Nat.zero_add]
  rw [hin, hout]
  refine ⟨?_, v1, ?_, ?_, rfl, ?_⟩
  · rw [be32_congr _ _ 4 (fun j h1 h2 => v3 j (Or.inl (by omega))),
      be32_congr _ _ 4 (fun j h1 h2 => q3 j (Or.inl (by omega)))]
    exact a1
  · intro j hj
    rcases hj with hj | hj
    · rw [v3 j (Or.inl (by omega)), q3 j (Or.inl (by omega)), a3 j (Or.inl (by omega))]
      exact p2 j (by omega) (by omega)
    · rw [v3 j (Or.inl (by omega))]
      exact q2 j hj.1 (by omega)
  · intro j hj
    rw [v3 j (Or.inr (by omega)), q3 j (Or.inr (by omega)), a3 j (Or.inr (by omega)),
      p3 j (Or.inr (by omega))]
  · simp only [Bitbang._mdio_communicate]

/-- The frame `_mdio_communicate` of the bit-bang variant builds and hands to
the transport when fast mode is on: `FF`, the address word, `FF`, the value
word; 80 bits are clocked. -/
theorem bitbang_communicate_fast (s : Bitbang.state) (mode phy dev reg val : Nat)
    (t : mpsse_transport) (hreg : reg < 65536) (hval : val < 65536)
    (hfast : s.fast_mode_en = true) :
    be32 (Bitbang._mdio_communicate s mode phy dev reg val t).2.ctx.output 1
      = ((phy % 32) * 128 + (dev % 32) * 4 + 2) * 65536 + reg ∧
    be32 (Bitbang._mdio_communicate s mode phy dev reg val t).2.ctx.output 6
      = ((if mode = MDIO_WRITE then 4096 else 12288)
          + (phy % 32) * 128 + (dev % 32) * 4 + 2) * 65536 + val ∧
    (∀ j, (j = 0 ∨ j = 5) →
      (Bitbang._mdio_communicate s mode phy dev reg val t).2.ctx.output j = 0xff) ∧
    (Bitbang._mdio_communicate s mode phy dev reg val t).2.ctx.input
      = mpsse_capture s.ctx.input
          (t { out_offset := 0, in_offset := 0, length := 80, mode := MDIO_MODE }
            (Bitbang._mdio_communicate s mode phy dev reg val t).2.ctx.output).2
          { out_offset := 0, in_offset := 0, length := 80, mode := MDIO_MODE } := by
  obtain ⟨p1, p2, p3⟩ := bitbang_preamble_fast_spec s.ctx.output 0 (by norm_num)
  obtain ⟨a1, a2, a3⟩ := command_address_spec (Bitbang._mdio_preamble_fast s.ctx.output 0).1 1
    phy dev reg hreg (by norm_num)
  obtain ⟨q1, q2, q3⟩ := bitbang_preamble_fast_spec
    (_mdio_command_address (Bitbang._mdio_preamble_fast s.ctx.output 0).1 1 phy dev reg).1 5
    (by norm_num)
  obtain ⟨v1, v2, v3⟩ := command_value_spec
    (Bitbang._mdio_preamble_fast
      (_mdio_command_address (Bitbang._mdio_preamble_fast s.ctx.output 0).1 1 phy dev
        reg).1 5).1 6
    phy dev val mode hval (by norm_num)
  have hout : (Bitbang._mdio_communicate s mode phy dev reg val t).2.ctx.output
      = (_mdio_command_value
          (Bitbang._mdio_preamble_fast
            (_mdio_command_address (Bitbang._mdio_preamble_fast s.ctx.output 0).1 1 phy dev
              reg).1 5).1 6 phy dev mode val).1 := by
    simp only [Bitbang._mdio_communicate, hfast, if_true, p1, a2, q1, Nat.zero_add]
  have hin : (Bitbang._mdio_communicate s mode phy dev reg val t).2.ctx.input
      = mpsse_capture s.ctx.input
          (t { out_offset := 0, in_offset := 0, length := 80, mode := MDIO_MODE }
            (_mdio_command_value
              (Bitbang._mdio_preamble_fast
                (_mdio_command_address (Bitbang._mdio_preamble_fast s.ctx.output 0).1 1 phy dev
                  reg).1 5).1 6 phy dev mode val).1).2
          { out_offset := 0, in_offset := 0, length := 80, mode := MDIO_MODE } := by
    simp only [Bitbang._mdio_communicate, hfast, if_true, p1, a2, q1, v2, Nat.zero_add]
  rw [hin, hout]
  refine ⟨?_, v1, ?_, rfl⟩
  · rw [be32_congr _ _ 1 (fun j h1 h2 => v3 j (Or.inl (by omega))),
      be32_congr _ _ 1 (fun j h1 h2 => q3 j (by omega))]
    exact a1
  · intro j hj
    rcases hj with hj | hj <;> subst hj
    · rw [v3 0 (Or.inl (by omega)), q3 0 (by omega), a3 0 (Or.inl (by omega))]
      exact p2
    · rw [v3 5 (Or.inl (by omega))]
      exact q2

/-- What `mdio_write` hands to the transport: the slow frame, over 128 bits; the
answer is captured into `sinput`. -/
theorem mdio_write_sinput (ctx : mdio_ctx) (phy dev reg val : Nat) (t : mpsse_transport) :
    (mdio_write ctx phy dev reg val t).sinput
      = mpsse_capture ctx.sinput
          (t { out_offset := 0, in_offset := 0, length := 128, mode := MDIO_MODE }
            (mdio_write ctx phy dev reg val t).soutput).2
          { out_offset := 0, in_offset := 0, length := 128, mode := MDIO_MODE } := by
  have e : MDIO_COMMAND_SIZE * 8 = 128 := by decide
  simp only [mdio_write, mdio_slow_setup, mdio_slow_flush, mdio_slow_flush_clock_data, e]

/-- C30. The fast-mode negotiation writes back, to device 0x1d register 0x0020
of the PHY, the value `(r & ~0x3F) | 0x04` for the 16-bit value `r` its slow
read returned: the slow frame of the write carries the address word of
(phy, 0x1d, 0x0020) and a WRITE value word with that value. For every 16-bit
`r` the value keeps the upper 10 bits of `r`, has `000100` as its low 6 bits,
and computing it again from itself changes nothing; the frame is handed to
the transport over 128 bits. The bit-bang variant
writes the same function of its own read and then sets `fast_mode_en`: the
frame it leaves in `output` and hands to the transport is, with full
preambles, `FF FF FF FF`, the address word of (phy, 0x1d, 0x0020),
`FF FF FF FF` and the WRITE value word with `(r & ~0x3F) | 0x04`, clocked over
128 bits (and the fast frame of the same two words over 80 bits when fast mode
was on already). -/
theorem fast_mode_negotiation (ops : baset1_ops) (s : Bitbang.state) (phy : Nat)
    (t : mpsse_transport) (r : Nat) (hr : r < 65536) :
    (mdio_reduce_preamble ops t).mdio_ctx
      = mdio_write (mdio_read ops.mdio_ctx (ops.phy_id % 256) 0x1d 0x0020 t).2
          (ops.phy_id % 256) 0x1d 0x0020
          (reduced_cfg (mdio_read ops.mdio_ctx (ops.phy_id % 256) 0x1d 0x0020 t).1) t ∧
    be32 (mdio_reduce_preamble ops t).mdio_ctx.soutput 4
      = ((ops.phy_id % 32) * 128 + 0x1d * 4 + 2) * 65536 + 0x0020 ∧
    be32 (mdio_reduce_preamble ops t).mdio_ctx.soutput 12
      = (4096 + (ops.phy_id % 32) * 128 + 0x1d * 4 + 2) * 65536
        + reduced_cfg (mdio_read ops.mdio_ctx (ops.phy_id % 256) 0x1d 0x0020 t).1 ∧
    (mdio_read ops.mdio_ctx (ops.phy_id % 256) 0x1d 0x0020 t).1 < 65536 ∧
    Bitbang.mdio_init_fast_mode s phy t
      = { Bitbang.mdio_write (Bitbang.mdio_read s phy 0x1d 0x0020 t).2 phy 0x1d 0x0020
            (reduced_cfg (Bitbang.mdio_read s phy 0x1d 0x0020 t).1) t with
          fast_mode_en := true } ∧
    (Bitbang.mdio_init_fast_mode s phy t).fast_mode_en = true ∧
    (Bitbang.mdio_read s phy 0x1d 0x0020 t).1 < 65536 ∧
    reduced_cfg r = (r &&& 0xffc0) ||| 0x04 ∧
    reduced_cfg r / 64 = r / 64 ∧
    reduced_cfg r % 64 = 4 ∧
    reduced_cfg (reduced_cfg r) = reduced_cfg r ∧
    (s.fast_mode_en = false →
      be32 (Bitbang.mdio_init_fast_mode s phy t).ctx.output 4
        = ((phy % 32) * 128 + 0x1d * 4 + 2) * 65536 + 0x0020 ∧
      be32 (Bitbang.mdio_init_fast_mode s phy t).ctx.output 12
        = (4096 + (phy % 32) * 128 + 0x1d * 4 + 2) * 65536
          + reduced_cfg (Bitbang.mdio_read s phy 0x1d 0x0020 t).1 ∧
      (∀ j, (j < 4 ∨ (8 ≤ j ∧ j < 12)) →
        (Bitbang.mdio_init_fast_mode s phy t).ctx.output j = 0xff) ∧
      (Bitbang.mdio_init_fast_mode s phy t).ctx.input
        = mpsse_capture (Bitbang.mdio_read s phy 0x1d 0x0020 t).2.ctx.input
            (t { out_offset := 0, in_offset := 0, length := 128, mode := MDIO_MODE }
              (Bitbang.mdio_init_fast_mode s phy t).ctx.output).2
            { out_offset := 0, in_offset := 0, length := 128, mode := MDIO_MODE } ∧
      be32 (Bitbang.mdio_read s phy 0x1d 0x0020 t).2.ctx.output 4
        = ((phy % 32) * 128 + 0x1d * 4 + 2) * 65536 + 0x0020 ∧
      be32 (Bitbang.mdio_read s phy 0x1d 0x0020 t).2.ctx.output 12
        = (12288 + (phy % 32) * 128 + 0x1d * 4 + 2) * 65536 + 0xffff) ∧
    (s.fast_mode_en = true →
      be32 (Bitbang.mdio_init_fast_mode s phy t).ctx.output 1
        = ((phy % 32) * 128 + 0x1d * 4 + 2) * 65536 + 0x0020 ∧
      be32 (Bitbang.mdio_init_fast_mode s phy t).ctx.output 6
        = (4096 + (phy % 32) * 128 + 0x1d * 4 + 2) * 65536
          + reduced_cfg (Bitbang.mdio_read s phy 0x1d 0x0020 t).1 ∧
      (∀ j, (j = 0 ∨ j = 5) → (Bitbang.mdio_init_fast_mode s phy t).ctx.output j = 0xff) ∧
      (Bitbang.mdio_init_fast_mode s phy t).ctx.input
        = mpsse_capture (Bitbang.mdio_read s phy 0x1d 0x0020 t).2.ctx.input
            (t { out_offset := 0, in_offset := 0, length := 80, mode := MDIO_MODE }
              (Bitbang.mdio_init_fast_mode s phy t).ctx.output).2
            { out_offset := 0, in_offset := 0, length := 80, mode := MDIO_MODE }) ∧
    (mdio_reduce_preamble ops t).mdio_ctx.sinput
      = mpsse_capture (mdio_read ops.mdio_ctx (ops.phy_id % 256) 0x1d 0x0020 t).2.sinput
          (t { out_offset := 0, in_offset := 0, length := 128, mode := MDIO_MODE }
            (mdio_reduce_preamble ops t).mdio_ctx.soutput).2
          { out_offset := 0, in_offset := 0, length := 128, mode := MDIO_MODE } := by
  have hred : ∀ x, reduced_cfg x < 65536 := by
    intro x
    unfold reduced_cfg
    exact Nat.mod_lt _ (by norm_num)
  have h1 : (mdio_reduce_preamble ops t).mdio_ctx
      = mdio_write (mdio_read ops.mdio_ctx (ops.phy_id % 256) 0x1d 0x0020 t).2
          (ops.phy_id % 256) 0x1d 0x0020
          (reduced_cfg (mdio_read ops.mdio_ctx (ops.phy_id % 256) 0x1d 0x0020 t).1) t := rfl
  obtain ⟨fa, fv⟩ := mdio_write_frame
    (mdio_read ops.mdio_ctx (ops.phy_id % 256) 0x1d 0x0020 t).2 (ops.phy_id % 256) 0x1d 0x0020
    (reduced_cfg (mdio_read ops.mdio_ctx (ops.phy_id % 256) 0x1d 0x0020 t).1) t (by norm_num)
    (hred _)
  have e32 : ops.phy_id % 256 % 32 = ops.phy_id % 32 := by omega
  have p32 : phy % 256 % 32 = phy % 32 := by omega
  have d32 : 0x1d % 256 % 32 = 0x1d := by norm_num
  have e := reduced_cfg_eq r hr
  have hflag : (Bitbang.mdio_read s phy 0x1d 0x0020 t).2.fast_mode_en = s.fast_mode_en := rfl
  have hout : (Bitbang.mdio_init_fast_mode s phy t).ctx
      = (Bitbang._mdio_communicate (Bitbang.mdio_read s phy 0x1d 0x0020 t).2 MDIO_WRITE
          (phy % 256) (0x1d % 256) 0x0020
          (reduced_cfg (Bitbang.mdio_read s phy 0x1d 0x0020 t).1) t).2.ctx := rfl
  have hread : (Bitbang.mdio_read s phy 0x1d 0x0020 t).2
      = (Bitbang._mdio_communicate s MDIO_READ (phy % 256) (0x1d % 256) 0x0020 0xffff t).2 := rfl
  refine ⟨h1, ?_, ?_, ?_, rfl, rfl, ?_, ?_, ?_, ?_, ?_, ?_, ?_, ?_⟩
  · rw [h1, fa, e32]
  · rw [h1, fv, e32]
  · simp only [mdio_read, mdio_slow_readback, _mdio_bytes_to_u16]
    exact Nat.mod_lt _ (by norm_num)
  · simp only [Bitbang.mdio_read, Bitbang._mdio_communicate]
    exact Nat.mod_lt _ (by norm_num)
  · rw [e, and_ffc0 r hr, mul_64_or_4]
  · rw [e]; omega
  · rw [e]; omega
  · rw [reduced_cfg_eq _ (hred r), e]; omega
  · intro hslow
    obtain ⟨w1, w2, w3, _, w5, _⟩ := bitbang_communicate_slow
      (Bitbang.mdio_read s phy 0x1d 0x0020 t).2 MDIO_WRITE (phy % 256) (0x1d % 256) 0x0020
      (reduced_cfg (Bitbang.mdio_read s phy 0x1d 0x0020 t).1) t (by norm_num) (hred _)
      (by rw [hflag]; exact hslow)
    obtain ⟨r1, r2, _⟩ := bitbang_communicate_slow s MDIO_READ (phy % 256) (0x1d % 256) 0x0020
      0xffff t (by norm_num) (by norm_num) hslow
    rw [p32, d32] at w1 w2 r1 r2
    rw [if_pos rfl] at w2
    rw [if_neg (by decide)] at r2
    rw [hout, hread]
    exact ⟨w1, w2, w3, w5, r1, r2⟩
  · intro hfast
    obtain ⟨w1, w2, w3, w5⟩ := bitbang_communicate_fast
      (Bitbang.mdio_read s phy 0x1d 0x0020 t).2 MDIO_WRITE (phy % 256) (0x1d % 256) 0x0020
      (reduced_cfg (Bitbang.mdio_read s phy 0x1d 0x0020 t).1) t (by norm_num) (hred _)
      (by rw [hflag]; exact hfast)
    rw [p32, d32] at w1 w2
    rw [if_pos rfl] at w2
    rw [hout]
    exact ⟨w1, w2, w3, w5⟩
  · rw [h1]
    exact mdio_write_sinput _ _ _ _ _ t

/-- C30 at the value 0x0007 of the claim: what is written back is 0x0004; on
the initial state of the bit-bang variant the negotiation leaves the WRITE
value word with the reduced value in bytes 12..15 of `output`. -/
theorem fast_mode_negotiation_witness :
    reduced_cfg 0x0007 = 0x0004 ∧
    reduced_cfg 0x0007 = (0x0007 &&& 0xffc0) ||| 0x04 ∧
    reduced_cfg (reduced_cfg 0x0007) = reduced_cfg 0x0007 ∧
    (Bitbang.mdio_init_fast_mode Bitbang.state_init 0x1a mpsse_echo).fast_mode_en = true ∧
    be32 (Bitbang.mdio_init_fast_mode Bitbang.state_init 0x1a mpsse_echo).ctx.output 12
      = (4096 + (0x1a % 32) * 128 + 0x1d * 4 + 2) * 65536
        + reduced_cfg (Bitbang.mdio_read Bitbang.state_init 0x1a 0x1d 0x0020 mpsse_echo).1 :=
  have h := fast_mode_negotiation opened_ops Bitbang.state_init 0x1a mpsse_echo 0x0007
    (by norm_num)
  ⟨by decide, h.2.2.2.2.2.2.2.1, h.2.2.2.2.2.2.2.2.2.2.1, h.2.2.2.2.2.1,
    (h.2.2.2.2.2.2.2.2.2.2.2.1 rfl).2.1⟩

/-! ## C34: the state move -/

theorem state_move_pairs_get (tms_scan n : Nat) :
    ∀ i j, j < n →
      (state_move_pairs tms_scan n i)[2 * j]?
        = some (driver_call.write 0 (tms_bit tms_scan (i + j)) 0) ∧
      (state_move_pairs tms_scan n i)[2 * j + 1]?
        = some (driver_call.write 1 (tms_bit tms_scan (i + j)) 0) := by
  induction n with
  | zero => intro i j hj; omega
  | succ n ih =>
    intro i j hj
    cases j with
    | zero => simp [state_move_pairs, tms_bit]
    | succ j =>
      obtain ⟨h1, h2⟩ := ih (i + 1) j (by omega)
      rw [show i + (j + 1) = i + 1 + j by omega]
      constructor
      · rw [show 2 * (j + 1) = 2 * j + 1 + 1 by omega]
        simp only [state_move_pairs, List.getElem?_cons_succ]
        exact h1
      · rw [show 2 * (j + 1) + 1 = 2 * j + 1 + 1 + 1 by omega]
        simp only [state_move_pairs, List.getElem?_cons_succ]
        exact h2

theorem state_move_last_eq (tms_scan n : Nat) :
    ∀ (i : Nat) (tms : Int),
      state_move_last tms_scan n i tms
        = if n = 0 then tms else tms_bit tms_scan (i + n - 1) := by
  induction n with
  | zero => intro i tms; simp [state_move_last]
  | succ n ih =>
    intro i tms
    rw [state_move_last, ih]
    by_cases hn : n = 0
    · subst hn
      simp [tms_bit]
    · simp only [hn, if_false, Nat.add_one_ne_zero]
      rw [show i + 1 + n - 1 = i + (n + 1) - 1 by omega]

/-- The loop of the state move either goes through, with two slots taken per
bit, or fails. -/
theorem state_move_loop_cases (tms_scan n : Nat) :
    ∀ (i : Nat) (tms : Int) (ops : baset1_ops),
      ((state_move_loop tms_scan n i tms ops).1 = ERROR_OK ∧
        (state_move_loop tms_scan n i tms ops).2.2.mdio_ctx.findex
          = ops.mdio_ctx.findex + 2 * n) ∨
      (state_move_loop tms_scan n i tms ops).1 = ERROR_FAIL := by
  induction n with
  | zero => intro i tms ops; left; simp [state_move_loop]
  | succ n ih =>
    intro i tms ops
    by_cases h1 : ops.mdio_ctx.findex < FAST_COMMAND_NUM
    · obtain ⟨a1, a2, _, _⟩ :=
        baset1_write_fits ops 0 (((tms_scan >>> i) &&& 1 : Nat) : Int) 0 h1
      by_cases h2 : ops.mdio_ctx.findex + 1 < FAST_COMMAND_NUM
      · obtain ⟨b1, b2, _, _⟩ :=
          baset1_write_fits (baset1_write ops 0 (((tms_scan >>> i) &&& 1 : Nat) : Int) 0).2 1
            (((tms_scan >>> i) &&& 1 : Nat) : Int) 0 (by omega)
        have h := ih (i + 1) (((tms_scan >>> i) &&& 1 : Nat) : Int)
          (baset1_write (baset1_write ops 0 (((tms_scan >>> i) &&& 1 : Nat) : Int) 0).2 1
            (((tms_scan >>> i) &&& 1 : Nat) : Int) 0).2
        simp only [state_move_loop, a1, b1, ne_eq, not_true_eq_false, if_false]
        rcases h with ⟨c1, c2⟩ | c
        · left
          exact ⟨c1, by rw [c2, b2, a2]; omega⟩
        · right
          exact c
      · obtain ⟨b1, _⟩ :=
          baset1_write_full (baset1_write ops 0 (((tms_scan >>> i) &&& 1 : Nat) : Int) 0).2 1
            (((tms_scan >>> i) &&& 1 : Nat) : Int) 0 (by omega)
        right
        simp only [state_move_loop, a1, b1, ne_eq, not_true_eq_false, if_false, fail_ne_ok,
          not_false_eq_true, if_true]
    · obtain ⟨a1, _⟩ :=
        baset1_write_full ops 0 (((tms_scan >>> i) &&& 1 : Nat) : Int) 0 (by omega)
      right
      simp only [state_move_loop, a1, ne_eq, fail_ne_ok, not_false_eq_true, if_true]

/-- A state move whose writes do not all fit in the queue returns `ERROR_FAIL`
and leaves the TAP tracker alone. -/
theorem baset1_state_move_overflow (fw : tap_framework) (s : exec_state) (skip : Nat)
    (hfit : ¬ s.ops.mdio_ctx.findex
      + (state_move_calls fw s.tap_state s.tap_end_state skip).length ≤ FAST_COMMAND_NUM) :
    (baset1_state_move fw s skip).1 = ERROR_FAIL ∧
    (baset1_state_move fw s skip).2.tap_state = s.tap_state ∧
    (baset1_state_move fw s skip).2.tap_end_state = s.tap_end_state := by
  simp only [state_move_calls, List.length_append, state_move_pairs_length, List.length_singleton]
    at hfit
  unfold baset1_state_move
  simp only []
  rcases state_move_loop_cases (fw.tap_get_tms_path s.tap_state s.tap_end_state % 256)
    (fw.tap_get_tms_path_len s.tap_state s.tap_end_state - (skip : Int)).toNat skip 0 s.ops
    with ⟨c1, c2⟩ | c
  · obtain ⟨b1, _⟩ := baset1_write_full
      (state_move_loop (fw.tap_get_tms_path s.tap_state s.tap_end_state % 256)
        (fw.tap_get_tms_path_len s.tap_state s.tap_end_state - (skip : Int)).toNat skip 0
        s.ops).2.2 0
      (state_move_loop (fw.tap_get_tms_path s.tap_state s.tap_end_state % 256)
        (fw.tap_get_tms_path_len s.tap_state s.tap_end_state - (skip : Int)).toNat skip 0
        s.ops).2.1 0 (by rw [c2]; omega)
    simp only [c1, b1, ne_eq, not_true_eq_false, if_false, fail_ne_ok, not_false_eq_true, if_true]
    exact ⟨trivial, trivial, trivial⟩
  · simp only [c, ne_eq, fail_ne_ok, not_false_eq_true, if_true]
    exact ⟨trivial, trivial, trivial⟩

/-- C34. For a TMS path `path < 256` of length `L` reported by the framework
for (current state, end state), with bits `p_i = (path >> i) & 1`, and every
`skip ≤ L`, the calls of the state move are, for `i = skip .. L-1` in order,
write(0, p_i, 0) then write(1, p_i, 0), followed by one clock-idle
write(0, t, 0) with `t` the last TMS emitted (0 if none): `2(L - skip) + 1`
writes and no read. When they fit in the queue the state move makes exactly
these calls, takes that many slots, queues no read, returns `ERROR_OK` and
sets the TAP tracker to the end state; when they do not fit it returns
`ERROR_FAIL` and leaves the TAP tracker as it was. -/
theorem state_move_walk (fw : tap_framework) (s : exec_state) (skip L : Nat)
    (hL : fw.tap_get_tms_path_len s.tap_state s.tap_end_state = (L : Int))
    (hpath : fw.tap_get_tms_path s.tap_state s.tap_end_state < 256)
    (hskip : skip ≤ L) :
    (state_move_calls fw s.tap_state s.tap_end_state skip).length = 2 * (L - skip) + 1 ∧
    (∀ j, j < L - skip →
      (state_move_calls fw s.tap_state s.tap_end_state skip)[2 * j]?
        = some (driver_call.write 0
            (tms_bit (fw.tap_get_tms_path s.tap_state s.tap_end_state) (skip + j)) 0) ∧
      (state_move_calls fw s.tap_state s.tap_end_state skip)[2 * j + 1]?
        = some (driver_call.write 1
            (tms_bit (fw.tap_get_tms_path s.tap_state s.tap_end_state) (skip + j)) 0)) ∧
    (state_move_calls fw s.tap_state s.tap_end_state skip)[2 * (L - skip)]?
      = some (driver_call.write 0
          (if L - skip = 0 then 0
            else tms_bit (fw.tap_get_tms_path s.tap_state s.tap_end_state) (L - 1)) 0) ∧
    (∀ c ∈ state_move_calls fw s.tap_state s.tap_end_state skip, c.is_write = true) ∧
    (s.ops.mdio_ctx.findex + (2 * (L - skip) + 1) ≤ FAST_COMMAND_NUM →
      baset1_state_move fw s skip
        = (ERROR_OK,
            { s with
              ops := run_driver s.ops (state_move_calls fw s.tap_state s.tap_end_state skip)
              tap_state := s.tap_end_state }) ∧
      (run_driver s.ops (state_move_calls fw s.tap_state s.tap_end_state skip)).mdio_ctx.findex
        = s.ops.mdio_ctx.findex + (2 * (L - skip) + 1) ∧
      (run_driver s.ops
          (state_move_calls fw s.tap_state s.tap_end_state skip)).mdio_ctx.fread_cnt
        = s.ops.mdio_ctx.fread_cnt) ∧
    (¬ s.ops.mdio_ctx.findex + (2 * (L - skip) + 1) ≤ FAST_COMMAND_NUM →
      (baset1_state_move fw s skip).1 = ERROR_FAIL ∧
      (baset1_state_move fw s skip).2.tap_state = s.tap_state) := by
  have hn : (fw.tap_get_tms_path_len s.tap_state s.tap_end_state - (skip : Int)).toNat
      = L - skip := by
    rw [hL]; omega
  have hmod : fw.tap_get_tms_path s.tap_state s.tap_end_state % 256
      = fw.tap_get_tms_path s.tap_state s.tap_end_state := Nat.mod_eq_of_lt hpath
  have hlen : (state_move_calls fw s.tap_state s.tap_end_state skip).length
      = 2 * (L - skip) + 1 := by
    simp only [state_move_calls, List.length_append, state_move_pairs_length,
      List.length_singleton, hn]
  refine ⟨hlen, ?_, ?_, state_move_calls_writes fw _ _ skip, ?_, ?_⟩
  · intro j hj
    obtain ⟨g1, g2⟩ := state_move_pairs_get
      (fw.tap_get_tms_path s.tap_state s.tap_end_state) (L - skip) skip j hj
    simp only [state_move_calls, hn, hmod]
    rw [List.getElem?_append_left (by rw [state_move_pairs_length]; omega),
      List.getElem?_append_left (by rw [state_move_pairs_length]; omega)]
    exact ⟨g1, g2⟩
  · simp only [state_move_calls, hn, hmod]
    rw [List.getElem?_append_right (by rw [state_move_pairs_length]),
      state_move_pairs_length, Nat.sub_self, state_move_last_eq]
    simp only [List.getElem?_cons_zero]
    by_cases h0 : L - skip = 0
    · simp only [h0, if_true]
    · simp only [h0, if_false]
      rw [show skip + (L - skip) - 1 = L - 1 by omega]
  · intro hfit
    have hfit2 : s.ops.mdio_ctx.findex
        + (state_move_calls fw s.tap_state s.tap_end_state skip).length ≤ FAST_COMMAND_NUM := by
      rw [hlen]; exact hfit
    obtain ⟨w1, w2, _⟩ := run_driver_writes
      (state_move_calls fw s.tap_state s.tap_end_state skip) s.ops
      (state_move_calls_writes fw _ _ skip) hfit2
    refine ⟨baset1_state_move_fits fw s skip hfit2, ?_, w2⟩
    rw [w1, hlen]
  · intro hfit
    have h := baset1_state_move_overflow fw s skip (by rw [hlen]; exact hfit)
    exact ⟨h.1, h.2.1⟩

/-- C34 on the opened sample driver in DRSHIFT, end state IDLE, with the 3-bit
path 1, 1, 0 and skip 1: the writes (0,1,0), (1,1,0), (0,0,0), (1,0,0) and the
clock-idle write (0,0,0). -/
theorem state_move_walk_witness :
    (state_move_calls exit_framework drshift_to_idle.tap_state drshift_to_idle.tap_end_state
      1).length = 2 * (3 - 1) + 1 ∧
    baset1_state_move exit_framework drshift_to_idle 1
      = (ERROR_OK,
          { drshift_to_idle with
            ops := run_driver drshift_to_idle.ops
              (state_move_calls exit_framework drshift_to_idle.tap_state
                drshift_to_idle.tap_end_state 1)
            tap_state := drshift_to_idle.tap_end_state }) ∧
    state_move_calls exit_framework drshift_to_idle.tap_state drshift_to_idle.tap_end_state 1
      = [driver_call.write 0 1 0, driver_call.write 1 1 0, driver_call.write 0 0 0,
          driver_call.write 1 0 0, driver_call.write 0 0 0] :=
  have h := state_move_walk exit_framework drshift_to_idle 1 3 rfl (by decide) (by decide)
  ⟨h.1, (h.2.2.2.2.1 (by decide)).1, rfl⟩

/-! ## C33: the TMS of the last scan bit -/

theorem rising_tms_append (a b : List driver_call) :
    rising_tms (a ++ b) = rising_tms a ++ rising_tms b := by
  induction a with
  | nil => rfl
  | cons c rest ih =>
    rw [List.cons_append]
    cases c with
    | write tck tms tdi =>
      by_cases h : tck = 0
      · simp only [rising_tms, ne_eq, h, not_true_eq_false, if_false]
        exact ih
      · simp only [rising_tms, ne_eq, h, not_false_eq_true, if_true, List.cons_append]
        exact congrArg _ ih
    | reset _ _ => simp only [rising_tms]; exact ih
    | read => simp only [rising_tms]; exact ih
    | flush _ _ => simp only [rising_tms]; exact ih
    | clean => simp only [rising_tms]; exact ih

theorem rising_tms_pairs (tms_scan n : Nat) :
    ∀ i, rising_tms (state_move_pairs tms_scan n i)
      = (List.range n).map (fun j => tms_bit tms_scan (i + j)) := by
  induction n with
  | zero => intro i; rfl
  | succ n ih =>
    intro i
    simp only [state_move_pairs, rising_tms, ne_eq, not_true_eq_false, if_false, one_ne_zero,
      not_false_eq_true, if_true, ih, List.range_succ_eq_map, List.map_cons, List.map_map,
      Nat.add_zero, tms_bit]
    congr 1
    apply List.map_congr_left
    intro j _
    simp only [Function.comp, tms_bit]
    rw [show i + 1 + j = i + (j + 1) by omega]

theorem rising_tms_state_move (fw : tap_framework) (a b : tap_state_t) (skip : Nat) :
    rising_tms (state_move_calls fw a b skip)
      = (List.range (fw.tap_get_tms_path_len a b - (skip : Int)).toNat).map
          (fun j => tms_bit (fw.tap_get_tms_path a b % 256) (skip + j)) := by
  simp only [state_move_calls, rising_tms_append, rising_tms_pairs, rising_tms, ne_eq,
    not_true_eq_false, if_false, List.append_nil]

theorem rising_write_low (tms tdi : Int) (rest : List driver_call) :
    rising_tms (driver_call.write 0 tms tdi :: rest) = rising_tms rest := by
  simp only [rising_tms, ne_eq, not_true_eq_false, if_false]

theorem rising_write_high (tms tdi : Int) (rest : List driver_call) :
    rising_tms (driver_call.write 1 tms tdi :: rest) = tms :: rising_tms rest := by
  simp only [rising_tms, ne_eq, one_ne_zero, not_false_eq_true, if_true]

theorem rising_optional_read (c : Prop) [Decidable c] :
    rising_tms (if c then [driver_call.read] else []) = [] := by
  split <;> rfl

theorem scan_bit_calls_succ (tap_need_move : Bool) (num_fields fidx : Nat) (num_bits : Int)
    (out_value : Buf) (type n bcnt : Nat) :
    scan_bit_calls tap_need_move num_fields fidx num_bits out_value type (n + 1) bcnt
      = driver_call.write 0
          (if tap_need_move ∧ (fidx : Int) = (num_fields : Int) - 1 ∧
            (bcnt : Int) = num_bits - 1 then 1 else 0)
          (if type ≠ SCAN_IN ∧ out_value (bcnt / 8) &&& (1 <<< (bcnt &&& 0x7)) ≠ 0
            then 1 else 0) ::
        ((if type ≠ SCAN_OUT then [driver_call.read] else []) ++
          driver_call.write 1
            (if tap_need_move ∧ (fidx : Int) = (num_fields : Int) - 1 ∧
              (bcnt : Int) = num_bits - 1 then 1 else 0)
            (if type ≠ SCAN_IN ∧ out_value (bcnt / 8) &&& (1 <<< (bcnt &&& 0x7)) ≠ 0
              then 1 else 0) ::
            scan_bit_calls tap_need_move num_fields fidx num_bits out_value type n
              (bcnt + 1)) := rfl

/-- The rising writes of the bits of a field that is not the one to carry the
exit bit all have TMS 0. -/
theorem rising_tms_bits_inner (tap_need_move : Bool) (num_fields fidx : Nat) (num_bits : Int)
    (out_value : Buf) (type : Nat)
    (h : ¬ (tap_need_move = true ∧ (fidx : Int) = (num_fields : Int) - 1)) (n : Nat) :
    ∀ bcnt,
      rising_tms (scan_bit_calls tap_need_move num_fields fidx num_bits out_value type n bcnt)
        = List.replicate n 0 := by
  induction n with
  | zero => intro bcnt; rfl
  | succ n ih =>
    intro bcnt
    have hc : ¬ (tap_need_move = true ∧ (fidx : Int) = (num_fields : Int) - 1 ∧
        (bcnt : Int) = num_bits - 1) := fun hh => h ⟨hh.1, hh.2.1⟩
    rw [scan_bit_calls_succ, rising_write_low, rising_tms_append, rising_write_high,
      rising_optional_read, ih, if_neg hc, List.replicate_succ, List.nil_append]

/-- The rising writes of the bits of the last field, when a move is needed:
TMS 0 on every bit but the last, TMS 1 on the last. -/
theorem rising_tms_bits_last (tap_need_move : Bool) (num_fields fidx : Nat) (num_bits : Int)
    (out_value : Buf) (type : Nat) (hmove : tap_need_move = true)
    (hlast : (fidx : Int) = (num_fields : Int) - 1) (n : Nat) :
    ∀ bcnt, ((bcnt + (n + 1) : Nat) : Int) = num_bits →
      rising_tms
          (scan_bit_calls tap_need_move num_fields fidx num_bits out_value type (n + 1) bcnt)
        = List.replicate n 0 ++ [1] := by
  induction n with
  | zero =>
    intro bcnt hb
    have hc : (tap_need_move = true ∧ (fidx : Int) = (num_fields : Int) - 1 ∧
        (bcnt : Int) = num_bits - 1) := ⟨hmove, hlast, by omega⟩
    rw [scan_bit_calls_succ, rising_write_low, rising_tms_append, rising_write_high,
      rising_optional_read, if_pos hc]
    rfl
  | succ n ih =>
    intro bcnt hb
    have hc : ¬ (tap_need_move = true ∧ (fidx : Int) = (num_fields : Int) - 1 ∧
        (bcnt : Int) = num_bits - 1) := fun hh => by omega
    rw [scan_bit_calls_succ, rising_write_low, rising_tms_append, rising_write_high,
      rising_optional_read, ih (bcnt + 1) (by omega), if_neg hc, List.replicate_succ,
      List.nil_append, List.cons_append]

theorem scan_field_calls_cons (tap_need_move : Bool) (num_fields : Nat) (field : scan_field)
    (rest : List scan_field) (fidx : Nat) :
    scan_field_calls tap_need_move num_fields (field :: rest) fidx
      = (match field.out_value with
          | some out_value =>
            scan_bit_calls tap_need_move num_fields fidx field.num_bits out_value
              (field_type field) field.num_bits.toNat 0
          | none => []) ++
        scan_field_calls tap_need_move num_fields rest (fidx + 1) := rfl

theorem scan_field_calls_append (tap_need_move : Bool) (num_fields : Nat)
    (a b : List scan_field) :
    ∀ fidx, scan_field_calls tap_need_move num_fields (a ++ b) fidx
      = scan_field_calls tap_need_move num_fields a fidx
        ++ scan_field_calls tap_need_move num_fields b (fidx + a.length) := by
  induction a with
  | nil => intro fidx; simp [scan_field_calls]
  | cons f rest ih =>
    intro fidx
    rw [List.cons_append, scan_field_calls_cons, scan_field_calls_cons, ih, List.length_cons,
      List.append_assoc, show fidx + 1 + rest.length = fidx + (rest.length + 1) by omega]

theorem valued_bits_cons (f : scan_field) (rest : List scan_field) :
    valued_bits (f :: rest)
      = (if field_type f ≠ 0 then f.num_bits.toNat else 0) + valued_bits rest := by
  by_cases h : field_type f = 0
  · simp [valued_bits, List.filter_cons, h]
  · simp [valued_bits, List.filter_cons, h]

theorem valued_bits_append (a b : List scan_field) :
    valued_bits (a ++ b) = valued_bits a + valued_bits b := by
  simp [valued_bits, List.filter_append]

/-- The rising writes of fields none of which is the last field of the scan
all have TMS 0. -/
theorem rising_tms_fields_inner (tap_need_move : Bool) (num_fields : Nat)
    (fields : List scan_field) :
    (∀ f ∈ fields, f.in_value.isSome = true → f.out_value.isSome = true) →
    ∀ fidx, fidx + fields.length < num_fields →
      rising_tms (scan_field_calls tap_need_move num_fields fields fidx)
        = List.replicate (valued_bits fields) 0 := by
  induction fields with
  | nil => intro _ fidx _; rfl
  | cons field rest ih =>
    intro hno fidx hlen
    simp only [List.length_cons] at hlen
    have ih := ih (fun f hf => hno f (List.mem_cons_of_mem _ hf)) (fidx + 1) (by omega)
    have hf := hno field (List.mem_cons_self _ _)
    rw [valued_bits_cons]
    cases hout : field.out_value with
    | none =>
      have hin : field.in_value = none := by
        cases h : field.in_value with
        | none => rfl
        | some i => rw [h, hout] at hf; simp at hf
      have ht := field_type_none field hout hin
      simp only [scan_field_calls, hout, List.nil_append, ih, ht, ne_eq, not_true_eq_false,
        if_false, Nat.zero_add]
    | some o =>
      obtain ⟨t0, _, _⟩ := field_type_out field o hout
      have hb := rising_tms_bits_inner tap_need_move num_fields fidx field.num_bits o
        (field_type field) (fun hh => by omega) field.num_bits.toNat 0
      simp only [scan_field_calls, hout, rising_tms_append, hb, ih, ne_eq, t0,
        not_false_eq_true, if_true, List.replicate_add]

/-- The rising writes of the whole bit loop when a move is needed and the last
field has an output value and at least one bit: TMS 0 on every bit but the
last, TMS 1 on the last. -/
theorem rising_tms_scan (tap_need_move : Bool) (init : List scan_field) (last : scan_field)
    (hmove : tap_need_move = true)
    (hno : ∀ f ∈ init ++ [last], f.in_value.isSome = true → f.out_value.isSome = true)
    (hout : last.out_value.isSome = true) (hbits : 0 < last.num_bits) :
    rising_tms (scan_field_calls tap_need_move (init ++ [last]).length (init ++ [last]) 0)
      = List.replicate (valued_bits (init ++ [last]) - 1) 0 ++ [1] ∧
    0 < valued_bits (init ++ [last]) := by
  obtain ⟨o, ho⟩ := Option.isSome_iff_exists.mp hout
  obtain ⟨t0, _, _⟩ := field_type_out last o ho
  have hinner := rising_tms_fields_inner tap_need_move (init ++ [last]).length init
    (fun f hf => hno f (List.mem_append_left _ hf)) 0
    (by simp only [List.length_append, List.length_singleton]; omega)
  obtain ⟨n, hn⟩ : ∃ n, last.num_bits.toNat = n + 1 := ⟨last.num_bits.toNat - 1, by omega⟩
  have hlast := rising_tms_bits_last tap_need_move (init ++ [last]).length (0 + init.length)
    last.num_bits o (field_type last) hmove
    (by simp only [List.length_append, List.length_singleton]; omega) n 0 (by omega)
  have hv : valued_bits (init ++ [last]) = valued_bits init + (n + 1) := by
    rw [valued_bits_append, valued_bits_cons]
    simp only [ne_eq, t0, not_false_eq_true, if_true, hn]
    simp [valued_bits]
  constructor
  · rw [scan_field_calls_append, rising_tms_append, hinner]
    simp only [scan_field_calls, ho, List.append_nil, hn, hlast, hv]
    rw [show valued_bits init + (n + 1) - 1 = valued_bits init + n by omega,
      List.replicate_add, List.append_assoc]
  · rw [hv]; omega

/-- Where the scan has its exit bit. For every SCAN that requires a post-scan
move and whose last field has an output value and at least one bit (every
field with an input value having an output value too), the bit loop makes the
calls of `scan_field_calls`, of which the rising writes carry TMS 0 except the
last, which carries TMS 1; the state move with skip 1 that follows, when it
fits, makes the calls of `state_move_calls`. With a TMS path of length `L ≥ 1`
whose first bit is 1, the TMS values on the rising edges of the bit loop and
the state move together are 0 for every scan bit but the last, followed by
exactly the complete path `p_0 .. p_(L-1)`. -/
theorem scan_exit_tms (fw : tap_framework) (s : exec_state) (init : List scan_field)
    (last : scan_field) (q : List sb_queue) (L : Nat)
    (hmove : s.tap_state ≠ s.tap_end_state)
    (hno : ∀ f ∈ init ++ [last], f.in_value.isSome = true → f.out_value.isSome = true)
    (hout : last.out_value.isSome = true) (hbits : 0 < last.num_bits)
    (hL : fw.tap_get_tms_path_len s.tap_state s.tap_end_state = (L : Int)) (hL1 : 1 ≤ L)
    (hpath : fw.tap_get_tms_path s.tap_state s.tap_end_state < 256)
    (hp0 : tms_bit (fw.tap_get_tms_path s.tap_state s.tap_end_state) 0 = 1) :
    (scan_field_loop (decide (s.tap_state ≠ s.tap_end_state)) (init ++ [last]).length
        (init ++ [last]) 0 (s.ops, q)).map Prod.fst
      = some (run_driver s.ops
          (scan_field_calls (decide (s.tap_state ≠ s.tap_end_state)) (init ++ [last]).length
            (init ++ [last]) 0)) ∧
    rising_tms
        (scan_field_calls (decide (s.tap_state ≠ s.tap_end_state)) (init ++ [last]).length
          (init ++ [last]) 0)
      = List.replicate (valued_bits (init ++ [last]) - 1) 0 ++ [1] ∧
    (∀ ops : baset1_ops,
      ops.mdio_ctx.findex + (2 * (L - 1) + 1) ≤ FAST_COMMAND_NUM →
      baset1_state_move fw { s with ops := ops } 1
        = (ERROR_OK,
            { s with
              ops := run_driver ops (state_move_calls fw s.tap_state s.tap_end_state 1)
              tap_state := s.tap_end_state })) ∧
    rising_tms
        (scan_field_calls (decide (s.tap_state ≠ s.tap_end_state)) (init ++ [last]).length
            (init ++ [last]) 0
          ++ state_move_calls fw s.tap_state s.tap_end_state 1)
      = List.replicate (valued_bits (init ++ [last]) - 1) 0
        ++ (List.range L).map
            (fun i => tms_bit (fw.tap_get_tms_path s.tap_state s.tap_end_state) i) := by
  have hd : decide (s.tap_state ≠ s.tap_end_state) = true := decide_eq_true hmove
  have hmod : fw.tap_get_tms_path s.tap_state s.tap_end_state % 256
      = fw.tap_get_tms_path s.tap_state s.tap_end_state := Nat.mod_eq_of_lt hpath
  have hn : (fw.tap_get_tms_path_len s.tap_state s.tap_end_state - ((1 : Nat) : Int)).toNat
      = L - 1 := by
    rw [hL]; omega
  obtain ⟨r1, _⟩ := rising_tms_scan (decide (s.tap_state ≠ s.tap_end_state)) init last hd hno
    hout hbits
  refine ⟨(scan_field_loop_calls _ _ _ hno 0 s.ops q).1, r1, ?_, ?_⟩
  · intro ops hfit
    exact baset1_state_move_fits fw { s with ops := ops } 1 (by
      simp only [state_move_calls, List.length_append, state_move_pairs_length,
        List.length_singleton, hn]
      exact hfit)
  · rw [rising_tms_append, r1, rising_tms_state_move, hn, hmod, List.append_assoc]
    congr 1
    obtain ⟨m, hm⟩ : ∃ m, L = m + 1 := ⟨L - 1, by omega⟩
    subst hm
    rw [List.range_succ_eq_map, List.map_cons, List.map_map, hp0, Nat.add_sub_cancel,
      List.singleton_append]
    congr 1
    apply List.map_congr_left
    intro j _
    simp only [Function.comp]
    rw [Nat.add_comm]

/-- The exit bit on the opened sample driver in DRSHIFT with end state IDLE,
the path 1, 1, 0 and one 4-bit output field: rising TMS 0, 0, 0, then 1, 1, 0. -/
theorem scan_exit_tms_witness :
    rising_tms
        (scan_field_calls (decide (drshift_to_idle.tap_state ≠ drshift_to_idle.tap_end_state))
          ([] ++ [scan_field.mk 4 (some (fun _ => 0x5)) none]).length
          ([] ++ [scan_field.mk 4 (some (fun _ => 0x5)) none]) 0)
      = List.replicate (valued_bits ([] ++ [scan_field.mk 4 (some (fun _ => 0x5)) none]) - 1) 0
        ++ [1] ∧
    rising_tms
        (scan_field_calls (decide (drshift_to_idle.tap_state ≠ drshift_to_idle.tap_end_state))
            ([] ++ [scan_field.mk 4 (some (fun _ => 0x5)) none]).length
            ([] ++ [scan_field.mk 4 (some (fun _ => 0x5)) none]) 0
          ++ state_move_calls exit_framework drshift_to_idle.tap_state
              drshift_to_idle.tap_end_state 1)
      = List.replicate (valued_bits ([] ++ [scan_field.mk 4 (some (fun _ => 0x5)) none]) - 1) 0
        ++ (List.range 3).map
            (fun i =>
              tms_bit
                (exit_framework.tap_get_tms_path drshift_to_idle.tap_state
                  drshift_to_idle.tap_end_state) i) :=
  have h := scan_exit_tms exit_framework drshift_to_idle []
    (scan_field.mk 4 (some (fun _ => 0x5)) none) [] 3 (by decide)
    (by intro f hf; simp only [List.nil_append, List.mem_singleton] at hf; subst hf; simp)
    rfl (by decide) rfl (by decide) (by decide) (by decide)
  ⟨h.2.1, h.2.2.2⟩

/-- C33 (what the code does). In a DR scan from DRSHIFT to IDLE whose last field
has neither value (one bit, as the framework builds for a TAP in bypass), after
a 4-bit output field, the bit loop skips the last field and makes four clock
pairs, all with TMS 0: no scan bit carries the first TMS bit of the path
1, 1, 0. The state move with skip 1 that follows still leaves that bit out and
clocks 1, 0. The command returns `ERROR_OK` and sets the TAP tracker to IDLE,
while a TAP that follows IEEE 1149.1 has gone from DRSHIFT over the rising
edges 0, 0, 0, 0, 1, 0 to DRPAUSE; the complete path 1, 1, 0 would have led to
IDLE. -/
theorem scan_exit_bit_missing :
    (scan_field_loop true 2 bypass_last_fields 0 (drshift_to_idle.ops, [])).map Prod.fst
      = some (run_driver drshift_to_idle.ops (scan_field_calls true 2 bypass_last_fields 0)) ∧
    rising_tms (scan_field_calls true 2 bypass_last_fields 0) = [0, 0, 0, 0] ∧
    rising_tms (state_move_calls exit_framework tap_state_t.TAP_DRSHIFT tap_state_t.TAP_IDLE 1)
      = [1, 0] ∧
    (List.range 3).map
        (fun i =>
          tms_bit
            (exit_framework.tap_get_tms_path tap_state_t.TAP_DRSHIFT tap_state_t.TAP_IDLE) i)
      = [1, 1, 0] ∧
    (baset1_execute_scan exit_framework drshift_to_idle bypass_scan_cmd ERROR_OK
        (fun _ => 0)).map (fun r => (r.1, r.2.1.tap_state))
      = some (ERROR_OK, tap_state_t.TAP_IDLE) ∧
    tap_walk tap_state_t.TAP_DRSHIFT
        (rising_tms (scan_field_calls true 2 bypass_last_fields 0
          ++ state_move_calls exit_framework tap_state_t.TAP_DRSHIFT tap_state_t.TAP_IDLE 1))
      = tap_state_t.TAP_DRPAUSE ∧
    tap_walk tap_state_t.TAP_DRSHIFT [1, 1, 0] = tap_state_t.TAP_IDLE := by
  refine ⟨?_, by decide, by decide, by decide, by decide, by decide, by decide⟩
  exact (scan_field_loop_calls true 2 bypass_last_fields
    (by
      intro f hf
      simp only [bypass_last_fields, List.mem_cons, List.mem_singleton, List.not_mem_nil,
        or_false] at hf
      rcases hf with h | h <;> subst h <;> simp) 0 drshift_to_idle.ops []).1

/-! ## C32: the calls of each scan bit -/

theorem baset1_read_status (ops : baset1_ops) (hk : ops.mdio_ctx.findex < FAST_COMMAND_NUM)
    (_hcnt : ops.mdio_ctx.fread_cnt < 65535) :
    ((baset1_read ops).1 % 65536).toNat = ops.mdio_ctx.findex := by
  obtain ⟨a1, _⟩ := mdio_fast_add_counts ops.mdio_ctx MDIO_READ 0xffff hk
  have h : (baset1_read ops).1 = (ops.mdio_ctx.findex : Int) := a1
  rw [h]
  simp only [FAST_COMMAND_NUM] at hk
  omega

/-- The capture entries of the bits of a field that is read back, when its
calls fit in the queue: bit `b` is recorded with the field index, byte `b / 8`,
mask `1 << (b & 7)` and the slot of its read, the second of the three slots of
the bit. -/
theorem scan_bit_loop_entries (tap_need_move : Bool) (num_fields fidx : Nat)
    (field : scan_field) (type : Nat) (out_value : Buf)
    (hout : field.out_value = some out_value) (ht : type ≠ SCAN_OUT) (n : Nat) :
    ∀ (bcnt : Nat) (ops : baset1_ops) (q : List sb_queue),
      ops.mdio_ctx.findex + 3 * n ≤ FAST_COMMAND_NUM →
      ops.mdio_ctx.fread_cnt + n ≤ 65535 →
      (scan_bit_loop tap_need_move num_fields fidx field type n bcnt (ops, q)).map Prod.snd
        = some (q ++ (List.range n).map (fun j =>
            sb_queue.mk fidx ((bcnt + j) / 8) (1 <<< ((bcnt + j) &&& 0x7))
              (ops.mdio_ctx.findex + 3 * j + 1))) := by
  induction n with
  | zero =>
    intro bcnt ops q _ _
    simp [scan_bit_loop]
  | succ n ih =>
    intro bcnt ops q hfit hcnt
    obtain ⟨_, a2, a3, _⟩ := baset1_write_fits ops 0
      (if tap_need_move = true ∧ (fidx : Int) = (num_fields : Int) - 1 ∧
        (bcnt : Int) = field.num_bits - 1 then 1 else 0)
      (if type ≠ SCAN_IN ∧ out_value (bcnt / 8) &&& (1 <<< (bcnt &&& 0x7)) ≠ 0 then 1 else 0)
      (by omega)
    have hs := baset1_read_status
      (baset1_write ops 0
        (if tap_need_move = true ∧ (fidx : Int) = (num_fields : Int) - 1 ∧
          (bcnt : Int) = field.num_bits - 1 then 1 else 0)
        (if type ≠ SCAN_IN ∧ out_value (bcnt / 8) &&& (1 <<< (bcnt &&& 0x7)) ≠ 0
          then 1 else 0)).2 (by omega) (by omega)
    obtain ⟨b2, b3⟩ := baset1_read_fits
      (baset1_write ops 0
        (if tap_need_move = true ∧ (fidx : Int) = (num_fields : Int) - 1 ∧
          (bcnt : Int) = field.num_bits - 1 then 1 else 0)
        (if type ≠ SCAN_IN ∧ out_value (bcnt / 8) &&& (1 <<< (bcnt &&& 0x7)) ≠ 0
          then 1 else 0)).2 (by omega) (by omega)
    obtain ⟨_, c2, c3, _⟩ := baset1_write_fits
      (baset1_read
        (baset1_write ops 0
          (if tap_need_move = true ∧ (fidx : Int) = (num_fields : Int) - 1 ∧
            (bcnt : Int) = field.num_bits - 1 then 1 else 0)
          (if type ≠ SCAN_IN ∧ out_value (bcnt / 8) &&& (1 <<< (bcnt &&& 0x7)) ≠ 0
            then 1 else 0)).2).2 1
      (if tap_need_move = true ∧ (fidx : Int) = (num_fields : Int) - 1 ∧
        (bcnt : Int) = field.num_bits - 1 then 1 else 0)
      (if type ≠ SCAN_IN ∧ out_value (bcnt / 8) &&& (1 <<< (bcnt &&& 0x7)) ≠ 0 then 1 else 0)
      (by omega)
    rw [scan_bit_loop]
    simp only [hout, ne_eq, ht, not_false_eq_true, if_true]
    rw [ih (bcnt + 1) _ _ (by rw [c2, b2, a2]; omega) (by rw [c3, b3, a3]; omega)]
    simp only [ne_eq] at hs
    rw [c2, b2, a2, hs, a2, queue_add, List.append_assoc, List.range_succ_eq_map, List.map_cons,
      List.map_map]
    simp only [List.singleton_append, Nat.add_zero, Nat.mul_zero, Option.some.injEq,
      List.append_cancel_left_eq, List.cons.injEq, true_and]
    apply List.map_congr_left
    intro j _
    simp only [Function.comp]
    rw [show bcnt + 1 + j = bcnt + (j + 1) by omega,
      show ops.mdio_ctx.findex + 1 + 1 + 1 + 3 * j + 1
        = ops.mdio_ctx.findex + 3 * (j + 1) + 1 by omega]

/-- C32 (what the code does). For a 2-bit field with both values (output bits
0, 1) the field loop makes the calls write(0,0,0), read, write(1,0,0),
write(0,0,1), read, write(1,0,1) and records the reads as (field 0, byte 0,
mask 1, slot 1) and (field 0, byte 0, mask 2, slot 4), as the claim says. For
a 2-bit field with an input value and no output value the claim wants
write(0,0,0), read, write(1,0,0) twice; the loop reads
`field->out_value[bytec]` through a null pointer at the first bit and does not
come to an end. -/
theorem scan_in_bits_not_enqueued :
    (scan_field_loop false 1 io_two_bits 0 (opened_ops, [])).map Prod.fst
      = some (run_driver opened_ops
          [driver_call.write 0 0 0, driver_call.read, driver_call.write 1 0 0,
            driver_call.write 0 0 1, driver_call.read, driver_call.write 1 0 1]) ∧
    (scan_field_loop false 1 io_two_bits 0 (opened_ops, [])).map Prod.snd
      = some [sb_queue.mk 0 0 1 1, sb_queue.mk 0 0 2 4] ∧
    (in_two_bits.map (fun f => (f.in_value.isSome, f.out_value.isSome, f.num_bits)))
      = [(true, false, 2)] ∧
    (scan_field_loop false 1 in_two_bits 0 (opened_ops, [])).isNone = true := by
  refine ⟨?_, by decide, by decide, rfl⟩
  exact (scan_field_loop_calls false 1 io_two_bits
    (by
      intro f hf
      simp only [io_two_bits, List.mem_singleton] at hf
      subst hf
      simp) 0 opened_ops []).1

/-! ## C35: the bounds of the fast path -/

/-- What `mdio_fast_add` writes: in `foutput` only bytes 6, 8 and 9 of the slot
`findex`, below 40960; in `fread_queue` only the entry `fread_cnt`. -/
theorem mdio_fast_add_writes (ctx : mdio_ctx) (mode : mdio_mode) (val : Nat) :
    (∀ k, (mdio_fast_add ctx mode val).2.foutput k ≠ ctx.foutput k →
      ctx.findex < FAST_COMMAND_NUM ∧
      (k = 10 * ctx.findex + 6 ∨ k = 10 * ctx.findex + 8 ∨ k = 10 * ctx.findex + 9) ∧
      k < 40960) ∧
    (∀ j, (mdio_fast_add ctx mode val).2.fread_queue j ≠ ctx.fread_queue j →
      ctx.findex < FAST_COMMAND_NUM ∧ j = ctx.fread_cnt) := by
  by_cases hk : ctx.findex < FAST_COMMAND_NUM
  · have hk4 : ctx.findex < 4096 := by simpa [FAST_COMMAND_NUM] using hk
    obtain ⟨e, _⟩ := mdio_fast_add_foutput ctx mode val hk
    obtain ⟨_, _, _, srest⟩ := setup_fast_spec ctx.foutput (10 * ctx.findex)
      { phy := 0, dev := 0, reg := 0, val := val, mode := mode } (by omega)
    constructor
    · intro k hne
      rw [e] at hne
      have hcases : k = 10 * ctx.findex + 6 ∨ k = 10 * ctx.findex + 8
          ∨ k = 10 * ctx.findex + 9 := by
        by_contra hc
        push_neg at hc
        exact hne (srest k hc.1 hc.2.1 hc.2.2)
      exact ⟨hk, hcases, by omega⟩
    · intro j hne
      refine ⟨hk, ?_⟩
      by_cases hm : mode = MDIO_WRITE
      · subst hm
        rw [mdio_fast_add_write ctx val hk] at hne
        exact absurd rfl hne
      · by_cases hc : ctx.fread_cnt < FAST_COMMAND_NUM
        · rw [mdio_fast_add_read ctx mode val hm hk hc] at hne
          by_contra hj
          simp only [hj, if_false, ne_eq, not_true_eq_false] at hne
        · rw [mdio_fast_add_not_write ctx mode val hk hm] at hne
          exact absurd (congrFun (fread_queue_store_outside _ _ _ (by omega)) j) hne
  · have e : (mdio_fast_add ctx mode val).2 = ctx :=
      (accepted_write_rejected ctx mode val (by omega)).1
    rw [e]
    exact ⟨fun k hne => absurd rfl hne, fun j hne => absurd rfl hne⟩

/-- What `mdio_fast_fetch` reads for a slot below `ftotal ≤ N`: the two bytes
of `finput` at `(index+1)*10 - 2`, below 40960; no offset wraps. -/
theorem mdio_fast_fetch_reads (ctx : mdio_ctx) (index val : Nat) (hi : index < ctx.ftotal)
    (htotal : ctx.ftotal ≤ FAST_COMMAND_NUM) :
    mdio_fast_fetch ctx index val
      = (1, _mdio_bytes_to_u16 ctx.finput ((index + 1) * 10 - 2)) ∧
    (index + 1) * 10 - 2 + 1 < 40960 := by
  have h' : ¬ index ≥ ctx.ftotal := by omega
  have hN : index < 4096 := by simp only [FAST_COMMAND_NUM] at htotal; omega
  have e1 : (index + 1) % 65536 = index + 1 := by omega
  have e2 : (index + 1) * MDIO_FAST_COMMAND_SIZE % 65536 = (index + 1) * 10 := by
    simp only [MDIO_FAST_COMMAND_SIZE, FAST_PREAMBLE_SIZE, OP_SIZE]; omega
  have e3 : (((((index + 1) * 10 : Nat) : Int) - 2) % 65536).toNat = (index + 1) * 10 - 2 := by
    omega
  unfold mdio_fast_fetch
  simp only [h', if_false, e1, e2, e3]
  exact ⟨trivial, by omega⟩

/-- C35 (as the code has it). Along every sequence of fast-queue calls from the
opened context that keeps the protocol (no add after a successful flush
without a clean in between), `findex ≤ N`, `fread_cnt ≤ N` and `ftotal ≤ N`
hold in every state reached, and `fread_cnt ≤ findex` holds whenever no flush
has succeeded since the last clean. In such a state `mdio_fast_add` writes
`foutput` only below 40960 (bytes 6, 8, 9 of slot `findex`, its offset
`findex * 10` not wrapping), and, when no flush is waiting for its clean,
`fread_queue` only below 4096; `mdio_fast_fetch` with `index < ftotal` reads
`finput` at `(index+1)*10 - 2` and the byte after, below 40960; and the loop of
`init_mdio_queue` ends with cursor 40960, writing nothing from 40960 on. -/
theorem fast_path_in_bounds (vid pid p target : Nat) (opened : Option Nat)
    (ctx c : mdio_ctx) (calls : List fast_call) (mode : mdio_mode) (val index old : Nat)
    (hinit : mdio_init true vid pid p target = some ctx)
    (hproto : clean_before_add false calls = true)
    (hc : c = run_calls (mdio_open ctx opened).2 calls) :
    c.findex ≤ FAST_COMMAND_NUM ∧ c.fread_cnt ≤ FAST_COMMAND_NUM ∧
    c.ftotal ≤ FAST_COMMAND_NUM ∧
    (flushed_after false calls = false → c.fread_cnt ≤ c.findex) ∧
    (∀ k, (mdio_fast_add c mode val).2.foutput k ≠ c.foutput k → k < 40960) ∧
    (c.findex < FAST_COMMAND_NUM →
      c.findex * MDIO_FAST_COMMAND_SIZE + MDIO_FAST_COMMAND_SIZE ≤ 40960) ∧
    (flushed_after false calls = false →
      ∀ j, (mdio_fast_add c mode val).2.fread_queue j ≠ c.fread_queue j → j < 4096) ∧
    (index < c.ftotal →
      mdio_fast_fetch c index old
        = (1, _mdio_bytes_to_u16 c.finput ((index + 1) * 10 - 2)) ∧
      (index + 1) * 10 - 2 + 1 < 40960) ∧
    (init_mdio_queue_loop (init_ops ctx.phy_id) FAST_COMMAND_NUM (ctx.foutput, 0)).2 = 40960 ∧
    (∀ k, 40960 ≤ k →
      (init_mdio_queue_loop (init_ops ctx.phy_id) FAST_COMMAND_NUM (ctx.foutput, 0)).1 k
        = ctx.foutput k) := by
  have hb := queue_bounded_run calls (mdio_open ctx opened).2 false
    (queue_bounded_open vid pid p target opened ctx hinit) hproto
  rw [← hc] at hb
  obtain ⟨b1, b2, b3, b4⟩ := hb
  obtain ⟨w1, w2⟩ := mdio_fast_add_writes c mode val
  obtain ⟨l1, _, l3⟩ := init_mdio_queue_loop_spec (init_ops ctx.phy_id) FAST_COMMAND_NUM
    ctx.foutput 0 (by decide)
  refine ⟨b1, b2, b3, b4, fun k hk => (w1 k hk).2.2, ?_, ?_, ?_, ?_, ?_⟩
  · intro hk
    simp only [FAST_COMMAND_NUM] at hk
    simp only [MDIO_FAST_COMMAND_SIZE, FAST_PREAMBLE_SIZE, OP_SIZE]
    omega
  · intro hf j hj
    obtain ⟨hk, hjc⟩ := w2 j hj
    have := b4 hf
    simp only [FAST_COMMAND_NUM] at hk
    omega
  · intro hi
    exact mdio_fast_fetch_reads c index old hi b3
  · rw [l1]; rfl
  · intro k hk
    exact l3 k (Or.inr (by simp only [FAST_COMMAND_NUM]; omega))

/-- C35 on the sample context: two reads and a write queued, flushed and
cleaned, then slot 1 fetched. -/
theorem fast_path_in_bounds_witness :
    (run_calls (mdio_open sample_ctx none).2
      [fast_call.add MDIO_READ 0xffff, fast_call.add MDIO_WRITE 0x000a,
        fast_call.add MDIO_READ 0xffff]).fread_cnt
      ≤ (run_calls (mdio_open sample_ctx none).2
        [fast_call.add MDIO_READ 0xffff, fast_call.add MDIO_WRITE 0x000a,
          fast_call.add MDIO_READ 0xffff]).findex ∧
    (run_calls (mdio_open sample_ctx none).2
      [fast_call.add MDIO_READ 0xffff, fast_call.add MDIO_WRITE 0x000a,
        fast_call.add MDIO_READ 0xffff]).findex ≤ FAST_COMMAND_NUM ∧
    (init_mdio_queue_loop (init_ops sample_ctx.phy_id) FAST_COMMAND_NUM
      (sample_ctx.foutput, 0)).2 = 40960 :=
  have h := fast_path_in_bounds 0x0403 0x6010 0x1a 0 none sample_ctx
    (run_calls (mdio_open sample_ctx none).2
      [fast_call.add MDIO_READ 0xffff, fast_call.add MDIO_WRITE 0x000a,
        fast_call.add MDIO_READ 0xffff])
    [fast_call.add MDIO_READ 0xffff, fast_call.add MDIO_WRITE 0x000a,
      fast_call.add MDIO_READ 0xffff] MDIO_READ 0xffff 0 0 rfl rfl rfl
  ⟨h.2.2.2.1 rfl, h.1, h.2.2.2.2.2.2.2.2.1⟩

/-- C35 as stated fails: on the opened sample context the protocol allows one
read to be queued and flushed; in the state reached by the successful flush,
before the clean, `findex = 0` and `fread_cnt = 1`, so `fread_cnt ≤ findex`
does not hold. -/
theorem fread_cnt_above_findex :
    clean_before_add false [fast_call.add MDIO_READ 0xffff, fast_call.flush ERROR_OK (fun _ => 0)]
      = true ∧
    (run_calls (mdio_open sample_ctx none).2
      [fast_call.add MDIO_READ 0xffff, fast_call.flush ERROR_OK (fun _ => 0)]).findex = 0 ∧
    (run_calls (mdio_open sample_ctx none).2
      [fast_call.add MDIO_READ 0xffff, fast_call.flush ERROR_OK (fun _ => 0)]).fread_cnt = 1 ∧
    ¬ (run_calls (mdio_open sample_ctx none).2
        [fast_call.add MDIO_READ 0xffff, fast_call.flush ERROR_OK (fun _ => 0)]).fread_cnt
      ≤ (run_calls (mdio_open sample_ctx none).2
        [fast_call.add MDIO_READ 0xffff, fast_call.flush ERROR_OK (fun _ => 0)]).findex := by
  refine ⟨by decide, by decide, by decide, by decide⟩

/-! ## C31: the request parser -/

theorem getElem?_at_length (pre : List Nat) (x : Nat) (rest : List Nat) :
    (pre ++ x :: rest)[pre.length]? = some x := by
  rw [List.getElem?_append_right (Nat.le_refl _), Nat.sub_self]
  simp

/-- The scan of `find_next_char` over characters that are neither the aim nor
NUL ends right after the aim that follows them. -/
theorem find_next_char_loop_found (aim size : Nat) (post : List Nat) (seg : List Nat) :
    ∀ (pre : List Nat) (fuel : Nat), (∀ c ∈ seg, c ≠ aim ∧ c ≠ 0) →
      pre.length + seg.length < size → size - pre.length ≤ fuel →
      find_next_char_loop aim (pre ++ seg ++ aim :: post) size fuel pre.length
        = some (pre.length + seg.length + 1) := by
  induction seg with
  | nil =>
    intro pre fuel _ hlt hfuel
    simp only [List.length_nil, Nat.add_zero] at hlt
    obtain ⟨n, hn⟩ : ∃ n, fuel = n + 1 := ⟨fuel - 1, by omega⟩
    subst hn
    simp only [List.append_nil, find_next_char_loop, hlt, if_true, getElem?_at_length,
      List.length_nil, Nat.add_zero]
  | cons c seg ih =>
    intro pre fuel hseg hlt hfuel
    simp only [List.length_cons] at hlt
    obtain ⟨n, hn⟩ : ∃ n, fuel = n + 1 := ⟨fuel - 1, by omega⟩
    subst hn
    obtain ⟨hc1, hc2⟩ := hseg c (List.mem_cons_self _ _)
    have h := ih (pre ++ [c]) n (fun d hd => hseg d (List.mem_cons_of_mem _ hd))
      (by simp only [List.length_append, List.length_singleton]; omega)
      (by simp only [List.length_append, List.length_singleton]; omega)
    simp only [List.append_assoc, List.singleton_append, List.length_append,
      List.length_singleton] at h
    have hget : (pre ++ (c :: seg ++ aim :: post))[pre.length]? = some c := by
      rw [List.cons_append]
      exact getElem?_at_length pre c _
    rw [find_next_char_loop]
    simp only [show pre.length < size by omega, if_true, List.append_assoc, hget, hc1, hc2,
      if_false, h, List.length_cons, Option.some.injEq]
    omega

/-- The scan of `find_next_char` over characters that are neither the aim nor
NUL, followed by a NUL, ends with `size`. -/
theorem find_next_char_loop_nul (aim size : Nat) (haim : aim ≠ 0) (post : List Nat)
    (seg : List Nat) :
    ∀ (pre : List Nat) (fuel : Nat), (∀ c ∈ seg, c ≠ aim ∧ c ≠ 0) →
      find_next_char_loop aim (pre ++ seg ++ 0 :: post) size fuel pre.length = some size := by
  induction seg with
  | nil =>
    intro pre fuel _
    cases fuel with
    | zero => rfl
    | succ n =>
      by_cases hlt : pre.length < size
      · simp only [List.append_nil, find_next_char_loop, hlt, if_true, getElem?_at_length,
          Ne.symm haim, if_false]
      · simp only [find_next_char_loop, hlt, if_false]
  | cons c seg ih =>
    intro pre fuel hseg
    obtain ⟨hc1, hc2⟩ := hseg c (List.mem_cons_self _ _)
    cases fuel with
    | zero => rfl
    | succ n =>
      have h := ih (pre ++ [c]) n (fun d hd => hseg d (List.mem_cons_of_mem _ hd))
      simp only [List.append_assoc, List.singleton_append, List.length_append,
        List.length_singleton] at h
      have hget : (pre ++ (c :: seg ++ 0 :: post))[pre.length]? = some c := by
        rw [List.cons_append]
        exact getElem?_at_length pre c _
      rw [find_next_char_loop]
      by_cases hlt : pre.length < size
      · simp only [hlt, if_true, List.append_assoc, hget, hc1, hc2, if_false, h]
      · simp only [hlt, if_false]

theorem hex_digit_kind (c : Nat) (h : (hex_digit c).isSome = true) :
    isspace c = false ∧ c ≠ 45 ∧ c ≠ 43 ∧ c ≠ 120 ∧ c ≠ 88 ∧ c ≠ 44 ∧ c ≠ 0 ∧ c ≠ 58 := by
  unfold hex_digit at h
  have hr : (48 ≤ c ∧ c ≤ 57) ∨ (97 ≤ c ∧ c ≤ 102) ∨ (65 ≤ c ∧ c ≤ 70) := by
    by_contra hc
    push_neg at hc
    have h1 : ¬ (48 ≤ c ∧ c ≤ 57) := fun hh => by omega
    have h2 : ¬ (97 ≤ c ∧ c ≤ 102) := fun hh => by omega
    have h3 : ¬ (65 ≤ c ∧ c ≤ 70) := fun hh => by omega
    simp only [h1, h2, h3, if_false, Option.isSome_none, Bool.false_eq_true] at h
  refine ⟨?_, by omega, by omega, by omega, by omega, by omega, by omega, by omega⟩
  simp only [isspace, decide_eq_false_iff_not]
  omega

theorem hex_digit_terminator (t : Nat) (ht : t = 44 ∨ t = 0) :
    hex_digit t = none ∧ isspace t = false := by
  rcases ht with h | h <;> subst h <;> exact ⟨by decide, by decide⟩

theorem strtoul_digits_hex (t : Nat) (post : List Nat) (ht : hex_digit t = none)
    (ds : List Nat) :
    ∀ acc, is_hex ds →
      strtoul_digits (ds ++ t :: post) acc = some (hex_value_from acc ds) := by
  induction ds with
  | nil =>
    intro acc _
    simp only [List.nil_append, strtoul_digits, ht, hex_value_from, List.foldl_nil]
  | cons c ds ih =>
    intro acc hds
    have hc := hds c (List.mem_cons_self _ _)
    obtain ⟨d, hd⟩ := Option.isSome_iff_exists.mp hc
    simp only [List.cons_append, strtoul_digits, hd, hex_value_from, List.foldl_cons,
      Option.getD_some]
    exact ih _ (fun x hx => hds x (List.mem_cons_of_mem _ hx))

/-- What `strtoul` returns on a text of hexadecimal digits followed by a comma
or a NUL: the number the digits denote, clamped to `ULONG_MAX`. -/
theorem strtoul_hex (t : Nat) (post : List Nat) (ht : t = 44 ∨ t = 0) (ds : List Nat)
    (hds : is_hex ds) :
    strtoul (ds ++ t :: post) = some (min (hex_value ds) ULONG_MAX) := by
  obtain ⟨t1, t2⟩ := hex_digit_terminator t ht
  have hdig := strtoul_digits_hex t post t1 ds 0 hds
  have hfirst : ∃ c rest, ds ++ t :: post = c :: rest ∧ isspace c = false ∧ c ≠ 45 ∧ c ≠ 43 ∧
      (c = 48 → ∀ x d r, rest = x :: d :: r → ¬ (x = 120 ∨ x = 88)) := by
    cases ds with
    | nil =>
      refine ⟨t, post, rfl, t2, ?_, ?_, ?_⟩
      · rcases ht with h | h <;> omega
      · rcases ht with h | h <;> omega
      · intro h48
        rcases ht with h | h <;> omega
    | cons c ds =>
      obtain ⟨k1, k2, k3, _⟩ := hex_digit_kind c (hds c (List.mem_cons_self _ _))
      refine ⟨c, ds ++ t :: post, rfl, k1, k2, k3, ?_⟩
      intro _ x d r hr
      cases ds with
      | nil =>
        simp only [List.nil_append, List.cons.injEq] at hr
        rcases ht with h | h <;> omega
      | cons e ds =>
        simp only [List.cons_append, List.cons.injEq] at hr
        obtain ⟨_, _, _, k4, k5, _⟩ :=
          hex_digit_kind e (hds e (List.mem_cons_of_mem _ (List.mem_cons_self _ _)))
        omega
  obtain ⟨c, rest, he, hsp, h45, h43, h0x⟩ := hfirst
  rw [he] at hdig ⊢
  have hbody : strtoul_body (c :: rest) = strtoul_digits (c :: rest) 0 := by
    unfold strtoul_body
    split
    · rename_i x d r heq
      simp only [List.cons.injEq] at heq
      have := h0x heq.1 x d r heq.2
      simp only [this, false_and, if_false]
    · rfl
  have hsigned : strtoul_signed (c :: rest) = (strtoul_body (c :: rest)).map
      (fun v => min v ULONG_MAX) := by
    unfold strtoul_signed
    split
    · rename_i heq
      simp only [List.cons.injEq] at heq
      omega
    · rename_i heq
      simp only [List.cons.injEq] at heq
      omega
    · rfl
  rw [strtoul]
  simp only [hsp, Bool.false_eq_true, if_false, hsigned, hbody, hdig, Option.map_some',
    hex_value]

theorem field_value_eq (ds : List Nat) :
    min (hex_value ds) ULONG_MAX % 65536 = field_value ds := rfl

theorem is_hex_clean (ds : List Nat) (h : is_hex ds) (aim : Nat) (haim : aim = 44 ∨ aim = 58) :
    ∀ c ∈ ds, c ≠ aim ∧ c ≠ 0 := by
  intro c hc
  obtain ⟨_, _, _, _, _, k6, k7, k8⟩ := hex_digit_kind c (h c hc)
  rcases haim with h | h <;> subst h <;> exact ⟨by omega, k7⟩

theorem comma_join_cons_cons (v w : List Nat) (rest : List (List Nat)) :
    comma_join (v :: w :: rest) = v ++ 44 :: comma_join (w :: rest) := rfl

theorem comma_join_length (w : List Nat) (rest : List (List Nat)) :
    w.length ≤ (comma_join (w :: rest)).length := by
  cases rest with
  | nil => exact Nat.le_refl _
  | cons x rest =>
    rw [comma_join_cons_cons, List.length_append]
    omega

/-- The loop of `parse_args` on a text of comma-separated fields of hexadecimal
digits followed by a NUL: it stores the values one by one and stops after
`expect` of them or at the end of the text. A field may be empty, and is then
read as 0; only an empty last field that ends exactly at `size` is left out,
which the hypothesis excludes. -/
theorem parse_args_loop_values (size expect : Nat) (post : List Nat)
    (vs : List (List Nat)) :
    ∀ (pre : List Nat) (idx : Nat) (arr : Nat → Nat) (fuel : Nat),
      vs ≠ [] → (∀ v ∈ vs, is_hex v) →
      (pre.length + (comma_join vs).length < size ∨ ∀ v ∈ vs.tail, v ≠ []) →
      pre.length + (comma_join vs).length ≤ size → idx < expect → expect - idx ≤ fuel →
      ∃ arr1,
        parse_args_loop (pre ++ comma_join vs ++ 0 :: post) size expect fuel idx pre.length arr
          = some (min expect (idx + vs.length), arr1) ∧
        (∀ j, j < idx → arr1 j = arr j) ∧
        (∀ j, min expect (idx + vs.length) ≤ j → arr1 j = arr j) ∧
        (∀ k v, vs[k]? = some v → idx + k < expect → arr1 (idx + k) = field_value v) := by
  induction vs with
  | nil => intro pre idx arr fuel h; exact absurd rfl h
  | cons v rest ih =>
    intro pre idx arr fuel _ hhex hroom hsize hidx hfuel
    obtain ⟨n, hn⟩ : ∃ n, fuel = n + 1 := ⟨fuel - 1, by omega⟩
    subst hn
    have hv := hhex v (List.mem_cons_self _ _)
    cases rest with
    | nil =>
      have hdrop : (pre ++ comma_join [v] ++ 0 :: post).drop pre.length = v ++ 0 :: post := by
        rw [List.append_assoc, List.drop_left]
        rfl
      have hstr := strtoul_hex 0 post (Or.inr rfl) v hv
      have hfind : find_next_char 44 (pre ++ comma_join [v] ++ 0 :: post) size pre.length
          = some size :=
        find_next_char_loop_nul 44 size (by decide) post v pre _
          (is_hex_clean v hv 44 (Or.inl rfl))
      refine ⟨fun j => if j = idx then field_value v else arr j, ?_, ?_, ?_, ?_⟩
      · rw [parse_args_loop]
        simp only [hdrop, hstr, hfind, field_value_eq, List.length_singleton, ge_iff_le]
        by_cases hlast : expect ≤ idx + 1
        · simp only [hlast, if_true, Nat.min_eq_left hlast]
          rw [show expect = idx + 1 by omega]
        · simp only [hlast, if_false, Nat.le_refl, if_true]
          rw [Nat.min_eq_right (show idx + 1 ≤ expect by omega)]
      · intro j hj
        simp only [show j ≠ idx by omega, if_false]
      · intro j hj
        simp only [List.length_singleton] at hj
        have : idx + 1 ≤ j := by
          rcases Nat.le_total expect (idx + 1) with h | h
          · rw [Nat.min_eq_left h] at hj; omega
          · rw [Nat.min_eq_right h] at hj; exact hj
        simp only [show j ≠ idx by omega, if_false]
      · intro k w hk _
        cases k with
        | zero =>
          simp only [List.getElem?_cons_zero, Option.some.injEq] at hk
          subst hk
          simp only [Nat.add_zero, if_true]
        | succ k => simp at hk
    | cons w rest =>
      have hjl := comma_join_length w rest
      rw [comma_join_cons_cons, List.length_append, List.length_cons] at hsize hroom
      have hnext : pre.length + v.length + 1 < size := by
        rcases hroom with h | h
        · omega
        · have hw : w ≠ [] := h w (List.mem_cons_self _ _)
          have hwlen : 0 < w.length := List.length_pos.mpr hw
          omega
      have hmsg : pre ++ comma_join (v :: w :: rest) ++ 0 :: post
          = pre ++ v ++ 44 :: (comma_join (w :: rest) ++ 0 :: post) := by
        rw [comma_join_cons_cons]
        simp only [List.append_assoc, List.cons_append]
      have hmsg2 : pre ++ comma_join (v :: w :: rest) ++ 0 :: post
          = (pre ++ v ++ [44]) ++ comma_join (w :: rest) ++ 0 :: post := by
        rw [comma_join_cons_cons]
        simp only [List.append_assoc, List.cons_append, List.nil_append]
      have hdrop : (pre ++ comma_join (v :: w :: rest) ++ 0 :: post).drop pre.length
          = v ++ 44 :: (comma_join (w :: rest) ++ 0 :: post) := by
        rw [hmsg, List.append_assoc, List.drop_left]
      have hstr := strtoul_hex 44 (comma_join (w :: rest) ++ 0 :: post) (Or.inl rfl) v hv
      have hfind : find_next_char 44 (pre ++ comma_join (v :: w :: rest) ++ 0 :: post) size
          pre.length = some (pre.length + v.length + 1) := by
        rw [hmsg]
        exact find_next_char_loop_found 44 size _ v pre _
          (is_hex_clean v hv 44 (Or.inl rfl)) (by omega) (Nat.le_refl _)
      by_cases hlast : expect ≤ idx + 1
      · refine ⟨fun j => if j = idx then field_value v else arr j, ?_, ?_, ?_, ?_⟩
        · rw [parse_args_loop]
          simp only [hdrop, hstr, ge_iff_le, hlast, if_true, field_value_eq, List.length_cons]
          rw [Nat.min_eq_left (show expect ≤ idx + (rest.length + 1 + 1) by omega),
            show expect = idx + 1 by omega]
        · intro j hj
          simp only [show j ≠ idx by omega, if_false]
        · intro j hj
          simp only [List.length_cons] at hj
          rw [Nat.min_eq_left (show expect ≤ idx + (rest.length + 1 + 1) by omega)] at hj
          simp only [show j ≠ idx by omega, if_false]
        · intro k x hk hke
          have hk0 : k = 0 := by omega
          subst hk0
          simp only [List.getElem?_cons_zero, Option.some.injEq] at hk
          subst hk
          simp only [Nat.add_zero, if_true]
      · obtain ⟨arr1, e1, e2, e3, e4⟩ := ih (pre ++ v ++ [44]) (idx + 1)
          (fun j => if j = idx then field_value v else arr j) n (List.cons_ne_nil _ _)
          (fun x hx => hhex x (List.mem_cons_of_mem _ hx))
          (by
            rcases hroom with h | h
            · left
              simp only [List.length_append, List.length_singleton]
              omega
            · right
              intro x hx
              exact h x (by
                simp only [List.tail_cons] at hx ⊢
                exact List.mem_cons_of_mem _ hx))
          (by simp only [List.length_append, List.length_singleton]; omega) (by omega) (by omega)
        simp only [List.length_append, List.length_singleton] at e1
        refine ⟨arr1, ?_, ?_, ?_, ?_⟩
        · rw [parse_args_loop]
          simp only [hdrop, hstr, ge_iff_le, hlast, if_false, hfind, field_value_eq,
            show ¬ size ≤ pre.length + v.length + 1 by omega]
          rw [hmsg2, e1]
          simp only [List.length_cons, Option.some.injEq, Prod.mk.injEq, and_true]
          congr 1
          omega
        · intro j hj
          rw [e2 j (by omega)]
          simp only [show j ≠ idx by omega, if_false]
        · intro j hj
          have hj2 : min expect (idx + 1 + (w :: rest).length) ≤ j := by
            simp only [List.length_cons] at hj ⊢
            rw [show idx + 1 + (rest.length + 1) = idx + (rest.length + 1 + 1) by omega]
            exact hj
          rw [e3 j hj2]
          have : idx + 1 ≤ j := by
            simp only [List.length_cons] at hj
            rcases Nat.le_total expect (idx + (rest.length + 1 + 1)) with h | h
            · rw [Nat.min_eq_left h] at hj; omega
            · rw [Nat.min_eq_right h] at hj; omega
          simp only [show j ≠ idx by omega, if_false]
        · intro k x hk hke
          cases k with
          | zero =>
            simp only [List.getElem?_cons_zero, Option.some.injEq] at hk
            subst hk
            rw [Nat.add_zero, e2 idx (by omega)]
            simp only [if_true]
          | succ k =>
            simp only [List.getElem?_cons_succ] at hk
            rw [show idx + (k + 1) = idx + 1 + k by omega]
            exact e4 k x hk (by omega)

/-- The loop of `parse_args` never counts more values than the text has
fields, whatever the fields hold and wherever `size` ends. -/
theorem parse_args_loop_bound (size expect : Nat) (post : List Nat)
    (vs : List (List Nat)) :
    ∀ (pre : List Nat) (idx : Nat) (arr : Nat → Nat) (fuel : Nat),
      vs ≠ [] → (∀ v ∈ vs, is_hex v) →
      pre.length + (comma_join vs).length ≤ size → idx < expect → expect - idx ≤ fuel →
      ∃ (m : Nat) (arr1 : Nat → Nat),
        parse_args_loop (pre ++ comma_join vs ++ 0 :: post) size expect fuel idx pre.length arr
          = some (m, arr1) ∧
        m ≤ idx + vs.length := by
  induction vs with
  | nil => intro pre idx arr fuel h; exact absurd rfl h
  | cons v rest ih =>
    intro pre idx arr fuel _ hhex hsize hidx hfuel
    obtain ⟨n, hn⟩ : ∃ n, fuel = n + 1 := ⟨fuel - 1, by omega⟩
    subst hn
    have hv := hhex v (List.mem_cons_self _ _)
    cases rest with
    | nil =>
      have hdrop : (pre ++ comma_join [v] ++ 0 :: post).drop pre.length = v ++ 0 :: post := by
        rw [List.append_assoc, List.drop_left]
        rfl
      have hstr := strtoul_hex 0 post (Or.inr rfl) v hv
      have hfind : find_next_char 44 (pre ++ comma_join [v] ++ 0 :: post) size pre.length
          = some size :=
        find_next_char_loop_nul 44 size (by decide) post v pre _
          (is_hex_clean v hv 44 (Or.inl rfl))
      refine ⟨idx + 1, fun j => if j = idx then field_value v else arr j, ?_, ?_⟩
      · rw [parse_args_loop]
        simp only [hdrop, hstr, hfind, field_value_eq, ge_iff_le]
        by_cases hlast : expect ≤ idx + 1
        · simp only [hlast, if_true]
        · simp only [hlast, if_false, Nat.le_refl, if_true]
      · simp only [List.length_singleton, Nat.le_refl]
    | cons w rest =>
      rw [comma_join_cons_cons, List.length_append, List.length_cons] at hsize
      have hmsg : pre ++ comma_join (v :: w :: rest) ++ 0 :: post
          = pre ++ v ++ 44 :: (comma_join (w :: rest) ++ 0 :: post) := by
        rw [comma_join_cons_cons]
        simp only [List.append_assoc, List.cons_append]
      have hmsg2 : pre ++ comma_join (v :: w :: rest) ++ 0 :: post
          = (pre ++ v ++ [44]) ++ comma_join (w :: rest) ++ 0 :: post := by
        rw [comma_join_cons_cons]
        simp only [List.append_assoc, List.cons_append, List.nil_append]
      have hdrop : (pre ++ comma_join (v :: w :: rest) ++ 0 :: post).drop pre.length
          = v ++ 44 :: (comma_join (w :: rest) ++ 0 :: post) := by
        rw [hmsg, List.append_assoc, List.drop_left]
      have hstr := strtoul_hex 44 (comma_join (w :: rest) ++ 0 :: post) (Or.inl rfl) v hv
      have hfind : find_next_char 44 (pre ++ comma_join (v :: w :: rest) ++ 0 :: post) size
          pre.length = some (pre.length + v.length + 1) := by
        rw [hmsg]
        exact find_next_char_loop_found 44 size _ v pre _
          (is_hex_clean v hv 44 (Or.inl rfl)) (by omega) (Nat.le_refl _)
      by_cases hlast : expect ≤ idx + 1
      · refine ⟨idx + 1, fun j => if j = idx then field_value v else arr j, ?_, ?_⟩
        · rw [parse_args_loop]
          simp only [hdrop, hstr, ge_iff_le, hlast, if_true, field_value_eq]
        · simp only [List.length_cons]
          omega
      · by_cases hend : size ≤ pre.length + v.length + 1
        · refine ⟨idx + 1, fun j => if j = idx then field_value v else arr j, ?_, ?_⟩
          · rw [parse_args_loop]
            simp only [hdrop, hstr, ge_iff_le, hlast, if_false, hfind, field_value_eq, hend,
              if_true]
          · simp only [List.length_cons]
            omega
        · obtain ⟨m, arr1, e1, e2⟩ := ih (pre ++ v ++ [44]) (idx + 1)
            (fun j => if j = idx then field_value v else arr j) n (List.cons_ne_nil _ _)
            (fun x hx => hhex x (List.mem_cons_of_mem _ hx))
            (by simp only [List.length_append, List.length_singleton]; omega) (by omega)
            (by omega)
          simp only [List.length_append, List.length_singleton] at e1
          refine ⟨m, arr1, ?_, ?_⟩
          · rw [parse_args_loop]
            simp only [hdrop, hstr, ge_iff_le, hlast, if_false, hfind, field_value_eq, hend]
            rw [hmsg2, e1]
          · simp only [List.length_cons] at e2 ⊢
            omega

theorem parse_args_colon (c : Nat) (rest : List Nat) (size : Nat)
    (hc : c = 114 ∨ c = 82 ∨ c = 119 ∨ c = 87) (hsize : 2 ≤ size) :
    find_next_char 58 (c :: 58 :: rest) size 0 = some 2 := by
  have h := find_next_char_loop_found 58 size rest [c] [] (size - 0)
    (by
      intro d hd
      simp only [List.mem_singleton] at hd
      subst hd
      exact ⟨by omega, by omega⟩)
    (by simp only [List.length_nil, List.length_singleton]; omega) (Nat.le_refl _)
  exact h

theorem parse_args_mode (c expect : Nat) (mode : mdio_mode)
    (hsel : (if c = 114 ∨ c = 82 then some (MDIO_READ, 3)
      else if c = 119 ∨ c = 87 then some (MDIO_WRITE, 4) else none) = some (mode, expect)) :
    (c = 114 ∨ c = 82 ∨ c = 119 ∨ c = 87) ∧ 0 < expect := by
  by_cases h1 : c = 114 ∨ c = 82
  · simp only [h1, if_true, Option.some.injEq, Prod.mk.injEq] at hsel
    exact ⟨by omega, by omega⟩
  · by_cases h2 : c = 119 ∨ c = 87
    · simp only [h1, h2, if_true, if_false, Option.some.injEq, Prod.mk.injEq] at hsel
      exact ⟨by omega, by omega⟩
    · simp only [h1, h2, if_false] at hsel
      exact absurd hsel (by simp)

/-- A message made of a command letter, a colon and fewer comma-separated
fields of hexadecimal digits than the mode requires, terminated by a NUL, is
rejected. -/
theorem parse_args_few (c expect : Nat) (mode : mdio_mode) (vs : List (List Nat))
    (post : List Nat) (size : Nat) (out : mdio_request)
    (hsel : (if c = 114 ∨ c = 82 then some (MDIO_READ, 3)
      else if c = 119 ∨ c = 87 then some (MDIO_WRITE, 4) else none) = some (mode, expect))
    (hne : vs ≠ []) (hhex : ∀ v ∈ vs, is_hex v) (hlen : vs.length < expect)
    (hsize : 2 + (comma_join vs).length ≤ size) :
    parse_args (c :: 58 :: (comma_join vs ++ 0 :: post)) size out
      = some (ERROR_FAIL, { out with mode := mode }) := by
  obtain ⟨hc, hexp⟩ := parse_args_mode c expect mode hsel
  have hfind := parse_args_colon c (comma_join vs ++ 0 :: post) size hc (by omega)
  obtain ⟨m, arr1, e1, e2⟩ := parse_args_loop_bound size expect post vs [c, 58] 0
    (fun _ => 0) expect hne hhex
    (by simp only [List.length_cons, List.length_nil]; omega) hexp (by omega)
  simp only [List.length_cons, List.length_nil, Nat.zero_add, List.cons_append,
    List.nil_append] at e1 e2
  unfold parse_args
  simp only [List.getElem?_cons_zero, hsel, hfind, e1, show m < expect by omega, if_true]

/-- What `parse_args` does with a message made of a command letter, a colon
and comma-separated fields of hexadecimal digits, terminated by a NUL. -/
theorem parse_args_values (c expect : Nat) (mode : mdio_mode) (vs : List (List Nat))
    (post : List Nat) (size : Nat) (out : mdio_request)
    (hsel : (if c = 114 ∨ c = 82 then some (MDIO_READ, 3)
      else if c = 119 ∨ c = 87 then some (MDIO_WRITE, 4) else none) = some (mode, expect))
    (hne : vs ≠ []) (hhex : ∀ v ∈ vs, is_hex v)
    (hlast : 2 + (comma_join vs).length < size ∨ ∀ v ∈ vs.tail, v ≠ [])
    (hsize : 2 + (comma_join vs).length ≤ size) :
    ∃ arr1 : Nat → Nat,
      parse_args (c :: 58 :: (comma_join vs ++ 0 :: post)) size out
        = some (if vs.length < expect then (ERROR_FAIL, { out with mode := mode })
            else (ERROR_OK,
              { mode := mode, phy := arr1 0 % 256, dev := arr1 1 % 256, reg := arr1 2,
                val := arr1 3 })) ∧
      (∀ j, min expect vs.length ≤ j → arr1 j = 0) ∧
      (∀ k v, vs[k]? = some v → k < expect → arr1 k = field_value v) := by
  obtain ⟨hc, hexp⟩ := parse_args_mode c expect mode hsel
  have hfind := parse_args_colon c (comma_join vs ++ 0 :: post) size hc (by omega)
  obtain ⟨arr1, e1, _, e3, e4⟩ := parse_args_loop_values size expect post vs [c, 58] 0
    (fun _ => 0) expect hne hhex
    (by
      rcases hlast with h | h
      · left
        simp only [List.length_cons, List.length_nil]
        omega
      · right
        exact h)
    (by simp only [List.length_cons, List.length_nil]; omega) hexp (by omega)
  simp only [List.length_cons, List.length_nil, Nat.zero_add, List.cons_append,
    List.nil_append] at e1 e3 e4
  refine ⟨arr1, ?_, e3, fun k v hk hke => by simpa using e4 k v hk hke⟩
  unfold parse_args
  simp only [List.getElem?_cons_zero, hsel, hfind, e1]
  by_cases hlt : vs.length < expect
  · simp only [hlt, if_true, Nat.min_eq_right (Nat.le_of_lt hlt)]
  · simp only [hlt, if_false, Nat.min_eq_left (Nat.le_of_not_lt hlt), Nat.lt_irrefl]

theorem hex_char_digit (d : Nat) (hd : d < 16) : hex_digit (hex_char d) = some d := by
  unfold hex_char hex_digit
  by_cases h : d < 10
  · simp only [h, if_true]
    rw [if_pos (by omega)]
    congr 1
    omega
  · simp only [h, if_false]
    rw [if_neg (by omega), if_pos (by omega)]
    congr 1
    omega

/-- Every 16-bit number has a text of hexadecimal digits that denotes it. -/
theorem hex4_spec (n : Nat) (hn : n < 65536) :
    is_hex (hex4 n) ∧ hex4 n ≠ [] ∧ hex_value (hex4 n) = n ∧ field_value (hex4 n) = n := by
  have h3 := hex_char_digit (n / 4096 % 16) (Nat.mod_lt _ (by norm_num))
  have h2 := hex_char_digit (n / 256 % 16) (Nat.mod_lt _ (by norm_num))
  have h1 := hex_char_digit (n / 16 % 16) (Nat.mod_lt _ (by norm_num))
  have h0 := hex_char_digit (n % 16) (Nat.mod_lt _ (by norm_num))
  have hv : hex_value (hex4 n) = n := by
    simp only [hex_value, hex_value_from, hex4, List.foldl_cons, List.foldl_nil, h3, h2, h1, h0,
      Option.getD_some]
    omega
  refine ⟨?_, by simp [hex4], hv, ?_⟩
  · intro c hc
    simp only [hex4, List.mem_cons, List.mem_singleton, List.not_mem_nil, or_false] at hc
    rcases hc with h | h | h | h <;> subst h
    · rw [h3]; rfl
    · rw [h2]; rfl
    · rw [h1]; rfl
    · rw [h0]; rfl
  · simp only [field_value, hv, ULONG_MAX]
    omega

theorem field_value_small (ds : List Nat) (n : Nat) (h : hex_value ds = n) (hn : n < 65536) :
    field_value ds = n := by
  simp only [field_value, h, ULONG_MAX]
  omega

/-- C31 (as the code has it). `parse_args` undoes the request format. For
`phy`, `dev` below 256 and `reg`, `val` below 65536, written as hexadecimal
texts `d1 .. d4` (any such texts, of either letter case; the values after the
first are not empty), the message `R:d1,d2,d3` followed by a NUL, with a size
that covers the text, gives `ERROR_OK` with mode `MDIO_READ` and
`(phy, dev, reg)` (and value 0), for both `R` and `r`; the message
`W:d1,d2,d3,d4` gives `ERROR_OK` with mode `MDIO_WRITE` and
`(phy, dev, reg, val)`, for both `W` and `w`. A message whose first character
is none of `R`, `r`, `W`, `w` gives `ERROR_FAIL` and leaves the outputs alone,
and a message of the same format that carries fewer comma-separated fields
than its mode requires values gives `ERROR_FAIL`, whatever the fields hold
(hexadecimal digits or nothing). A field counts also when it is empty: with
the NUL inside the size, three fields after `R:` and four after `W:` give
`ERROR_OK` with the values of the fields, an empty field being read as 0. -/
theorem parse_args_inverts (phy dev reg val : Nat) (d1 d2 d3 d4 post : List Nat)
    (size : Nat) (out : mdio_request)
    (hphy : phy < 256) (hdev : dev < 256) (hreg : reg < 65536) (hval : val < 65536)
    (h1 : is_hex d1 ∧ hex_value d1 = phy)
    (h2 : is_hex d2 ∧ d2 ≠ [] ∧ hex_value d2 = dev)
    (h3 : is_hex d3 ∧ d3 ≠ [] ∧ hex_value d3 = reg)
    (h4 : is_hex d4 ∧ d4 ≠ [] ∧ hex_value d4 = val) :
    (∀ c, c = 82 ∨ c = 114 → 2 + (comma_join [d1, d2, d3]).length ≤ size →
      parse_args (c :: 58 :: (comma_join [d1, d2, d3] ++ 0 :: post)) size out
        = some (ERROR_OK,
            { mode := MDIO_READ, phy := phy, dev := dev, reg := reg, val := 0 })) ∧
    (∀ c, c = 87 ∨ c = 119 → 2 + (comma_join [d1, d2, d3, d4]).length ≤ size →
      parse_args (c :: 58 :: (comma_join [d1, d2, d3, d4] ++ 0 :: post)) size out
        = some (ERROR_OK,
            { mode := MDIO_WRITE, phy := phy, dev := dev, reg := reg, val := val })) ∧
    (∀ msg c, msg[0]? = some c → c ≠ 82 → c ≠ 114 → c ≠ 87 → c ≠ 119 →
      parse_args msg size out = some (ERROR_FAIL, out)) ∧
    (∀ c (vs : List (List Nat)), c = 82 ∨ c = 114 → vs ≠ [] → (∀ v ∈ vs, is_hex v) →
      vs.length < 3 → 2 + (comma_join vs).length ≤ size →
      parse_args (c :: 58 :: (comma_join vs ++ 0 :: post)) size out
        = some (ERROR_FAIL, { out with mode := MDIO_READ })) ∧
    (∀ c (vs : List (List Nat)), c = 87 ∨ c = 119 → vs ≠ [] → (∀ v ∈ vs, is_hex v) →
      vs.length < 4 → 2 + (comma_join vs).length ≤ size →
      parse_args (c :: 58 :: (comma_join vs ++ 0 :: post)) size out
        = some (ERROR_FAIL, { out with mode := MDIO_WRITE })) ∧
    (∀ c (e1 e2 e3 : List Nat), c = 82 ∨ c = 114 → is_hex e1 → is_hex e2 → is_hex e3 →
      2 + (comma_join [e1, e2, e3]).length < size →
      parse_args (c :: 58 :: (comma_join [e1, e2, e3] ++ 0 :: post)) size out
        = some (ERROR_OK,
            { mode := MDIO_READ, phy := field_value e1 % 256, dev := field_value e2 % 256,
              reg := field_value e3, val := 0 })) ∧
    (∀ c (e1 e2 e3 e4 : List Nat), c = 87 ∨ c = 119 → is_hex e1 → is_hex e2 → is_hex e3 →
      is_hex e4 → 2 + (comma_join [e1, e2, e3, e4]).length < size →
      parse_args (c :: 58 :: (comma_join [e1, e2, e3, e4] ++ 0 :: post)) size out
        = some (ERROR_OK,
            { mode := MDIO_WRITE, phy := field_value e1 % 256, dev := field_value e2 % 256,
              reg := field_value e3, val := field_value e4 })) ∧
    field_value [] = 0 := by
  have selR : ∀ c, c = 82 ∨ c = 114 →
      (if c = 114 ∨ c = 82 then some (MDIO_READ, 3)
        else if c = 119 ∨ c = 87 then some (MDIO_WRITE, 4) else none)
        = some (MDIO_READ, 3) := by
    intro c hc
    rw [if_pos (by omega)]
  have selW : ∀ c, c = 87 ∨ c = 119 →
      (if c = 114 ∨ c = 82 then some (MDIO_READ, 3)
        else if c = 119 ∨ c = 87 then some (MDIO_WRITE, 4) else none)
        = some (MDIO_WRITE, 4) := by
    intro c hc
    rw [if_neg (by omega), if_pos (by omega)]
  refine ⟨?_, ?_, ?_, ?_, ?_, ?_, ?_, rfl⟩
  · intro c hc hsize
    obtain ⟨arr1, e, z, v⟩ := parse_args_values c 3 MDIO_READ [d1, d2, d3] post size out
      (selR c hc) (by simp)
      (by
        intro x hx
        simp only [List.mem_cons, List.mem_singleton, List.not_mem_nil, or_false] at hx
        rcases hx with h | h | h <;> subst h
        · exact h1.1
        · exact h2.1
        · exact h3.1)
      (Or.inr (by
        intro x hx
        simp only [List.tail_cons, List.mem_cons, List.mem_singleton, List.not_mem_nil,
          or_false] at hx
        rcases hx with h | h <;> subst h
        · exact h2.2.1
        · exact h3.2.1))
      hsize
    have a0 : arr1 0 = phy := by
      rw [v 0 d1 rfl (by norm_num)]
      exact field_value_small d1 phy h1.2 (by omega)
    have a1 : arr1 1 = dev := by
      rw [v 1 d2 rfl (by norm_num)]
      exact field_value_small d2 dev h2.2.2 (by omega)
    have a2 : arr1 2 = reg := by
      rw [v 2 d3 rfl (by norm_num)]
      exact field_value_small d3 reg h3.2.2 hreg
    have a3 : arr1 3 = 0 := z 3 (by simp)
    rw [e, a0, a1, a2, a3, Nat.mod_eq_of_lt hphy, Nat.mod_eq_of_lt hdev]
    simp
  · intro c hc hsize
    obtain ⟨arr1, e, z, v⟩ := parse_args_values c 4 MDIO_WRITE [d1, d2, d3, d4] post size out
      (selW c hc) (by simp)
      (by
        intro x hx
        simp only [List.mem_cons, List.mem_singleton, List.not_mem_nil, or_false] at hx
        rcases hx with h | h | h | h <;> subst h
        · exact h1.1
        · exact h2.1
        · exact h3.1
        · exact h4.1)
      (Or.inr (by
        intro x hx
        simp only [List.tail_cons, List.mem_cons, List.mem_singleton, List.not_mem_nil,
          or_false] at hx
        rcases hx with h | h | h <;> subst h
        · exact h2.2.1
        · exact h3.2.1
        · exact h4.2.1))
      hsize
    have a0 : arr1 0 = phy := by
      rw [v 0 d1 rfl (by norm_num)]
      exact field_value_small d1 phy h1.2 (by omega)
    have a1 : arr1 1 = dev := by
      rw [v 1 d2 rfl (by norm_num)]
      exact field_value_small d2 dev h2.2.2 (by omega)
    have a2 : arr1 2 = reg := by
      rw [v 2 d3 rfl (by norm_num)]
      exact field_value_small d3 reg h3.2.2 hreg
    have a3 : arr1 3 = val := by
      rw [v 3 d4 rfl (by norm_num)]
      exact field_value_small d4 val h4.2.2 hval
    rw [e, a0, a1, a2, a3, Nat.mod_eq_of_lt hphy, Nat.mod_eq_of_lt hdev]
    simp
  · intro msg c hm c1 c2 c3 c4
    unfold parse_args
    rw [hm]
    simp only []
    rw [if_neg (by omega), if_neg (by omega)]
  · intro c vs hc hne hhex hlen hsize
    exact parse_args_few c 3 MDIO_READ vs post size out (selR c hc) hne hhex hlen hsize
  · intro c vs hc hne hhex hlen hsize
    exact parse_args_few c 4 MDIO_WRITE vs post size out (selW c hc) hne hhex hlen hsize
  · intro c e1 e2 e3 hc x1 x2 x3 hsize
    obtain ⟨arr1, e, z, v⟩ := parse_args_values c 3 MDIO_READ [e1, e2, e3] post size out
      (selR c hc) (by simp)
      (by
        intro x hx
        simp only [List.mem_cons, List.mem_singleton, List.not_mem_nil, or_false] at hx
        rcases hx with h | h | h <;> subst h
        · exact x1
        · exact x2
        · exact x3)
      (Or.inl hsize) (Nat.le_of_lt hsize)
    rw [e, v 0 e1 rfl (by norm_num), v 1 e2 rfl (by norm_num), v 2 e3 rfl (by norm_num),
      z 3 (by simp)]
    simp
  · intro c e1 e2 e3 e4 hc x1 x2 x3 x4 hsize
    obtain ⟨arr1, e, z, v⟩ := parse_args_values c 4 MDIO_WRITE [e1, e2, e3, e4] post size out
      (selW c hc) (by simp)
      (by
        intro x hx
        simp only [List.mem_cons, List.mem_singleton, List.not_mem_nil, or_false] at hx
        rcases hx with h | h | h | h <;> subst h
        · exact x1
        · exact x2
        · exact x3
        · exact x4)
      (Or.inl hsize) (Nat.le_of_lt hsize)
    rw [e, v 0 e1 rfl (by norm_num), v 1 e2 rfl (by norm_num), v 2 e3 rfl (by norm_num),
      v 3 e4 rfl (by norm_num)]
    simp

theorem is_hex_of_all (ds : List Nat) (h : ds.all (fun c => (hex_digit c).isSome) = true) :
    is_hex ds := by
  intro c hc
  exact List.all_eq_true.mp h c hc

/-- The requests `R:1a,1F,10` and `w:1a,1F,10,abcd` are parsed to their values, a
message that starts with `X` is rejected, and so is `W:1a,1F,10`, which lacks
the value. -/
theorem parse_args_inverts_witness :
    parse_args [82, 58, 49, 97, 44, 49, 70, 44, 49, 48, 0] 16 no_request
      = some (ERROR_OK,
          { mode := MDIO_READ, phy := 0x1a, dev := 0x1f, reg := 0x10, val := 0 }) ∧
    parse_args [119, 58, 49, 97, 44, 49, 70, 44, 49, 48, 44, 97, 98, 99, 100, 0] 16
        no_request
      = some (ERROR_OK,
          { mode := MDIO_WRITE, phy := 0x1a, dev := 0x1f, reg := 0x10, val := 0xabcd }) ∧
    parse_args [88, 58, 49, 97, 44, 49, 70, 44, 49, 48, 0] 16 no_request
      = some (ERROR_FAIL, no_request) ∧
    parse_args [87, 58, 49, 97, 44, 49, 70, 44, 49, 48, 0] 16 no_request
      = some (ERROR_FAIL, { no_request with mode := MDIO_WRITE }) :=
  have h := parse_args_inverts 0x1a 0x1f 0x10 0xabcd [49, 97] [49, 70] [49, 48]
    [97, 98, 99, 100] [] 16 no_request (by decide) (by decide) (by decide) (by decide)
    ⟨is_hex_of_all _ rfl, rfl⟩ ⟨is_hex_of_all _ rfl, by simp, rfl⟩
    ⟨is_hex_of_all _ rfl, by simp, rfl⟩ ⟨is_hex_of_all _ rfl, by simp, rfl⟩
  ⟨h.1 82 (Or.inl rfl) (by decide),
    h.2.1 119 (Or.inr rfl) (by decide),
    h.2.2.1 [88, 58, 49, 97, 44, 49, 70, 44, 49, 48, 0] 88 rfl (by decide) (by decide)
      (by decide) (by decide),
    h.2.2.2.2.1 87 [[49, 97], [49, 70], [49, 48]] (Or.inl rfl) (by simp)
      (by
        intro v hv
        simp only [List.mem_cons, List.mem_singleton, List.not_mem_nil, or_false] at hv
        rcases hv with h | h | h <;> subst h <;> exact is_hex_of_all _ rfl)
      (by decide) (by decide)⟩

/-- C31 as stated fails: the message `W:1a,1F,10,` followed by a NUL, of size
12, carries three values and a trailing comma, fewer values than a write
requires, and is not rejected: the empty field after the last comma is read as
0, and the call returns `ERROR_OK` with mode `MDIO_WRITE`, `(0x1a, 0x1f, 0x10)`
and value 0. -/
theorem trailing_comma_accepted :
    [87, 58, 49, 97, 44, 49, 70, 44, 49, 48, 44, 0]
      = 87 :: 58 :: (comma_join [[49, 97], [49, 70], [49, 48]] ++ [44, 0]) ∧
    parse_args [87, 58, 49, 97, 44, 49, 70, 44, 49, 48, 44, 0] 12 no_request
      = some (ERROR_OK,
          { mode := MDIO_WRITE, phy := 0x1a, dev := 0x1f, reg := 0x10, val := 0 }) ∧
    ERROR_OK ≠ ERROR_FAIL :=
  ⟨rfl, rfl, by decide⟩

end Baset1
